import Mathlib

/-!
Transaction builder of coinjs-lib.

A shallow embedding of `src/transaction_builder.js`: the per-input record, the
script expanders, the input preparer, `sign`, the stack builder, the mutation
guards and the builder object, and of `HDNode.derive` of `src/hdnode.js`,
followed by theorems about them. The build path (`buildStack`, `buildInput`,
`__build`) is embedded a second time over a store of objects held by reference,
to follow the writes it makes.

JavaScript values are embedded as follows.

* A `Buffer` is a list of bytes.
* An element of a decompiled script or of a stack is a `Chunk`: a `Buffer` or
  an opcode number.
* An element of `pubKeys` / `signatures` is a `Slot`: `undefined` (`none`), a
  `Buffer` or a number.
* An optional property of an object is an `Option`; `undefined` is `none`.
* A method that mutates the builder returns the builder after the call together
  with the value it returned or the error it threw, so that mutations made
  before a `throw` stay visible.

The modules `script`, `templates`, `transaction`, `ecsignature`, `ecdsa` and
`types` are required by the builder but are not part of the sources at hand.
Their functions are fields of `Collab` (arbitrary total functions), except for
the few whose behaviour the specification fixes; those carry a doc comment
saying so.
-/

namespace Coinjs

/-! ## Values -/

/-- A Node `Buffer`: a sequence of bytes. -/
abbrev Buffer := List Nat

/-- An element of a decompiled script: pushed data or an opcode number. -/
inductive Chunk where
  | buf (b : Buffer)
  | op (n : Nat)
  deriving DecidableEq, Repr

/-- The content of one position of `pubKeys` or `signatures`; `none` is `undefined`. -/
abbrev Slot := Option Chunk

/-- JavaScript truthiness of a slot: `undefined` and the number `0` are falsy, every
`Buffer` (also the empty one) is truthy. -/
def truthy : Slot → Bool
  | none => false
  | some (Chunk.buf _) => true
  | some (Chunk.op n) => n != 0

/-- The test `Buffer.isBuffer`. -/
def isBuffer : Slot → Bool
  | some (Chunk.buf _) => true
  | _ => false

/-- Modelled from the spec: the `ScriptType` enum of section 3 (the string constants
`btemplates.types` of the missing `templates` module). -/
inductive ScriptType where
  | P2PKH
  | P2PK
  | MULTISIG
  | P2SH
  | P2WPKH
  | P2WSH
  | NONSTANDARD
  deriving DecidableEq, Repr

/-- Every error the builder throws; `typeError` stands for the `TypeError`s raised by
`typeforce`, by a property read on `undefined` or by a `Buffer` method applied to a
value that is not a `Buffer`. -/
inductive Err where
  | invalidatesSignatures
  | coinbaseNotSupported
  | duplicateTxOut
  | noInputs
  | noOutputs
  | notComplete
  | typeNotSupported (t : Option ScriptType)
  | absurdFees
  | inconsistentNetwork
  | noInputAtIndex
  | inconsistentRedeemScript
  | witnessValueMismatch
  | keyPairCannotSign
  | signatureAlreadyExists
  | bip143Uncompressed
  | missingPrivateKey
  | notEnoughSignatures
  | impossibleToSign
  | notYetSupported
  | prevOutMustBeP2SH
  | inconsistentHash160
  | prevOutMustBeP2WSH
  | inconsistentSha256
  | witnessInconsistentWithRedeem
  | witnessScriptNotSupported
  | redeemScriptNotSupported
  | requiresRedeemScript
  | redeemGivenUnnecessary
  | noRedeemForP2WSH
  | redeemMismatchWitnessScript
  | unsupportedWitnessScript
  | noRedeemForP2WPKH
  | redeemWrongWitnessProgram
  | badRedeemScript
  | noMatchingScript
  | collaborator (code : Nat)
  | typeError
  deriving DecidableEq, Repr

instance instDecidableEqExcept {ε α : Type} [DecidableEq ε] [DecidableEq α] :
    DecidableEq (Except ε α) := fun a b =>
  match a, b with
  | Except.ok x, Except.ok y =>
    if h : x = y then isTrue (by rw [h]) else isFalse (fun h2 => h (Except.ok.inj h2))
  | Except.error x, Except.error y =>
    if h : x = y then isTrue (by rw [h]) else isFalse (fun h2 => h (Except.error.inj h2))
  | Except.ok _, Except.error _ => isFalse (fun h => Except.noConfusion h)
  | Except.error _, Except.ok _ => isFalse (fun h => Except.noConfusion h)

/-- A network object of `networks.js`, identified by its name. -/
structure Network where
  name : Nat
  deriving DecidableEq, Repr

/-- The default network `networks.bitcoin`. -/
def networks.bitcoin : Network := ⟨0⟩

/-- An `ECPair` as far as the builder looks at it: its network, the encoding of its
public key (`getPublicKeyBuffer()`) and its private key `d`, if it has one. -/
structure KeyPair where
  network : Option Network
  publicKey : Buffer
  d : Option Nat
  deriving DecidableEq, Repr

/-! ## Transactions -/

/-- Modelled from the spec: an input of the transaction model of section 6
(`transaction.js` is missing): outpoint, unlocking script, sequence, witness stack. -/
structure TxIn where
  hash : Buffer
  index : Nat
  script : Buffer
  sequence : Nat
  witness : List Chunk
  deriving DecidableEq, Repr

/-- Modelled from the spec: an output of the transaction model of section 6. -/
structure TxOut where
  script : Buffer
  value : Nat
  deriving DecidableEq, Repr

/-- Modelled from the spec: the draft transaction of section 3 (`transaction.js` is
missing): version, locktime, ordered inputs, ordered outputs. -/
structure Transaction where
  version : Nat
  locktime : Nat
  ins : List TxIn
  outs : List TxOut
  deriving DecidableEq, Repr

/-- Modelled from the spec: the hash-type constant `Transaction.SIGHASH_ALL` of the missing
`transaction.js` (base mode ALL of the SighashFlag of section 3), with its protocol value. -/
def SIGHASH_ALL : Nat := 0x01

/-- Modelled from the spec: `Transaction.SIGHASH_NONE` (base mode NONE), protocol value. -/
def SIGHASH_NONE : Nat := 0x02

/-- Modelled from the spec: `Transaction.SIGHASH_SINGLE` (base mode SINGLE), protocol value. -/
def SIGHASH_SINGLE : Nat := 0x03

/-- Modelled from the spec: `Transaction.SIGHASH_ANYONECANPAY`, the independent modifier bit. -/
def SIGHASH_ANYONECANPAY : Nat := 0x80

/-- Modelled from the spec: `Transaction.DEFAULT_SEQUENCE` of the missing `transaction.js`. -/
def DEFAULT_SEQUENCE : Nat := 0xffffffff

/-- Modelled from the spec: `new Transaction()` of the missing `transaction.js`, an empty draft. -/
def Transaction.empty : Transaction := ⟨1, 0, [], []⟩

/-- Modelled from the spec: `Transaction.isCoinbaseHash` of the missing `transaction.js`; the
coinbase marker of section 3 is the all-zero previous-transaction hash. -/
def Transaction.isCoinbaseHash (b : Buffer) : Bool :=
  b.all (fun x => x == 0)

/-- Modelled from the spec: `Transaction.prototype.addInput` of the missing `transaction.js`:
append an input with an empty witness and return its index. -/
def Transaction.addInput (tx : Transaction) (hash : Buffer) (index : Nat)
    (sequence : Option Nat) (scriptSig : Option Buffer) : Transaction × Nat :=
  ({ tx with ins := tx.ins ++ [⟨hash, index, scriptSig.getD [], sequence.getD DEFAULT_SEQUENCE, []⟩] },
    tx.ins.length)

/-- Modelled from the spec: `Transaction.prototype.addOutput` of the missing `transaction.js`:
append an output and return its index. -/
def Transaction.addOutput (tx : Transaction) (script : Buffer) (value : Nat) : Transaction × Nat :=
  ({ tx with outs := tx.outs ++ [⟨script, value⟩] }, tx.outs.length)

/-- Modelled from the spec: `setInputScript(index, bytes)` of the transaction model; writing to
an input that does not exist is a `TypeError`. -/
def Transaction.setInputScript (tx : Transaction) (i : Nat) (script : Buffer) :
    Except Err Transaction :=
  match tx.ins[i]? with
  | none => Except.error Err.typeError
  | some txIn => Except.ok { tx with ins := tx.ins.set i { txIn with script := script } }

/-- Modelled from the spec: `setWitness(index, stack)` of the transaction model. The array it is
given may hold `undefined`; such an array is not a witness stack and is refused with a
`TypeError`. -/
def Transaction.setWitness (tx : Transaction) (i : Nat) (witness : List Slot) :
    Except Err Transaction :=
  match tx.ins[i]? with
  | none => Except.error Err.typeError
  | some txIn =>
    if witness.all Option.isSome then
      Except.ok { tx with ins := tx.ins.set i { txIn with witness := witness.filterMap id } }
    else Except.error Err.typeError

/-- Modelled from the spec: `toScriptSignature` of the missing `ecsignature.js`, the signature
codec of section 6: the encoded signature followed by the sighash flag byte. -/
def toScriptSignature (signature : Buffer) (hashType : Nat) : Buffer :=
  signature ++ [hashType]

/-! ## Collaborators -/

/-- The functions of the modules that are not part of the sources at hand. -/
structure Collab where
  /-- Collaborator `bcrypto.hash160` -/
  hash160 : Buffer → Buffer
  /-- Collaborator `bcrypto.sha256` -/
  sha256 : Buffer → Buffer
  /-- Collaborator `bscript.decompile` -/
  decompile : Buffer → List Chunk
  /-- Collaborator `bscript.compile`; an element of the array it is given may be `undefined` -/
  compile : List Slot → Buffer
  /-- Collaborator `btemplates.classifyInput(chunks, allowIncomplete)` -/
  classifyInput : List Chunk → Bool → ScriptType
  /-- Collaborator `btemplates.classifyInput(scriptSig)` applied to the raw script -/
  classifyInputScript : Buffer → ScriptType
  /-- Collaborator `btemplates.classifyOutput` -/
  classifyOutput : Buffer → ScriptType
  /-- Collaborator `btemplates.classifyWitness(stack, allowIncomplete)` -/
  classifyWitness : List Chunk → Bool → ScriptType
  /-- Collaborator `btemplates.scriptHash.output.encode` -/
  scriptHashOutputEncode : Buffer → Buffer
  /-- Collaborator `btemplates.witnessScriptHash.output.encode` -/
  witnessScriptHashOutputEncode : Buffer → Buffer
  /-- Collaborator `btemplates.witnessPubKeyHash.output.encode` -/
  witnessPubKeyHashOutputEncode : Buffer → Buffer
  /-- Collaborator `btemplates.witnessPubKeyHash.output.decode` -/
  witnessPubKeyHashOutputDecode : Buffer → Buffer
  /-- Collaborator `btemplates.pubKeyHash.output.encode` -/
  pubKeyHashOutputEncode : Buffer → Buffer
  /-- Collaborator `btemplates.pubKey.output.decode` -/
  pubKeyOutputDecode : Buffer → Buffer
  /-- Collaborator `btemplates.multisig.output.decode(script).pubKeys` -/
  multisigOutputDecodePubKeys : Buffer → List Buffer
  /-- Collaborator `btemplates.pubKeyHash.input.encodeStack` -/
  pubKeyHashInputEncodeStack : Buffer → Slot → List Chunk
  /-- Collaborator `btemplates.pubKey.input.encodeStack` -/
  pubKeyInputEncodeStack : Buffer → List Chunk
  /-- Collaborator `btemplates.multisig.input.encodeStack` -/
  multisigInputEncodeStack : List Chunk → List Chunk
  /-- Collaborator `tx.hashForSignature(vin, script, hashType)` -/
  hashForSignature : Transaction → Nat → Buffer → Nat → Buffer
  /-- Collaborator `tx.hashForWitnessV0(vin, script, value, hashType)` -/
  hashForWitnessV0 : Transaction → Nat → Buffer → Nat → Nat → Buffer
  /-- Collaborator `tx.virtualSize()` -/
  virtualSize : Transaction → Nat
  /-- Collaborator `tx.getHash()` -/
  getHash : Transaction → Buffer
  /-- Collaborator `ecdsa.sign(hash, d)` followed by the DER encoding of the signature -/
  ecdsaSign : Buffer → Nat → Buffer
  /-- Collaborator `ECPair.fromPublicKeyBuffer(pubKey)`: whether the slot decodes to a curve point -/
  validPublicKey : Slot → Bool
  /-- Collaborator `ECSignature.parseScriptSignature`: the signature and its hash type, or a failure -/
  parseScriptSignature : Chunk → Option (Buffer × Nat)
  /-- Collaborator `keyPair.verify(hash, signature)` for the key pair decoded from a public key -/
  verify : Slot → Buffer → Buffer → Bool
  /-- Collaborator `baddress.toOutputScript(address, network)`; an address is given by its code points -/
  toOutputScript : List Nat → Network → Except Err Buffer
  /-- Collaborator `types.Satoshi`, the check made by `typeforce(types.Satoshi, witnessValue)` -/
  isSatoshi : Nat → Bool

/-! ## Input records -/

/-- The per-input record kept in `this.inputs`. -/
structure Input where
  prevOutScript : Option Buffer := none
  prevOutType : Option ScriptType := none
  signScript : Option Buffer := none
  signType : Option ScriptType := none
  pubKeys : Option (List Slot) := none
  signatures : Option (List Slot) := none
  witness : Option Bool := none
  value : Option Nat := none
  redeemScript : Option Buffer := none
  redeemScriptType : Option ScriptType := none
  witnessScript : Option Buffer := none
  witnessScriptType : Option ScriptType := none
  deriving DecidableEq, Repr

/-- The list `const SIGNABLE = [P2PKH, P2PK, MULTISIG]` and `supportedType`. -/
def supportedType (type : Option ScriptType) : Bool :=
  match type with
  | some ScriptType.P2PKH => true
  | some ScriptType.P2PK => true
  | some ScriptType.MULTISIG => true
  | _ => false

/-- The list `const P2SH = SIGNABLE.concat([P2WPKH, P2WSH])` and `supportedP2SHType`. -/
def supportedP2SHType (type : Option ScriptType) : Bool :=
  match type with
  | some ScriptType.P2PKH => true
  | some ScriptType.P2PK => true
  | some ScriptType.MULTISIG => true
  | some ScriptType.P2WPKH => true
  | some ScriptType.P2WSH => true
  | _ => false

/-- The value of `chunk.length === 0 ? undefined : chunk` in `extractChunks`: an opcode
number has no `length`. -/
def blankToUndefined (chunk : Chunk) : Slot :=
  match chunk with
  | Chunk.buf b => if b.length = 0 then none else some (Chunk.buf b)
  | Chunk.op n => some (Chunk.op n)

/-- The function `extractChunks (type, chunks, script)`; the result is `(pubKeys, signatures)`. -/
def extractChunks (env : Collab) (type : Option ScriptType) (chunks : List Chunk)
    (script : Option Buffer) : List Slot × List Slot :=
  match type with
  | some ScriptType.P2PKH => ((chunks.drop 1).map some, (chunks.take 1).map some)
  | some ScriptType.P2PK =>
    ([script.map (fun s => Chunk.buf (env.pubKeyOutputDecode s))], (chunks.take 1).map some)
  | some ScriptType.MULTISIG =>
    ((match script with
      | some s => (env.multisigOutputDecodePubKeys s).map (fun k => some (Chunk.buf k))
      | none => []),
     (chunks.drop 1).map blankToUndefined)
  | _ => ([], [])

/-- The result of `expandOutput`; `pubKeys` and `signatures` are missing for the types the
function does not know. -/
structure ExpandedOutput where
  pubKeys : Option (List Slot)
  scriptType : ScriptType
  signatures : Option (List Slot)
  deriving DecidableEq, Repr

/-- The test `chunk.equals(hash)` on an element of a decompiled script; it is a `TypeError`
when the element is missing or is not a `Buffer`. -/
def chunkEquals (chunk : Option Chunk) (hash : Buffer) : Except Err Bool :=
  match chunk with
  | some (Chunk.buf b) => Except.ok (decide (b = hash))
  | _ => Except.error Err.typeError

/-- The value of `scriptChunks.slice(1, -2)`. -/
def sliceOneMinusTwo (chunks : List Chunk) : List Chunk :=
  (chunks.take (chunks.length - 2)).drop 1

/-- The `switch (scriptType)` of `expandOutput` and its `return`. -/
def expandOutputSwitch (env : Collab) (scriptChunks : List Chunk) (scriptType : ScriptType)
    (ourPubKey : Option Buffer) : Except Err ExpandedOutput :=
  match scriptType with
  | ScriptType.P2PKH =>
    match ourPubKey with
    | none => Except.ok ⟨some [], scriptType, some []⟩
    | some k =>
      match chunkEquals scriptChunks[2]? (env.hash160 k) with
      | Except.error e => Except.error e
      | Except.ok true => Except.ok ⟨some [some (Chunk.buf k)], scriptType, some [none]⟩
      | Except.ok false => Except.ok ⟨some [], scriptType, some []⟩
  | ScriptType.P2WPKH =>
    match ourPubKey with
    | none => Except.ok ⟨some [], scriptType, some []⟩
    | some k =>
      match chunkEquals scriptChunks[1]? (env.hash160 k) with
      | Except.error e => Except.error e
      | Except.ok true => Except.ok ⟨some [some (Chunk.buf k)], scriptType, some [none]⟩
      | Except.ok false => Except.ok ⟨some [], scriptType, some []⟩
  | ScriptType.P2PK =>
    Except.ok ⟨some ((scriptChunks.take 1).map some), scriptType,
      some ((scriptChunks.take 1).map (fun _ => none))⟩
  | ScriptType.MULTISIG =>
    Except.ok ⟨some ((sliceOneMinusTwo scriptChunks).map some), scriptType,
      some ((sliceOneMinusTwo scriptChunks).map (fun _ => none))⟩
  | _ => Except.ok ⟨none, scriptType, none⟩

/-- The function `expandOutput (script, scriptType, ourPubKey)`. -/
def expandOutput (env : Collab) (script : Option Buffer) (scriptType : Option ScriptType)
    (ourPubKey : Option Buffer) : Except Err ExpandedOutput :=
  match script with
  | none => Except.error Err.typeError
  | some script =>
    let scriptChunks := env.decompile script
    let scriptType := match scriptType with
      | some t => t
      | none => env.classifyOutput script
    expandOutputSwitch env scriptChunks scriptType ourPubKey

/-- The last element of an array, `xs[xs.length - 1]`, as a buffer: `none` when the array is
empty or the element is an opcode number. -/
def lastBuffer (xs : List Chunk) : Option Buffer :=
  match xs.getLast? with
  | some (Chunk.buf b) => some b
  | _ => none

/-- The function `expandInput (scriptSig, witnessStack)`. A last script or witness element that is
not a `Buffer` makes the hash or the classifier applied to it raise a `TypeError`. -/
def expandInput (env : Collab) (scriptSig : Buffer) (witnessStack : List Chunk) :
    Except Err Input :=
  if scriptSig.length = 0 ∧ witnessStack.length = 0 then Except.ok {} else
  let scriptSigChunks := env.decompile scriptSig
  let sigType := env.classifyInput scriptSigChunks true
  if sigType = ScriptType.P2SH ∧ (lastBuffer scriptSigChunks).isNone then
    Except.error Err.typeError else
  -- the variables set by the `sigType === P2SH` block
  let p2sh : Bool := decide (sigType = ScriptType.P2SH)
  let redeemScript : Option Buffer := if p2sh then lastBuffer scriptSigChunks else none
  let redeemScriptType : Option ScriptType := redeemScript.map env.classifyOutput
  let prevOutScript0 : Option Buffer :=
    redeemScript.map (fun r => env.scriptHashOutputEncode (env.hash160 r))
  let prevOutType0 : Option ScriptType := if p2sh then some ScriptType.P2SH else none
  let classifyWitness := env.classifyWitness witnessStack true
  if classifyWitness = ScriptType.P2WSH then
    match lastBuffer witnessStack with
    | none => Except.error Err.typeError
    | some witnessScript =>
      let witnessScriptType := env.classifyOutput witnessScript
      if scriptSig.length = 0 then
        if redeemScript.isSome then Except.error Err.redeemGivenUnnecessary
        else if supportedType (some (env.classifyOutput witnessScript)) = false then
          Except.error Err.unsupportedWitnessScript
        else
          let expanded := extractChunks env (some witnessScriptType) witnessStack.dropLast
            (some witnessScript)
          Except.ok
            { pubKeys := some expanded.1, signatures := some expanded.2,
              prevOutScript := some (env.witnessScriptHashOutputEncode (env.sha256 witnessScript)),
              prevOutType := some ScriptType.P2WSH,
              signType := some witnessScriptType, signScript := some witnessScript,
              witness := some true,
              redeemScript := redeemScript, redeemScriptType := redeemScriptType,
              witnessScript := some witnessScript, witnessScriptType := some witnessScriptType }
      else
        match redeemScript with
        | none => Except.error Err.noRedeemForP2WSH
        | some r =>
          if r ≠ env.witnessScriptHashOutputEncode (env.sha256 witnessScript) then
            Except.error Err.redeemMismatchWitnessScript
          else if supportedType (some (env.classifyOutput witnessScript)) = false then
            Except.error Err.unsupportedWitnessScript
          else
            let expanded := extractChunks env (some witnessScriptType) witnessStack.dropLast
              (some witnessScript)
            Except.ok
              { pubKeys := some expanded.1, signatures := some expanded.2,
                prevOutScript := prevOutScript0, prevOutType := prevOutType0,
                signType := some witnessScriptType, signScript := some witnessScript,
                witness := some true,
                redeemScript := redeemScript, redeemScriptType := redeemScriptType,
                witnessScript := some witnessScript, witnessScriptType := some witnessScriptType }
  else if classifyWitness = ScriptType.P2WPKH then
    match lastBuffer witnessStack with
    | none => Except.error Err.typeError
    | some key =>
      let keyHash := env.hash160 key
      if scriptSig.length = 0 then
        if redeemScript.isSome then Except.error Err.redeemGivenUnnecessary
        else
          let expanded := extractChunks env (some ScriptType.P2PKH) witnessStack redeemScript
          Except.ok
            { pubKeys := some expanded.1, signatures := some expanded.2,
              prevOutScript := some (env.witnessPubKeyHashOutputEncode keyHash),
              prevOutType := some ScriptType.P2WPKH,
              signType := some ScriptType.P2PKH, signScript := redeemScript,
              witness := some true,
              redeemScript := redeemScript, redeemScriptType := redeemScriptType }
      else
        match redeemScript with
        | none => Except.error Err.noRedeemForP2WPKH
        | some r =>
          if r ≠ env.witnessPubKeyHashOutputEncode keyHash then
            Except.error Err.redeemWrongWitnessProgram
          else
            let expanded := extractChunks env (some ScriptType.P2PKH) witnessStack redeemScript
            Except.ok
              { pubKeys := some expanded.1, signatures := some expanded.2,
                prevOutScript := prevOutScript0, prevOutType := prevOutType0,
                signType := some ScriptType.P2PKH, signScript := redeemScript,
                witness := some true,
                redeemScript := redeemScript, redeemScriptType := redeemScriptType }
  else
    match redeemScript with
    | some r =>
      if supportedP2SHType redeemScriptType = false then Except.error Err.badRedeemScript
      else
        let expanded := extractChunks env redeemScriptType scriptSigChunks.dropLast (some r)
        Except.ok
          { pubKeys := some expanded.1, signatures := some expanded.2,
            prevOutScript := prevOutScript0, prevOutType := prevOutType0,
            signType := redeemScriptType, signScript := some r,
            witness := some false,
            redeemScript := redeemScript, redeemScriptType := redeemScriptType }
    | none =>
      let scriptType := env.classifyInputScript scriptSig
      let expanded := extractChunks env (some scriptType) scriptSigChunks none
      Except.ok
        { pubKeys := some expanded.1, signatures := some expanded.2,
          prevOutScript := none, prevOutType := some scriptType,
          signType := some scriptType, signScript := none,
          witness := some false }

/-- The function `checkP2SHInput (input, redeemScriptHash)`. -/
def checkP2SHInput (env : Collab) (input : Input) (redeemScriptHash : Buffer) : Except Err Unit :=
  match input.prevOutType with
  | none => Except.ok ()
  | some t =>
    if t ≠ ScriptType.P2SH then Except.error Err.prevOutMustBeP2SH
    else
      match input.prevOutScript with
      | none => Except.error Err.typeError
      | some prevOutScript =>
        match chunkEquals (env.decompile prevOutScript)[1]? redeemScriptHash with
        | Except.error e => Except.error e
        | Except.ok false => Except.error Err.inconsistentHash160
        | Except.ok true => Except.ok ()

/-- The function `checkP2WSHInput (input, witnessScriptHash)`. -/
def checkP2WSHInput (env : Collab) (input : Input) (witnessScriptHash : Buffer) :
    Except Err Unit :=
  match input.prevOutType with
  | none => Except.ok ()
  | some t =>
    if t ≠ ScriptType.P2WSH then Except.error Err.prevOutMustBeP2WSH
    else
      match input.prevOutScript with
      | none => Except.error Err.typeError
      | some prevOutScript =>
        match chunkEquals (env.decompile prevOutScript)[1]? witnessScriptHash with
        | Except.error e => Except.error e
        | Except.ok false => Except.error Err.inconsistentSha256
        | Except.ok true => Except.ok ()

/-- The tail of `prepareInput`, from the `signType === P2WPKH` normalisation to the last
assignment: the record after the assignments. `p2sh` and `p2wsh` carry the script and its type
when the flag of that name is set. -/
def prepareInputAssign (env : Collab) (input : Input) (expanded : ExpandedOutput)
    (prevOutType : ScriptType) (prevOutScript : Buffer) (p2sh : Option (Buffer × ScriptType))
    (p2wsh : Option (Buffer × ScriptType)) (witness : Bool) (signType : ScriptType)
    (signScript : Buffer) : Input :=
  let signScript :=
    if signType = ScriptType.P2WPKH then
      env.pubKeyHashOutputEncode (env.witnessPubKeyHashOutputDecode signScript)
    else signScript
  let input1 : Input := match p2sh with
    | some (redeemScript, p2shType) =>
      { input with redeemScript := some redeemScript, redeemScriptType := some p2shType }
    | none => input
  let input2 : Input := match p2wsh with
    | some (witnessScript, witnessType) =>
      { input1 with witnessScript := some witnessScript, witnessScriptType := some witnessType }
    | none => input1
  { input2 with
    pubKeys := expanded.pubKeys
    signatures := expanded.signatures
    signScript := some signScript
    signType := some signType
    prevOutScript := some prevOutScript
    prevOutType := some prevOutType
    witness := some witness }

/-- The function `prepareInput (input, kpPubKey, redeemScript, witnessValue, witnessScript)`: the
record after the call, or the error thrown (every `throw` precedes the first assignment). -/
def prepareInput (env : Collab) (input : Input) (kpPubKey : Buffer)
    (redeemScript : Option Buffer) (_witnessValue : Option Nat)
    (witnessScript : Option Buffer) : Except Err Input :=
  match redeemScript, witnessScript with
  | some redeemScript, some witnessScript =>
    let redeemScriptHash := env.hash160 redeemScript
    let witnessScriptHash := env.sha256 witnessScript
    match checkP2SHInput env input redeemScriptHash with
    | Except.error e => Except.error e
    | Except.ok _ =>
      if redeemScript ≠ env.witnessScriptHashOutputEncode witnessScriptHash then
        Except.error Err.witnessInconsistentWithRedeem
      else
        match expandOutput env (some witnessScript) none (some kpPubKey) with
        | Except.error e => Except.error e
        | Except.ok expanded =>
          if expanded.pubKeys.isNone then Except.error Err.witnessScriptNotSupported
          else
            Except.ok (prepareInputAssign env input expanded ScriptType.P2SH
              (env.scriptHashOutputEncode redeemScriptHash)
              (some (redeemScript, ScriptType.P2WSH))
              (some (witnessScript, expanded.scriptType)) true expanded.scriptType witnessScript)
  | some redeemScript, none =>
    let redeemScriptHash := env.hash160 redeemScript
    match checkP2SHInput env input redeemScriptHash with
    | Except.error e => Except.error e
    | Except.ok _ =>
      match expandOutput env (some redeemScript) none (some kpPubKey) with
      | Except.error e => Except.error e
      | Except.ok expanded =>
        if expanded.pubKeys.isNone then Except.error Err.redeemScriptNotSupported
        else
          Except.ok (prepareInputAssign env input expanded ScriptType.P2SH
            (env.scriptHashOutputEncode redeemScriptHash)
            (some (redeemScript, expanded.scriptType)) none
            (decide (expanded.scriptType = ScriptType.P2WPKH)) expanded.scriptType redeemScript)
  | none, some witnessScript =>
    let witnessScriptHash := env.sha256 witnessScript
    match checkP2WSHInput env input witnessScriptHash with
    | Except.error e => Except.error e
    | Except.ok _ =>
      match expandOutput env (some witnessScript) none (some kpPubKey) with
      | Except.error e => Except.error e
      | Except.ok expanded =>
        if expanded.pubKeys.isNone then Except.error Err.witnessScriptNotSupported
        else
          Except.ok (prepareInputAssign env input expanded ScriptType.P2WSH
            (env.witnessScriptHashOutputEncode witnessScriptHash) none
            (some (witnessScript, expanded.scriptType)) true expanded.scriptType witnessScript)
  | none, none =>
    match input.prevOutType with
    | some t =>
      if t = ScriptType.P2SH ∨ t = ScriptType.P2WSH then Except.error Err.requiresRedeemScript
      else
        match expandOutput env input.prevOutScript (some t) (some kpPubKey) with
        | Except.error e => Except.error e
        | Except.ok expanded =>
          if expanded.pubKeys.isNone then Except.ok input
          else
            match input.prevOutScript with
            | none => Except.error Err.typeError
            | some prevOutScript =>
              Except.ok (prepareInputAssign env input expanded t prevOutScript none none
                (decide (t = ScriptType.P2WPKH)) t prevOutScript)
    | none =>
      let prevOutScript := env.pubKeyHashOutputEncode (env.hash160 kpPubKey)
      match expandOutput env (some prevOutScript) (some ScriptType.P2PKH) (some kpPubKey) with
      | Except.error e => Except.error e
      | Except.ok expanded =>
        Except.ok (prepareInputAssign env input expanded ScriptType.P2PKH prevOutScript none none
          false ScriptType.P2PKH prevOutScript)

/-- The function `canSign (input)`. -/
def canSign (input : Input) : Bool :=
  input.prevOutScript.isSome &&
  input.signScript.isSome &&
  (match input.pubKeys, input.signatures with
    | some pubKeys, some signatures =>
      decide (signatures.length = pubKeys.length) && decide (pubKeys.length > 0)
    | _, _ => false) &&
  (input.witness == some false || (input.witness == some true && input.value.isSome))

/-- The function `signatureHashType (buffer)`, `buffer.readUInt8(buffer.length - 1)`: reading past
an empty buffer is a `RangeError`, and a number has no `readUInt8`. -/
def signatureHashType (signature : Chunk) : Except Err Nat :=
  match signature with
  | Chunk.buf b =>
    match b.getLast? with
    | some x => Except.ok x
    | none => Except.error Err.typeError
  | Chunk.op _ => Except.error Err.typeError

/-- The value of `signature || ops.OP_0`. -/
def orOP0 (signature : Slot) : Chunk :=
  match signature with
  | some c => if truthy (some c) then c else Chunk.op 0
  | none => Chunk.op 0

/-- The function `buildStack (type, signatures, pubKeys, allowIncomplete)`; `signatures` and
`pubKeys` are the properties of the record, whose `length` cannot be read when they are
`undefined`. -/
def buildStack (env : Collab) (type : Option ScriptType) (signatures : Option (List Slot))
    (pubKeys : Option (List Slot)) (allowIncomplete : Bool) : Except Err (List Chunk) :=
  let incomplete : Except Err (List Chunk) :=
    if allowIncomplete then Except.ok [] else Except.error Err.notEnoughSignatures
  match type with
  | some ScriptType.P2PKH =>
    match signatures with
    | none => Except.error Err.typeError
    | some [some (Chunk.buf sig)] =>
      match pubKeys with
      | none => Except.error Err.typeError
      | some [pubKey] => Except.ok (env.pubKeyHashInputEncodeStack sig pubKey)
      | some _ => incomplete
    | some _ => incomplete
  | some ScriptType.P2PK =>
    match signatures with
    | none => Except.error Err.typeError
    | some [some (Chunk.buf sig)] => Except.ok (env.pubKeyInputEncodeStack sig)
    | some _ => incomplete
  | some ScriptType.MULTISIG =>
    match signatures with
    | none => Except.error Err.typeError
    | some [] => incomplete
    | some sigs =>
      let sigs := sigs.map orOP0
      let sigs := if allowIncomplete then sigs else sigs.filter (fun x => x ≠ Chunk.op 0)
      Except.ok (env.multisigInputEncodeStack sigs)
  | _ => Except.error Err.notYetSupported

/-- The object returned by `buildInput`. -/
structure BuiltInput where
  type : Option ScriptType
  script : Buffer
  witness : List Slot
  deriving DecidableEq, Repr

/-- The `switch (scriptType)` of `buildInput`: the witness stack and the script type after it.
`witness.push(input.witnessScript)` appends the property as it is, `undefined` included. -/
def buildInputWitness (env : Collab) (input : Input) (scriptType : Option ScriptType)
    (allowIncomplete : Bool) : Except Err (List Slot × Option ScriptType) :=
  match scriptType with
  | some ScriptType.P2WPKH =>
    match buildStack env (some ScriptType.P2PKH) input.signatures input.pubKeys allowIncomplete with
    | Except.error e => Except.error e
    | Except.ok witness => Except.ok (witness.map some, scriptType)
  | some ScriptType.P2WSH =>
    if allowIncomplete = false ∧ supportedType input.witnessScriptType = false then
      Except.error Err.impossibleToSign
    else if supportedType input.witnessScriptType then
      match buildStack env input.witnessScriptType input.signatures input.pubKeys
          allowIncomplete with
      | Except.error e => Except.error e
      | Except.ok witness =>
        Except.ok (witness.map some ++ [input.witnessScript.map Chunk.buf],
          input.witnessScriptType)
    else Except.ok ([], scriptType)
  | _ => Except.ok ([], scriptType)

/-- The function `buildInput (input, allowIncomplete)`. `sig.push(input.redeemScript)` appends
the property as it is, `undefined` included, and the array goes to `bscript.compile`. -/
def buildInput (env : Collab) (input : Input) (allowIncomplete : Bool) : Except Err BuiltInput :=
  let scriptType := input.prevOutType
  match (if supportedType scriptType then
      buildStack env scriptType input.signatures input.pubKeys allowIncomplete
    else Except.ok []) with
  | Except.error e => Except.error e
  | Except.ok sig0 =>
    if scriptType = some ScriptType.P2SH then
      if allowIncomplete = false ∧ supportedP2SHType input.redeemScriptType = false then
        Except.error Err.impossibleToSign
      else
        match (if supportedType input.redeemScriptType then
            buildStack env input.redeemScriptType input.signatures input.pubKeys allowIncomplete
          else Except.ok sig0) with
        | Except.error e => Except.error e
        | Except.ok sig1 =>
          match input.redeemScriptType with
          | some t =>
            match buildInputWitness env input (some t) allowIncomplete with
            | Except.error e => Except.error e
            | Except.ok (witness, scriptType) =>
              Except.ok ⟨scriptType,
                env.compile (sig1.map some ++ [input.redeemScript.map Chunk.buf]), witness⟩
          | none =>
            match buildInputWitness env input scriptType allowIncomplete with
            | Except.error e => Except.error e
            | Except.ok (witness, scriptType) =>
              Except.ok ⟨scriptType, env.compile (sig1.map some), witness⟩
    else
      match buildInputWitness env input scriptType allowIncomplete with
      | Except.error e => Except.error e
      | Except.ok (witness, scriptType) =>
        Except.ok ⟨scriptType, env.compile (sig0.map some), witness⟩

/-! ## The builder -/

/-- The check made by `typeforce(types.UInt32, x)`. -/
def isUInt32 (x : Nat) : Bool := decide (x < 2 ^ 32)

/-- The state of a `TransactionBuilder`. `prevTxMap` is keyed by the outpoint (the source
formats it as the string `hex(hash):vout`, which determines the pair); a hole of the
array `inputs` is `none`. -/
structure TransactionBuilder where
  prevTxMap : List ((Buffer × Nat) × Nat)
  network : Network
  maximumFeeRate : Nat
  inputs : List (Option Input)
  tx : Transaction
  deriving DecidableEq, Repr

/-- The value of `this.prevTxMap[prevTxOut]`. -/
def mapGet (m : List ((Buffer × Nat) × Nat)) (k : Buffer × Nat) : Option Nat :=
  match m with
  | [] => none
  | (k2, v) :: rest => if k2 = k then some v else mapGet rest k

/-- The assignment `xs[i] = x` on a JavaScript array: it overwrites position `i`, or grows the
array, leaving holes, when `i` is past the end. -/
def arraySet {α : Type} (xs : List (Option α)) (i : Nat) (x : Option α) : List (Option α) :=
  if i < xs.length then xs.set i x else xs ++ List.replicate (i - xs.length) none ++ [x]

/-- The method `xs.every(f)` for a callback that may throw. -/
def everyM {α : Type} (f : α → Except Err Bool) : List α → Except Err Bool
  | [] => Except.ok true
  | x :: xs =>
    match f x with
    | Except.error e => Except.error e
    | Except.ok false => Except.ok false
    | Except.ok true => everyM f xs

/-- The `constructor (network, maximumFeeRate)`. -/
def TransactionBuilder.new (network : Option Network) (maximumFeeRate : Option Nat) :
    TransactionBuilder :=
  { prevTxMap := []
    network := network.getD networks.bitcoin
    maximumFeeRate := match maximumFeeRate with
      | none => 2500
      | some 0 => 2500
      | some r => r
    inputs := []
    tx := Transaction.empty }

/-- The callback of `__canModifyInputs` on one signature. -/
def canModifyInputsSig (signature : Slot) : Except Err Bool :=
  match signature with
  | none => Except.ok true
  | some c =>
    if truthy (some c) = false then Except.ok true
    else
      match signatureHashType c with
      | Except.error e => Except.error e
      | Except.ok hashType => Except.ok (hashType &&& SIGHASH_ANYONECANPAY != 0)

/-- The method `__canModifyInputs ()`; `every` coerces the callback result to a boolean. -/
def canModifyInputs (s : TransactionBuilder) : Except Err Bool :=
  everyM (fun oi : Option Input =>
    match oi with
    | none => Except.ok true
    | some input =>
      match input.signatures with
      | none => Except.ok true
      | some signatures => everyM canModifyInputsSig signatures) s.inputs

/-- The callback of `__canModifyOutputs` on one signature; it returns `undefined`, which is
falsy, for every base mode other than NONE and SINGLE. -/
def canModifyOutputsSig (nInputs nOutputs : Nat) (signature : Slot) : Except Err Bool :=
  match signature with
  | none => Except.ok true
  | some c =>
    if truthy (some c) = false then Except.ok true
    else
      match signatureHashType c with
      | Except.error e => Except.error e
      | Except.ok hashType =>
        let hashTypeMod := hashType &&& 0x1f
        if hashTypeMod = SIGHASH_NONE then Except.ok true
        else if hashTypeMod = SIGHASH_SINGLE then Except.ok (decide (nInputs ≤ nOutputs))
        else Except.ok false

/-- The method `__canModifyOutputs ()`. -/
def canModifyOutputs (s : TransactionBuilder) : Except Err Bool :=
  let nInputs := s.tx.ins.length
  let nOutputs := s.tx.outs.length
  everyM (fun oi : Option Input =>
    match oi with
    | none => Except.ok true
    | some input =>
      match input.signatures with
      | none => Except.ok true
      | some signatures => everyM (canModifyOutputsSig nInputs nOutputs) signatures) s.inputs

/-- The test of `setLockTime`: some input has a truthy signature. -/
def anySignature (s : TransactionBuilder) : Bool :=
  s.inputs.any (fun oi =>
    match oi with
    | none => false
    | some input =>
      match input.signatures with
      | none => false
      | some signatures => signatures.any truthy)

/-- The method `setLockTime (locktime)`. -/
def setLockTime (s : TransactionBuilder) (locktime : Nat) : TransactionBuilder × Except Err Unit :=
  if isUInt32 locktime = false then (s, Except.error Err.typeError)
  else if anySignature s then (s, Except.error Err.invalidatesSignatures)
  else ({ s with tx := { s.tx with locktime := locktime } }, Except.ok ())

/-- The method `setVersion (version)`. -/
def setVersion (s : TransactionBuilder) (version : Nat) : TransactionBuilder × Except Err Unit :=
  if isUInt32 version = false then (s, Except.error Err.typeError)
  else ({ s with tx := { s.tx with version := version } }, Except.ok ())

/-- The `options` argument of `__addInputUnsafe`. -/
structure AddInputOptions where
  sequence : Option Nat := none
  prevOutScript : Option Buffer := none
  value : Option Nat := none
  script : Option Buffer := none
  witness : Option (List Chunk) := none
  scriptSig : Option Buffer := none
  deriving DecidableEq, Repr

/-- The block `if (!input.prevOutScript && options.prevOutScript)` of `__addInputUnsafe`. -/
def addPrevOutScript (env : Collab) (input : Input) (prevOutScript : Option Buffer) :
    Except Err Input :=
  match input.prevOutScript, prevOutScript with
  | none, some script =>
    if input.pubKeys.isNone ∧ input.signatures.isNone then
      match expandOutput env (some script) none none with
      | Except.error e => Except.error e
      | Except.ok expanded =>
        let input1 : Input :=
          if expanded.pubKeys.isSome then
            { input with pubKeys := expanded.pubKeys, signatures := expanded.signatures }
          else input
        Except.ok { input1 with prevOutScript := some script,
                                prevOutType := some expanded.scriptType }
    else
      Except.ok { input with prevOutScript := some script,
                             prevOutType := some (env.classifyOutput script) }
  | _, _ => Except.ok input

/-- The method `__addInputUnsafe (txHash, vout, options)`. -/
def addInputUnsafe (env : Collab) (s : TransactionBuilder) (txHash : Buffer) (vout : Nat)
    (options : AddInputOptions) : TransactionBuilder × Except Err Nat :=
  if Transaction.isCoinbaseHash txHash then (s, Except.error Err.coinbaseNotSupported)
  else if (mapGet s.prevTxMap (txHash, vout)).isSome then (s, Except.error Err.duplicateTxOut)
  else
    match (match options.script with
      | some script => expandInput env script (options.witness.getD [])
      | none => Except.ok {}) with
    | Except.error e => (s, Except.error e)
    | Except.ok input0 =>
      let input1 : Input := match options.value with
        | some v => { input0 with value := some v }
        | none => input0
      match addPrevOutScript env input1 options.prevOutScript with
      | Except.error e => (s, Except.error e)
      | Except.ok input2 =>
        let r := s.tx.addInput txHash vout options.sequence options.scriptSig
        ({ s with tx := r.1
                  inputs := arraySet s.inputs r.2 (some input2)
                  prevTxMap := ((txHash, vout), r.2) :: s.prevTxMap }, Except.ok r.2)

/-- The first argument of `addInput`: a hex string (given by the bytes it decodes to), a
`Transaction` object or a `Buffer`. -/
inductive TxHashArg where
  | hex (decoded : Buffer)
  | transaction (t : Transaction)
  | buffer (b : Buffer)
  deriving DecidableEq, Repr

/-- The method `addInput (txHash, vout, sequence, prevOutScript)`. -/
def addInput (env : Collab) (s : TransactionBuilder) (txHash : TxHashArg) (vout : Nat)
    (sequence : Option Nat) (prevOutScript : Option Buffer) :
    TransactionBuilder × Except Err Nat :=
  match canModifyInputs s with
  | Except.error e => (s, Except.error e)
  | Except.ok false => (s, Except.error Err.invalidatesSignatures)
  | Except.ok true =>
    match txHash with
    | TxHashArg.hex decoded =>
      addInputUnsafe env s decoded.reverse vout
        { sequence := sequence, prevOutScript := prevOutScript, value := none }
    | TxHashArg.transaction t =>
      match t.outs[vout]? with
      | none => (s, Except.error Err.typeError)
      | some txOut =>
        addInputUnsafe env s (env.getHash t) vout
          { sequence := sequence, prevOutScript := some txOut.script, value := some txOut.value }
    | TxHashArg.buffer b =>
      addInputUnsafe env s b vout
        { sequence := sequence, prevOutScript := prevOutScript, value := none }

/-- The first argument of `addOutput`: an address string (its code points) or a script. -/
inductive ScriptPubKeyArg where
  | address (a : List Nat)
  | script (b : Buffer)
  deriving DecidableEq, Repr

/-- The method `addOutput (scriptPubKey, value)`. -/
def addOutput (env : Collab) (s : TransactionBuilder) (scriptPubKey : ScriptPubKeyArg)
    (value : Nat) : TransactionBuilder × Except Err Nat :=
  match canModifyOutputs s with
  | Except.error e => (s, Except.error e)
  | Except.ok false => (s, Except.error Err.invalidatesSignatures)
  | Except.ok true =>
    match (match scriptPubKey with
      | ScriptPubKeyArg.address a => env.toOutputScript a s.network
      | ScriptPubKeyArg.script b => Except.ok b) with
    | Except.error e => (s, Except.error e)
    | Except.ok script =>
      let r := s.tx.addOutput script value
      ({ s with tx := r.1 }, Except.ok r.2)

/-- The method `__overMaximumFees (bytes)`. `x.value >>> 0` is `0` for an `undefined` value and
the value modulo `2 ^ 32` otherwise; the quotient `fee / bytes` is compared as an exact
rational, and for `bytes = 0` it is `Infinity`, `NaN` or `-Infinity`. -/
def overMaximumFees (s : TransactionBuilder) (bytes : Nat) : Bool :=
  let incoming : Nat := (s.inputs.map (fun oi =>
    match oi with
    | some x => (x.value.getD 0) % 2 ^ 32
    | none => 0)).sum
  let outgoing : Nat := (s.tx.outs.map (fun x => x.value)).sum
  let fee : Int := (incoming : Int) - (outgoing : Int)
  if bytes = 0 then decide (fee > 0)
  else decide (fee > (s.maximumFeeRate : Int) * (bytes : Int))

/-- The `forEach` callback of `__build` up to the two assignments to `tx`: the completeness
check, `buildInput` and the check of the resulting type. -/
def buildChecked (env : Collab) (allowIncomplete : Bool) (input : Input) :
    Except Err BuiltInput :=
  let scriptType : Option ScriptType :=
    (input.witnessScriptType.orElse (fun _ => input.redeemScriptType)).orElse
      (fun _ => input.prevOutType)
  if scriptType.isNone ∧ allowIncomplete = false then Except.error Err.notComplete
  else
    match buildInput env input allowIncomplete with
    | Except.error e => Except.error e
    | Except.ok result =>
      if allowIncomplete = false ∧ supportedType result.type = false ∧
          result.type ≠ some ScriptType.P2WPKH then
        Except.error (Err.typeNotSupported result.type)
      else Except.ok result

/-- The body of the `forEach` callback of `__build` for the input record at index `i`. -/
def buildOne (env : Collab) (allowIncomplete : Bool) (tx : Transaction) (i : Nat)
    (input : Input) : Except Err Transaction :=
  match buildChecked env allowIncomplete input with
  | Except.error e => Except.error e
  | Except.ok result =>
    match tx.setInputScript i result.script with
    | Except.error e => Except.error e
    | Except.ok tx1 => tx1.setWitness i result.witness

/-- The loop `this.inputs.forEach(...)` of `__build`, from index `i` on; holes are skipped. -/
def buildLoop (env : Collab) (allowIncomplete : Bool) :
    List (Option Input) → Nat → Transaction → Except Err Transaction
  | [], _, tx => Except.ok tx
  | none :: rest, i, tx => buildLoop env allowIncomplete rest (i + 1) tx
  | some input :: rest, i, tx =>
    match buildOne env allowIncomplete tx i input with
    | Except.error e => Except.error e
    | Except.ok tx1 => buildLoop env allowIncomplete rest (i + 1) tx1

/-- The method `__build (allowIncomplete)`; it works on a clone of `this.tx` and assigns
nothing to the builder. -/
def buildWith (env : Collab) (s : TransactionBuilder) (allowIncomplete : Bool) :
    Except Err Transaction :=
  if allowIncomplete = false ∧ s.tx.ins.length = 0 then Except.error Err.noInputs
  else if allowIncomplete = false ∧ s.tx.outs.length = 0 then Except.error Err.noOutputs
  else
    match buildLoop env allowIncomplete s.inputs 0 s.tx with
    | Except.error e => Except.error e
    | Except.ok tx =>
      if allowIncomplete = false ∧ overMaximumFees s (env.virtualSize tx) then
        Except.error Err.absurdFees
      else Except.ok tx

/-- The method `build ()`. -/
def build (env : Collab) (s : TransactionBuilder) : Except Err Transaction :=
  buildWith env s false

/-- The method `buildIncomplete ()`. -/
def buildIncomplete (env : Collab) (s : TransactionBuilder) : Except Err Transaction :=
  buildWith env s true

/-- The method `keyPair.sign (hash)` of `ecpair.js`, followed by the encoding of the signature. -/
def KeyPair.sign (env : Collab) (keyPair : KeyPair) (hash : Buffer) : Except Err Buffer :=
  match keyPair.d with
  | none => Except.error Err.missingPrivateKey
  | some d => Except.ok (env.ecdsaSign hash d)

/-- The callback of `input.pubKeys.some(...)` in `sign`, run over the keys from index `i` on. The
result is `none` when no key matched (`signed` is false) and the new `signatures` array
otherwise. Comparing the signer key with a slot that is not a `Buffer` is a `TypeError`. -/
def signLoop (env : Collab) (keyPair : KeyPair) (kpPubKey : Buffer)
    (signType : Option ScriptType) (signatureHash : Buffer) (hashType : Nat)
    (signatures : List Slot) : List Slot → Nat → Except Err (Option (List Slot))
  | [], _ => Except.ok none
  | some (Chunk.buf pubKey) :: rest, i =>
    if kpPubKey ≠ pubKey then
      signLoop env keyPair kpPubKey signType signatureHash hashType signatures rest (i + 1)
    else if truthy (signatures[i]?).join then Except.error Err.signatureAlreadyExists
    else if kpPubKey.length ≠ 33 ∧ signType = some ScriptType.P2WPKH then
      Except.error Err.bip143Uncompressed
    else
      match keyPair.sign env signatureHash with
      | Except.error e => Except.error e
      | Except.ok signature =>
        Except.ok (some (arraySet signatures i
          (some (Chunk.buf (toScriptSignature signature hashType)))))
  | _ :: _, _ => Except.error Err.typeError

/-- The end of the block `if (!canSign(input)) ...` of `sign`, after the witness value has been
stored: `prepareInput` unless the record has become signable, then the final check. -/
def signPrepareRest (env : Collab) (input1 : Input) (kpPubKey : Buffer)
    (redeemScript : Option Buffer) (witnessValue : Option Nat) (witnessScript : Option Buffer) :
    Input × Except Err Unit :=
  if canSign input1 then (input1, Except.ok ())
  else
    match prepareInput env input1 kpPubKey redeemScript witnessValue witnessScript with
    | Except.error e => (input1, Except.error e)
    | Except.ok input2 =>
      if canSign input2 then (input2, Except.ok ())
      else (input2, Except.error (Err.typeNotSupported input2.prevOutType))

/-- The block `if (!canSign(input)) ...` of `sign`: the record after the block together with
the error thrown inside it, if any. -/
def signPrepare (env : Collab) (input : Input) (kpPubKey : Buffer)
    (redeemScript : Option Buffer) (witnessValue : Option Nat) (witnessScript : Option Buffer) :
    Input × Except Err Unit :=
  if canSign input then (input, Except.ok ())
  else
    match witnessValue with
    | none => signPrepareRest env input kpPubKey redeemScript witnessValue witnessScript
    | some v =>
      if input.value.isSome ∧ input.value ≠ some v then
        (input, Except.error Err.witnessValueMismatch)
      else if env.isSatoshi v = false then (input, Except.error Err.typeError)
      else
        signPrepareRest env { input with value := some v } kpPubKey redeemScript witnessValue
          witnessScript

/-- The part of `sign` after the preparation (`// ready to sign`). `canSign` holds here, so
`signScript`, `pubKeys`, `signatures` and, for a witness input, `value` are defined. -/
def signReady (env : Collab) (tx : Transaction) (vin : Nat) (input : Input) (keyPair : KeyPair)
    (kpPubKey : Buffer) (hashType : Nat) : Input × Except Err Unit :=
  match input.signScript, input.pubKeys, input.signatures with
  | some signScript, some pubKeys, some signatures =>
    let signatureHash :=
      if input.witness = some true then
        env.hashForWitnessV0 tx vin signScript (input.value.getD 0) hashType
      else env.hashForSignature tx vin signScript hashType
    match signLoop env keyPair kpPubKey input.signType signatureHash hashType signatures
        pubKeys 0 with
    | Except.error e => (input, Except.error e)
    | Except.ok none => (input, Except.error Err.keyPairCannotSign)
    | Except.ok (some signatures1) =>
      ({ input with signatures := some signatures1 }, Except.ok ())
  | _, _, _ => (input, Except.error Err.typeError)

/-- The builder after the record `this.inputs[vin]`, which `sign` mutates in place, has become
`input`. -/
def setInput (s : TransactionBuilder) (vin : Nat) (input : Input) : TransactionBuilder :=
  { s with inputs := s.inputs.set vin (some input) }

/-- The value of `hashType || Transaction.SIGHASH_ALL`. -/
def defaultHashType (hashType : Option Nat) : Nat :=
  match hashType with
  | none => SIGHASH_ALL
  | some 0 => SIGHASH_ALL
  | some h => h

/-- The method `sign (vin, keyPair, redeemScript, hashType, witnessValue, witnessScript)`. -/
def sign (env : Collab) (s : TransactionBuilder) (vin : Nat) (keyPair : KeyPair)
    (redeemScript : Option Buffer) (hashType : Option Nat) (witnessValue : Option Nat)
    (witnessScript : Option Buffer) : TransactionBuilder × Except Err Unit :=
  if keyPair.network.isSome ∧ keyPair.network ≠ some s.network then
    (s, Except.error Err.inconsistentNetwork)
  else
    match (s.inputs[vin]?).join with
    | none => (s, Except.error Err.noInputAtIndex)
    | some input =>
      let hashType : Nat := defaultHashType hashType
      if input.redeemScript.isSome ∧ redeemScript.isSome ∧ input.redeemScript ≠ redeemScript then
        (s, Except.error Err.inconsistentRedeemScript)
      else
        let kpPubKey := keyPair.publicKey
        match signPrepare env input kpPubKey redeemScript witnessValue witnessScript with
        | (input1, Except.error e) =>
          (setInput s vin input1, Except.error e)
        | (input1, Except.ok _) =>
          let r := signReady env s.tx vin input1 keyPair kpPubKey hashType
          (setInput s vin r.1, r.2)

/-- The callback of `unmatched.some(...)` in `fixMultisigOrder` for one public key: the matching
signature, if any, and the array `unmatched` after the scan. -/
def findMatch (env : Collab) (transaction : Transaction) (vin : Nat) (redeemScript : Buffer)
    (pubKey : Slot) : List Slot → Except Err (Slot × List Slot)
  | [] => Except.ok (none, [])
  | signature :: rest =>
    let skip : Except Err (Slot × List Slot) :=
      match findMatch env transaction vin redeemScript pubKey rest with
      | Except.error e => Except.error e
      | Except.ok (m, rest1) => Except.ok (m, signature :: rest1)
    match signature with
    | none => skip
    | some c =>
      if truthy (some c) = false then skip
      else
        match env.parseScriptSignature c with
        | none => Except.error (Err.collaborator 0)
        | some (sig, hashType) =>
          let hash := env.hashForSignature transaction vin redeemScript hashType
          if env.verify pubKey hash sig = false then skip
          else Except.ok (signature, none :: rest)

/-- The callback of `input.pubKeys.map(...)` in `fixMultisigOrder`, run over the keys in order:
the new `signatures` array. -/
def matchAll (env : Collab) (transaction : Transaction) (vin : Nat) (redeemScript : Buffer) :
    List Slot → List Slot → Except Err (List Slot)
  | [], _ => Except.ok []
  | pubKey :: rest, unmatched =>
    if env.validPublicKey pubKey = false then Except.error (Err.collaborator 1)
    else
      match findMatch env transaction vin redeemScript pubKey unmatched with
      | Except.error e => Except.error e
      | Except.ok (m, unmatched1) =>
        match matchAll env transaction vin redeemScript rest unmatched1 with
        | Except.error e => Except.error e
        | Except.ok ms => Except.ok (m :: ms)

/-- The function `fixMultisigOrder (input, transaction, vin)`: the record after the call. -/
def fixMultisigOrder (env : Collab) (input : Input) (transaction : Transaction) (vin : Nat) :
    Except Err Input :=
  match input.redeemScript with
  | none => Except.ok input
  | some redeemScript =>
    if input.redeemScriptType ≠ some ScriptType.MULTISIG then Except.ok input
    else
      match input.pubKeys, input.signatures with
      | some pubKeys, some signatures =>
        if pubKeys.length = signatures.length then Except.ok input
        else
          match matchAll env transaction vin redeemScript pubKeys signatures with
          | Except.error e => Except.error e
          | Except.ok signatures1 => Except.ok { input with signatures := some signatures1 }
      | _, _ => Except.error Err.typeError

/-- The loop `transaction.outs.forEach(txOut => txb.addOutput(txOut.script, txOut.value))`. -/
def addOutputs (env : Collab) : TransactionBuilder → List TxOut → Except Err TransactionBuilder
  | s, [] => Except.ok s
  | s, txOut :: rest =>
    match addOutput env s (ScriptPubKeyArg.script txOut.script) txOut.value with
    | (_, Except.error e) => Except.error e
    | (s1, Except.ok _) => addOutputs env s1 rest

/-- The loop `transaction.ins.forEach(txIn => txb.__addInputUnsafe(...))`. -/
def addInputs (env : Collab) : TransactionBuilder → List TxIn → Except Err TransactionBuilder
  | s, [] => Except.ok s
  | s, txIn :: rest =>
    match addInputUnsafe env s txIn.hash txIn.index
        { sequence := some txIn.sequence, script := some txIn.script,
          witness := some txIn.witness } with
    | (_, Except.error e) => Except.error e
    | (s1, Except.ok _) => addInputs env s1 rest

/-- The loop `txb.inputs.forEach((input, i) => fixMultisigOrder(input, transaction, i))`, from
index `i` on. -/
def fixAll (env : Collab) (transaction : Transaction) :
    List (Option Input) → Nat → Except Err (List (Option Input))
  | [], _ => Except.ok []
  | none :: rest, i =>
    match fixAll env transaction rest (i + 1) with
    | Except.error e => Except.error e
    | Except.ok rest1 => Except.ok (none :: rest1)
  | some input :: rest, i =>
    match fixMultisigOrder env input transaction i with
    | Except.error e => Except.error e
    | Except.ok input1 =>
      match fixAll env transaction rest (i + 1) with
      | Except.error e => Except.error e
      | Except.ok rest1 => Except.ok (some input1 :: rest1)

/-- The function `TransactionBuilder.fromTransaction (transaction, network)`. -/
def fromTransaction (env : Collab) (transaction : Transaction) (network : Option Network) :
    Except Err TransactionBuilder :=
  let txb := TransactionBuilder.new network none
  match setVersion txb transaction.version with
  | (_, Except.error e) => Except.error e
  | (txb1, Except.ok _) =>
    match setLockTime txb1 transaction.locktime with
    | (_, Except.error e) => Except.error e
    | (txb2, Except.ok _) =>
      match addOutputs env txb2 transaction.outs with
      | Except.error e => Except.error e
      | Except.ok txb3 =>
        match addInputs env txb3 transaction.ins with
        | Except.error e => Except.error e
        | Except.ok txb4 =>
          match fixAll env transaction txb4.inputs 0 with
          | Except.error e => Except.error e
          | Except.ok inputs => Except.ok { txb4 with inputs := inputs }

/-- The builder states reachable through the public interface: the constructor,
`fromTransaction`, and the state left by any call (returning or throwing) of `addInput`,
`addOutput`, `sign`, `setVersion` and `setLockTime`. -/
inductive Reachable (env : Collab) : TransactionBuilder → Prop where
  | new (network : Option Network) (maximumFeeRate : Option Nat) :
    Reachable env (TransactionBuilder.new network maximumFeeRate)
  | fromTransaction (transaction : Transaction) (network : Option Network)
      (s : TransactionBuilder) (h : fromTransaction env transaction network = Except.ok s) :
    Reachable env s
  | addInput (s : TransactionBuilder) (txHash : TxHashArg) (vout : Nat) (sequence : Option Nat)
      (prevOutScript : Option Buffer) (h : Reachable env s) :
    Reachable env (addInput env s txHash vout sequence prevOutScript).1
  | addOutput (s : TransactionBuilder) (scriptPubKey : ScriptPubKeyArg) (value : Nat)
      (h : Reachable env s) :
    Reachable env (addOutput env s scriptPubKey value).1
  | sign (s : TransactionBuilder) (vin : Nat) (keyPair : KeyPair) (redeemScript : Option Buffer)
      (hashType witnessValue : Option Nat) (witnessScript : Option Buffer)
      (h : Reachable env s) :
    Reachable env (sign env s vin keyPair redeemScript hashType witnessValue witnessScript).1
  | setVersion (s : TransactionBuilder) (version : Nat) (h : Reachable env s) :
    Reachable env (setVersion s version).1
  | setLockTime (s : TransactionBuilder) (locktime : Nat) (h : Reachable env s) :
    Reachable env (setLockTime s locktime).1

/-- The builder states reached from `s0` by any further calls (returning or throwing) of
`addInput`, `addOutput`, `sign`, `setVersion` and `setLockTime`. -/
inductive ReachableFrom (env : Collab) (s0 : TransactionBuilder) : TransactionBuilder → Prop where
  | refl : ReachableFrom env s0 s0
  | addInput (s : TransactionBuilder) (txHash : TxHashArg) (vout : Nat) (sequence : Option Nat)
      (prevOutScript : Option Buffer) (h : ReachableFrom env s0 s) :
    ReachableFrom env s0 (addInput env s txHash vout sequence prevOutScript).1
  | addOutput (s : TransactionBuilder) (scriptPubKey : ScriptPubKeyArg) (value : Nat)
      (h : ReachableFrom env s0 s) :
    ReachableFrom env s0 (addOutput env s scriptPubKey value).1
  | sign (s : TransactionBuilder) (vin : Nat) (keyPair : KeyPair) (redeemScript : Option Buffer)
      (hashType witnessValue : Option Nat) (witnessScript : Option Buffer)
      (h : ReachableFrom env s0 s) :
    ReachableFrom env s0
      (sign env s vin keyPair redeemScript hashType witnessValue witnessScript).1
  | setVersion (s : TransactionBuilder) (version : Nat) (h : ReachableFrom env s0 s) :
    ReachableFrom env s0 (setVersion s version).1
  | setLockTime (s : TransactionBuilder) (locktime : Nat) (h : ReachableFrom env s0 s) :
    ReachableFrom env s0 (setLockTime s locktime).1

/-! ## Hierarchical deterministic nodes (`hdnode.js`) -/

/-- A point of the curve as `ecurve` hands it out: affine coordinates, or `none` for the point
at infinity. -/
abbrev ECPoint := Option (Nat × Nat)

/-- The functions that `hdnode.js` and `ecpair.js` take from `crypto`, `bigi` and `ecurve`,
which are not part of the sources at hand. -/
structure HDCollab where
  /-- Collaborator `curve.n`, the order of the curve -/
  n : Nat
  /-- Collaborator `createHmac('sha512', key).update(data).digest()` -/
  hmacSHA512 : Buffer → Buffer → Buffer
  /-- Collaborator `BigInteger.fromBuffer` -/
  fromBuffer : Buffer → Nat
  /-- Collaborator `d.toBuffer(32)` -/
  toBuffer32 : Nat → Buffer
  /-- Collaborator `curve.G.multiply(k)` -/
  multiplyG : Nat → ECPoint
  /-- Collaborator `P.add(Q)` -/
  add : ECPoint → ECPoint → ECPoint
  /-- Collaborator `Q.getEncoded(compressed)`; the encoding of a compressed key has 33 bytes -/
  getEncoded : ECPoint → Bool → Buffer
  /-- Collaborator `ripemd160(sha256(buffer))` of `crypto.js`, computed by the hash functions of Node -/
  hash160 : Buffer → Buffer

/-- Every error that `HDNode.derive` and the constructors it calls throw. -/
inductive HDErr where
  | typeError
  | hardenedFromNeutered
  | privateKeyNotPositive
  | privateKeyTooLarge
  | unexpectedPublicKey
  | onlyCompressed
  deriving DecidableEq, Repr

/-- An `ECPair` of `ecpair.js`: the private key `d`, if it has one, the point `__Q` given to
the constructor, the `compressed` flag and the network. -/
structure ECPair where
  d : Option Nat
  point : ECPoint
  compressed : Bool
  network : Network
  deriving DecidableEq, Repr

/-- The `constructor (d, Q, options)` of `ECPair` for the options `{ network }`; `Q` is
`none` for `null`. -/
def ECPair.new (env : HDCollab) (d : Option Nat) (Q : Option ECPoint) (network : Network) :
    Except HDErr ECPair :=
  match d with
  | some d =>
    if d = 0 then Except.error HDErr.privateKeyNotPositive
    else if d ≥ env.n then Except.error HDErr.privateKeyTooLarge
    else if Q.isSome then Except.error HDErr.unexpectedPublicKey
    else Except.ok ⟨some d, none, true, network⟩
  | none =>
    match Q with
    | none => Except.error HDErr.typeError
    | some q => Except.ok ⟨none, q, true, network⟩

/-- The getter `Q`: the point given to the constructor, or `G * d`. -/
def ECPair.Q (env : HDCollab) (keyPair : ECPair) : ECPoint :=
  match keyPair.d with
  | some d => env.multiplyG d
  | none => keyPair.point

/-- The method `getPublicKeyBuffer ()`. -/
def ECPair.getPublicKeyBuffer (env : HDCollab) (keyPair : ECPair) : Buffer :=
  env.getEncoded (keyPair.Q env) keyPair.compressed

/-- An `HDNode`. -/
structure HDNode where
  keyPair : ECPair
  chainCode : Buffer
  depth : Nat
  index : Nat
  parentFingerprint : Nat
  deriving DecidableEq, Repr

/-- The `constructor (keyPair, chainCode)` of `HDNode`: the chain code has 32 bytes and the key
pair is compressed. -/
def HDNode.new (keyPair : ECPair) (chainCode : Buffer) : Except HDErr HDNode :=
  if chainCode.length ≠ 32 then Except.error HDErr.typeError
  else if keyPair.compressed = false then Except.error HDErr.onlyCompressed
  else Except.ok ⟨keyPair, chainCode, 0, 0, 0⟩

/-- The constant `HDNode.HIGHEST_BIT`. -/
def HDNode.HIGHEST_BIT : Nat := 0x80000000

/-- The method `isNeutered ()`. -/
def HDNode.isNeutered (node : HDNode) : Bool := node.keyPair.d.isNone

/-- The four bytes written by `writeUInt32BE`. -/
def ser32 (x : Nat) : Buffer :=
  [x / 2 ^ 24 % 256, x / 2 ^ 16 % 256, x / 2 ^ 8 % 256, x % 256]

/-- The value of `buffer.readUInt32BE(0)`; a buffer of fewer than four bytes is a
`RangeError`. -/
def readUInt32BE (b : Buffer) : Except HDErr Nat :=
  match b with
  | b0 :: b1 :: b2 :: b3 :: _ => Except.ok (((b0 * 256 + b1) * 256 + b2) * 256 + b3)
  | _ => Except.error HDErr.typeError

/-- The end of `derive`, from `new HDNode(derivedKeyPair, IR)` on. -/
def HDNode.child (env : HDCollab) (node : HDNode) (derivedKeyPair : ECPair) (IR : Buffer)
    (index : Nat) : Except HDErr HDNode :=
  match HDNode.new derivedKeyPair IR with
  | Except.error e => Except.error e
  | Except.ok hd =>
    match readUInt32BE ((env.hash160 (node.keyPair.getPublicKeyBuffer env)).take 4) with
    | Except.error e => Except.error e
    | Except.ok fingerprint =>
      Except.ok { hd with depth := node.depth + 1, index := index,
                          parentFingerprint := fingerprint }

/-- The buffer `data` that `derive` feeds to the HMAC: `0x00 || ser256(kpar) || ser32(index)`
for a hardened child and `serP(Kpar) || ser32(index)` for a normal child. -/
def HDNode.deriveData (env : HDCollab) (node : HDNode) (index : Nat) : Buffer :=
  if index ≥ HDNode.HIGHEST_BIT then 0 :: env.toBuffer32 (node.keyPair.d.getD 0) ++ ser32 index
  else node.keyPair.getPublicKeyBuffer env ++ ser32 index

/-- The method `derive (index)`, with `fuel` bounding the number of nested calls: the result
is `none` when the fuel runs out. Each "proceed with the next value for i" is the call
`this.derive(index + 1)`. -/
def HDNode.deriveFuel (env : HDCollab) (node : HDNode) : Nat → Nat → Option (Except HDErr HDNode)
  | 0, _ => none
  | fuel + 1, index =>
    if isUInt32 index = false then some (Except.error HDErr.typeError)
    else
      let isHardened : Bool := decide (index ≥ HDNode.HIGHEST_BIT)
      if isHardened = true ∧ node.isNeutered = true then
        some (Except.error HDErr.hardenedFromNeutered)
      else
        let I := env.hmacSHA512 node.chainCode (node.deriveData env index)
        let IL := I.take 32
        let IR := I.drop 32
        let pIL := env.fromBuffer IL
        if pIL ≥ env.n then HDNode.deriveFuel env node fuel (index + 1)
        else
          match node.keyPair.d with
          | some d =>
            let ki := (pIL + d) % env.n
            if ki = 0 then HDNode.deriveFuel env node fuel (index + 1)
            else
              match ECPair.new env (some ki) none node.keyPair.network with
              | Except.error e => some (Except.error e)
              | Except.ok derivedKeyPair => some (node.child env derivedKeyPair IR index)
          | none =>
            let Ki := env.add (env.multiplyG pIL) (node.keyPair.Q env)
            if Ki.isNone then HDNode.deriveFuel env node fuel (index + 1)
            else
              match ECPair.new env none (some Ki) node.keyPair.network with
              | Except.error e => some (Except.error e)
              | Except.ok derivedKeyPair => some (node.child env derivedKeyPair IR index)

/-- The method `derive (index)`, run with fuel for `2 ^ 32 - index + 1` nested calls. -/
def HDNode.derive (env : HDCollab) (node : HDNode) (index : Nat) :
    Option (Except HDErr HDNode) :=
  node.deriveFuel env (2 ^ 32 - index + 1) index

/-! ## The objects that `__build` works on

`__build`, `buildInput` and `buildStack` once more, this time over a store of objects held
by reference, so that the writes they make (`push` on an array, `setInputScript` and
`setWitness` on a transaction) have a target that can be compared with the objects of the
builder. An address is an index into the store; a new object goes to the end of the store.
Buffers are not written to anywhere on this path and stay values. -/

/-- An input record as an object: the arrays `pubKeys` and `signatures` are held by
reference. -/
structure InputObject where
  prevOutScript : Option Buffer := none
  prevOutType : Option ScriptType := none
  signScript : Option Buffer := none
  signType : Option ScriptType := none
  pubKeys : Option Nat := none
  signatures : Option Nat := none
  witness : Option Bool := none
  value : Option Nat := none
  redeemScript : Option Buffer := none
  redeemScriptType : Option ScriptType := none
  witnessScript : Option Buffer := none
  witnessScriptType : Option ScriptType := none
  deriving DecidableEq, Repr

/-- The `TransactionBuilder` as an object: `prevTxMap`, `inputs` and `tx` are held by
reference. -/
structure BuilderObject where
  prevTxMap : Nat
  network : Network
  maximumFeeRate : Nat
  inputs : Nat
  tx : Nat
  deriving DecidableEq, Repr

/-- An object of the store: an array of chunks or slots, an input record, the array
`this.inputs` (the address of a record, or a hole), the map `this.prevTxMap`, a
`Transaction`, or the builder. -/
inductive Obj where
  | array (elems : List Slot)
  | record (r : InputObject)
  | records (refs : List (Option Nat))
  | map (m : List ((Buffer × Nat) × Nat))
  | transaction (tx : Transaction)
  | builder (b : BuilderObject)
  deriving DecidableEq, Repr

/-- The store: the objects in the order of their creation. -/
abbrev Store := List Obj

/-- A new object; its address is returned. -/
def Store.alloc (m : Store) (o : Obj) : Store × Nat :=
  (m ++ [o], m.length)

/-- The array at an address, if there is one. -/
def Store.array (m : Store) (a : Nat) : Option (List Slot) :=
  match m[a]? with
  | some (Obj.array elems) => some elems
  | _ => none

/-- The input record at an address, if there is one. -/
def Store.record (m : Store) (a : Nat) : Option InputObject :=
  match m[a]? with
  | some (Obj.record r) => some r
  | _ => none

/-- The array of record addresses at an address, if there is one. -/
def Store.records (m : Store) (a : Nat) : Option (List (Option Nat)) :=
  match m[a]? with
  | some (Obj.records refs) => some refs
  | _ => none

/-- The map at an address, if there is one. -/
def Store.map (m : Store) (a : Nat) : Option (List ((Buffer × Nat) × Nat)) :=
  match m[a]? with
  | some (Obj.map pm) => some pm
  | _ => none

/-- The transaction at an address, if there is one. -/
def Store.transaction (m : Store) (a : Nat) : Option Transaction :=
  match m[a]? with
  | some (Obj.transaction tx) => some tx
  | _ => none

/-- The builder at an address, if there is one. -/
def Store.builder (m : Store) (a : Nat) : Option BuilderObject :=
  match m[a]? with
  | some (Obj.builder b) => some b
  | _ => none

/-- The call `array.push(x)` on the array at address `a`. -/
def Store.push (m : Store) (a : Nat) (x : Slot) : Store × Except Err Unit :=
  match Store.array m a with
  | some elems => (m.set a (Obj.array (elems ++ [x])), Except.ok ())
  | none => (m, Except.error Err.typeError)

/-- Modelled from the spec: `setInputScript(index, bytes)` on the transaction at address
`tx`. -/
def Store.setInputScript (m : Store) (tx : Nat) (i : Nat) (script : Buffer) :
    Store × Except Err Unit :=
  match Store.transaction m tx with
  | none => (m, Except.error Err.typeError)
  | some t =>
    match t.setInputScript i script with
    | Except.error e => (m, Except.error e)
    | Except.ok t1 => (m.set tx (Obj.transaction t1), Except.ok ())

/-- Modelled from the spec: `setWitness(index, stack)` on the transaction at address `tx`,
with the array at address `witness`. -/
def Store.setWitness (m : Store) (tx : Nat) (i : Nat) (witness : Nat) :
    Store × Except Err Unit :=
  match Store.transaction m tx, Store.array m witness with
  | some t, some w =>
    match t.setWitness i w with
    | Except.error e => (m, Except.error e)
    | Except.ok t1 => (m.set tx (Obj.transaction t1), Except.ok ())
  | _, _ => (m, Except.error Err.typeError)

/-- The function `buildStack` over the store: `signatures` and `pubKeys` are the values of
the properties of the record, addresses of arrays or `undefined`, and the result is the
address of the array returned. `[]`, `signatures.map(...)` and `signatures.filter(...)` make
new arrays; the arrays that the stack encoders of the templates return are new arrays. -/
def Store.buildStack (env : Collab) (m : Store) (type : Option ScriptType)
    (signatures pubKeys : Option Nat) (allowIncomplete : Bool) : Store × Except Err Nat :=
  let incomplete : Store × Except Err Nat :=
    if allowIncomplete then
      ((Store.alloc m (Obj.array [])).1, Except.ok (Store.alloc m (Obj.array [])).2)
    else (m, Except.error Err.notEnoughSignatures)
  match type with
  | some ScriptType.P2PKH =>
    match signatures.bind (Store.array m) with
    | none => (m, Except.error Err.typeError)
    | some [some (Chunk.buf sig)] =>
      match pubKeys.bind (Store.array m) with
      | none => (m, Except.error Err.typeError)
      | some [pubKey] =>
        let r := Store.alloc m (Obj.array ((env.pubKeyHashInputEncodeStack sig pubKey).map some))
        (r.1, Except.ok r.2)
      | some _ => incomplete
    | some _ => incomplete
  | some ScriptType.P2PK =>
    match signatures.bind (Store.array m) with
    | none => (m, Except.error Err.typeError)
    | some [some (Chunk.buf sig)] =>
      let r := Store.alloc m (Obj.array ((env.pubKeyInputEncodeStack sig).map some))
      (r.1, Except.ok r.2)
    | some _ => incomplete
  | some ScriptType.MULTISIG =>
    match signatures.bind (Store.array m) with
    | none => (m, Except.error Err.typeError)
    | some [] => incomplete
    | some sigs =>
      let mapped := Store.alloc m (Obj.array ((sigs.map orOP0).map some))
      let filtered :=
        if allowIncomplete then mapped
        else Store.alloc mapped.1
          (Obj.array (((sigs.map orOP0).filter (fun x => x ≠ Chunk.op 0)).map some))
      let chunks :=
        if allowIncomplete then sigs.map orOP0
        else (sigs.map orOP0).filter (fun x => x ≠ Chunk.op 0)
      let r := Store.alloc filtered.1
        (Obj.array ((env.multisigInputEncodeStack chunks).map some))
      (r.1, Except.ok r.2)
  | _ => (m, Except.error Err.notYetSupported)

/-- The object returned by `buildInput`, with the witness array held by reference. -/
structure BuiltRef where
  type : Option ScriptType
  script : Buffer
  witness : Nat
  deriving DecidableEq, Repr

/-- The `switch (scriptType)` of `buildInput` over the store; `witness` is the address that
the variable `witness` holds before it. -/
def Store.buildInputWitness (env : Collab) (m : Store) (input : InputObject) (witness : Nat)
    (scriptType : Option ScriptType) (allowIncomplete : Bool) :
    Store × Except Err (Nat × Option ScriptType) :=
  match scriptType with
  | some ScriptType.P2WPKH =>
    match Store.buildStack env m (some ScriptType.P2PKH) input.signatures input.pubKeys
        allowIncomplete with
    | (m1, Except.error e) => (m1, Except.error e)
    | (m1, Except.ok witness1) => (m1, Except.ok (witness1, scriptType))
  | some ScriptType.P2WSH =>
    if allowIncomplete = false ∧ supportedType input.witnessScriptType = false then
      (m, Except.error Err.impossibleToSign)
    else if supportedType input.witnessScriptType then
      match Store.buildStack env m input.witnessScriptType input.signatures input.pubKeys
          allowIncomplete with
      | (m1, Except.error e) => (m1, Except.error e)
      | (m1, Except.ok witness1) =>
        match Store.push m1 witness1 (input.witnessScript.map Chunk.buf) with
        | (m2, Except.error e) => (m2, Except.error e)
        | (m2, Except.ok _) => (m2, Except.ok (witness1, input.witnessScriptType))
    else (m, Except.ok (witness, scriptType))
  | _ => (m, Except.ok (witness, scriptType))

/-- The end of `buildInput` over the store: the `switch`, the `push` of the redeem script
when `p2sh` is set, and the object returned. -/
def Store.buildInputEnd (env : Collab) (m : Store) (input : InputObject) (sig witness : Nat)
    (scriptType : Option ScriptType) (p2sh : Bool) (allowIncomplete : Bool) :
    Store × Except Err BuiltRef :=
  match Store.buildInputWitness env m input witness scriptType allowIncomplete with
  | (m1, Except.error e) => (m1, Except.error e)
  | (m1, Except.ok (witness1, scriptType1)) =>
    if p2sh then
      match Store.push m1 sig (input.redeemScript.map Chunk.buf) with
      | (m2, Except.error e) => (m2, Except.error e)
      | (m2, Except.ok _) =>
        (m2, Except.ok ⟨scriptType1, env.compile ((Store.array m2 sig).getD []), witness1⟩)
    else (m1, Except.ok ⟨scriptType1, env.compile ((Store.array m1 sig).getD []), witness1⟩)

/-- The function `buildInput` over the store; `input` is the record object. -/
def Store.buildInput (env : Collab) (m : Store) (input : InputObject)
    (allowIncomplete : Bool) : Store × Except Err BuiltRef :=
  let scriptType := input.prevOutType
  let sig := Store.alloc m (Obj.array [])
  let witness := Store.alloc sig.1 (Obj.array [])
  match (if supportedType scriptType then
      Store.buildStack env witness.1 scriptType input.signatures input.pubKeys allowIncomplete
    else (witness.1, Except.ok sig.2)) with
  | (m1, Except.error e) => (m1, Except.error e)
  | (m1, Except.ok sig0) =>
    if scriptType = some ScriptType.P2SH then
      if allowIncomplete = false ∧ supportedP2SHType input.redeemScriptType = false then
        (m1, Except.error Err.impossibleToSign)
      else
        match (if supportedType input.redeemScriptType then
            Store.buildStack env m1 input.redeemScriptType input.signatures input.pubKeys
              allowIncomplete
          else (m1, Except.ok sig0)) with
        | (m2, Except.error e) => (m2, Except.error e)
        | (m2, Except.ok sig1) =>
          match input.redeemScriptType with
          | some t => Store.buildInputEnd env m2 input sig1 witness.2 (some t) true allowIncomplete
          | none =>
            Store.buildInputEnd env m2 input sig1 witness.2 scriptType false allowIncomplete
    else Store.buildInputEnd env m1 input sig0 witness.2 scriptType false allowIncomplete

/-- The `forEach` callback of `__build` over the store, for the record at address `input`
and the transaction at address `tx`. -/
def Store.buildOne (env : Collab) (allowIncomplete : Bool) (m : Store) (tx : Nat) (i : Nat)
    (input : Nat) : Store × Except Err Unit :=
  match Store.record m input with
  | none => (m, Except.error Err.typeError)
  | some r =>
    let scriptType : Option ScriptType :=
      (r.witnessScriptType.orElse (fun _ => r.redeemScriptType)).orElse
        (fun _ => r.prevOutType)
    if scriptType.isNone ∧ allowIncomplete = false then (m, Except.error Err.notComplete)
    else
      match Store.buildInput env m r allowIncomplete with
      | (m1, Except.error e) => (m1, Except.error e)
      | (m1, Except.ok result) =>
        if allowIncomplete = false ∧ supportedType result.type = false ∧
            result.type ≠ some ScriptType.P2WPKH then
          (m1, Except.error (Err.typeNotSupported result.type))
        else
          match Store.setInputScript m1 tx i result.script with
          | (m2, Except.error e) => (m2, Except.error e)
          | (m2, Except.ok _) => Store.setWitness m2 tx i result.witness

/-- The loop `this.inputs.forEach(...)` of `__build` over the store, from index `i` on. -/
def Store.buildLoop (env : Collab) (allowIncomplete : Bool) :
    List (Option Nat) → Nat → Store → Nat → Store × Except Err Unit
  | [], _, m, _ => (m, Except.ok ())
  | none :: rest, i, m, tx => Store.buildLoop env allowIncomplete rest (i + 1) m tx
  | some input :: rest, i, m, tx =>
    match Store.buildOne env allowIncomplete m tx i input with
    | (m1, Except.error e) => (m1, Except.error e)
    | (m1, Except.ok _) => Store.buildLoop env allowIncomplete rest (i + 1) m1 tx

/-- The method `__overMaximumFees (bytes)` over the store. -/
def Store.overMaximumFees (m : Store) (b : BuilderObject) (bytes : Nat) : Bool :=
  let incoming : Nat := (((Store.records m b.inputs).getD []).map (fun ref =>
    match ref.bind (Store.record m) with
    | some x => (x.value.getD 0) % 2 ^ 32
    | none => 0)).sum
  let outgoing : Nat :=
    ((((Store.transaction m b.tx).getD Transaction.empty).outs).map (fun x => x.value)).sum
  let fee : Int := (incoming : Int) - (outgoing : Int)
  if bytes = 0 then decide (fee > 0)
  else decide (fee > (b.maximumFeeRate : Int) * (bytes : Int))

/-- The method `__build (allowIncomplete)` over the store, on the builder at address `this`:
the store after the call, and the address of the transaction returned or the error thrown.
Modelled from the spec: `clone()` makes a new transaction object with the same content. -/
def Store.buildWith (env : Collab) (m : Store) (this : Nat) (allowIncomplete : Bool) :
    Store × Except Err Nat :=
  match Store.builder m this with
  | none => (m, Except.error Err.typeError)
  | some b =>
    match Store.transaction m b.tx, Store.records m b.inputs with
    | some t, some inputs =>
      if allowIncomplete = false ∧ t.ins.length = 0 then (m, Except.error Err.noInputs)
      else if allowIncomplete = false ∧ t.outs.length = 0 then
        (m, Except.error Err.noOutputs)
      else
        let tx := Store.alloc m (Obj.transaction t)
        match Store.buildLoop env allowIncomplete inputs 0 tx.1 tx.2 with
        | (m1, Except.error e) => (m1, Except.error e)
        | (m1, Except.ok _) =>
          if allowIncomplete = false ∧ Store.overMaximumFees m1 b
              (env.virtualSize ((Store.transaction m1 tx.2).getD Transaction.empty)) then
            (m1, Except.error Err.absurdFees)
          else (m1, Except.ok tx.2)
    | _, _ => (m, Except.error Err.typeError)

/-! ## A concrete instance of the collaborators

Simplified stand-ins for the missing modules, used to run the builder on examples: scripts
of single-byte pushes and opcodes, the standard templates, and toy hash and signature
functions. -/

/-- Decompile a script: a byte `1 .. 75` pushes that many bytes, the byte `76` (OP_PUSHDATA1)
is followed by a length byte and pushes that many bytes, every other byte is an opcode;
`fuel` bounds the number of chunks. -/
def demoDecompile : Nat → Buffer → List Chunk
  | 0, _ => []
  | _ + 1, [] => []
  | fuel + 1, b :: rest =>
    if 1 ≤ b ∧ b ≤ 75 then Chunk.buf (rest.take b) :: demoDecompile fuel (rest.drop b)
    else if b = 76 then
      match rest with
      | [] => [Chunk.op b]
      | n :: rest1 => Chunk.buf (rest1.take n) :: demoDecompile fuel (rest1.drop n)
    else Chunk.op b :: demoDecompile fuel rest

/-- Compile chunks: data of `1 .. 75` bytes is pushed with a length byte, longer data with
OP_PUSHDATA1 and a length byte, empty data as `OP_0`; an opcode is its byte. -/
def demoCompile : List Chunk → Buffer
  | [] => []
  | Chunk.buf b :: rest =>
    (if b.length = 0 then [0]
      else if b.length ≤ 75 then b.length :: b
      else 76 :: b.length :: b) ++ demoCompile rest
  | Chunk.op n :: rest => n :: demoCompile rest

/-- Classify a locking script by its template. -/
def demoClassifyOutput (script : Buffer) : ScriptType :=
  match demoDecompile script.length script with
  | [Chunk.op 0x76, Chunk.op 0xa9, Chunk.buf _, Chunk.op 0x88, Chunk.op 0xac] => ScriptType.P2PKH
  | [Chunk.buf _, Chunk.op 0xac] => ScriptType.P2PK
  | [Chunk.op 0xa9, Chunk.buf _, Chunk.op 0x87] => ScriptType.P2SH
  | [Chunk.op 0, Chunk.buf h] =>
    if h.length = 20 then ScriptType.P2WPKH
    else if h.length = 32 then ScriptType.P2WSH
    else ScriptType.NONSTANDARD
  | chunks =>
    if chunks.getLast? = some (Chunk.op 0xae) ∧ 4 ≤ chunks.length then ScriptType.MULTISIG
    else ScriptType.NONSTANDARD

/-- Classify the chunks of an unlocking script, in the order of the template registry:
PubKeyHash, ScriptHash (the last chunk is a standard locking script), MultiSig, PubKey. -/
def demoClassifyInput (chunks : List Chunk) (_allowIncomplete : Bool) : ScriptType :=
  let isPubKeyHash : Bool :=
    match chunks with
    | [Chunk.buf _, Chunk.buf k] => decide (k.length = 33 ∨ k.length = 65)
    | _ => false
  let isScriptHash : Bool :=
    match chunks.getLast? with
    | some (Chunk.buf r) => decide (demoClassifyOutput r ≠ ScriptType.NONSTANDARD)
    | _ => false
  if isPubKeyHash then ScriptType.P2PKH
  else if isScriptHash then ScriptType.P2SH
  else
    match chunks with
    | Chunk.op 0 :: _ => ScriptType.MULTISIG
    | [Chunk.buf _] => ScriptType.P2PK
    | _ => ScriptType.NONSTANDARD

/-- Classify a witness stack. -/
def demoClassifyWitness (stack : List Chunk) (_allowIncomplete : Bool) : ScriptType :=
  match stack with
  | [] => ScriptType.NONSTANDARD
  | [Chunk.buf _, Chunk.buf k] =>
    if k.length = 33 then ScriptType.P2WPKH else ScriptType.P2WSH
  | _ => ScriptType.P2WSH

/-- The data pushes of a list of chunks. -/
def demoBuffers : List Chunk → List Buffer
  | [] => []
  | Chunk.buf b :: rest => b :: demoBuffers rest
  | Chunk.op _ :: rest => demoBuffers rest

/-- The concrete collaborators. -/
def demo : Collab where
  hash160 := fun b => (b ++ List.replicate 20 0).take 20
  sha256 := fun b => (b ++ List.replicate 32 0).take 32
  decompile := fun b => demoDecompile b.length b
  compile := fun chunks => demoCompile (chunks.map (fun c => c.getD (Chunk.op 0)))
  classifyInput := demoClassifyInput
  classifyInputScript := fun b => demoClassifyInput (demoDecompile b.length b) false
  classifyOutput := demoClassifyOutput
  classifyWitness := demoClassifyWitness
  scriptHashOutputEncode := fun h => [0xa9, h.length] ++ h ++ [0x87]
  witnessScriptHashOutputEncode := fun h => [0, h.length] ++ h
  witnessPubKeyHashOutputEncode := fun h => [0, h.length] ++ h
  witnessPubKeyHashOutputDecode := fun s => s.drop 2
  pubKeyHashOutputEncode := fun h => [0x76, 0xa9, h.length] ++ h ++ [0x88, 0xac]
  pubKeyOutputDecode := fun s => (s.drop 1).take (s.headD 0)
  multisigOutputDecodePubKeys := fun s => demoBuffers (demoDecompile s.length s)
  pubKeyHashInputEncodeStack := fun sig pubKey => Chunk.buf sig :: pubKey.toList
  pubKeyInputEncodeStack := fun sig => [Chunk.buf sig]
  multisigInputEncodeStack := fun sigs => Chunk.op 0 :: sigs
  hashForSignature := fun _ vin script hashType => script.take 4 ++ [vin, hashType]
  hashForWitnessV0 := fun _ vin script value hashType => script.take 4 ++ [vin, value, hashType]
  virtualSize := fun tx => 10 + 41 * tx.ins.length + 9 * tx.outs.length
  getHash := fun tx => List.replicate 31 7 ++ [tx.version]
  ecdsaSign := fun hash d => 0x30 :: d :: hash
  validPublicKey := fun pubKey => isBuffer pubKey
  parseScriptSignature := fun c =>
    match c with
    | Chunk.buf b => b.getLast?.map (fun x => (b.dropLast, x))
    | Chunk.op _ => none
  verify := fun pubKey hash sig =>
    match pubKey with
    | some (Chunk.buf (_ :: d :: _)) => decide (sig = 0x30 :: d :: hash)
    | _ => false
  toOutputScript := fun a _ => if a.length = 0 then Except.error Err.noMatchingScript
    else Except.ok ([0x76, 0xa9, a.length] ++ a ++ [0x88, 0xac])
  isSatoshi := fun v => decide (v ≤ 21 * 10 ^ 14)

/-- A compressed public key whose private key is `d`. -/
def demoPubKey (d : Nat) : Buffer := 2 :: d :: List.replicate 31 0

/-- A key pair on the default network with private key `d`. -/
def demoKeyPair (d : Nat) : KeyPair := ⟨none, demoPubKey d, some d⟩

/-- A previous-transaction hash that is not the coinbase marker. -/
def demoHash (x : Nat) : Buffer := List.replicate 31 0 ++ [x + 1]

/-- A fresh builder with one input added from an outpoint alone. -/
def demoOneInput : TransactionBuilder :=
  (addInput demo (TransactionBuilder.new none none) (TxHashArg.buffer (demoHash 0)) 0 none none).1

/-- A 2-of-3 multisig redeem script over the keys of the private keys 1, 2 and 3. -/
def demoRedeem : Buffer :=
  demoCompile [Chunk.op 0x52, Chunk.buf (demoPubKey 1), Chunk.buf (demoPubKey 2),
    Chunk.buf (demoPubKey 3), Chunk.op 0x53, Chunk.op 0xae]

/-- The builder `demoOneInput` after key 1 signed its input as a P2SH 2-of-3 multisig spend:
one of the three slots is filled. -/
def demoMultisigOne : TransactionBuilder :=
  (sign demo demoOneInput 0 (demoKeyPair 1) (some demoRedeem) none none none).1

/-- The input record of `demoMultisigOne`. -/
def demoMultisigOneInput : Input :=
  ((demoMultisigOne.inputs[0]?).join).getD {}

/-- The builder `demoOneInput` after key 5 signed its input with the hash type
`SIGHASH_ALL | SIGHASH_ANYONECANPAY`. -/
def demoSignedAnyoneCanPay : TransactionBuilder :=
  (sign demo demoOneInput 0 (demoKeyPair 5) none (some 0x81) none none).1

/-- The builder `demoOneInput` after key 5 signed its input with the default hash type. -/
def demoSignedAll : TransactionBuilder :=
  (sign demo demoOneInput 0 (demoKeyPair 5) none none none none).1

/-- The all-zero previous-transaction hash, the coinbase marker. -/
def demoCoinbaseHash : Buffer := List.replicate 32 0

/-- A fresh builder with one input added from an outpoint alone and one output. -/
def demoInOut : TransactionBuilder :=
  (addOutput demo demoOneInput (ScriptPubKeyArg.script [0x51]) 1000).1

/-- The builder `demoInOut` after key 1 signed its input as a P2SH 2-of-3 multisig spend: one
of the three signature slots is filled, one less than the threshold. -/
def demoOneOfThree : TransactionBuilder :=
  (sign demo demoInOut 0 (demoKeyPair 1) (some demoRedeem) none none none).1

/-- The builder `demoInOut` after a call of `sign` with a key pair that has the public key of
key 1 but no private key: the call throws after the input was prepared as a P2SH 2-of-3
multisig spend, so all three signature slots are absent. -/
def demoNoneOfThree : TransactionBuilder :=
  (sign demo demoInOut 0 ⟨none, demoPubKey 1, none⟩ (some demoRedeem) none none none).1

/-- The number of present signatures of the record at index `vin`. -/
def presentCount (s : TransactionBuilder) (vin : Nat) : Nat :=
  match (s.inputs[vin]?).join with
  | some input => ((input.signatures.getD []).filter truthy).length
  | none => 0

/-- Whether a call returned rather than threw. -/
def returned {α : Type} (r : Except Err α) : Bool :=
  match r with
  | Except.ok _ => true
  | Except.error _ => false

/-- A fresh builder with one output and no input. -/
def demoOnlyOutput : TransactionBuilder :=
  (addOutput demo (TransactionBuilder.new none none) (ScriptPubKeyArg.script [0x51]) 1000).1

/-- The builder `demoOnlyOutput` with one input added with its P2PKH previous output script:
the record resolves to PubKeyHash and `sign` has not run. -/
def demoUnsigned : TransactionBuilder :=
  (addInput demo demoOnlyOutput (TxHashArg.buffer (demoHash 0)) 0 none
    (some (demo.pubKeyHashOutputEncode (demo.hash160 (demoPubKey 5))))).1

/-- The record of `demoUnsigned`: a PubKeyHash spend that no key has signed, with an empty
`signatures` list. -/
def demoUnsignedInput : Input :=
  ((demoUnsigned.inputs[0]?).join).getD {}

/-- The builder `demoOnlyOutput` with one input added with its P2WPKH previous output
script: the record resolves to WitnessPubKeyHash and `sign` has not run. -/
def demoUnsignedWitnessKey : TransactionBuilder :=
  (addInput demo demoOnlyOutput (TxHashArg.buffer (demoHash 0)) 0 none
    (some (demo.witnessPubKeyHashOutputEncode (demo.hash160 (demoPubKey 5))))).1

/-- The record of `demoUnsignedWitnessKey`. -/
def demoUnsignedWitnessKeyInput : Input :=
  ((demoUnsignedWitnessKey.inputs[0]?).join).getD {}

/-- A builder without an output, with one input added with its P2PKH previous output
script; `sign` has not run. -/
def demoUnsignedNoOutput : TransactionBuilder :=
  (addInput demo (TransactionBuilder.new none none) (TxHashArg.buffer (demoHash 0)) 0 none
    (some (demo.pubKeyHashOutputEncode (demo.hash160 (demoPubKey 5))))).1

/-- The builder `demoUnsignedNoOutput` after a call of `sign` with a key pair that has the
public key of key 5 but no private key: the call throws after the input was prepared, so
the record is a P2PKH spend with its single signature slot absent. -/
def demoPreparedNoOutput : TransactionBuilder :=
  (sign demo demoUnsignedNoOutput 0 ⟨none, demoPubKey 5, none⟩ none none none none).1

/-- The builder `demoInOut` with a second input added with its P2PKH previous output script;
`sign` has not run: the record of input 0 has no script type, the record of input 1 is a
P2PKH spend that no key has signed. -/
def demoUntypedThenUnsigned : TransactionBuilder :=
  (addInput demo demoInOut (TxHashArg.buffer (demoHash 1)) 0 none
    (some (demo.pubKeyHashOutputEncode (demo.hash160 (demoPubKey 5))))).1

/-- The builder `demoUntypedThenUnsigned` after a call of `sign` on input 1 with a key pair
that has the public key of key 5 but no private key: the record of input 0 has no script
type, the record of input 1 is a P2PKH spend with its single signature slot absent. -/
def demoUntypedThenPrepared : TransactionBuilder :=
  (sign demo demoUntypedThenUnsigned 1 ⟨none, demoPubKey 5, none⟩ none none none none).1

/-- A transaction whose output 0 pays `2 ^ 32` satoshi to the key of the private key 5. -/
def demoFunding : Transaction :=
  ⟨1, 0, [], [⟨demo.pubKeyHashOutputEncode (demo.hash160 (demoPubKey 5)), 4294967296⟩]⟩

/-- The builder `demoOnlyOutput`, which pays 1000 satoshi, with output 0 of `demoFunding`
added as its input from the `Transaction` object, so that the value `2 ^ 32` is recorded,
and signed by key 5. -/
def demoLargeValue : TransactionBuilder :=
  (sign demo
    (addInput demo demoOnlyOutput (TxHashArg.transaction demoFunding) 0 none none).1
    0 (demoKeyPair 5) none none none none).1

/-- A 2-of-2 multisig script over the keys of the private keys 1 and 2. -/
def demoWitnessScript : Buffer :=
  demoCompile [Chunk.op 0x52, Chunk.buf (demoPubKey 1), Chunk.buf (demoPubKey 2),
    Chunk.op 0x52, Chunk.op 0xae]

/-- A transaction whose input is a P2WSH spend of `demoWitnessScript`, with a signature in
the slot of key 1 and an empty element in the slot of key 2. -/
def demoPartialWitnessTx : Transaction :=
  ⟨1, 0,
    [⟨demoHash 0, 0, [], DEFAULT_SEQUENCE,
      [Chunk.buf [], Chunk.buf [0x30, 1, 1], Chunk.buf [], Chunk.buf demoWitnessScript]⟩],
    [⟨[0x51], 1000⟩]⟩

/-- The builder imported from `demoPartialWitnessTx`: its input record has `prevOutType`
WitnessScriptHash and is not signable only because no value is recorded. -/
def demoImported : TransactionBuilder :=
  match fromTransaction demo demoPartialWitnessTx none with
  | Except.ok s => s
  | Except.error _ => TransactionBuilder.new none none

/-- The builder `demoOnlyOutput` with one input added with the P2SH previous output script of
`demoRedeem`; `sign` has not run. -/
def demoScriptHashInput : TransactionBuilder :=
  (addInput demo demoOnlyOutput (TxHashArg.buffer (demoHash 0)) 0 none
    (some (demo.scriptHashOutputEncode (demo.hash160 demoRedeem)))).1

/-- The record of `demoScriptHashInput`. -/
def demoScriptHashRecord : Input :=
  ((demoScriptHashInput.inputs[0]?).join).getD {}

/-- The builder `demoInOut` after key 5 signed its input as a bare P2PKH spend. -/
def demoSignedInOut : TransactionBuilder :=
  (sign demo demoInOut 0 (demoKeyPair 5) none none none none).1

/-- The builder `demoOneOfThree` after key 2 signed as well: two of the three signature slots
of the 2-of-3 multisig input are filled, the threshold is met. -/
def demoTwoOfThree : TransactionBuilder :=
  (sign demo demoOneOfThree 0 (demoKeyPair 2) (some demoRedeem) none none none).1

/-- The record of `demoTwoOfThree`. -/
def demoTwoOfThreeInput : Input :=
  ((demoTwoOfThree.inputs[0]?).join).getD {}

/-- What strict `buildInput` makes of the record of `demoTwoOfThree`. -/
def demoTwoOfThreeBuilt : BuiltInput :=
  match buildInput demo demoTwoOfThreeInput false with
  | Except.ok r => r
  | Except.error _ => ⟨none, [], []⟩

/-- The signature that the key of the private key `d` makes, with SIGHASH_ALL, on input 0 of
a spend of the redeem script `script`. -/
def demoSignature (script : Buffer) (d : Nat) : Buffer :=
  toScriptSignature
    (demo.ecdsaSign (demo.hashForSignature Transaction.empty 0 script SIGHASH_ALL) d)
    SIGHASH_ALL

/-- A transaction whose input spends the 2-of-3 multisig redeem script `demoRedeem` with the
signatures of the keys 2 and 1, embedded in this scrambled order. -/
def demoScrambledTx : Transaction :=
  ⟨1, 0,
    [⟨demoHash 0, 0,
      demoCompile [Chunk.op 0, Chunk.buf (demoSignature demoRedeem 2),
        Chunk.buf (demoSignature demoRedeem 1), Chunk.buf demoRedeem],
      DEFAULT_SEQUENCE, []⟩],
    [⟨[0x51], 1000⟩]⟩

/-- The record that `expandInput` reads from the input of `demoScrambledTx`. -/
def demoScrambledRecord : Input :=
  match expandInput demo
      (demoCompile [Chunk.op 0, Chunk.buf (demoSignature demoRedeem 2),
        Chunk.buf (demoSignature demoRedeem 1), Chunk.buf demoRedeem]) [] with
  | Except.ok e => e
  | Except.error _ => {}

/-- A transaction whose input spends the 2-of-2 multisig redeem script `demoWitnessScript`
with the signatures of both keys, that of key 2 before that of key 1. -/
def demoSwappedTx : Transaction :=
  ⟨1, 0,
    [⟨demoHash 0, 0,
      demoCompile [Chunk.op 0, Chunk.buf (demoSignature demoWitnessScript 2),
        Chunk.buf (demoSignature demoWitnessScript 1), Chunk.buf demoWitnessScript],
      DEFAULT_SEQUENCE, []⟩],
    [⟨[0x51], 1000⟩]⟩

/-- The record stored for input `i` by `fromTransaction`, if it returns and the record
exists. -/
def importedRecord (env : Collab) (transaction : Transaction) (i : Nat) : Option Input :=
  match fromTransaction env transaction none with
  | Except.ok s => (s.inputs[i]?).join
  | Except.error _ => none

/-- The pay-to-pubkey script of the key of the private key 5. -/
def demoPubKeyScript : Buffer :=
  demoCompile [Chunk.buf (demoPubKey 5), Chunk.op 0xac]

/-- The builder `demoOnlyOutput` with one input added with the bare pay-to-pubkey script
`demoPubKeyScript` and signed by key 5. -/
def demoPubKeySigned : TransactionBuilder :=
  (sign demo
    (addInput demo demoOnlyOutput (TxHashArg.buffer (demoHash 0)) 0 none
      (some demoPubKeyScript)).1
    0 (demoKeyPair 5) none none none none).1

/-- The record stored for input `i` when the transaction built by strict `build()` is
imported again. -/
def reimportedRecord (env : Collab) (s : TransactionBuilder) (i : Nat) : Option Input :=
  match build env s with
  | Except.ok tx => importedRecord env tx i
  | Except.error _ => none

/-- The record of `demoSignedInOut`. -/
def demoSignedRecord : Input :=
  ((demoSignedInOut.inputs[0]?).join).getD {}

/-- The transaction that strict `build()` returns on `demoSignedInOut`. -/
def demoSignedTx : Transaction :=
  match build demo demoSignedInOut with
  | Except.ok tx => tx
  | Except.error _ => Transaction.empty

/-- The builder `demoInOut` after key 5 signed its input with the hash type SIGHASH_SINGLE:
one input, one output. -/
def demoSignedSingle : TransactionBuilder :=
  (sign demo demoInOut 0 (demoKeyPair 5) none (some 0x03) none none).1

/-- The P2WSH program of `demoWitnessScript`, used as the redeem script of a P2SH-P2WSH
spend. -/
def demoWitnessProgram : Buffer :=
  demo.witnessScriptHashOutputEncode (demo.sha256 demoWitnessScript)

/-- The witness stack of a P2WSH spend of `demoWitnessScript` signed by the keys 1 and 2. -/
def demoWitnessStack : List Chunk :=
  [Chunk.buf [], Chunk.buf (demoSignature demoWitnessScript 1),
    Chunk.buf (demoSignature demoWitnessScript 2), Chunk.buf demoWitnessScript]

/-- The P2WPKH program of the key of the private key 5. -/
def demoKeyProgram : Buffer :=
  demo.witnessPubKeyHashOutputEncode (demo.hash160 (demoPubKey 5))

/-- The builder `demoOnlyOutput` with one input added with the P2WPKH previous output script
of key 5; `sign` has not run. -/
def demoWitnessKeyInput : TransactionBuilder :=
  (addInput demo demoOnlyOutput (TxHashArg.buffer (demoHash 0)) 0 none (some demoKeyProgram)).1

/-- The record of `demoWitnessKeyInput`. -/
def demoWitnessKeyRecord : Input :=
  ((demoWitnessKeyInput.inputs[0]?).join).getD {}

/-- The builder `demoOnlyOutput` with output 0 of `demoFunding` added as its input from the
`Transaction` object: the record holds the value `2 ^ 32` and the P2PKH script of key 5, and
`sign` has not run, so it is not signable yet. -/
def demoValued : TransactionBuilder :=
  (addInput demo demoOnlyOutput (TxHashArg.transaction demoFunding) 0 none none).1

/-- The key pair of the private key 5 on a network other than that of the demo builders. -/
def demoForeignKeyPair : KeyPair := ⟨some ⟨1⟩, demoPubKey 5, some 5⟩

/-- The record of `demoValued`. -/
def demoValuedRecord : Input :=
  ((demoValued.inputs[0]?).join).getD {}

/-- The record of `demoWitnessKeyInput` after a call of `sign` with the key pair of key 5
and no witness value: the call throws after the record was prepared as a P2WPKH spend. -/
def demoWitnessKeyPrepared : Input :=
  (((sign demo demoWitnessKeyInput 0 (demoKeyPair 5) none none none none).1.inputs[0]?).join).getD
    {}

/-- An uncompressed public key (65 bytes) whose private key is `d`. -/
def demoUncompressedPubKey (d : Nat) : Buffer := 4 :: d :: List.replicate 63 0

/-- The key pair of the private key 5 with its public key in uncompressed form. -/
def demoUncompressedKeyPair : KeyPair := ⟨none, demoUncompressedPubKey 5, some 5⟩

/-- The builder `demoOnlyOutput` with one input added with the P2WPKH previous output script
of the uncompressed key of the private key 5. -/
def demoUncompressedKeyInput : TransactionBuilder :=
  (addInput demo demoOnlyOutput (TxHashArg.buffer (demoHash 0)) 0 none
    (some (demo.witnessPubKeyHashOutputEncode (demo.hash160 (demoUncompressedPubKey 5))))).1

/-- The record of `demoUncompressedKeyInput` after a call of `sign` with the uncompressed key
pair and the witness value 1000. -/
def demoUncompressedKeyPrepared : Input :=
  (((sign demo demoUncompressedKeyInput 0 demoUncompressedKeyPair none none (some 1000)
    none).1.inputs[0]?).join).getD {}

/-- The pay-to-pubkey script of the uncompressed key of the private key 5, used as a witness
script. -/
def demoUncompressedScript : Buffer :=
  demoCompile [Chunk.buf (demoUncompressedPubKey 5), Chunk.op 0xac]

/-- The builder `demoInOut` after a call of `sign` on its input with the uncompressed key
pair, the witness value 1000 and the witness script `demoUncompressedScript`: a P2WSH
spend. -/
def demoUncompressedWitness : TransactionBuilder :=
  (sign demo demoInOut 0 demoUncompressedKeyPair none none (some 1000)
    (some demoUncompressedScript)).1

/-- The same with the P2WSH program of the witness script as redeem script: a P2SH-P2WSH
spend. -/
def demoUncompressedNested : TransactionBuilder :=
  (sign demo demoInOut 0 demoUncompressedKeyPair
    (some (demo.witnessScriptHashOutputEncode (demo.sha256 demoUncompressedScript))) none
    (some 1000) (some demoUncompressedScript)).1

/-- The signature that `sign` stores for key 5 on input 0 of a P2SH-wrapped
witness-pubkey-hash spend of the value 1000, with the default hash type. -/
def demoNestedSignature : Buffer :=
  toScriptSignature
    (demo.ecdsaSign (demo.hashForWitnessV0 demoInOut.tx 0
      (demo.pubKeyHashOutputEncode (demo.witnessPubKeyHashOutputDecode demoKeyProgram))
      1000 SIGHASH_ALL) 5) SIGHASH_ALL

/-- Stand-ins for the collaborators of `hdnode.js`: a curve of order 1000, and an HMAC whose
first 32 bytes encode a number that is too large exactly when the index, the last byte of
the data, is 7. -/
def demoHD : HDCollab where
  n := 1000
  hmacSHA512 := fun _ data =>
    (if data.getLast? = some 7 then [255] else [0]) ++ List.replicate 31 1 ++
      List.replicate 32 9
  fromBuffer := fun b => b.headD 0 * 256 + b.length
  toBuffer32 := fun d => List.replicate 31 0 ++ [d % 256]
  multiplyG := fun k => if k % 1000 = 0 then none else some (k % 1000, 1)
  add := fun p q =>
    match p, q with
    | some (a, _), some (b, _) => if (a + b) % 1000 = 0 then none else some ((a + b) % 1000, 1)
    | none, q => q
    | p, none => p
  getEncoded := fun p _ => 2 :: (p.map (fun xy => xy.1 % 256)).getD 0 :: List.replicate 31 0
  hash160 := fun b => (b ++ List.replicate 20 0).take 20

/-- A master node with the private key 5. -/
def demoNode : HDNode := ⟨⟨some 5, none, true, networks.bitcoin⟩, List.replicate 32 3, 0, 0, 0⟩

/-- The builder `demoInOut` after key 1 signed its input as a P2WSH spend of the 2-of-2
script `demoWitnessScript` with the witness value 1000: the record is signable, holds the
value 1000 and one of its two signature slots is filled. -/
def demoWitnessOne : TransactionBuilder :=
  (sign demo demoInOut 0 (demoKeyPair 1) none none (some 1000) (some demoWitnessScript)).1

/-- The record of `demoWitnessOne`. -/
def demoWitnessOneRecord : Input :=
  ((demoWitnessOne.inputs[0]?).join).getD {}

/-- The collaborators `demo` with the stack encoder of the multisig template as the
templates have it: a leading empty push, and an empty push in place of each `OP_0`. The
script codec writes an empty push as the byte `0` and reads it back as `OP_0`. -/
def demoEmptyPush : Collab :=
  { demo with
    multisigInputEncodeStack := fun sigs =>
      Chunk.buf [] :: sigs.map (fun c => if c = Chunk.op 0 then Chunk.buf [] else c) }

/-- A builder with one output whose input is a P2SH spend of the 2-of-2 multisig script
`demoWitnessScript`, signed by key 1 and by key 2: every signature slot is filled. -/
def demoBothSigned : TransactionBuilder :=
  (sign demoEmptyPush
    (sign demoEmptyPush
      (addOutput demoEmptyPush
        (addInput demoEmptyPush (TransactionBuilder.new none none)
          (TxHashArg.buffer (demoHash 0)) 0 none none).1
        (ScriptPubKeyArg.script [0x51]) 1000).1
      0 (demoKeyPair 1) (some demoWitnessScript) none none none).1
    0 (demoKeyPair 2) (some demoWitnessScript) none none none).1

/-- The record of `demoBothSigned`. -/
def demoBothSignedRecord : Input :=
  ((demoBothSigned.inputs[0]?).join).getD {}

/-- The transaction that strict `build()` returns on `demoBothSigned`. -/
def demoBothSignedTx : Transaction :=
  match build demoEmptyPush demoBothSigned with
  | Except.ok tx => tx
  | Except.error _ => Transaction.empty

/-- The builder `demoOnlyOutput` with one input added with the bare 2-of-2 multisig script
`demoWitnessScript` and signed by key 1 and by key 2. -/
def demoBareMultisigSigned : TransactionBuilder :=
  (sign demo
    (sign demo
      (addInput demo demoOnlyOutput (TxHashArg.buffer (demoHash 0)) 0 none
        (some demoWitnessScript)).1
      0 (demoKeyPair 1) none none none none).1
    0 (demoKeyPair 2) none none none none).1

/-! ## Specification predicates -/

/-- The chunk `c` is a present (truthy) signature of some input record of the builder. -/
def PresentSig (s : TransactionBuilder) (c : Chunk) : Prop :=
  ∃ input signatures, some input ∈ s.inputs ∧ input.signatures = some signatures ∧
    some c ∈ signatures ∧ truthy (some c) = true

/-- The signature `c` is a byte string whose trailing hash-type byte is `x`. -/
def HasHashType (c : Chunk) (x : Nat) : Prop :=
  ∃ b, c = Chunk.buf b ∧ b.getLast? = some x

/-- Every present signature of the record is a byte string with a trailing hash-type byte. -/
def InputTyped (input : Input) : Prop :=
  ∀ signatures, input.signatures = some signatures → ∀ c, some c ∈ signatures →
    truthy (some c) = true → ∃ x, HasHashType c x

/-- Every present signature of the builder is a byte string with a trailing hash-type byte
(what `signatureHashType` needs in order not to throw). -/
def SigsTyped (s : TransactionBuilder) : Prop :=
  ∀ input, some input ∈ s.inputs → InputTyped input

/-- The builder holds, in a signable record, a signature whose trailing byte is
SIGHASH_ALL. -/
def HoldsAllSignature (s : TransactionBuilder) : Prop :=
  ∃ (vin : Nat) (input : Input) (signatures : List Slot) (j : Nat) (c : Chunk),
    s.inputs[vin]? = some (some input) ∧ canSign input = true ∧
    input.signatures = some signatures ∧ signatures[j]? = some (some c) ∧
    HasHashType c SIGHASH_ALL

/-- The outpoints spent by the draft transaction, in input order. -/
def outpoints (tx : Transaction) : List (Buffer × Nat) :=
  tx.ins.map (fun txIn => (txIn.hash, txIn.index))

/-- The duplicate-spend invariant: no outpoint is spent twice, `prevTxMap` sends the outpoint
of each input to the index of that input, `inputs` is as long as the inputs of the draft
transaction, and no input spends the coinbase marker. -/
def SpendInvariant (s : TransactionBuilder) : Prop :=
  (outpoints s.tx).Nodup ∧
  (∀ i txIn, s.tx.ins[i]? = some txIn →
    mapGet s.prevTxMap (txIn.hash, txIn.index) = some i) ∧
  s.inputs.length = s.tx.ins.length ∧
  (∀ txIn ∈ s.tx.ins, Transaction.isCoinbaseHash txIn.hash = false)

/-- The record is well formed: `pubKeys` and `signatures` are set together; a record without
them has no redeem or witness script type and is not of a type that `buildInput` passes to
`buildStack`; and a recorded redeem or witness script type comes with its script. -/
def InputOK (input : Input) : Prop :=
  input.pubKeys.isSome = input.signatures.isSome ∧
  (input.signatures = none → input.redeemScriptType = none ∧ input.witnessScriptType = none ∧
    supportedType input.prevOutType = false ∧ input.prevOutType ≠ some ScriptType.P2WPKH) ∧
  (input.redeemScriptType.isSome = true → input.redeemScript.isSome = true) ∧
  (input.witnessScriptType.isSome = true → input.witnessScript.isSome = true)

/-- Every record of the builder is well formed. -/
def RecordsOK (s : TransactionBuilder) : Prop :=
  ∀ input, some input ∈ s.inputs → InputOK input

/-- Every record of the builder is well formed and `inputs` is as long as `tx.ins`. -/
def BuildInvariant (s : TransactionBuilder) : Prop :=
  RecordsOK s ∧ s.inputs.length = s.tx.ins.length

/-- The record is a single-signature spend: PubKeyHash, PubKey or WitnessPubKeyHash directly or
as the redeem script type under P2SH, or PubKeyHash or PubKey as the witness script type under
P2WSH or P2SH-P2WSH. -/
def singleSigShape (input : Input) : Bool :=
  let inner : Bool :=
    input.witnessScriptType = some ScriptType.P2PKH ∨ input.witnessScriptType = some ScriptType.P2PK
  match input.prevOutType with
  | some ScriptType.P2PKH => true
  | some ScriptType.P2PK => true
  | some ScriptType.P2WPKH => true
  | some ScriptType.P2SH =>
    match input.redeemScriptType with
    | some ScriptType.P2PKH => true
    | some ScriptType.P2PK => true
    | some ScriptType.P2WPKH => true
    | some ScriptType.P2WSH => inner
    | _ => false
  | some ScriptType.P2WSH => inner
  | _ => false

/-- The record is a single-signature spend whose single signature slot is absent: the list
`signatures` is empty, as it is before a key was matched to the input, or its first slot
does not hold a `Buffer`. -/
def UnsignedSingle (input : Input) : Prop :=
  singleSigShape input = true ∧
    ∃ signatures, input.signatures = some signatures ∧ isBuffer signatures.head?.join = false

/-- The record has no resolvable script type. -/
def Untyped (input : Input) : Prop :=
  input.witnessScriptType = none ∧ input.redeemScriptType = none ∧ input.prevOutType = none

/-- The chunks of the unlocking script that do not come from the signature stack: the redeem
script of a P2SH spend with a recorded redeem script type. -/
def wrapperScript (input : Input) : List Chunk :=
  match input.prevOutType, input.redeemScriptType, input.redeemScript with
  | some ScriptType.P2SH, some _, some redeemScript => [Chunk.buf redeemScript]
  | _, _, _ => []

/-- The elements of the witness that do not come from the signature stack: the witness script
of a P2WSH or P2SH-P2WSH spend with a supported witness script type. -/
def wrapperWitness (input : Input) : List Chunk :=
  let resolved : Option ScriptType :=
    if input.prevOutType = some ScriptType.P2SH ∧ input.redeemScriptType.isSome then
      input.redeemScriptType
    else input.prevOutType
  match resolved, input.witnessScript with
  | some ScriptType.P2WSH, some witnessScript =>
    if supportedType input.witnessScriptType then [Chunk.buf witnessScript] else []
  | _, _ => []

/-- The present signatures of a slot list, in slot order: every absent slot is removed. -/
def presentSignatures (signatures : List Slot) : List Chunk :=
  signatures.filterMap (fun sl => if truthy sl then sl else none)

/-- One element per slot, in slot order: the signature of a present slot and the placeholder
`OP_0` for an absent one. -/
def withPlaceholders (signatures : List Slot) : List Chunk :=
  signatures.map (fun sl => if truthy sl then sl.getD (Chunk.op 0) else Chunk.op 0)

/-- The sum of the recorded values of the input records; a record without a value counts
zero. -/
def recordedInputValue (s : TransactionBuilder) : Nat :=
  (s.inputs.map (fun oi =>
    match oi with
    | some x => x.value.getD 0
    | none => 0)).sum

/-- The sum of the output values. -/
def outputValue (s : TransactionBuilder) : Nat :=
  (s.tx.outs.map (fun x => x.value)).sum

/-- The fee guard in the words of the specification: the sum of the recorded input values
minus the sum of the output values, divided by the size, exceeds the maximum fee rate. -/
def feeRateExceeds (s : TransactionBuilder) (bytes : Nat) : Prop :=
  (((recordedInputValue s : Int) - (outputValue s : Int) : Int) : ℚ) / (bytes : ℚ) >
    (s.maximumFeeRate : ℚ)

/-- The record after `sign` has stored the witness value given to it, if one was given
(`input.value = witnessValue`). -/
def recordValue (input : Input) (witnessValue : Option Nat) : Input :=
  match witnessValue with
  | none => input
  | some v => { input with value := some v }

/-- No signature slot of any input record is absent. -/
def allSlotsPresent (s : TransactionBuilder) : Bool :=
  s.inputs.all (fun oi =>
    match oi with
    | none => true
    | some input =>
      match input.signatures with
      | none => true
      | some signatures => signatures.all truthy)

/-- The record of a bare pay-to-pubkey-hash spend of the key `pubKey` whose single slot holds
`signature`: `prevOutType` PubKeyHash, `prevOutScript` the P2PKH script of `hash160(pubKey)`,
`witness` false, `pubKeys = [pubKey]`. -/
def barePubKeyHashRecord (env : Collab) (pubKey : Buffer) (signature : Slot) : Input :=
  { prevOutScript := some (env.pubKeyHashOutputEncode (env.hash160 pubKey))
    prevOutType := some ScriptType.P2PKH
    signScript := some (env.pubKeyHashOutputEncode (env.hash160 pubKey))
    signType := some ScriptType.P2PKH
    pubKeys := some [some (Chunk.buf pubKey)]
    signatures := some [signature]
    witness := some false }

/-- The test that `fixMultisigOrder` makes on a signature and a public key: the signature
parses, and it verifies against the key for the digest of its own hash type. -/
def verifiesAgainst (env : Collab) (transaction : Transaction) (vin : Nat)
    (redeemScript : Buffer) (pubKey : Slot) (signature : Chunk) : Bool :=
  match env.parseScriptSignature signature with
  | none => false
  | some (sig, hashType) =>
    env.verify pubKey (env.hashForSignature transaction vin redeemScript hashType) sig

/-- The stack that strict `buildStack` returned for the type `t` has the layout of the
templates, and the keys of the record are those that `extractChunks` reads back.
PubKeyHash: one signature and one key, on the stack in this order. PubKey: one signature,
alone on the stack, and the key is the one decoded from the script. MultiSig: every slot
holds a signature that is not an empty push, the stack is one leading element followed by
the signatures, and the keys are those decoded from the script, as many as signatures. -/
def TemplateStack (env : Collab) (t : ScriptType) (signatures pubKeys : List Slot)
    (script : Option Buffer) (stack : List Chunk) : Prop :=
  match t with
  | ScriptType.P2PKH =>
    ∃ sig k, signatures = [some (Chunk.buf sig)] ∧ pubKeys = [some (Chunk.buf k)] ∧
      stack = [Chunk.buf sig, Chunk.buf k]
  | ScriptType.P2PK =>
    ∃ sig S, signatures = [some (Chunk.buf sig)] ∧ script = some S ∧
      pubKeys = [some (Chunk.buf (env.pubKeyOutputDecode S))] ∧ stack = [Chunk.buf sig]
  | ScriptType.MULTISIG =>
    ∃ x l S, signatures = l.map some ∧ (∀ c ∈ l, blankToUndefined c = some c) ∧
      stack = x :: l ∧ script = some S ∧
      pubKeys = (env.multisigOutputDecodePubKeys S).map (fun k => some (Chunk.buf k)) ∧
      pubKeys.length = signatures.length
  | _ => False

/-- The record is of a shape that survives export and import, and the script codec and the
classifiers of the templates read its unlocking data back: a bare PubKeyHash or
WitnessPubKeyHash spend, or a PubKeyHash, PubKey, MultiSig or WitnessPubKeyHash spend wrapped
in P2SH, or a PubKeyHash, PubKey or MultiSig spend wrapped in P2WSH or in P2SH-P2WSH. In each
case `stack` is what strict `buildStack` returns for the signable type. The unlocking script
is compiled from the chunks named in `decompile (compile ...)`. For a signable type under
P2SH the codec must return the redeem script as the last chunk, after chunks `back` that
have the layout of the template with the signatures and the keys of the record; `back` need
not be `stack`, so the leading empty push of a multisig stack may be read back as `OP_0`.
In the other cases the codec must return the chunks unchanged. -/
def ReadsBack (env : Collab) (input : Input) : Prop :=
  env.compile [] = [] ∧ env.decompile [] = [] ∧
  ∃ signatures pubKeys stack, input.signatures = some signatures ∧
    input.pubKeys = some pubKeys ∧
    ((input.prevOutType = some ScriptType.P2PKH ∧
        buildStack env (some ScriptType.P2PKH) (some signatures) (some pubKeys) false =
          Except.ok stack ∧
        TemplateStack env ScriptType.P2PKH signatures pubKeys none stack ∧
        env.decompile (env.compile (stack.map some)) = stack ∧
        env.classifyInput stack true ≠ ScriptType.P2SH ∧
        env.classifyWitness [] true ≠ ScriptType.P2WSH ∧
        env.classifyWitness [] true ≠ ScriptType.P2WPKH ∧
        env.classifyInputScript (env.compile (stack.map some)) = ScriptType.P2PKH) ∨
      (input.prevOutType = some ScriptType.P2WPKH ∧
        buildStack env (some ScriptType.P2PKH) (some signatures) (some pubKeys) false =
          Except.ok stack ∧
        TemplateStack env ScriptType.P2PKH signatures pubKeys none stack ∧
        env.classifyInput [] true ≠ ScriptType.P2SH ∧
        env.classifyWitness stack true = ScriptType.P2WPKH) ∨
      (input.prevOutType = some ScriptType.P2SH ∧
        ∃ t R back, input.redeemScriptType = some t ∧ supportedType (some t) = true ∧
          input.redeemScript = some R ∧
          buildStack env (some t) (some signatures) (some pubKeys) false = Except.ok stack ∧
          env.decompile (env.compile (stack.map some ++ [some (Chunk.buf R)])) =
            back ++ [Chunk.buf R] ∧
          TemplateStack env t signatures pubKeys (some R) back ∧
          env.classifyInput (back ++ [Chunk.buf R]) true = ScriptType.P2SH ∧
          env.classifyWitness [] true ≠ ScriptType.P2WSH ∧
          env.classifyWitness [] true ≠ ScriptType.P2WPKH ∧
          env.classifyOutput R = t) ∨
      (input.prevOutType = some ScriptType.P2SH ∧
        input.redeemScriptType = some ScriptType.P2WPKH ∧
        ∃ R sig k, input.redeemScript = some R ∧
          buildStack env (some ScriptType.P2PKH) (some signatures) (some pubKeys) false =
            Except.ok stack ∧
          signatures = [some (Chunk.buf sig)] ∧ pubKeys = [some (Chunk.buf k)] ∧
          stack = [Chunk.buf sig, Chunk.buf k] ∧
          env.decompile (env.compile [some (Chunk.buf R)]) = [Chunk.buf R] ∧
          env.classifyInput [Chunk.buf R] true = ScriptType.P2SH ∧
          env.classifyWitness stack true = ScriptType.P2WPKH ∧
          R = env.witnessPubKeyHashOutputEncode (env.hash160 k)) ∨
      (input.prevOutType = some ScriptType.P2WSH ∧
        ∃ t W, input.witnessScriptType = some t ∧ supportedType (some t) = true ∧
          input.witnessScript = some W ∧
          buildStack env (some t) (some signatures) (some pubKeys) false = Except.ok stack ∧
          TemplateStack env t signatures pubKeys (some W) stack ∧
          env.classifyInput [] true ≠ ScriptType.P2SH ∧
          env.classifyWitness (stack ++ [Chunk.buf W]) true = ScriptType.P2WSH ∧
          env.classifyOutput W = t) ∨
      (input.prevOutType = some ScriptType.P2SH ∧
        input.redeemScriptType = some ScriptType.P2WSH ∧
        ∃ t R W, input.redeemScript = some R ∧ input.witnessScriptType = some t ∧
          supportedType (some t) = true ∧ input.witnessScript = some W ∧
          buildStack env (some t) (some signatures) (some pubKeys) false = Except.ok stack ∧
          TemplateStack env t signatures pubKeys (some W) stack ∧
          env.decompile (env.compile [some (Chunk.buf R)]) = [Chunk.buf R] ∧
          env.classifyInput [Chunk.buf R] true = ScriptType.P2SH ∧
          env.classifyWitness (stack ++ [Chunk.buf W]) true = ScriptType.P2WSH ∧
          R = env.witnessScriptHashOutputEncode (env.sha256 W) ∧
          env.classifyOutput W = t))

/-- The facts about a builder that exporting and importing again relies on: version and
locktime are uint32 and the array `inputs` has no hole. -/
def ExportInvariant (s : TransactionBuilder) : Prop :=
  isUInt32 s.tx.version = true ∧ isUInt32 s.tx.locktime = true ∧
  ∀ oi ∈ s.inputs, oi.isSome = true

/-- The builder after a run of `addOutput` calls, returning or throwing, made in order; a call
is given by its `scriptPubKey` argument and its value. -/
def afterOutputs (env : Collab) (s : TransactionBuilder)
    (calls : List (ScriptPubKeyArg × Nat)) : TransactionBuilder :=
  calls.foldl (fun st c => (addOutput env st c.1 c.2).1) s

/-- The record of a P2SH-wrapped witness-pubkey-hash spend of the key `pubKey`, as `sign`
leaves it: the redeem script is the P2WPKH program of `hash160(pubKey)`, the value is
recorded, `pubKeys = [pubKey]` and the single slot holds `signature`. -/
def nestedWitnessKeyRecord (env : Collab) (pubKey : Buffer) (value : Nat) (signature : Slot) :
    Input :=
  { prevOutScript := some (env.scriptHashOutputEncode
      (env.hash160 (env.witnessPubKeyHashOutputEncode (env.hash160 pubKey))))
    prevOutType := some ScriptType.P2SH
    signScript := some (env.pubKeyHashOutputEncode (env.witnessPubKeyHashOutputDecode
      (env.witnessPubKeyHashOutputEncode (env.hash160 pubKey))))
    signType := some ScriptType.P2WPKH
    pubKeys := some [some (Chunk.buf pubKey)]
    signatures := some [signature]
    witness := some true
    value := some value
    redeemScript := some (env.witnessPubKeyHashOutputEncode (env.hash160 pubKey))
    redeemScriptType := some ScriptType.P2WPKH }

/-- Every object of the store `m` is in the store `m1`, at its address and as it was. -/
def Store.Extends (m m1 : Store) : Prop :=
  m.length ≤ m1.length ∧ ∀ p, p < m.length → m1[p]? = m[p]?

/-- The value of a `pubKeys` or `signatures` property read through the store: `undefined`,
or the content of the array it refers to. -/
def Store.readSlots (m : Store) (ref : Option Nat) : Option (Option (List Slot)) :=
  match ref with
  | none => some none
  | some a => (Store.array m a).map some

/-- The input record that a record object stands for. -/
def Store.readInput (m : Store) (r : InputObject) : Option Input :=
  match Store.readSlots m r.pubKeys, Store.readSlots m r.signatures with
  | some pubKeys, some signatures =>
    some { prevOutScript := r.prevOutScript, prevOutType := r.prevOutType,
           signScript := r.signScript, signType := r.signType,
           pubKeys := pubKeys, signatures := signatures,
           witness := r.witness, value := r.value,
           redeemScript := r.redeemScript, redeemScriptType := r.redeemScriptType,
           witnessScript := r.witnessScript, witnessScriptType := r.witnessScriptType }
  | _, _ => none

/-- The list `inputs` that an array of record addresses stands for. -/
def Store.readRecords (m : Store) : List (Option Nat) → Option (List (Option Input))
  | [] => some []
  | none :: rest => (Store.readRecords m rest).map (fun l => none :: l)
  | some a :: rest =>
    match (Store.record m a).bind (Store.readInput m), Store.readRecords m rest with
    | some input, some l => some (some input :: l)
    | _, _ => none

/-- The builder state that the builder object at address `this` stands for: its `prevTxMap`,
its input records with their `pubKeys` and `signatures` arrays, and its draft
transaction. -/
def Store.readBuilder (m : Store) (this : Nat) : Option TransactionBuilder :=
  match Store.builder m this with
  | none => none
  | some b =>
    match Store.map m b.prevTxMap, Store.records m b.inputs, Store.transaction m b.tx with
    | some pm, some refs, some t =>
      (Store.readRecords m refs).map (fun inputs =>
        { prevTxMap := pm, network := b.network, maximumFeeRate := b.maximumFeeRate,
          inputs := inputs, tx := t })
    | _, _, _ => none

/-- What a call of `__build` over the store gave: the transaction at the address returned,
or the error thrown. -/
def Store.outcome (r : Store × Except Err Nat) : Except Err (Option Transaction) :=
  match r.2 with
  | Except.ok a => Except.ok (Store.transaction r.1 a)
  | Except.error e => Except.error e

/-- The store with a new array for a `pubKeys` or `signatures` property, if it is set. -/
def Store.allocSlots (m : Store) (slots : Option (List Slot)) : Store × Option Nat :=
  match slots with
  | none => (m, none)
  | some elems => ((Store.alloc m (Obj.array elems)).1, some (Store.alloc m (Obj.array elems)).2)

/-- The store with a new record object for the input record `input`, with its own arrays. -/
def Store.allocInput (m : Store) (input : Input) : Store × Nat :=
  let p := Store.allocSlots m input.pubKeys
  let s := Store.allocSlots p.1 input.signatures
  Store.alloc s.1 (Obj.record
    { prevOutScript := input.prevOutScript, prevOutType := input.prevOutType,
      signScript := input.signScript, signType := input.signType,
      pubKeys := p.2, signatures := s.2,
      witness := input.witness, value := input.value,
      redeemScript := input.redeemScript, redeemScriptType := input.redeemScriptType,
      witnessScript := input.witnessScript, witnessScriptType := input.witnessScriptType })

/-- The store with new record objects for the list `inputs`. -/
def Store.allocInputs : Store → List (Option Input) → Store × List (Option Nat)
  | m, [] => (m, [])
  | m, none :: rest =>
    ((Store.allocInputs m rest).1, none :: (Store.allocInputs m rest).2)
  | m, some input :: rest =>
    ((Store.allocInputs (Store.allocInput m input).1 rest).1,
      some (Store.allocInput m input).2 ::
        (Store.allocInputs (Store.allocInput m input).1 rest).2)

/-- A store that holds the builder state `s` and nothing else, and the address of the builder
object in it. -/
def Store.ofBuilder (s : TransactionBuilder) : Store × Nat :=
  let i := Store.allocInputs [] s.inputs
  let refs := Store.alloc i.1 (Obj.records i.2)
  let pm := Store.alloc refs.1 (Obj.map s.prevTxMap)
  let t := Store.alloc pm.1 (Obj.transaction s.tx)
  Store.alloc t.1 (Obj.builder
    { prevTxMap := pm.2, network := s.network, maximumFeeRate := s.maximumFeeRate,
      inputs := refs.2, tx := t.2 })

/-- The errors that `build()` and `buildIncomplete()` are said to be able to fail with: the
no-inputs and no-outputs errors, "Transaction is not complete", "Not enough signatures
provided", "Impossible to sign this type", "<type> not supported" and the fee error. -/
def BuildError (e : Err) : Prop :=
  e = Err.noInputs ∨ e = Err.noOutputs ∨ e = Err.notComplete ∨
  e = Err.notEnoughSignatures ∨ e = Err.impossibleToSign ∨
  (∃ t, e = Err.typeNotSupported t) ∨ e = Err.absurdFees

/-- The postcondition of the matching of `fixMultisigOrder`, with `pos i` the position in the
original list of the signature that slot `i` took, if it took one. The result has one slot
per key. A slot that took position `j` holds the signature found there, which is present
and verifies against the key of the slot under the legacy digest for its own hash type. A
slot that took none is `undefined`. No position is taken by two slots. And for each slot,
every original position holding a present signature that verifies against the key of the
slot was taken by an earlier slot or is not before the position that this slot took: the
slot holds the first signature, in original order, that was still unmatched and verifies
against its key, if there is one. -/
def GreedyMatch (env : Collab) (transaction : Transaction) (vin : Nat) (redeemScript : Buffer)
    (pubKeys original out : List Slot) (pos : Nat → Option Nat) : Prop :=
  out.length = pubKeys.length ∧
  (∀ (i j : Nat), i < pubKeys.length → pos i = some j →
    ∃ (c : Chunk) (pk : Slot), original[j]? = some (some c) ∧ truthy (some c) = true ∧
      pubKeys[i]? = some pk ∧
      verifiesAgainst env transaction vin redeemScript pk c = true ∧
      out[i]? = some (some c)) ∧
  (∀ (i : Nat), i < pubKeys.length → pos i = none → out[i]? = some none) ∧
  (∀ (i i2 j : Nat), i < pubKeys.length → i2 < pubKeys.length →
    pos i = some j → pos i2 = some j → i = i2) ∧
  (∀ (i : Nat) (pk : Slot) (q : Nat) (c : Chunk), i < pubKeys.length →
    pubKeys[i]? = some pk → original[q]? = some (some c) → truthy (some c) = true →
    verifiesAgainst env transaction vin redeemScript pk c = true →
    (∃ i2, i2 < i ∧ pos i2 = some q) ∨ ∃ j, pos i = some j ∧ j ≤ q)

/-! ## The mutation guards -/

theorem everyM_eq_true {α : Type} (f : α → Except Err Bool) (xs : List α) :
    everyM f xs = Except.ok true ↔ ∀ x ∈ xs, f x = Except.ok true := by
  induction xs with
  | nil => simp [everyM]
  | cons x xs ih =>
    simp only [everyM, List.mem_cons, forall_eq_or_imp]
    cases hx : f x with
    | error e => simp
    | ok b => cases b <;> simp [ih]

theorem signatureHashType_ok (c : Chunk) (x : Nat) :
    signatureHashType c = Except.ok x ↔ HasHashType c x := by
  unfold signatureHashType HasHashType
  cases c with
  | op n => simp
  | buf b =>
    cases h : b.getLast? with
    | none => simp [h]
    | some y => simp [h]

/-- Both guards run the same double `every`; it returns `true` exactly when the callback
does so on every slot of every record that has a `signatures` array. -/
theorem everySig_ok (f : Slot → Except Err Bool) (s : TransactionBuilder) :
    everyM (fun oi : Option Input =>
      match oi with
      | none => Except.ok true
      | some input =>
        match input.signatures with
        | none => Except.ok true
        | some signatures => everyM f signatures) s.inputs = Except.ok true ↔
    ∀ input signatures, some input ∈ s.inputs → input.signatures = some signatures →
      ∀ sl ∈ signatures, f sl = Except.ok true := by
  rw [everyM_eq_true]
  constructor
  · intro h input sigs hin hs sl hsl
    have h1 := h (some input) hin
    simp only [hs] at h1
    rw [everyM_eq_true] at h1
    exact h1 sl hsl
  · intro h oi hin
    cases oi with
    | none => rfl
    | some input =>
      cases hs : input.signatures with
      | none => simp only [hs]
      | some sigs =>
        simp only [hs]
        rw [everyM_eq_true]
        exact h input sigs hin hs

theorem canModifyInputsSig_ok (sl : Slot) :
    canModifyInputsSig sl = Except.ok true ↔
      ∀ c, sl = some c → truthy (some c) = true →
        ∃ x, HasHashType c x ∧ x &&& SIGHASH_ANYONECANPAY ≠ 0 := by
  unfold canModifyInputsSig
  cases sl with
  | none => simp
  | some c =>
    by_cases ht : truthy (some c) = true
    · simp only [ht, Option.some.injEq, forall_eq', forall_true_left]
      cases hs : signatureHashType c with
      | error e =>
        constructor
        · intro h
          cases h
        · rintro ⟨x, hx, _⟩
          rw [← signatureHashType_ok, hs] at hx
          cases hx
      | ok h =>
        have hh := (signatureHashType_ok c h).1 hs
        simp only [Bool.true_eq_false, if_false, Except.ok.injEq, bne_iff_ne, ne_eq]
        constructor
        · intro hne
          exact ⟨h, hh, hne⟩
        · rintro ⟨x, hx, hne⟩
          rw [← signatureHashType_ok, hs] at hx
          cases hx
          exact hne
    · simp [ht]

theorem canModifyOutputsSig_ok (nInputs nOutputs : Nat) (sl : Slot) :
    canModifyOutputsSig nInputs nOutputs sl = Except.ok true ↔
      ∀ c, sl = some c → truthy (some c) = true →
        ∃ x, HasHashType c x ∧ (x &&& 0x1f = SIGHASH_NONE ∨
          (x &&& 0x1f = SIGHASH_SINGLE ∧ nInputs ≤ nOutputs)) := by
  unfold canModifyOutputsSig
  cases sl with
  | none => simp
  | some c =>
    by_cases ht : truthy (some c) = true
    · simp only [ht, Option.some.injEq, forall_eq', forall_true_left]
      cases hs : signatureHashType c with
      | error e =>
        constructor
        · intro h
          cases h
        · rintro ⟨x, hx, _⟩
          rw [← signatureHashType_ok, hs] at hx
          cases hx
      | ok h =>
        have hh := (signatureHashType_ok c h).1 hs
        have huniq : ∀ x, HasHashType c x → x = h := by
          intro x hx
          rw [← signatureHashType_ok, hs] at hx
          cases hx
          rfl
        simp only [Bool.true_eq_false, if_false]
        by_cases h1 : h &&& 0x1f = SIGHASH_NONE
        · rw [if_pos h1]
          simp only [true_iff]
          exact ⟨h, hh, Or.inl h1⟩
        · by_cases h2 : h &&& 0x1f = SIGHASH_SINGLE
          · rw [if_neg h1, if_pos h2]
            simp only [Except.ok.injEq, decide_eq_true_eq]
            constructor
            · intro hle
              exact ⟨h, hh, Or.inr ⟨h2, hle⟩⟩
            · rintro ⟨x, hx, hor⟩
              rw [huniq x hx] at hor
              rcases hor with hn | ⟨_, hle⟩
              · exact absurd hn h1
              · exact hle
          · rw [if_neg h1, if_neg h2]
            simp only [Except.ok.injEq, Bool.false_eq_true, false_iff]
            rintro ⟨x, hx, hor⟩
            rw [huniq x hx] at hor
            rcases hor with hn | ⟨hsg, _⟩
            · exact h1 hn
            · exact h2 hsg
    · simp [ht]

/-- The guard `__canModifyInputs()` passes exactly when every present signature carries the
ANYONECANPAY bit. -/
theorem canModifyInputs_ok_iff (s : TransactionBuilder) :
    canModifyInputs s = Except.ok true ↔
      ∀ c, PresentSig s c → ∃ x, HasHashType c x ∧ x &&& 0x80 ≠ 0 := by
  unfold canModifyInputs PresentSig
  rw [everySig_ok]
  constructor
  · rintro h c ⟨input, sigs, hin, hs, hc, ht⟩
    exact (canModifyInputsSig_ok (some c)).1 (h input sigs hin hs (some c) hc) c rfl ht
  · intro h input sigs hin hs sl hsl
    rw [canModifyInputsSig_ok]
    intro c hc ht
    subst hc
    exact h c ⟨input, sigs, hin, hs, hsl, ht⟩

/-- C3. `__canModifyInputs()` returns a truthy value if and only if every present (truthy)
signature of every input record is a byte string whose trailing hash-type byte has the
ANYONECANPAY bit `0x80` set. Records without a `signatures` array and absent slots are
not quantified over, so they never make the result false. -/
theorem canModifyInputs_iff (s : TransactionBuilder) :
    canModifyInputs s = Except.ok true ↔
      ∀ c, PresentSig s c → ∃ x, HasHashType c x ∧ x &&& 0x80 ≠ 0 :=
  canModifyInputs_ok_iff s

/-- The guard `__canModifyOutputs()` passes exactly when every present signature has base mode
NONE, or SINGLE with no more inputs than outputs. -/
theorem canModifyOutputs_ok_iff (s : TransactionBuilder) :
    canModifyOutputs s = Except.ok true ↔
      ∀ c, PresentSig s c → ∃ x, HasHashType c x ∧ (x &&& 0x1f = SIGHASH_NONE ∨
        (x &&& 0x1f = SIGHASH_SINGLE ∧ s.tx.ins.length ≤ s.tx.outs.length)) := by
  unfold canModifyOutputs PresentSig
  simp only
  rw [everySig_ok]
  constructor
  · rintro h c ⟨input, sigs, hin, hs, hc, ht⟩
    exact (canModifyOutputsSig_ok _ _ (some c)).1 (h input sigs hin hs (some c) hc) c rfl ht
  · intro h input sigs hin hs sl hsl
    rw [canModifyOutputsSig_ok]
    intro c hc ht
    subst hc
    exact h c ⟨input, sigs, hin, hs, hsl, ht⟩

/-- C4. `__canModifyOutputs()` is true if and only if every present signature of every input
record has base mode (trailing byte `& 0x1f`) NONE, or base mode SINGLE while the number
of transaction inputs does not exceed the number of outputs. In particular a present
signature with base mode ALL (with or without ANYONECANPAY) makes it not true, and when
every present signature has base mode NONE it is true. -/
theorem canModifyOutputs_iff (s : TransactionBuilder) :
    (canModifyOutputs s = Except.ok true ↔
      ∀ c, PresentSig s c → ∃ x, HasHashType c x ∧ (x &&& 0x1f = SIGHASH_NONE ∨
        (x &&& 0x1f = SIGHASH_SINGLE ∧ s.tx.ins.length ≤ s.tx.outs.length))) ∧
    ((∃ c x, PresentSig s c ∧ HasHashType c x ∧ x &&& 0x1f = SIGHASH_ALL) →
      canModifyOutputs s ≠ Except.ok true) ∧
    ((∀ c, PresentSig s c → ∃ x, HasHashType c x ∧ x &&& 0x1f = SIGHASH_NONE) →
      canModifyOutputs s = Except.ok true) := by
  have key := canModifyOutputs_ok_iff s
  refine ⟨key, ?_, ?_⟩
  · rintro ⟨c, x, hp, hx, hall⟩ hok
    obtain ⟨y, hy, hor⟩ := key.1 hok c hp
    obtain ⟨b, hb, hl⟩ := hx
    obtain ⟨b2, hb2, hl2⟩ := hy
    rw [hb] at hb2
    cases hb2
    rw [hl] at hl2
    cases hl2
    rw [hall] at hor
    rcases hor with h1 | ⟨h1, _⟩ <;> simp [SIGHASH_ALL, SIGHASH_NONE, SIGHASH_SINGLE] at h1
  · intro h
    apply key.2
    intro c hp
    obtain ⟨x, hx, hn⟩ := h c hp
    exact ⟨x, hx, Or.inl hn⟩

/-! ## Signing -/

theorem arraySet_lt {α : Type} (xs : List (Option α)) (i : Nat) (x : Option α)
    (h : i < xs.length) : arraySet xs i x = xs.set i x := by
  unfold arraySet
  rw [if_pos h]

theorem canSign_lengths (input : Input) (h : canSign input = true) :
    ∃ pubKeys signatures signScript, input.pubKeys = some pubKeys ∧
      input.signatures = some signatures ∧ input.signScript = some signScript ∧
      signatures.length = pubKeys.length ∧ 0 < pubKeys.length := by
  unfold canSign at h
  cases hp : input.pubKeys with
  | none => simp [hp] at h
  | some pubKeys =>
    cases hs : input.signatures with
    | none => simp [hp, hs] at h
    | some signatures =>
      cases hss : input.signScript with
      | none => simp [hss] at h
      | some signScript =>
        simp only [hp, hs, Bool.and_eq_true, decide_eq_true_eq] at h
        exact ⟨pubKeys, signatures, signScript, rfl, rfl, rfl, h.1.2.1, h.1.2.2⟩

theorem canSign_set_signatures (input : Input) (signatures : List Slot)
    (old : List Slot) (ho : input.signatures = some old) (hl : signatures.length = old.length)
    (h : canSign input = true) :
    canSign { input with signatures := some signatures } = true := by
  unfold canSign at h ⊢
  cases hp : input.pubKeys with
  | none => simp [hp] at h
  | some pubKeys =>
    simp only [hp, ho] at h
    simp only [hp, hl]
    exact h

/-- What a successful run of the key-matching loop of `sign` did: it stopped at the first
key slot equal to the signer key, found the signature slot of that index falsy, and
stored the new signature there. -/
theorem signLoop_ok (env : Collab) (keyPair : KeyPair) (k : Buffer) (st : Option ScriptType)
    (hash : Buffer) (ht : Nat) (sigs : List Slot) (pks : List Slot) (i : Nat)
    (sigs1 : List Slot)
    (h : signLoop env keyPair k st hash ht sigs pks i = Except.ok (some sigs1)) :
    ∃ n sig, pks[n]? = some (some (Chunk.buf k)) ∧
      (∀ m, m < n → ∃ p, pks[m]? = some (some (Chunk.buf p)) ∧ p ≠ k) ∧
      truthy (sigs[i + n]?).join = false ∧
      keyPair.sign env hash = Except.ok sig ∧
      ¬ (k.length ≠ 33 ∧ st = some ScriptType.P2WPKH) ∧
      sigs1 = arraySet sigs (i + n) (some (Chunk.buf (toScriptSignature sig ht))) := by
  induction pks generalizing i with
  | nil => simp [signLoop] at h
  | cons pk rest ih =>
    match pk with
    | none => simp [signLoop] at h
    | some (Chunk.op n) => simp [signLoop] at h
    | some (Chunk.buf p) =>
      unfold signLoop at h
      by_cases hk : k = p
      · subst hk
        simp only [ne_eq, not_true_eq_false, if_false] at h
        split at h
        · cases h
        · split at h
          · cases h
          · rename_i htr hbip
            cases hsig : keyPair.sign env hash with
            | error e => simp [hsig] at h
            | ok sig =>
              simp only [hsig, Except.ok.injEq, Option.some.injEq] at h
              refine ⟨0, sig, by simp, ?_, ?_, rfl, hbip, h.symm⟩
              · intro m hm
                omega
              · simpa using htr
      · simp only [ne_eq, hk, not_false_eq_true, if_true] at h
        obtain ⟨n, sig, h1, h2, h3, h4, h5, h6⟩ := ih (i + 1) h
        refine ⟨n + 1, sig, ?_, ?_, ?_, h4, h5, ?_⟩
        · simpa using h1
        · intro m hm
          cases m with
          | zero => exact ⟨p, by simp, fun hpk => hk hpk.symm⟩
          | succ m =>
            have := h2 m (by omega)
            simpa using this
        · rw [show i + (n + 1) = i + 1 + n by omega]
          exact h3
        · rw [show i + (n + 1) = i + 1 + n by omega]
          exact h6

/-- The loop throws "Signature already exists" when the first key slot equal to the signer
key has a truthy signature slot. -/
theorem signLoop_exists (env : Collab) (keyPair : KeyPair) (k : Buffer)
    (st : Option ScriptType) (hash : Buffer) (ht : Nat) (sigs : List Slot) (pks : List Slot)
    (i n : Nat) (h1 : pks[n]? = some (some (Chunk.buf k)))
    (h2 : ∀ m, m < n → ∃ p, pks[m]? = some (some (Chunk.buf p)) ∧ p ≠ k)
    (h3 : truthy (sigs[i + n]?).join = true) :
    signLoop env keyPair k st hash ht sigs pks i = Except.error Err.signatureAlreadyExists := by
  induction n generalizing pks i with
  | zero =>
    match pks with
    | [] => simp at h1
    | pk :: rest =>
      simp only [List.getElem?_cons_zero, Option.some.injEq] at h1
      subst h1
      unfold signLoop
      simp only [Nat.add_zero] at h3
      rw [if_neg (not_not.mpr rfl), if_pos h3]
  | succ n ih =>
    match pks with
    | [] => simp at h1
    | pk :: rest =>
      obtain ⟨p, hp, hpk⟩ := h2 0 (by omega)
      simp only [List.getElem?_cons_zero, Option.some.injEq] at hp
      subst hp
      unfold signLoop
      rw [if_pos (fun h => hpk (Eq.symm h))]
      apply ih rest (i + 1)
      · simpa using h1
      · intro m hm
        have := h2 (m + 1) (by omega)
        simpa using this
      · rw [show i + 1 + n = i + (n + 1) by omega]
        exact h3


theorem isSome_of_not_isNone {α : Type} (o : Option α) (h : ¬ o.isNone = true) :
    o.isSome = true := by
  cases o with
  | none => exact absurd rfl h
  | some _ => rfl

/-- The shape of an expansion: `pubKeys` and `signatures` are set together, with all slots
`undefined`; they are set for the four types the function knows and only for them. -/
theorem expandOutputSwitch_shape (env : Collab) (chunks : List Chunk) (st : ScriptType)
    (k : Option Buffer) (expanded : ExpandedOutput)
    (h : expandOutputSwitch env chunks st k = Except.ok expanded) :
    expanded.scriptType = st ∧
    expanded.pubKeys.isSome = expanded.signatures.isSome ∧
    (expanded.pubKeys = none →
      supportedType (some expanded.scriptType) = false ∧
      expanded.scriptType ≠ ScriptType.P2WPKH) ∧
    (expanded.scriptType = ScriptType.P2PKH ∨ expanded.scriptType = ScriptType.P2PK ∨
      expanded.scriptType = ScriptType.MULTISIG ∨ expanded.scriptType = ScriptType.P2WPKH →
      expanded.pubKeys.isSome = true) ∧
    (∀ signatures, expanded.signatures = some signatures → ∀ sl ∈ signatures, sl = none) := by
  unfold expandOutputSwitch at h
  cases st
  case P2PKH =>
    simp only at h
    cases k with
    | none =>
      cases h
      refine ⟨rfl, rfl, ?_, fun _ => rfl, ?_⟩
      · intro hh; cases hh
      · intro sigs hs sl hsl; cases hs; cases hsl
    | some key =>
      simp only at h
      split at h
      · cases h
      · cases h
        refine ⟨rfl, rfl, ?_, fun _ => rfl, ?_⟩
        · intro hh; cases hh
        · intro sigs hs sl hsl; cases hs; simpa using hsl
      · cases h
        refine ⟨rfl, rfl, ?_, fun _ => rfl, ?_⟩
        · intro hh; cases hh
        · intro sigs hs sl hsl; cases hs; cases hsl
  case P2WPKH =>
    simp only at h
    cases k with
    | none =>
      cases h
      refine ⟨rfl, rfl, ?_, fun _ => rfl, ?_⟩
      · intro hh; cases hh
      · intro sigs hs sl hsl; cases hs; cases hsl
    | some key =>
      simp only at h
      split at h
      · cases h
      · cases h
        refine ⟨rfl, rfl, ?_, fun _ => rfl, ?_⟩
        · intro hh; cases hh
        · intro sigs hs sl hsl; cases hs; simpa using hsl
      · cases h
        refine ⟨rfl, rfl, ?_, fun _ => rfl, ?_⟩
        · intro hh; cases hh
        · intro sigs hs sl hsl; cases hs; cases hsl
  case P2PK =>
    simp only at h
    cases h
    refine ⟨rfl, rfl, ?_, fun _ => rfl, ?_⟩
    · intro hh; cases hh
    · intro sigs hs sl hsl
      cases hs
      simp only [List.mem_map] at hsl
      obtain ⟨_, _, rfl⟩ := hsl
      rfl
  case MULTISIG =>
    simp only at h
    cases h
    refine ⟨rfl, rfl, ?_, fun _ => rfl, ?_⟩
    · intro hh; cases hh
    · intro sigs hs sl hsl
      cases hs
      simp only [List.mem_map] at hsl
      obtain ⟨_, _, rfl⟩ := hsl
      rfl
  case P2SH =>
    simp only at h
    cases h
    refine ⟨rfl, rfl, fun _ => ⟨rfl, by decide⟩, ?_, ?_⟩
    · intro hh; simp at hh
    · intro sigs hs; cases hs
  case P2WSH =>
    simp only at h
    cases h
    refine ⟨rfl, rfl, fun _ => ⟨rfl, by decide⟩, ?_, ?_⟩
    · intro hh; simp at hh
    · intro sigs hs; cases hs
  case NONSTANDARD =>
    simp only at h
    cases h
    refine ⟨rfl, rfl, fun _ => ⟨rfl, by decide⟩, ?_, ?_⟩
    · intro hh; simp at hh
    · intro sigs hs; cases hs

theorem expandOutput_shape (env : Collab) (script : Option Buffer)
    (ty : Option ScriptType) (k : Option Buffer) (expanded : ExpandedOutput)
    (h : expandOutput env script ty k = Except.ok expanded) :
    expanded.pubKeys.isSome = expanded.signatures.isSome ∧
    (expanded.pubKeys = none →
      supportedType (some expanded.scriptType) = false ∧
      expanded.scriptType ≠ ScriptType.P2WPKH) ∧
    (expanded.scriptType = ScriptType.P2PKH ∨ expanded.scriptType = ScriptType.P2PK ∨
      expanded.scriptType = ScriptType.MULTISIG ∨ expanded.scriptType = ScriptType.P2WPKH →
      expanded.pubKeys.isSome = true) ∧
    (∀ t, ty = some t → expanded.scriptType = t) := by
  unfold expandOutput at h
  cases script with
  | none => cases h
  | some sc =>
    simp only at h
    obtain ⟨h1, h2, h3, h4, _⟩ := expandOutputSwitch_shape env _ _ k expanded h
    refine ⟨h2, h3, h4, ?_⟩
    intro t ht
    subst ht
    exact h1

/-- The signature slots made by `expandOutput` are all `undefined`. -/
theorem expandOutput_signatures (env : Collab) (script : Option Buffer)
    (ty : Option ScriptType) (k : Option Buffer) (expanded : ExpandedOutput)
    (h : expandOutput env script ty k = Except.ok expanded) :
    ∀ signatures, expanded.signatures = some signatures → ∀ sl ∈ signatures, sl = none := by
  unfold expandOutput at h
  cases script with
  | none => cases h
  | some sc =>
    simp only at h
    exact (expandOutputSwitch_shape env _ _ k expanded h).2.2.2.2

/-- A successful `prepareInput` either left the record untouched (the early `return`) or made
the final assignments with an expansion that has a `pubKeys` array; a redeem script or a
witness script it stored is the one passed to the call. -/
theorem prepareInput_ok (env : Collab) (input : Input) (k : Buffer)
    (rs : Option Buffer) (wv : Option Nat) (ws : Option Buffer) (input1 : Input)
    (h : prepareInput env input k rs wv ws = Except.ok input1) :
    input1 = input ∨
    ∃ expanded prevOutType prevOutScript p2sh p2wsh witness signType signScript script ty,
      input1 = prepareInputAssign env input expanded prevOutType prevOutScript p2sh p2wsh
        witness signType signScript ∧
      expandOutput env script ty (some k) = Except.ok expanded ∧
      (∀ r t, p2sh = some (r, t) → rs = some r) ∧
      (∀ r t, p2wsh = some (r, t) → ws = some r) ∧
      expanded.pubKeys.isSome = true := by
  unfold prepareInput at h
  cases rs with
  | some r =>
    cases ws with
    | some w =>
      simp only at h
      cases hc : checkP2SHInput env input (env.hash160 r) with
      | error e => simp only [hc] at h; cases h
      | ok u =>
        simp only [hc] at h
        by_cases hne : r ≠ env.witnessScriptHashOutputEncode (env.sha256 w)
        · rw [if_pos hne] at h; cases h
        · rw [if_neg hne] at h
          cases he : expandOutput env (some w) none (some k) with
          | error e => simp only [he] at h; cases h
          | ok expanded =>
            simp only [he] at h
            by_cases hp : expanded.pubKeys.isNone = true
            · rw [if_pos hp] at h; cases h
            · rw [if_neg hp] at h
              cases h
              exact Or.inr ⟨_, _, _, _, _, _, _, _, _, _, rfl, he,
                fun r2 t hr => (by cases hr; rfl), fun r2 t hr => (by cases hr; rfl), isSome_of_not_isNone _ hp⟩
    | none =>
      simp only at h
      cases hc : checkP2SHInput env input (env.hash160 r) with
      | error e => simp only [hc] at h; cases h
      | ok u =>
        simp only [hc] at h
        cases he : expandOutput env (some r) none (some k) with
        | error e => simp only [he] at h; cases h
        | ok expanded =>
          simp only [he] at h
          by_cases hp : expanded.pubKeys.isNone = true
          · rw [if_pos hp] at h; cases h
          · rw [if_neg hp] at h
            cases h
            exact Or.inr ⟨_, _, _, _, _, _, _, _, _, _, rfl, he,
              fun r2 t hr => (by cases hr; rfl), fun r2 t hr => (by cases hr), isSome_of_not_isNone _ hp⟩
  | none =>
    cases ws with
    | some w =>
      simp only at h
      cases hc : checkP2WSHInput env input (env.sha256 w) with
      | error e => simp only [hc] at h; cases h
      | ok u =>
        simp only [hc] at h
        cases he : expandOutput env (some w) none (some k) with
        | error e => simp only [he] at h; cases h
        | ok expanded =>
          simp only [he] at h
          by_cases hp : expanded.pubKeys.isNone = true
          · rw [if_pos hp] at h; cases h
          · rw [if_neg hp] at h
            cases h
            exact Or.inr ⟨_, _, _, _, _, _, _, _, _, _, rfl, he,
              fun r2 t hr => (by cases hr), fun r2 t hr => (by cases hr; rfl), isSome_of_not_isNone _ hp⟩
    | none =>
      simp only at h
      cases ht : input.prevOutType with
      | some t =>
        simp only [ht] at h
        by_cases h2 : t = ScriptType.P2SH ∨ t = ScriptType.P2WSH
        · rw [if_pos h2] at h; cases h
        · rw [if_neg h2] at h
          cases he : expandOutput env input.prevOutScript (some t) (some k) with
          | error e => simp only [he] at h; cases h
          | ok expanded =>
            simp only [he] at h
            by_cases hp : expanded.pubKeys.isNone = true
            · rw [if_pos hp] at h; cases h
              exact Or.inl rfl
            · rw [if_neg hp] at h
              cases hps : input.prevOutScript with
              | none => simp only [hps] at h; cases h
              | some p =>
                simp only [hps] at h
                cases h
                exact Or.inr ⟨_, _, _, _, _, _, _, _, _, _, rfl, he,
                  fun r2 t hr => (by cases hr), fun r2 t hr => (by cases hr), isSome_of_not_isNone _ hp⟩
      | none =>
        simp only [ht] at h
        cases he : expandOutput env (some (env.pubKeyHashOutputEncode (env.hash160 k)))
            (some ScriptType.P2PKH) (some k) with
        | error e => simp only [he] at h; cases h
        | ok expanded =>
          simp only [he] at h
          cases h
          have hsh := expandOutput_shape env _ _ _ expanded he
          exact Or.inr ⟨_, _, _, _, _, _, _, _, _, _, rfl, he,
            fun r2 t hr => (by cases hr), fun r2 t hr => (by cases hr),
            hsh.2.2.1 (Or.inl (hsh.2.2.2 _ rfl))⟩


theorem prepareInputAssign_redeemScript (env : Collab) (input : Input)
    (expanded : ExpandedOutput) (pot : ScriptType) (pos : Buffer)
    (p2sh p2wsh : Option (Buffer × ScriptType)) (w : Bool) (st : ScriptType) (ss : Buffer) :
    (prepareInputAssign env input expanded pot pos p2sh p2wsh w st ss).redeemScript =
      match p2sh with
      | some (r, _) => some r
      | none => input.redeemScript := by
  unfold prepareInputAssign
  cases p2sh with
  | none => cases p2wsh <;> rfl
  | some p => cases p2wsh <;> rfl

theorem signPrepareRest_cases (env : Collab) (input1 : Input) (k : Buffer)
    (rs : Option Buffer) (wv : Option Nat) (ws : Option Buffer) :
    (signPrepareRest env input1 k rs wv ws).1 = input1 ∨
    (canSign input1 = false ∧
      prepareInput env input1 k rs wv ws = Except.ok (signPrepareRest env input1 k rs wv ws).1) := by
  unfold signPrepareRest
  by_cases hc : canSign input1 = true
  · rw [if_pos hc]
    exact Or.inl rfl
  · rw [if_neg hc]
    cases hp : prepareInput env input1 k rs wv ws with
    | error e => exact Or.inl rfl
    | ok input2 =>
      refine Or.inr ⟨by simpa using hc, ?_⟩
      simp only
      split <;> rfl

theorem signPrepareRest_ok (env : Collab) (input1 : Input) (k : Buffer)
    (rs : Option Buffer) (wv : Option Nat) (ws : Option Buffer) (input2 : Input)
    (h : signPrepareRest env input1 k rs wv ws = (input2, Except.ok ())) :
    canSign input2 = true ∧
    (input2 = input1 ∨ prepareInput env input1 k rs wv ws = Except.ok input2) := by
  unfold signPrepareRest at h
  by_cases hc : canSign input1 = true
  · rw [if_pos hc] at h
    cases h
    exact ⟨hc, Or.inl rfl⟩
  · rw [if_neg hc] at h
    cases hp : prepareInput env input1 k rs wv ws with
    | error e => simp only [hp] at h; cases h
    | ok input3 =>
      simp only [hp] at h
      by_cases hc3 : canSign input3 = true
      · rw [if_pos hc3] at h
        simp only [Prod.mk.injEq, and_true] at h
        subst h
        exact ⟨hc3, Or.inr rfl⟩
      · rw [if_neg hc3] at h
        cases h

/-- The preparation block of `sign` ends without an error only in these ways: the record was
signable and is untouched, or the block stored the witness value (`input0`) and then either
found the record signable or ran `prepareInput` on it. -/
theorem signPrepare_ok_cases (env : Collab) (input : Input) (k : Buffer)
    (rs : Option Buffer) (wv : Option Nat) (ws : Option Buffer) (input1 : Input)
    (h : signPrepare env input k rs wv ws = (input1, Except.ok ())) :
    canSign input1 = true ∧
    ∃ input0, (input0 = input ∨ ∃ v, input0 = { input with value := some v }) ∧
      (input1 = input0 ∨ prepareInput env input0 k rs wv ws = Except.ok input1) := by
  unfold signPrepare at h
  by_cases hc : canSign input = true
  · rw [if_pos hc] at h
    cases h
    exact ⟨hc, input, Or.inl rfl, Or.inl rfl⟩
  · rw [if_neg hc] at h
    cases wv with
    | none =>
      simp only at h
      obtain ⟨h1, h2⟩ := signPrepareRest_ok env input k rs none ws input1 h
      exact ⟨h1, input, Or.inl rfl, h2⟩
    | some v =>
      simp only at h
      by_cases h1 : input.value.isSome = true ∧ input.value ≠ some v
      · rw [if_pos h1] at h
        cases h
      · rw [if_neg h1] at h
        by_cases h2 : env.isSatoshi v = false
        · rw [if_pos h2] at h
          cases h
        · rw [if_neg h2] at h
          obtain ⟨h3, h4⟩ := signPrepareRest_ok env _ k rs (some v) ws input1 h
          exact ⟨h3, _, Or.inr ⟨v, rfl⟩, h4⟩

/-- After the preparation block of `sign` ends without an error the record is signable, and
its redeem script is the one it had or the one passed to the call. -/
theorem signPrepare_ok (env : Collab) (input : Input) (k : Buffer)
    (rs : Option Buffer) (wv : Option Nat) (ws : Option Buffer) (input1 : Input)
    (h : signPrepare env input k rs wv ws = (input1, Except.ok ())) :
    canSign input1 = true ∧
    (input1.redeemScript = input.redeemScript ∨
      (rs.isSome = true ∧ input1.redeemScript = rs)) := by
  obtain ⟨hc, input0, h0, h1⟩ := signPrepare_ok_cases env input k rs wv ws input1 h
  refine ⟨hc, ?_⟩
  have hr0 : input0.redeemScript = input.redeemScript := by
    rcases h0 with h0 | ⟨v, h0⟩ <;> rw [h0]
  rcases h1 with h1 | h1
  · rw [h1]
    exact Or.inl hr0
  · rcases prepareInput_ok env input0 k rs wv ws input1 h1 with heq |
      ⟨ex, pot, pos, p2sh, p2wsh, w, st, ss, sc, ty, heq, _, h2, _, _⟩
    · rw [heq]
      exact Or.inl hr0
    · rw [heq, prepareInputAssign_redeemScript]
      cases p2sh with
      | none => exact Or.inl hr0
      | some p =>
        obtain ⟨r, t⟩ := p
        have := h2 r t rfl
        subst this
        exact Or.inr ⟨rfl, rfl⟩

theorem signPrepare_of_canSign (env : Collab) (input : Input) (k : Buffer)
    (rs : Option Buffer) (wv : Option Nat) (ws : Option Buffer) (hc : canSign input = true) :
    signPrepare env input k rs wv ws = (input, Except.ok ()) := by
  unfold signPrepare
  rw [if_pos hc]


/-- What a successful `sign` did: the input record exists, the preparation block left a
signable record `input1`, the loop stopped at the first key slot `n` equal to the signer
key, that signature slot was falsy, and the only change with respect to `input1` is the
new signature in slot `n`. -/
theorem sign_ok (env : Collab) (s : TransactionBuilder) (vin : Nat) (K : KeyPair)
    (rs : Option Buffer) (ht wv : Option Nat) (ws : Option Buffer)
    (h : (sign env s vin K rs ht wv ws).2 = Except.ok ()) :
    ∃ input input1 pks sigs n sig,
      s.inputs[vin]? = some (some input) ∧
      ¬ (K.network.isSome = true ∧ K.network ≠ some s.network) ∧
      ¬ (input.redeemScript.isSome = true ∧ rs.isSome = true ∧ input.redeemScript ≠ rs) ∧
      signPrepare env input K.publicKey rs wv ws = (input1, Except.ok ()) ∧
      canSign input1 = true ∧
      input1.pubKeys = some pks ∧ input1.signatures = some sigs ∧
      sigs.length = pks.length ∧
      pks[n]? = some (some (Chunk.buf K.publicKey)) ∧
      (∀ m, m < n → ∃ p, pks[m]? = some (some (Chunk.buf p)) ∧ p ≠ K.publicKey) ∧
      truthy (sigs[n]?).join = false ∧
      (sign env s vin K rs ht wv ws).1 =
        setInput s vin { input1 with
          signatures := some (sigs.set n
            (some (Chunk.buf (toScriptSignature sig (defaultHashType ht))))) } := by
  unfold sign at h ⊢
  by_cases hn : K.network.isSome = true ∧ K.network ≠ some s.network
  · rw [if_pos hn] at h
    cases h
  · rw [if_neg hn] at h ⊢
    cases hin : (s.inputs[vin]?).join with
    | none => simp only [hin] at h; cases h
    | some input =>
      simp only [hin] at h ⊢
      by_cases hr : input.redeemScript.isSome = true ∧ rs.isSome = true ∧ input.redeemScript ≠ rs
      · rw [if_pos hr] at h
        cases h
      · rw [if_neg hr] at h ⊢
        cases hsp : signPrepare env input K.publicKey rs wv ws with
        | mk input1 r =>
          cases r with
          | error e => simp only [hsp] at h; cases h
          | ok u =>
            simp only [hsp] at h ⊢
            have hc := (signPrepare_ok env input K.publicKey rs wv ws input1 hsp).1
            obtain ⟨pks, sigs, ss, hpk, hsg, hss, hlen, hpos⟩ := canSign_lengths input1 hc
            unfold signReady at h ⊢
            simp only [hpk, hsg, hss] at h ⊢
            generalize hl : signLoop env K K.publicKey input1.signType _ (defaultHashType ht)
              sigs pks 0 = res at h ⊢
            cases res with
            | error e => simp only at h; cases h
            | ok o =>
              cases o with
              | none => simp only at h; cases h
              | some sigs1 =>
                obtain ⟨n, sig, h1, h2, h3, _, _, h6⟩ := signLoop_ok _ _ _ _ _ _ _ _ _ _ hl
                simp only [Nat.zero_add] at h3 h6
                have hnlt : n < sigs.length := by
                  rw [hlen]
                  by_contra hge
                  rw [List.getElem?_eq_none (by omega)] at h1
                  cases h1
                rw [arraySet_lt _ _ _ hnlt] at h6
                subst h6
                refine ⟨input, input1, pks, sigs, n, sig, ?_, hn, hr, hsp, hc, hpk, hsg, hlen,
                  h1, h2, h3, ?_⟩
                · cases hv : s.inputs[vin]? with
                  | none => rw [hv] at hin; cases hin
                  | some oi =>
                    rw [hv] at hin
                    cases oi with
                    | none => cases hin
                    | some i => cases hin; rfl
                · simp only [hpk, hss]


theorem setInput_get (s : TransactionBuilder) (vin : Nat) (input : Input)
    (h : vin < s.inputs.length) : (setInput s vin input).inputs[vin]? = some (some input) := by
  unfold setInput
  simp [h]

theorem setInput_same (s : TransactionBuilder) (vin : Nat) (input : Input)
    (h : s.inputs[vin]? = some (some input)) : setInput s vin input = s := by
  unfold setInput
  have : s.inputs.set vin (some input) = s.inputs := by
    apply List.ext_getElem?
    intro i
    by_cases hi : i = vin
    · subst hi
      rw [h]
      have hlt : i < s.inputs.length := by
        by_contra hge
        rw [List.getElem?_eq_none (by omega)] at h
        cases h
      simp [hlt]
    · rw [List.getElem?_set_ne (fun hh => hi hh.symm)]
  rw [this]

theorem join_some_some {α : Type} (x : α) : (some (some x) : Option (Option α)).join = some x :=
  rfl

theorem getElem?_lt {α : Type} (xs : List α) (i : Nat) (x : α) (h : xs[i]? = some x) :
    i < xs.length := by
  by_contra hge
  rw [List.getElem?_eq_none (by omega)] at h
  cases h

/-- C1. Write-once: if `sign(vin, K, ...)` succeeds, then an immediately following
`sign(vin, K, ...)` on the same input, with any redeem script, hash type, witness value
and witness script, fails: with "Signature already exists", or with "Inconsistent
redeemScript" when it passes a redeem script other than the recorded one, and with
"Signature already exists" whenever it passes the redeem script of the first call. The
failing call leaves the whole builder, hence every stored signature, unchanged. Nothing is
assumed about the other slots of the input. -/
theorem sign_write_once (env : Collab) (s : TransactionBuilder) (vin : Nat) (K : KeyPair)
    (rs : Option Buffer) (ht wv : Option Nat) (ws : Option Buffer)
    (rs2 : Option Buffer) (ht2 wv2 : Option Nat) (ws2 : Option Buffer)
    (h : (sign env s vin K rs ht wv ws).2 = Except.ok ()) :
    (sign env (sign env s vin K rs ht wv ws).1 vin K rs2 ht2 wv2 ws2).1 =
      (sign env s vin K rs ht wv ws).1 ∧
    ((sign env (sign env s vin K rs ht wv ws).1 vin K rs2 ht2 wv2 ws2).2 =
        Except.error Err.signatureAlreadyExists ∨
      (sign env (sign env s vin K rs ht wv ws).1 vin K rs2 ht2 wv2 ws2).2 =
        Except.error Err.inconsistentRedeemScript) ∧
    (rs2 = rs →
      (sign env (sign env s vin K rs ht wv ws).1 vin K rs2 ht2 wv2 ws2).2 =
        Except.error Err.signatureAlreadyExists) := by
  obtain ⟨input, input1, pks, sigs, n, sig, hin, hnet, hred, hsp, hc, hpk, hsg, hlen, h1, h2,
    h3, hst⟩ := sign_ok env s vin K rs ht wv ws h
  rw [hst]
  generalize hx : (some (Chunk.buf (toScriptSignature sig (defaultHashType ht))) : Slot) = x
  have hxt : truthy x = true := by rw [← hx]; rfl
  generalize hi2 : ({ input1 with signatures := some (sigs.set n x) } : Input) = input2
  have hvin : vin < s.inputs.length := getElem?_lt _ _ _ hin
  have hnlt : n < sigs.length := by rw [hlen]; exact getElem?_lt _ _ _ h1
  have hc2 : canSign input2 = true := by
    rw [← hi2]
    exact canSign_set_signatures input1 _ sigs hsg (by simp) hc
  have hget : (setInput s vin input2).inputs[vin]? = some (some input2) :=
    setInput_get s vin input2 hvin
  have hpk2 : input2.pubKeys = some pks := by rw [← hi2]; exact hpk
  have hsg2 : input2.signatures = some (sigs.set n x) := by rw [← hi2]
  have hrs2 : input2.redeemScript = input1.redeemScript := by rw [← hi2]
  obtain ⟨ss, hss⟩ : ∃ ss, input2.signScript = some ss := by
    obtain ⟨_, _, ss, _, _, hss, _, _⟩ := canSign_lengths input2 hc2
    exact ⟨ss, hss⟩
  have hloop : ∀ hash ht3, signLoop env K K.publicKey input2.signType hash ht3 (sigs.set n x)
      pks 0 = Except.error Err.signatureAlreadyExists := by
    intro hash ht3
    apply signLoop_exists env K K.publicKey _ hash ht3 _ pks 0 n h1 h2
    simp [hnlt, hxt]
  have hnet2 : ¬ (K.network.isSome = true ∧ K.network ≠ some (setInput s vin input2).network) :=
    hnet
  -- the second call, once the redeem scripts are known to agree
  have main : ¬ (input2.redeemScript.isSome = true ∧ rs2.isSome = true ∧
        input2.redeemScript ≠ rs2) →
      sign env (setInput s vin input2) vin K rs2 ht2 wv2 ws2 =
        (setInput s vin input2, Except.error Err.signatureAlreadyExists) := by
    intro hr2
    unfold sign
    rw [if_neg hnet2]
    simp only [hget, join_some_some]
    rw [if_neg hr2]
    simp only [signPrepare_of_canSign env input2 K.publicKey rs2 wv2 ws2 hc2]
    unfold signReady
    simp only [hss, hpk2, hsg2, hloop]
    rw [setInput_same _ _ _ hget]
  by_cases hr2 : input2.redeemScript.isSome = true ∧ rs2.isSome = true ∧
      input2.redeemScript ≠ rs2
  · have bad : sign env (setInput s vin input2) vin K rs2 ht2 wv2 ws2 =
        (setInput s vin input2, Except.error Err.inconsistentRedeemScript) := by
      unfold sign
      rw [if_neg hnet2]
      simp only [hget, join_some_some]
      rw [if_pos hr2]
    rw [bad]
    refine ⟨rfl, Or.inr rfl, ?_⟩
    intro heq
    subst heq
    exfalso
    obtain ⟨hs1, hs2, hne⟩ := hr2
    rw [hrs2] at hs1 hne
    rcases (signPrepare_ok env input K.publicKey rs2 wv ws input1 hsp).2 with he | ⟨_, he⟩
    · rw [he] at hs1 hne
      exact hred ⟨hs1, hs2, hne⟩
    · exact hne he
  · rw [main hr2]
    exact ⟨rfl, Or.inl rfl, fun _ => rfl⟩


theorem sign_write_once_witness :
    (sign demo demoOneInput 0 (demoKeyPair 5) none none none none).2 = Except.ok () ∧
    ((sign demo (sign demo demoOneInput 0 (demoKeyPair 5) none none none none).1 0
        (demoKeyPair 5) none (some 0x81) none none).1 =
      (sign demo demoOneInput 0 (demoKeyPair 5) none none none none).1 ∧
    ((sign demo (sign demo demoOneInput 0 (demoKeyPair 5) none none none none).1 0
          (demoKeyPair 5) none (some 0x81) none none).2 =
        Except.error Err.signatureAlreadyExists ∨
      (sign demo (sign demo demoOneInput 0 (demoKeyPair 5) none none none none).1 0
          (demoKeyPair 5) none (some 0x81) none none).2 =
        Except.error Err.inconsistentRedeemScript) ∧
    ((none : Option Buffer) = none →
      (sign demo (sign demo demoOneInput 0 (demoKeyPair 5) none none none none).1 0
          (demoKeyPair 5) none (some 0x81) none none).2 =
        Except.error Err.signatureAlreadyExists)) :=
  ⟨by decide, sign_write_once demo demoOneInput 0 (demoKeyPair 5) none none none none
    none (some 0x81) none none (by decide)⟩

/-- C2. A successful `sign` on an input that is already signable changes exactly one
signature slot: the slot `n` of the first key equal to the signer key goes from absent
(falsy) to present (truthy). The record is otherwise the same, the other records, the
length of `inputs`, `prevTxMap`, the draft transaction, the network and the fee rate are
unchanged. -/
theorem sign_signable_frame (env : Collab) (s : TransactionBuilder) (vin : Nat) (K : KeyPair)
    (rs : Option Buffer) (ht wv : Option Nat) (ws : Option Buffer) (input : Input)
    (hin : s.inputs[vin]? = some (some input)) (hc : canSign input = true)
    (h : (sign env s vin K rs ht wv ws).2 = Except.ok ()) :
    ∃ pks sigs n x,
      input.pubKeys = some pks ∧ input.signatures = some sigs ∧
      pks[n]? = some (some (Chunk.buf K.publicKey)) ∧
      (∀ m, m < n → pks[m]? ≠ some (some (Chunk.buf K.publicKey))) ∧
      n < sigs.length ∧ truthy (sigs[n]?).join = false ∧ truthy x = true ∧
      (sign env s vin K rs ht wv ws).1.inputs[vin]? =
        some (some { input with signatures := some (sigs.set n x) }) ∧
      (∀ j, j ≠ n → (sigs.set n x)[j]? = sigs[j]?) ∧
      (∀ j, j ≠ vin → (sign env s vin K rs ht wv ws).1.inputs[j]? = s.inputs[j]?) ∧
      (sign env s vin K rs ht wv ws).1.inputs.length = s.inputs.length ∧
      (sign env s vin K rs ht wv ws).1.prevTxMap = s.prevTxMap ∧
      (sign env s vin K rs ht wv ws).1.tx = s.tx ∧
      (sign env s vin K rs ht wv ws).1.network = s.network ∧
      (sign env s vin K rs ht wv ws).1.maximumFeeRate = s.maximumFeeRate := by
  obtain ⟨input0, input1, pks, sigs, n, sig, hin0, _, _, hsp, _, hpk, hsg, hlen, h1, h2,
    h3, hst⟩ := sign_ok env s vin K rs ht wv ws h
  rw [hin] at hin0
  cases hin0
  rw [signPrepare_of_canSign env input K.publicKey rs wv ws hc] at hsp
  cases hsp
  rw [hst]
  have hvin : vin < s.inputs.length := getElem?_lt _ _ _ hin
  have hnlt : n < sigs.length := by rw [hlen]; exact getElem?_lt _ _ _ h1
  refine ⟨pks, sigs, n, some (Chunk.buf (toScriptSignature sig (defaultHashType ht))), hpk, hsg,
    h1, ?_, hnlt, h3, rfl, setInput_get s vin _ hvin, ?_, ?_, ?_,
    rfl, rfl, rfl, rfl⟩
  · intro m hm hcontra
    obtain ⟨p, hp, hne⟩ := h2 m hm
    rw [hp] at hcontra
    simp only [Option.some.injEq, Chunk.buf.injEq] at hcontra
    exact hne hcontra
  · intro j hj
    rw [List.getElem?_set_ne (fun hh => hj hh.symm)]
  · intro j hj
    unfold setInput
    simp only
    rw [List.getElem?_set_ne (fun hh => hj hh.symm)]
  · unfold setInput
    simp

theorem sign_signable_frame_witness :
    demoMultisigOne.inputs[0]? = some (some demoMultisigOneInput) ∧
    canSign demoMultisigOneInput = true ∧
    (sign demo demoMultisigOne 0 (demoKeyPair 2) (some demoRedeem) none none none).2 =
      Except.ok () ∧
    ∃ pks sigs n x,
      demoMultisigOneInput.pubKeys = some pks ∧ demoMultisigOneInput.signatures = some sigs ∧
      pks[n]? = some (some (Chunk.buf (demoKeyPair 2).publicKey)) ∧
      (∀ m, m < n → pks[m]? ≠ some (some (Chunk.buf (demoKeyPair 2).publicKey))) ∧
      n < sigs.length ∧ truthy (sigs[n]?).join = false ∧ truthy x = true ∧
      (sign demo demoMultisigOne 0 (demoKeyPair 2) (some demoRedeem) none none none).1.inputs[0]? =
        some (some { demoMultisigOneInput with signatures := some (sigs.set n x) }) ∧
      (∀ j, j ≠ n → (sigs.set n x)[j]? = sigs[j]?) ∧
      (∀ j, j ≠ 0 →
        (sign demo demoMultisigOne 0 (demoKeyPair 2) (some demoRedeem) none none none).1.inputs[j]? =
          demoMultisigOne.inputs[j]?) ∧
      (sign demo demoMultisigOne 0 (demoKeyPair 2) (some demoRedeem) none none none).1.inputs.length =
        demoMultisigOne.inputs.length ∧
      (sign demo demoMultisigOne 0 (demoKeyPair 2) (some demoRedeem) none none none).1.prevTxMap =
        demoMultisigOne.prevTxMap ∧
      (sign demo demoMultisigOne 0 (demoKeyPair 2) (some demoRedeem) none none none).1.tx =
        demoMultisigOne.tx ∧
      (sign demo demoMultisigOne 0 (demoKeyPair 2) (some demoRedeem) none none none).1.network =
        demoMultisigOne.network ∧
      (sign demo demoMultisigOne 0 (demoKeyPair 2) (some demoRedeem) none none none).1.maximumFeeRate =
        demoMultisigOne.maximumFeeRate :=
  ⟨by decide, by decide, by decide,
    sign_signable_frame demo demoMultisigOne 0 (demoKeyPair 2) (some demoRedeem) none none none
      demoMultisigOneInput (by decide) (by decide) (by decide)⟩


/-! ## The effect of `sign` on the builder -/

theorem prepareInputAssign_signatures (env : Collab) (input : Input)
    (expanded : ExpandedOutput) (pot : ScriptType) (pos : Buffer)
    (p2sh p2wsh : Option (Buffer × ScriptType)) (w : Bool) (st : ScriptType) (ss : Buffer) :
    (prepareInputAssign env input expanded pot pos p2sh p2wsh w st ss).signatures =
      expanded.signatures := by
  unfold prepareInputAssign
  rfl

/-- A record left by a successful `prepareInput` on a typed record is typed. -/
theorem prepareInput_typed (env : Collab) (input : Input) (k : Buffer)
    (rs : Option Buffer) (wv : Option Nat) (ws : Option Buffer) (input1 : Input)
    (h : prepareInput env input k rs wv ws = Except.ok input1) (ht : InputTyped input) :
    InputTyped input1 := by
  rcases prepareInput_ok env input k rs wv ws input1 h with heq |
    ⟨ex, pot, pos, p2sh, p2wsh, w, st, ss, sc, ty, heq, hex, _, _, _⟩
  · rw [heq]
    exact ht
  · intro sigs hs c hc htr
    rw [heq, prepareInputAssign_signatures] at hs
    have := expandOutput_signatures env sc ty (some k) ex hex sigs hs (some c) hc
    cases this

/-- The record after the preparation block of `sign`, whatever its outcome, is typed when the
record before it is. -/
theorem signPrepare_typed (env : Collab) (input : Input) (k : Buffer)
    (rs : Option Buffer) (wv : Option Nat) (ws : Option Buffer) (ht : InputTyped input) :
    InputTyped (signPrepare env input k rs wv ws).1 := by
  have rest : ∀ input0 : Input, InputTyped input0 →
      InputTyped (signPrepareRest env input0 k rs wv ws).1 := by
    intro input0 h0
    rcases signPrepareRest_cases env input0 k rs wv ws with h | ⟨_, h⟩
    · rw [h]
      exact h0
    · exact prepareInput_typed env input0 k rs wv ws _ h h0
  unfold signPrepare
  by_cases hc : canSign input = true
  · rw [if_pos hc]
    exact ht
  · rw [if_neg hc]
    cases wv with
    | none => exact rest input ht
    | some v =>
      simp only
      by_cases h1 : input.value.isSome = true ∧ input.value ≠ some v
      · rw [if_pos h1]
        exact ht
      · rw [if_neg h1]
        by_cases h2 : env.isSatoshi v = false
        · rw [if_pos h2]
          exact ht
        · rw [if_neg h2]
          exact rest _ ht

theorem mem_arraySet {α : Type} (xs : List (Option α)) (i : Nat) (x y : Option α)
    (h : y ∈ arraySet xs i x) : y ∈ xs ∨ y = x ∨ y = none := by
  unfold arraySet at h
  by_cases hi : i < xs.length
  · rw [if_pos hi] at h
    rcases List.mem_or_eq_of_mem_set h with h | h
    · exact Or.inl h
    · exact Or.inr (Or.inl h)
  · rw [if_neg hi] at h
    simp only [List.mem_append, List.mem_replicate, List.mem_singleton] at h
    rcases h with (h | h) | h
    · exact Or.inl h
    · exact Or.inr (Or.inr h.2)
    · exact Or.inr (Or.inl h)

/-- The signing part of `sign` either leaves the record as it is or stores a script signature,
which ends with the hash type, in a slot of `signatures`. -/
theorem signReady_cases (env : Collab) (tx : Transaction) (vin : Nat) (input1 : Input)
    (K : KeyPair) (k : Buffer) (hashType : Nat) :
    (signReady env tx vin input1 K k hashType).1 = input1 ∨
    ∃ sigs pks n sig, input1.signatures = some sigs ∧ input1.pubKeys = some pks ∧
      pks[n]? = some (some (Chunk.buf k)) ∧ truthy (sigs[n]?).join = false ∧
      (signReady env tx vin input1 K k hashType).1 =
        { input1 with
          signatures := some (arraySet sigs n (some (Chunk.buf (toScriptSignature sig hashType)))) } := by
  unfold signReady
  cases hss : input1.signScript with
  | none => exact Or.inl rfl
  | some ss =>
    cases hpk : input1.pubKeys with
    | none => exact Or.inl rfl
    | some pks =>
      cases hsg : input1.signatures with
      | none => exact Or.inl rfl
      | some sigs =>
        simp only
        generalize hl : signLoop env K k input1.signType _ hashType sigs pks 0 = res
        cases res with
        | error e => exact Or.inl rfl
        | ok o =>
          cases o with
          | none => exact Or.inl rfl
          | some sigs1 =>
            obtain ⟨n, sig, h1, _, h3, _, _, h6⟩ := signLoop_ok _ _ _ _ _ _ _ _ _ _ hl
            simp only [Nat.zero_add] at h3 h6
            subst h6
            exact Or.inr ⟨sigs, pks, n, sig, rfl, rfl, h1, h3, by simp only [hss, hpk]⟩

theorem signReady_typed (env : Collab) (tx : Transaction) (vin : Nat) (input1 : Input)
    (K : KeyPair) (k : Buffer) (hashType : Nat) (ht : InputTyped input1) :
    InputTyped (signReady env tx vin input1 K k hashType).1 := by
  rcases signReady_cases env tx vin input1 K k hashType with h | ⟨sigs, pks, n, sig, hs, _, _, _, h⟩
  · rw [h]
    exact ht
  · rw [h]
    intro sigs2 hs2 c hc htr
    simp only [Option.some.injEq] at hs2
    subst hs2
    rcases mem_arraySet _ _ _ _ hc with hc | hc | hc
    · exact ht sigs hs c hc htr
    · simp only [Option.some.injEq] at hc
      subst hc
      exact ⟨hashType, _, rfl, by simp [toScriptSignature]⟩
    · cases hc

/-- The builder after `sign`, whatever its outcome: the builder before it, or the builder
with the record at `vin` replaced by the record the preparation block left or by the
record the signing part left. -/
theorem sign_state (env : Collab) (s : TransactionBuilder) (vin : Nat) (K : KeyPair)
    (rs : Option Buffer) (ht wv : Option Nat) (ws : Option Buffer) :
    (sign env s vin K rs ht wv ws).1 = s ∨
    ∃ input, s.inputs[vin]? = some (some input) ∧
      ((sign env s vin K rs ht wv ws).1 =
          setInput s vin (signPrepare env input K.publicKey rs wv ws).1 ∨
        (canSign (signPrepare env input K.publicKey rs wv ws).1 = true ∧
          (sign env s vin K rs ht wv ws).1 =
            setInput s vin (signReady env s.tx vin (signPrepare env input K.publicKey rs wv ws).1 K
              K.publicKey (defaultHashType ht)).1)) := by
  unfold sign
  by_cases hn : K.network.isSome = true ∧ K.network ≠ some s.network
  · rw [if_pos hn]
    exact Or.inl rfl
  · rw [if_neg hn]
    cases hv : s.inputs[vin]? with
    | none => exact Or.inl rfl
    | some oi =>
      cases oi with
      | none => exact Or.inl rfl
      | some input =>
        simp only [join_some_some]
        by_cases hr : input.redeemScript.isSome = true ∧ rs.isSome = true ∧ input.redeemScript ≠ rs
        · rw [if_pos hr]
          exact Or.inl rfl
        · rw [if_neg hr]
          refine Or.inr ⟨input, rfl, ?_⟩
          cases hsp : signPrepare env input K.publicKey rs wv ws with
          | mk input1 r =>
            cases r with
            | error e => exact Or.inl rfl
            | ok u =>
              exact Or.inr ⟨(signPrepare_ok env input K.publicKey rs wv ws input1 hsp).1, rfl⟩


/-! ## A SIGHASH_ALL signature freezes inputs and outputs -/

theorem everyM_total {α : Type} (f : α → Except Err Bool) (xs : List α)
    (h : ∀ x ∈ xs, ∃ b, f x = Except.ok b) : ∃ b, everyM f xs = Except.ok b := by
  induction xs with
  | nil => exact ⟨true, rfl⟩
  | cons x xs ih =>
    obtain ⟨b, hb⟩ := h x (List.mem_cons_self _ _)
    unfold everyM
    rw [hb]
    cases b with
    | false => exact ⟨false, rfl⟩
    | true => exact ih (fun y hy => h y (List.mem_cons_of_mem _ hy))

/-- On a typed builder neither guard throws. -/
theorem guards_total (s : TransactionBuilder) (h : SigsTyped s) :
    (∃ b, canModifyInputs s = Except.ok b) ∧ (∃ b, canModifyOutputs s = Except.ok b) := by
  have gen : ∀ f : Slot → Except Err Bool,
      (∀ c x, HasHashType c x → ∃ b, f (some c) = Except.ok b) →
      (∀ sl, truthy sl = false → f sl = Except.ok true) →
      ∃ b, everyM (fun oi : Option Input =>
        match oi with
        | none => Except.ok true
        | some input =>
          match input.signatures with
          | none => Except.ok true
          | some signatures => everyM f signatures) s.inputs = Except.ok b := by
    intro f hf hfalse
    apply everyM_total
    intro oi hoi
    cases oi with
    | none => exact ⟨true, rfl⟩
    | some input =>
      cases hs : input.signatures with
      | none => exact ⟨true, by simp only [hs]⟩
      | some sigs =>
        simp only [hs]
        apply everyM_total
        intro sl hsl
        by_cases ht : truthy sl = true
        · cases sl with
          | none => cases ht
          | some c =>
            obtain ⟨x, hx⟩ := h input hoi sigs hs c hsl ht
            exact hf c x hx
        · exact ⟨true, hfalse sl (by simpa using ht)⟩
  constructor
  · unfold canModifyInputs
    apply gen
    · intro c x hx
      have ht : truthy (some c) = true := by
        obtain ⟨b, hb, _⟩ := hx
        subst hb
        rfl
      unfold canModifyInputsSig
      simp only [ht, Bool.true_eq_false, if_false, (signatureHashType_ok c x).2 hx]
      exact ⟨_, rfl⟩
    · intro sl hsl
      unfold canModifyInputsSig
      cases sl with
      | none => rfl
      | some c => simp only [hsl, if_true]
  · unfold canModifyOutputs
    apply gen
    · intro c x hx
      have ht : truthy (some c) = true := by
        obtain ⟨b, hb, _⟩ := hx
        subst hb
        rfl
      unfold canModifyOutputsSig
      simp only [ht, Bool.true_eq_false, if_false, (signatureHashType_ok c x).2 hx]
      split
      · exact ⟨_, rfl⟩
      · split
        · exact ⟨_, rfl⟩
        · exact ⟨_, rfl⟩
    · intro sl hsl
      unfold canModifyOutputsSig
      cases sl with
      | none => rfl
      | some c => simp only [hsl, if_true]

theorem hasHashType_unique (c : Chunk) (x y : Nat) (hx : HasHashType c x)
    (hy : HasHashType c y) : x = y := by
  obtain ⟨b, hb, hl⟩ := hx
  obtain ⟨b2, hb2, hl2⟩ := hy
  rw [hb] at hb2
  cases hb2
  rw [hl] at hl2
  cases hl2
  rfl

theorem hasHashType_truthy (c : Chunk) (x : Nat) (hx : HasHashType c x) :
    truthy (some c) = true := by
  obtain ⟨b, hb, _⟩ := hx
  subst hb
  rfl

/-- With a SIGHASH_ALL signature in the builder neither guard returns `true`. -/
theorem holdsAll_guards (s : TransactionBuilder) (h : HoldsAllSignature s) :
    canModifyInputs s ≠ Except.ok true ∧ canModifyOutputs s ≠ Except.ok true := by
  obtain ⟨vin, input, sigs, j, c, hin, _, hs, hj, hc⟩ := h
  have hp : PresentSig s c :=
    ⟨input, sigs, List.getElem?_mem hin, hs, List.getElem?_mem hj, hasHashType_truthy c _ hc⟩
  constructor
  · intro h1
    obtain ⟨x, hx, hbit⟩ := (canModifyInputs_ok_iff s).1 h1 c hp
    rw [hasHashType_unique c x _ hx hc] at hbit
    exact hbit (by decide)
  · intro hok
    obtain ⟨y, hy, hor⟩ := (canModifyOutputs_ok_iff s).1 hok c hp
    rw [hasHashType_unique c y _ hy hc] at hor
    rcases hor with h2 | ⟨h2, _⟩
    · exact absurd h2 (by decide)
    · exact absurd h2 (by decide)

/-- On a typed builder with a SIGHASH_ALL signature both guards return `false`. -/
theorem holdsAll_guards_typed (s : TransactionBuilder) (h : HoldsAllSignature s)
    (hty : SigsTyped s) :
    canModifyInputs s = Except.ok false ∧ canModifyOutputs s = Except.ok false := by
  obtain ⟨⟨b1, h1⟩, ⟨b2, h2⟩⟩ := guards_total s hty
  obtain ⟨g1, g2⟩ := holdsAll_guards s h
  constructor
  · cases b1 with
    | false => exact h1
    | true => exact absurd h1 g1
  · cases b2 with
    | false => exact h2
    | true => exact absurd h2 g2

theorem addInput_blocked (env : Collab) (s : TransactionBuilder) (txHash : TxHashArg)
    (vout : Nat) (sequence : Option Nat) (prevOutScript : Option Buffer)
    (h : canModifyInputs s ≠ Except.ok true) :
    (addInput env s txHash vout sequence prevOutScript).1 = s ∧
    (∃ e, (addInput env s txHash vout sequence prevOutScript).2 = Except.error e) ∧
    (canModifyInputs s = Except.ok false →
      (addInput env s txHash vout sequence prevOutScript).2 =
        Except.error Err.invalidatesSignatures) := by
  unfold addInput
  cases hc : canModifyInputs s with
  | error e => exact ⟨rfl, ⟨e, rfl⟩, fun hh => by cases hh⟩
  | ok b =>
    cases b with
    | false => exact ⟨rfl, ⟨_, rfl⟩, fun _ => rfl⟩
    | true => exact absurd hc h

theorem addOutput_blocked (env : Collab) (s : TransactionBuilder)
    (scriptPubKey : ScriptPubKeyArg) (value : Nat)
    (h : canModifyOutputs s ≠ Except.ok true) :
    (addOutput env s scriptPubKey value).1 = s ∧
    (∃ e, (addOutput env s scriptPubKey value).2 = Except.error e) ∧
    (canModifyOutputs s = Except.ok false →
      (addOutput env s scriptPubKey value).2 = Except.error Err.invalidatesSignatures) := by
  unfold addOutput
  cases hc : canModifyOutputs s with
  | error e => exact ⟨rfl, ⟨e, rfl⟩, fun hh => by cases hh⟩
  | ok b =>
    cases b with
    | false => exact ⟨rfl, ⟨_, rfl⟩, fun _ => rfl⟩
    | true => exact absurd hc h

theorem setVersion_inputs (s : TransactionBuilder) (version : Nat) :
    (setVersion s version).1.inputs = s.inputs := by
  unfold setVersion
  split <;> rfl

theorem setLockTime_inputs (s : TransactionBuilder) (locktime : Nat) :
    (setLockTime s locktime).1.inputs = s.inputs := by
  unfold setLockTime
  split
  · rfl
  · split <;> rfl

theorem sigsTyped_setInput (s : TransactionBuilder) (vin : Nat) (input : Input)
    (hs : SigsTyped s) (hi : InputTyped input) : SigsTyped (setInput s vin input) := by
  intro i hmem
  unfold setInput at hmem
  rcases List.mem_or_eq_of_mem_set hmem with h | h
  · exact hs i h
  · cases h
    exact hi

/-- A typed builder is typed after a call of `sign`, whatever its outcome. -/
theorem sigsTyped_sign (env : Collab) (s : TransactionBuilder) (vin : Nat) (K : KeyPair)
    (rs : Option Buffer) (ht wv : Option Nat) (ws : Option Buffer)
    (hty : SigsTyped s) : SigsTyped (sign env s vin K rs ht wv ws).1 := by
  rcases sign_state env s vin K rs ht wv ws with hst | ⟨input, hin, hst⟩
  · rw [hst]
    exact hty
  · have hpt := signPrepare_typed env input K.publicKey rs wv ws
      (hty input (List.getElem?_mem hin))
    rcases hst with hst | ⟨_, hst⟩
    · rw [hst]
      exact sigsTyped_setInput s vin _ hty hpt
    · rw [hst]
      exact sigsTyped_setInput s vin _ hty (signReady_typed _ _ _ _ _ _ _ hpt)

/-- The property `HoldsAllSignature` survives a call of `sign`, whatever its outcome. -/
theorem holdsAll_sign (env : Collab) (s : TransactionBuilder) (vin : Nat) (K : KeyPair)
    (rs : Option Buffer) (ht wv : Option Nat) (ws : Option Buffer)
    (h : HoldsAllSignature s) : HoldsAllSignature (sign env s vin K rs ht wv ws).1 := by
  rcases sign_state env s vin K rs ht wv ws with hst | ⟨input, hin, hst⟩
  · rw [hst]
    exact h
  · obtain ⟨vin0, input0, sigs, j, c, hin0, hcan, hs, hj, hc⟩ := h
    have hvin : vin < s.inputs.length := getElem?_lt _ _ _ hin
    by_cases hv : vin0 = vin
    · subst hv
      rw [hin] at hin0
      cases hin0
      rw [signPrepare_of_canSign env input K.publicKey rs wv ws hcan] at hst
      simp only at hst
      rcases hst with hst | ⟨_, hst⟩
      · rw [hst, setInput_same s vin0 input hin]
        exact ⟨vin0, input, sigs, j, c, hin, hcan, hs, hj, hc⟩
      · rw [hst]
        rcases signReady_cases env s.tx vin0 input K K.publicKey (defaultHashType ht) with hr |
          ⟨sigs1, pks, n, sig, hs1, hpk, hn, hfalsy, hr⟩
        · rw [hr]
          exact ⟨vin0, input, sigs, j, c, setInput_get s vin0 input hvin, hcan, hs, hj, hc⟩
        · rw [hr]
          rw [hs] at hs1
          cases hs1
          obtain ⟨pks2, sigs2, _, hpk2, hsg2, _, hlen, _⟩ := canSign_lengths input hcan
          rw [hpk] at hpk2
          cases hpk2
          rw [hs] at hsg2
          cases hsg2
          have hnlt : n < sigs.length := by rw [hlen]; exact getElem?_lt _ _ _ hn
          rw [arraySet_lt _ _ _ hnlt]
          have hjn : n ≠ j := by
            intro hjn
            subst hjn
            rw [hj] at hfalsy
            simp only [join_some_some] at hfalsy
            rw [hasHashType_truthy c _ hc] at hfalsy
            cases hfalsy
          refine ⟨vin0, _, _, j, c, setInput_get s vin0 _ hvin,
            canSign_set_signatures input _ sigs hs (by simp) hcan, rfl, ?_, hc⟩
          rw [List.getElem?_set_ne hjn]
          exact hj
    · have hkeep : ∀ X, (setInput s vin X).inputs[vin0]? = some (some input0) := by
        intro X
        unfold setInput
        simp only
        rw [List.getElem?_set_ne (fun hh => hv hh.symm)]
        exact hin0
      rcases hst with hst | ⟨_, hst⟩
      · rw [hst]
        exact ⟨vin0, input0, sigs, j, c, hkeep _, hcan, hs, hj, hc⟩
      · rw [hst]
        exact ⟨vin0, input0, sigs, j, c, hkeep _, hcan, hs, hj, hc⟩

/-- In every state reached from a state that holds a SIGHASH_ALL signature, the builder still
holds one, and it is typed if the first state is. -/
theorem holdsAll_reachableFrom (env : Collab) (s0 s : TransactionBuilder)
    (h0 : HoldsAllSignature s0) (h : ReachableFrom env s0 s) :
    HoldsAllSignature s ∧ (SigsTyped s0 → SigsTyped s) := by
  induction h with
  | refl => exact ⟨h0, fun h => h⟩
  | addInput s txHash vout sequence prevOutScript _ ih =>
    rw [(addInput_blocked env s txHash vout sequence prevOutScript (holdsAll_guards s ih.1).1).1]
    exact ih
  | addOutput s scriptPubKey value _ ih =>
    rw [(addOutput_blocked env s scriptPubKey value (holdsAll_guards s ih.1).2).1]
    exact ih
  | sign s vin keyPair redeemScript hashType witnessValue witnessScript _ ih =>
    exact ⟨holdsAll_sign env s vin keyPair redeemScript hashType witnessValue witnessScript ih.1,
      fun h => sigsTyped_sign env s vin keyPair redeemScript hashType witnessValue witnessScript
        (ih.2 h)⟩
  | setVersion s version _ ih =>
    unfold HoldsAllSignature SigsTyped at ih ⊢
    rw [setVersion_inputs]
    exact ih
  | setLockTime s locktime _ ih =>
    unfold HoldsAllSignature SigsTyped at ih ⊢
    rw [setLockTime_inputs]
    exact ih

/-- C5. After a successful `sign` made with the hash type omitted or equal to SIGHASH_ALL, the
signature stored in the slot of the signer key ends with the byte SIGHASH_ALL. In every state
reached afterwards by any calls of `addInput`, `addOutput`, `sign`, `setVersion` and
`setLockTime`, every `addInput` and every `addOutput` throws and returns the builder
unchanged; the error is "No, this would invalidate signatures" provided the present
signatures the builder held before the `sign` are byte strings with a hash-type byte
(otherwise reading the hash type of such a slot may throw first). -/
theorem sign_all_freezes (env : Collab) (s : TransactionBuilder) (vin : Nat) (K : KeyPair)
    (rs : Option Buffer) (ht wv : Option Nat) (ws : Option Buffer)
    (hht : ht = none ∨ ht = some SIGHASH_ALL)
    (h : (sign env s vin K rs ht wv ws).2 = Except.ok ()) :
    (∃ (input : Input) (pks sigs : List Slot) (n : Nat) (b : Buffer),
      (sign env s vin K rs ht wv ws).1.inputs[vin]? = some (some input) ∧
      input.pubKeys = some pks ∧ input.signatures = some sigs ∧
      pks[n]? = some (some (Chunk.buf K.publicKey)) ∧
      sigs[n]? = some (some (Chunk.buf b)) ∧ b.getLast? = some SIGHASH_ALL) ∧
    ∀ s1, ReachableFrom env (sign env s vin K rs ht wv ws).1 s1 →
      (∀ txHash vout sequence prevOutScript,
        (addInput env s1 txHash vout sequence prevOutScript).1 = s1 ∧
        (∃ e, (addInput env s1 txHash vout sequence prevOutScript).2 = Except.error e) ∧
        (SigsTyped s → (addInput env s1 txHash vout sequence prevOutScript).2 =
          Except.error Err.invalidatesSignatures)) ∧
      (∀ scriptPubKey value,
        (addOutput env s1 scriptPubKey value).1 = s1 ∧
        (∃ e, (addOutput env s1 scriptPubKey value).2 = Except.error e) ∧
        (SigsTyped s → (addOutput env s1 scriptPubKey value).2 =
          Except.error Err.invalidatesSignatures)) := by
  have hd : defaultHashType ht = SIGHASH_ALL := by
    rcases hht with hht | hht <;> subst hht <;> rfl
  have hty1 : SigsTyped s → SigsTyped (sign env s vin K rs ht wv ws).1 :=
    sigsTyped_sign env s vin K rs ht wv ws
  obtain ⟨input, input1, pks, sigs, n, sig, hin, _, _, hsp, hc, hpk, hsg, hlen, h1, _, _, hst⟩ :=
    sign_ok env s vin K rs ht wv ws h
  rw [hd] at hst
  have hvin : vin < s.inputs.length := getElem?_lt _ _ _ hin
  have hnlt : n < sigs.length := by rw [hlen]; exact getElem?_lt _ _ _ h1
  have hlast : (toScriptSignature sig SIGHASH_ALL).getLast? = some SIGHASH_ALL := by
    simp [toScriptSignature]
  have hslot : (sigs.set n (some (Chunk.buf (toScriptSignature sig SIGHASH_ALL))))[n]? =
      some (some (Chunk.buf (toScriptSignature sig SIGHASH_ALL))) := by
    simp [hnlt]
  have hall : HoldsAllSignature (sign env s vin K rs ht wv ws).1 := by
    rw [hst]
    exact ⟨vin, _, _, n, _, setInput_get s vin _ hvin,
      canSign_set_signatures input1 _ sigs hsg (by simp) hc, rfl, hslot, _, rfl, hlast⟩
  constructor
  · rw [hst]
    exact ⟨_, pks, _, n, _, setInput_get s vin _ hvin, hpk, rfl, h1, hslot, hlast⟩
  · intro s1 hr
    obtain ⟨ha, ht1⟩ := holdsAll_reachableFrom env _ s1 hall hr
    have hg := holdsAll_guards s1 ha
    constructor
    · intro txHash vout sequence prevOutScript
      obtain ⟨a1, a2, a3⟩ := addInput_blocked env s1 txHash vout sequence prevOutScript hg.1
      exact ⟨a1, a2, fun hty => a3 (holdsAll_guards_typed s1 ha (ht1 (hty1 hty))).1⟩
    · intro scriptPubKey value
      obtain ⟨a1, a2, a3⟩ := addOutput_blocked env s1 scriptPubKey value hg.2
      exact ⟨a1, a2, fun hty => a3 (holdsAll_guards_typed s1 ha (ht1 (hty1 hty))).2⟩

theorem demoOneInput_typed : SigsTyped demoOneInput := by
  intro input hmem sigs hs
  have : demoOneInput.inputs = [some {}] := by decide
  rw [this] at hmem
  simp only [List.mem_singleton, Option.some.injEq] at hmem
  subst hmem
  cases hs

theorem sign_all_freezes_witness :
    SigsTyped demoOneInput ∧
    ((none : Option Nat) = none ∨ (none : Option Nat) = some SIGHASH_ALL) ∧
    (sign demo demoOneInput 0 (demoKeyPair 5) none none none none).2 = Except.ok () ∧
    (∃ (input : Input) (pks sigs : List Slot) (n : Nat) (b : Buffer),
      (sign demo demoOneInput 0 (demoKeyPair 5) none none none none).1.inputs[0]? =
        some (some input) ∧
      input.pubKeys = some pks ∧ input.signatures = some sigs ∧
      pks[n]? = some (some (Chunk.buf (demoKeyPair 5).publicKey)) ∧
      sigs[n]? = some (some (Chunk.buf b)) ∧ b.getLast? = some SIGHASH_ALL) ∧
    ∀ s1, ReachableFrom demo (sign demo demoOneInput 0 (demoKeyPair 5) none none none none).1 s1 →
      (∀ txHash vout sequence prevOutScript,
        (addInput demo s1 txHash vout sequence prevOutScript).1 = s1 ∧
        (∃ e, (addInput demo s1 txHash vout sequence prevOutScript).2 = Except.error e) ∧
        (SigsTyped demoOneInput → (addInput demo s1 txHash vout sequence prevOutScript).2 =
          Except.error Err.invalidatesSignatures)) ∧
      (∀ scriptPubKey value,
        (addOutput demo s1 scriptPubKey value).1 = s1 ∧
        (∃ e, (addOutput demo s1 scriptPubKey value).2 = Except.error e) ∧
        (SigsTyped demoOneInput → (addOutput demo s1 scriptPubKey value).2 =
          Except.error Err.invalidatesSignatures)) :=
  ⟨demoOneInput_typed, Or.inl rfl, by decide,
    sign_all_freezes demo demoOneInput 0 (demoKeyPair 5) none none none none
      (Or.inl rfl) (by decide)⟩


/-! ## `setLockTime` -/

theorem anySignature_iff (s : TransactionBuilder) :
    anySignature s = true ↔ ∃ c, PresentSig s c := by
  unfold anySignature PresentSig
  rw [List.any_eq_true]
  constructor
  · rintro ⟨oi, hoi, h⟩
    cases oi with
    | none => cases h
    | some input =>
      cases hs : input.signatures with
      | none => simp only [hs] at h; cases h
      | some sigs =>
        simp only [hs] at h
        rw [List.any_eq_true] at h
        obtain ⟨sl, hsl, ht⟩ := h
        cases sl with
        | none => cases ht
        | some c => exact ⟨c, input, sigs, hoi, hs, hsl, ht⟩
  · rintro ⟨c, input, sigs, hoi, hs, hsl, ht⟩
    refine ⟨some input, hoi, ?_⟩
    simp only [hs]
    rw [List.any_eq_true]
    exact ⟨some c, hsl, ht⟩

/-- C6, counterexample. The builder `demoSignedAnyoneCanPay` holds one signature, with hash
type `0x81`: `__canModifyInputs()` is true, yet `setLockTime(5)` throws. -/
theorem setLockTime_not_canModifyInputs :
    isUInt32 5 = true ∧ canModifyInputs demoSignedAnyoneCanPay = Except.ok true ∧
    (setLockTime demoSignedAnyoneCanPay 5).2 = Except.error Err.invalidatesSignatures := by
  decide

/-- C6, amended. For every builder state and every uint32 locktime, `setLockTime` throws
("No, this would invalidate signatures") if and only if some input record holds a present
signature, whatever its hash type; in particular it throws whenever `__canModifyInputs()`
is not true. When it throws the builder, hence the locktime, is unchanged; otherwise only
the locktime of the draft transaction changes. -/
theorem setLockTime_iff (s : TransactionBuilder) (locktime : Nat)
    (h : isUInt32 locktime = true) :
    ((setLockTime s locktime).2 = Except.error Err.invalidatesSignatures ↔
      ∃ c, PresentSig s c) ∧
    ((setLockTime s locktime).2 = Except.ok () ↔ ¬ ∃ c, PresentSig s c) ∧
    (canModifyInputs s ≠ Except.ok true →
      (setLockTime s locktime).2 = Except.error Err.invalidatesSignatures) ∧
    ((setLockTime s locktime).2 ≠ Except.ok () → (setLockTime s locktime).1 = s) ∧
    ((setLockTime s locktime).2 = Except.ok () →
      (setLockTime s locktime).1 = { s with tx := { s.tx with locktime := locktime } }) := by
  have hiff := anySignature_iff s
  unfold setLockTime
  rw [h]
  simp only [Bool.true_eq_false, if_false]
  by_cases ha : anySignature s = true
  · rw [if_pos ha]
    have hex := hiff.1 ha
    refine ⟨⟨fun _ => hex, fun _ => rfl⟩, ⟨fun hh => (by cases hh), fun hh => absurd hex hh⟩,
      fun _ => rfl, fun _ => rfl, fun hh => (by cases hh)⟩
  · rw [if_neg ha]
    have hex : ¬ ∃ c, PresentSig s c := fun hh => ha (hiff.2 hh)
    refine ⟨⟨fun hh => (by cases hh), fun hh => absurd hh hex⟩, ⟨fun _ => hex, fun _ => rfl⟩,
      ?_, fun hh => absurd rfl hh, fun _ => rfl⟩
    intro hc
    exfalso
    apply hc
    rw [canModifyInputs_ok_iff]
    intro c hp
    exact absurd ⟨c, hp⟩ hex

theorem setLockTime_iff_witness :
    isUInt32 5 = true ∧
    (((setLockTime demoSignedAnyoneCanPay 5).2 = Except.error Err.invalidatesSignatures ↔
      ∃ c, PresentSig demoSignedAnyoneCanPay c) ∧
    ((setLockTime demoSignedAnyoneCanPay 5).2 = Except.ok () ↔
      ¬ ∃ c, PresentSig demoSignedAnyoneCanPay c) ∧
    (canModifyInputs demoSignedAnyoneCanPay ≠ Except.ok true →
      (setLockTime demoSignedAnyoneCanPay 5).2 = Except.error Err.invalidatesSignatures) ∧
    ((setLockTime demoSignedAnyoneCanPay 5).2 ≠ Except.ok () →
      (setLockTime demoSignedAnyoneCanPay 5).1 = demoSignedAnyoneCanPay) ∧
    ((setLockTime demoSignedAnyoneCanPay 5).2 = Except.ok () →
      (setLockTime demoSignedAnyoneCanPay 5).1 =
        { demoSignedAnyoneCanPay with tx := { demoSignedAnyoneCanPay.tx with locktime := 5 } })) :=
  ⟨by decide, setLockTime_iff demoSignedAnyoneCanPay 5 (by decide)⟩


/-! ## The duplicate-spend invariant -/

/-- The builder after `__addInputUnsafe`: unchanged when it throws; otherwise the hash is not
the coinbase marker, the outpoint was not in `prevTxMap`, and one input, one record and one
map entry were added. -/
theorem addInputUnsafe_cases (env : Collab) (s : TransactionBuilder) (txHash : Buffer)
    (vout : Nat) (options : AddInputOptions) :
    ((addInputUnsafe env s txHash vout options).1 = s ∧
      ∃ e, (addInputUnsafe env s txHash vout options).2 = Except.error e) ∨
    (Transaction.isCoinbaseHash txHash = false ∧ mapGet s.prevTxMap (txHash, vout) = none ∧
      (addInputUnsafe env s txHash vout options).2 = Except.ok s.tx.ins.length ∧
      ∃ input txIn, txIn.hash = txHash ∧ txIn.index = vout ∧
        (addInputUnsafe env s txHash vout options).1 =
          { s with
            tx := { s.tx with ins := s.tx.ins ++ [txIn] }
            inputs := arraySet s.inputs s.tx.ins.length (some input)
            prevTxMap := ((txHash, vout), s.tx.ins.length) :: s.prevTxMap }) := by
  unfold addInputUnsafe
  by_cases hcb : Transaction.isCoinbaseHash txHash = true
  · rw [if_pos hcb]
    exact Or.inl ⟨rfl, _, rfl⟩
  · rw [if_neg hcb]
    by_cases hdup : (mapGet s.prevTxMap (txHash, vout)).isSome = true
    · rw [if_pos hdup]
      exact Or.inl ⟨rfl, _, rfl⟩
    · rw [if_neg hdup]
      generalize (match options.script with
        | some script => expandInput env script (options.witness.getD [])
        | none => Except.ok {}) = r0
      cases r0 with
      | error e => exact Or.inl ⟨rfl, _, rfl⟩
      | ok input0 =>
        simp only
        generalize (match options.value with
          | some v => ({ input0 with value := some v } : Input)
          | none => input0) = input1
        cases addPrevOutScript env input1 options.prevOutScript with
        | error e => exact Or.inl ⟨rfl, _, rfl⟩
        | ok input2 =>
          refine Or.inr ⟨by simpa using hcb, by simpa using hdup, rfl, input2, _, rfl, rfl, rfl⟩

theorem mapGet_cons (m : List ((Buffer × Nat) × Nat)) (k k2 : Buffer × Nat) (v : Nat) :
    mapGet ((k, v) :: m) k2 = if k = k2 then some v else mapGet m k2 := by
  rfl

theorem spend_addInputUnsafe (env : Collab) (s : TransactionBuilder) (txHash : Buffer)
    (vout : Nat) (options : AddInputOptions) (h : SpendInvariant s) :
    SpendInvariant (addInputUnsafe env s txHash vout options).1 := by
  rcases addInputUnsafe_cases env s txHash vout options with ⟨hs, _⟩ |
    ⟨hcb, hnew, _, input, txIn, hh, hi, hs⟩
  · rw [hs]
    exact h
  · rw [hs]
    obtain ⟨h1, h2, h3, h4⟩ := h
    have hnotin : (txHash, vout) ∉ outpoints s.tx := by
      intro hmem
      unfold outpoints at hmem
      rw [List.mem_map] at hmem
      obtain ⟨t, ht, heq⟩ := hmem
      obtain ⟨i, hi2⟩ := List.getElem?_of_mem ht
      have := h2 i t hi2
      simp only [Prod.mk.injEq] at heq
      rw [heq.1, heq.2, hnew] at this
      cases this
    refine ⟨?_, ?_, ?_, ?_⟩
    · unfold outpoints
      simp only [List.map_append, List.map_cons, List.map_nil, hh, hi]
      rw [List.nodup_append]
      refine ⟨h1, List.nodup_singleton _, ?_⟩
      intro a ha hb
      simp only [List.mem_singleton] at hb
      subst hb
      exact hnotin ha
    · intro i t hit
      simp only at hit ⊢
      rw [mapGet_cons]
      by_cases hlt : i < s.tx.ins.length
      · rw [List.getElem?_append_left hlt] at hit
        have hm := h2 i t hit
        have hne : (txHash, vout) ≠ (t.hash, t.index) := by
          intro heq
          rw [← heq, hnew] at hm
          cases hm
        rw [if_neg hne]
        exact hm
      · have hge : s.tx.ins.length ≤ i := by omega
        rw [List.getElem?_append_right hge] at hit
        have hi0 : i - s.tx.ins.length = 0 := by
          by_contra hne
          rw [List.getElem?_eq_none (by simp; omega)] at hit
          cases hit
        rw [hi0] at hit
        simp only [List.getElem?_cons_zero, Option.some.injEq] at hit
        subst hit
        rw [hh, hi, if_pos rfl]
        congr 1
        omega
    · simp only [List.length_append, List.length_singleton]
      unfold arraySet
      rw [if_neg (by omega)]
      simp only [List.length_append, List.length_replicate, List.length_singleton]
      omega
    · intro t ht
      simp only [List.mem_append, List.mem_singleton] at ht
      rcases ht with ht | ht
      · exact h4 t ht
      · subst ht
        rw [hh]
        exact hcb

theorem addInput_cases (env : Collab) (s : TransactionBuilder) (txHash : TxHashArg)
    (vout : Nat) (sequence : Option Nat) (prevOutScript : Option Buffer) :
    (addInput env s txHash vout sequence prevOutScript).1 = s ∨
    ∃ h options, (addInput env s txHash vout sequence prevOutScript).1 =
      (addInputUnsafe env s h vout options).1 := by
  unfold addInput
  split
  · exact Or.inl rfl
  · exact Or.inl rfl
  · split
    · exact Or.inr ⟨_, _, rfl⟩
    · split
      · exact Or.inl rfl
      · exact Or.inr ⟨_, _, rfl⟩
    · exact Or.inr ⟨_, _, rfl⟩

theorem addOutput_cases (env : Collab) (s : TransactionBuilder)
    (scriptPubKey : ScriptPubKeyArg) (value : Nat) :
    (addOutput env s scriptPubKey value).1 = s ∨
    ∃ script, (addOutput env s scriptPubKey value).2 = Except.ok s.tx.outs.length ∧
      (addOutput env s scriptPubKey value).1 =
        { s with tx := { s.tx with outs := s.tx.outs ++ [⟨script, value⟩] } } := by
  unfold addOutput
  split
  · exact Or.inl rfl
  · exact Or.inl rfl
  · split
    · exact Or.inl rfl
    · exact Or.inr ⟨_, rfl, rfl⟩

theorem spend_addOutput (env : Collab) (s : TransactionBuilder)
    (scriptPubKey : ScriptPubKeyArg) (value : Nat) (h : SpendInvariant s) :
    SpendInvariant (addOutput env s scriptPubKey value).1 := by
  rcases addOutput_cases env s scriptPubKey value with hs | ⟨script, _, hs⟩
  · rw [hs]
    exact h
  · rw [hs]
    exact h

theorem spend_sign (env : Collab) (s : TransactionBuilder) (vin : Nat) (K : KeyPair)
    (rs : Option Buffer) (ht wv : Option Nat) (ws : Option Buffer) (h : SpendInvariant s) :
    SpendInvariant (sign env s vin K rs ht wv ws).1 := by
  have key : ∀ X, SpendInvariant (setInput s vin X) := by
    intro X
    obtain ⟨h1, h2, h3, h4⟩ := h
    refine ⟨h1, h2, ?_, h4⟩
    unfold setInput
    simp only [List.length_set]
    exact h3
  rcases sign_state env s vin K rs ht wv ws with hst | ⟨input, _, hst | ⟨_, hst⟩⟩
  · rw [hst]
    exact h
  · rw [hst]
    exact key _
  · rw [hst]
    exact key _

theorem spend_setVersion (s : TransactionBuilder) (version : Nat) (h : SpendInvariant s) :
    SpendInvariant (setVersion s version).1 := by
  unfold setVersion
  split
  · exact h
  · exact h

theorem spend_setLockTime (s : TransactionBuilder) (locktime : Nat) (h : SpendInvariant s) :
    SpendInvariant (setLockTime s locktime).1 := by
  unfold setLockTime
  split
  · exact h
  · split
    · exact h
    · exact h

theorem spend_new (network : Option Network) (maximumFeeRate : Option Nat) :
    SpendInvariant (TransactionBuilder.new network maximumFeeRate) := by
  unfold SpendInvariant TransactionBuilder.new outpoints Transaction.empty
  simp

theorem spend_addOutputs (env : Collab) (outs : List TxOut) (s s1 : TransactionBuilder)
    (h : SpendInvariant s) (hr : addOutputs env s outs = Except.ok s1) : SpendInvariant s1 := by
  induction outs generalizing s with
  | nil =>
    unfold addOutputs at hr
    cases hr
    exact h
  | cons txOut rest ih =>
    unfold addOutputs at hr
    have hstep := spend_addOutput env s (ScriptPubKeyArg.script txOut.script) txOut.value h
    cases hres : addOutput env s (ScriptPubKeyArg.script txOut.script) txOut.value with
    | mk s2 r =>
      rw [hres] at hr hstep
      cases r with
      | error e => cases hr
      | ok v => exact ih s2 hstep hr

theorem spend_addInputs (env : Collab) (ins : List TxIn) (s s1 : TransactionBuilder)
    (h : SpendInvariant s) (hr : addInputs env s ins = Except.ok s1) : SpendInvariant s1 := by
  induction ins generalizing s with
  | nil =>
    unfold addInputs at hr
    cases hr
    exact h
  | cons txIn rest ih =>
    unfold addInputs at hr
    have hstep := spend_addInputUnsafe env s txIn.hash txIn.index
      { sequence := some txIn.sequence, script := some txIn.script,
        witness := some txIn.witness } h
    cases hres : addInputUnsafe env s txIn.hash txIn.index
        { sequence := some txIn.sequence, script := some txIn.script,
          witness := some txIn.witness } with
    | mk s2 r =>
      rw [hres] at hr hstep
      cases r with
      | error e => cases hr
      | ok v => exact ih s2 hstep hr

theorem fixAll_length (env : Collab) (transaction : Transaction) (inputs : List (Option Input))
    (i : Nat) (inputs1 : List (Option Input))
    (h : fixAll env transaction inputs i = Except.ok inputs1) :
    inputs1.length = inputs.length := by
  induction inputs generalizing i inputs1 with
  | nil =>
    unfold fixAll at h
    cases h
    rfl
  | cons oi rest ih =>
    cases oi with
    | none =>
      unfold fixAll at h
      cases hr : fixAll env transaction rest (i + 1) with
      | error e => rw [hr] at h; cases h
      | ok rest1 =>
        rw [hr] at h
        cases h
        simp [ih (i + 1) rest1 hr]
    | some input =>
      unfold fixAll at h
      cases hf : fixMultisigOrder env input transaction i with
      | error e => rw [hf] at h; cases h
      | ok input1 =>
        rw [hf] at h
        cases hr : fixAll env transaction rest (i + 1) with
        | error e => rw [hr] at h; cases h
        | ok rest1 =>
          rw [hr] at h
          cases h
          simp [ih (i + 1) rest1 hr]

/-- The stages of a successful `fromTransaction`. -/
theorem fromTransaction_ok (env : Collab) (transaction : Transaction)
    (network : Option Network) (s : TransactionBuilder)
    (h : fromTransaction env transaction network = Except.ok s) :
    ∃ txb3 txb4 inputs,
      addOutputs env
        (setLockTime (setVersion (TransactionBuilder.new network none) transaction.version).1
          transaction.locktime).1 transaction.outs = Except.ok txb3 ∧
      addInputs env txb3 transaction.ins = Except.ok txb4 ∧
      fixAll env transaction txb4.inputs 0 = Except.ok inputs ∧
      s = { txb4 with inputs := inputs } := by
  unfold fromTransaction at h
  simp only at h
  cases h1 : setVersion (TransactionBuilder.new network none) transaction.version with
  | mk txb1 r1 =>
    rw [h1] at h
    cases r1 with
    | error e => cases h
    | ok u1 =>
      simp only at h
      cases h2 : setLockTime txb1 transaction.locktime with
      | mk txb2 r2 =>
        rw [h2] at h
        cases r2 with
        | error e => cases h
        | ok u2 =>
          simp only at h
          cases h3 : addOutputs env txb2 transaction.outs with
          | error e => rw [h3] at h; cases h
          | ok txb3 =>
            rw [h3] at h
            simp only at h
            cases h4 : addInputs env txb3 transaction.ins with
            | error e => rw [h4] at h; cases h
            | ok txb4 =>
              rw [h4] at h
              simp only at h
              cases h5 : fixAll env transaction txb4.inputs 0 with
              | error e => rw [h5] at h; cases h
              | ok inputs =>
                rw [h5] at h
                cases h
                exact ⟨txb3, txb4, inputs, rfl, h4, h5, rfl⟩

theorem spend_fromTransaction (env : Collab) (transaction : Transaction)
    (network : Option Network) (s : TransactionBuilder)
    (h : fromTransaction env transaction network = Except.ok s) : SpendInvariant s := by
  obtain ⟨txb3, txb4, inputs, h3, h4, h5, hs⟩ := fromTransaction_ok env transaction network s h
  have i3 := spend_addOutputs env _ _ txb3
    (spend_setLockTime _ _ (spend_setVersion _ _ (spend_new network none))) h3
  obtain ⟨a1, a2, a3, a4⟩ := spend_addInputs env _ _ txb4 i3 h4
  subst hs
  refine ⟨a1, a2, ?_, a4⟩
  simp only
  rw [fixAll_length env transaction _ _ _ h5]
  exact a3

theorem spend_addInput (env : Collab) (s : TransactionBuilder) (txHash : TxHashArg)
    (vout : Nat) (sequence : Option Nat) (prevOutScript : Option Buffer)
    (h : SpendInvariant s) :
    SpendInvariant (addInput env s txHash vout sequence prevOutScript).1 := by
  rcases addInput_cases env s txHash vout sequence prevOutScript with hs | ⟨hh, o, hs⟩
  · rw [hs]
    exact h
  · rw [hs]
    exact spend_addInputUnsafe env s hh vout o h

/-- Every reachable builder state satisfies the duplicate-spend invariant. -/
theorem spend_reachable (env : Collab) (s : TransactionBuilder) (h : Reachable env s) :
    SpendInvariant s := by
  induction h with
  | new network maximumFeeRate => exact spend_new network maximumFeeRate
  | fromTransaction transaction network s h => exact spend_fromTransaction env _ _ s h
  | addInput s txHash vout sequence prevOutScript _ ih =>
    exact spend_addInput env s txHash vout sequence prevOutScript ih
  | addOutput s scriptPubKey value _ ih => exact spend_addOutput env s scriptPubKey value ih
  | sign s vin keyPair redeemScript hashType witnessValue witnessScript _ ih =>
    exact spend_sign env s vin keyPair redeemScript hashType witnessValue witnessScript ih
  | setVersion s version _ ih => exact spend_setVersion s version ih
  | setLockTime s locktime _ ih => exact spend_setLockTime s locktime ih


theorem addInputUnsafe_duplicate (env : Collab) (s : TransactionBuilder) (h : SpendInvariant s)
    (txIn : TxIn) (hmem : txIn ∈ s.tx.ins) (options : AddInputOptions) :
    addInputUnsafe env s txIn.hash txIn.index options = (s, Except.error Err.duplicateTxOut) := by
  obtain ⟨_, h2, _, h4⟩ := h
  obtain ⟨i, hi⟩ := List.getElem?_of_mem hmem
  unfold addInputUnsafe
  rw [h4 txIn hmem, h2 i txIn hi]
  rfl

/-- C7. Duplicate-spend invariant. In every builder state reachable through the constructor,
`fromTransaction`, `addInput`, `addOutput`, `sign`, `setVersion` and `setLockTime`, no two
transaction inputs have the same (hash, index) outpoint, `prevTxMap` maps the outpoint of
each input to the index of that input, and `inputs` is as long as `tx.ins`. Adding an
outpoint that is already present fails and changes nothing: `__addInputUnsafe` throws
"Duplicate TxOut", and so does `addInput` (which first runs the input guard) whenever
`__canModifyInputs()` is true. -/
theorem duplicate_spend_invariant (env : Collab) (s : TransactionBuilder)
    (h : Reachable env s) :
    (outpoints s.tx).Nodup ∧
    (∀ i txIn, s.tx.ins[i]? = some txIn →
      mapGet s.prevTxMap (txIn.hash, txIn.index) = some i) ∧
    s.inputs.length = s.tx.ins.length ∧
    (∀ txIn ∈ s.tx.ins, ∀ options,
      addInputUnsafe env s txIn.hash txIn.index options =
        (s, Except.error Err.duplicateTxOut)) ∧
    (∀ txIn ∈ s.tx.ins, ∀ sequence prevOutScript,
      (addInput env s (TxHashArg.buffer txIn.hash) txIn.index sequence prevOutScript).1 = s ∧
      (∃ e, (addInput env s (TxHashArg.buffer txIn.hash) txIn.index sequence prevOutScript).2 =
        Except.error e) ∧
      (canModifyInputs s = Except.ok true →
        (addInput env s (TxHashArg.buffer txIn.hash) txIn.index sequence prevOutScript).2 =
          Except.error Err.duplicateTxOut)) := by
  have hinv := spend_reachable env s h
  refine ⟨hinv.1, hinv.2.1, hinv.2.2.1, fun txIn hmem options =>
    addInputUnsafe_duplicate env s hinv txIn hmem options, ?_⟩
  intro txIn hmem sequence prevOutScript
  unfold addInput
  cases hc : canModifyInputs s with
  | error e => exact ⟨rfl, ⟨e, rfl⟩, fun hh => by cases hh⟩
  | ok b =>
    cases b with
    | false => exact ⟨rfl, ⟨_, rfl⟩, fun hh => by cases hh⟩
    | true =>
      simp only
      rw [addInputUnsafe_duplicate env s hinv txIn hmem]
      exact ⟨rfl, ⟨_, rfl⟩, fun _ => rfl⟩

theorem duplicate_spend_invariant_witness :
    Reachable demo demoOneInput ∧
    ((outpoints demoOneInput.tx).Nodup ∧
    (∀ i txIn, demoOneInput.tx.ins[i]? = some txIn →
      mapGet demoOneInput.prevTxMap (txIn.hash, txIn.index) = some i) ∧
    demoOneInput.inputs.length = demoOneInput.tx.ins.length ∧
    (∀ txIn ∈ demoOneInput.tx.ins, ∀ options,
      addInputUnsafe demo demoOneInput txIn.hash txIn.index options =
        (demoOneInput, Except.error Err.duplicateTxOut)) ∧
    (∀ txIn ∈ demoOneInput.tx.ins, ∀ sequence prevOutScript,
      (addInput demo demoOneInput (TxHashArg.buffer txIn.hash) txIn.index sequence
        prevOutScript).1 = demoOneInput ∧
      (∃ e, (addInput demo demoOneInput (TxHashArg.buffer txIn.hash) txIn.index sequence
        prevOutScript).2 = Except.error e) ∧
      (canModifyInputs demoOneInput = Except.ok true →
        (addInput demo demoOneInput (TxHashArg.buffer txIn.hash) txIn.index sequence
          prevOutScript).2 = Except.error Err.duplicateTxOut))) :=
  ⟨Reachable.addInput _ _ _ _ _ (Reachable.new none none),
    duplicate_spend_invariant demo demoOneInput
      (Reachable.addInput _ _ _ _ _ (Reachable.new none none))⟩

/-! ## Coinbase outpoints -/

theorem isCoinbaseHash_reverse (b : Buffer) :
    Transaction.isCoinbaseHash b.reverse = Transaction.isCoinbaseHash b := by
  unfold Transaction.isCoinbaseHash
  simp

theorem addInputUnsafe_coinbase (env : Collab) (s : TransactionBuilder) (txHash : Buffer)
    (vout : Nat) (options : AddInputOptions) (h : Transaction.isCoinbaseHash txHash = true) :
    addInputUnsafe env s txHash vout options = (s, Except.error Err.coinbaseNotSupported) := by
  unfold addInputUnsafe
  rw [if_pos h]

theorem addInputs_coinbase (env : Collab) (ins : List TxIn) (s : TransactionBuilder)
    (txIn : TxIn) (hmem : txIn ∈ ins) (h : Transaction.isCoinbaseHash txIn.hash = true) :
    ∃ e, addInputs env s ins = Except.error e := by
  induction ins generalizing s with
  | nil => cases hmem
  | cons t rest ih =>
    unfold addInputs
    cases hres : addInputUnsafe env s t.hash t.index
        { sequence := some t.sequence, script := some t.script, witness := some t.witness } with
    | mk s2 r =>
      cases r with
      | error e => exact ⟨e, rfl⟩
      | ok v =>
        simp only
        rcases List.mem_cons.1 hmem with heq | hin
        · subst heq
          rw [addInputUnsafe_coinbase env s _ _ _ h] at hres
          cases hres
        · exact ih s2 hin

/-- C8, counterexample. On the builder `demoSignedAll`, which holds a SIGHASH_ALL signature,
`addInput` with the all-zero hash throws "No, this would invalidate signatures", not
"coinbase inputs not supported": the input guard runs first. -/
theorem addInput_coinbase_other_error :
    Transaction.isCoinbaseHash demoCoinbaseHash = true ∧
    (addInput demo demoSignedAll (TxHashArg.buffer demoCoinbaseHash) 0 none none).2 =
      Except.error Err.invalidatesSignatures ∧
    (addInput demo demoSignedAll (TxHashArg.buffer demoCoinbaseHash) 0 none none).2 ≠
      Except.error Err.coinbaseNotSupported := by
  decide

/-- C8, amended. A coinbase outpoint is never accepted. `__addInputUnsafe` throws "coinbase
inputs not supported" for every all-zero hash. `addInput` with an all-zero hash (given as a
buffer or as a hex string) fails and changes nothing, with "coinbase inputs not supported"
whenever the input guard `__canModifyInputs()` is true. `fromTransaction` fails on every
transaction that has an input with an all-zero hash, with "coinbase inputs not supported"
when version and locktime are uint32 and that input is the first one. Hence no reachable
builder state contains an input with an all-zero hash. -/
theorem coinbase_never_accepted (env : Collab) :
    (∀ s txHash vout options, Transaction.isCoinbaseHash txHash = true →
      addInputUnsafe env s txHash vout options = (s, Except.error Err.coinbaseNotSupported)) ∧
    (∀ s txHash vout sequence prevOutScript,
      (∃ b, Transaction.isCoinbaseHash b = true ∧
        (txHash = TxHashArg.buffer b ∨ txHash = TxHashArg.hex b)) →
      (addInput env s txHash vout sequence prevOutScript).1 = s ∧
      (∃ e, (addInput env s txHash vout sequence prevOutScript).2 = Except.error e) ∧
      (canModifyInputs s = Except.ok true →
        (addInput env s txHash vout sequence prevOutScript).2 =
          Except.error Err.coinbaseNotSupported)) ∧
    (∀ transaction network, (∃ txIn ∈ transaction.ins,
        Transaction.isCoinbaseHash txIn.hash = true) →
      ∃ e, fromTransaction env transaction network = Except.error e) ∧
    (∀ transaction network txIn rest, transaction.ins = txIn :: rest →
      Transaction.isCoinbaseHash txIn.hash = true → isUInt32 transaction.version = true →
      isUInt32 transaction.locktime = true →
      fromTransaction env transaction network = Except.error Err.coinbaseNotSupported) ∧
    (∀ s, Reachable env s → ∀ txIn ∈ s.tx.ins, Transaction.isCoinbaseHash txIn.hash = false) := by
  refine ⟨fun s txHash vout options h => addInputUnsafe_coinbase env s txHash vout options h,
    ?_, ?_, ?_, fun s h => (spend_reachable env s h).2.2.2⟩
  · rintro s txHash vout sequence prevOutScript ⟨b, hb, hx⟩
    unfold addInput
    cases hc : canModifyInputs s with
    | error e => exact ⟨rfl, ⟨e, rfl⟩, fun hh => by cases hh⟩
    | ok g =>
      cases g with
      | false => exact ⟨rfl, ⟨_, rfl⟩, fun hh => by cases hh⟩
      | true =>
        rcases hx with hx | hx
        · subst hx
          simp only
          rw [addInputUnsafe_coinbase env s b _ _ hb]
          exact ⟨rfl, ⟨_, rfl⟩, fun _ => rfl⟩
        · subst hx
          simp only
          rw [addInputUnsafe_coinbase env s b.reverse _ _
            (by rw [isCoinbaseHash_reverse]; exact hb)]
          exact ⟨rfl, ⟨_, rfl⟩, fun _ => rfl⟩
  · rintro transaction network ⟨txIn, hmem, hcb⟩
    cases hf : fromTransaction env transaction network with
    | error e => exact ⟨e, rfl⟩
    | ok s =>
      exfalso
      obtain ⟨txb3, txb4, inputs, _, h4, _, _⟩ := fromTransaction_ok env transaction network s hf
      obtain ⟨e, he⟩ := addInputs_coinbase env transaction.ins txb3 txIn hmem hcb
      rw [he] at h4
      cases h4
  · intro transaction network txIn rest hins hcb hv hl
    unfold fromTransaction
    simp only
    have h1 : setVersion (TransactionBuilder.new network none) transaction.version =
        ({ TransactionBuilder.new network none with
            tx := { (TransactionBuilder.new network none).tx with
              version := transaction.version } }, Except.ok ()) := by
      unfold setVersion
      rw [hv]
      rfl
    rw [h1]
    simp only
    have h2 : ∀ txb : TransactionBuilder, txb.inputs = [] →
        setLockTime txb transaction.locktime =
          ({ txb with tx := { txb.tx with locktime := transaction.locktime } }, Except.ok ()) := by
      intro txb hempty
      unfold setLockTime anySignature
      rw [hl, hempty]
      rfl
    rw [h2 _ rfl]
    simp only
    have h3 : ∀ (outs : List TxOut) (txb : TransactionBuilder) (r : Except Err TransactionBuilder),
        txb.inputs = [] → addOutputs env txb outs = r → ∃ txb3, r = Except.ok txb3 := by
      intro outs
      induction outs with
      | nil =>
        intro txb r _ hr
        unfold addOutputs at hr
        exact ⟨txb, hr.symm⟩
      | cons o rest2 ih =>
        intro txb r hempty hr
        unfold addOutputs addOutput canModifyOutputs at hr
        rw [hempty] at hr
        simp only [everyM] at hr
        exact ih _ r rfl hr
    split
    · rename_i e heq
      obtain ⟨t, ht⟩ := h3 _ _ _ (by rfl) heq
      cases ht
    · rename_i txb3 heq
      rw [hins]
      unfold addInputs
      rw [addInputUnsafe_coinbase env txb3 _ _ _ hcb]


/-! ## Strict build of a multisig input below its threshold -/

/-- C9, evaluation at the failing input. The input of `demoOneOfThree` is a P2SH 2-of-3
multisig spend with one signature, the input of `demoNoneOfThree` the same spend with no
signature; strict `build()` returns a transaction on both, as `buildIncomplete()` does. -/
theorem build_accepts_multisig_below_threshold :
    ((demoOneOfThree.inputs[0]?).join.map (fun input => input.redeemScriptType)) =
      some (some ScriptType.MULTISIG) ∧
    presentCount demoOneOfThree 0 = 1 ∧
    returned (build demo demoOneOfThree) = true ∧
    returned (buildIncomplete demo demoOneOfThree) = true ∧
    ((demoNoneOfThree.inputs[0]?).join.map (fun input => input.redeemScriptType)) =
      some (some ScriptType.MULTISIG) ∧
    presentCount demoNoneOfThree 0 = 0 ∧
    returned (build demo demoNoneOfThree) = true ∧
    returned (buildIncomplete demo demoNoneOfThree) = true := by
  decide


/-! ## Building an input -/

theorem buildStack_total (env : Collab) (type : Option ScriptType) (sigs pks : List Slot)
    (h : supportedType type = true) :
    ∃ stack, buildStack env type (some sigs) (some pks) true = Except.ok stack := by
  rcases type with _ | t
  · cases h
  · cases t
    case P2SH => cases h
    case P2WPKH => cases h
    case P2WSH => cases h
    case NONSTANDARD => cases h
    case P2PKH =>
      rcases sigs with _ | ⟨sl, _ | ⟨x, rest⟩⟩
      · exact ⟨_, rfl⟩
      · rcases sl with _ | ⟨b | n⟩
        · exact ⟨_, rfl⟩
        · rcases pks with _ | ⟨pk, _ | ⟨y, rest2⟩⟩
          · exact ⟨_, rfl⟩
          · exact ⟨_, rfl⟩
          · exact ⟨_, rfl⟩
        · exact ⟨_, rfl⟩
      · rcases sl with _ | ⟨b | n⟩
        · exact ⟨_, rfl⟩
        · exact ⟨_, rfl⟩
        · exact ⟨_, rfl⟩
    case P2PK =>
      rcases sigs with _ | ⟨sl, _ | ⟨x, rest⟩⟩
      · exact ⟨_, rfl⟩
      · rcases sl with _ | ⟨b | n⟩
        · exact ⟨_, rfl⟩
        · exact ⟨_, rfl⟩
        · exact ⟨_, rfl⟩
      · rcases sl with _ | ⟨b | n⟩
        · exact ⟨_, rfl⟩
        · exact ⟨_, rfl⟩
        · exact ⟨_, rfl⟩
    case MULTISIG =>
      rcases sigs with _ | ⟨sl, rest⟩
      · exact ⟨_, rfl⟩
      · exact ⟨_, rfl⟩

/-- A single-signature stack with an absent slot: strict mode throws, incomplete mode gives
the empty stack. -/
theorem buildStack_unsigned (env : Collab) (type : ScriptType) (sigs : List Slot)
    (pks : Option (List Slot)) (allowIncomplete : Bool)
    (ht : type = ScriptType.P2PKH ∨ type = ScriptType.P2PK)
    (hsl : isBuffer sigs.head?.join = false) :
    buildStack env (some type) (some sigs) pks allowIncomplete =
      if allowIncomplete then Except.ok [] else Except.error Err.notEnoughSignatures := by
  rcases sigs with _ | ⟨sl, rest⟩
  · rcases ht with ht | ht <;> subst ht <;> rfl
  · rcases sl with _ | ⟨b | n⟩
    · rcases ht with ht | ht <;> subst ht <;> rcases rest with _ | ⟨x, rest⟩ <;> rfl
    · cases hsl
    · rcases ht with ht | ht <;> subst ht <;> rcases rest with _ | ⟨x, rest⟩ <;> rfl

/-- In incomplete mode the `switch` of `buildInput` does not throw on a record that has its
slot arrays and, with a witness script type, its witness script. -/
theorem buildInputWitness_total (env : Collab) (input : Input) (t : Option ScriptType)
    (sigs pks : List Slot) (hs : input.signatures = some sigs) (hp : input.pubKeys = some pks)
    (hd : input.witnessScriptType.isSome = true → input.witnessScript.isSome = true) :
    ∃ r, buildInputWitness env input t true = Except.ok r := by
  unfold buildInputWitness
  rw [hs, hp]
  split
  · obtain ⟨st, hst⟩ := buildStack_total env (some ScriptType.P2PKH) sigs pks rfl
    rw [hst]
    exact ⟨_, rfl⟩
  · rw [if_neg (by simp)]
    by_cases hsup : supportedType input.witnessScriptType = true
    · rw [if_pos hsup]
      obtain ⟨st, hst⟩ := buildStack_total env input.witnessScriptType sigs pks hsup
      rw [hst]
      have hsome : input.witnessScriptType.isSome = true := by
        cases hw : input.witnessScriptType with
        | none => rw [hw] at hsup; cases hsup
        | some _ => rfl
      cases hws : input.witnessScript with
      | none =>
        have := hd hsome
        rw [hws] at this
        cases this
      | some ws => exact ⟨_, rfl⟩
    · rw [if_neg hsup]
      exact ⟨_, rfl⟩
  · exact ⟨_, rfl⟩

/-- In incomplete mode `buildInput` does not throw on a well-formed record. -/
theorem buildInput_total (env : Collab) (input : Input) (h : InputOK input) :
    ∃ r, buildInput env input true = Except.ok r := by
  obtain ⟨ha, hb, hc, hd⟩ := h
  cases hs : input.signatures with
  | some sigs =>
    cases hp : input.pubKeys with
    | none => rw [hs, hp] at ha; cases ha
    | some pks =>
      have hw := fun t => buildInputWitness_total env input t sigs pks hs hp hd
      unfold buildInput
      simp only [hs, hp]
      have h0 : ∃ sig0, (if supportedType input.prevOutType = true then
          buildStack env input.prevOutType (some sigs) (some pks) true
          else Except.ok []) = Except.ok sig0 := by
        by_cases hsup : supportedType input.prevOutType = true
        · rw [if_pos hsup]
          exact buildStack_total env _ sigs pks hsup
        · rw [if_neg hsup]
          exact ⟨_, rfl⟩
      obtain ⟨sig0, h0⟩ := h0
      rw [h0]
      simp only
      by_cases hsh : input.prevOutType = some ScriptType.P2SH
      · rw [if_pos hsh, if_neg (by simp)]
        have h1 : ∃ sig1, (if supportedType input.redeemScriptType = true then
            buildStack env input.redeemScriptType (some sigs) (some pks) true
            else Except.ok sig0) = Except.ok sig1 := by
          by_cases hsup : supportedType input.redeemScriptType = true
          · rw [if_pos hsup]
            exact buildStack_total env _ sigs pks hsup
          · rw [if_neg hsup]
            exact ⟨_, rfl⟩
        obtain ⟨sig1, h1⟩ := h1
        rw [h1]
        simp only
        cases hrt : input.redeemScriptType with
        | none =>
          simp only
          obtain ⟨r, hr⟩ := hw input.prevOutType
          rw [hr]
          exact ⟨_, rfl⟩
        | some t =>
          simp only
          obtain ⟨r, hr⟩ := hw (some t)
          rw [hr]
          simp only
          cases hrs : input.redeemScript with
          | none =>
            have := hc (by rw [hrt]; rfl)
            rw [hrs] at this
            cases this
          | some rsc => exact ⟨_, rfl⟩
      · rw [if_neg hsh]
        obtain ⟨r, hr⟩ := hw input.prevOutType
        rw [hr]
        exact ⟨_, rfl⟩
  | none =>
    obtain ⟨hrt, hwt, hsup, hnw⟩ := hb hs
    unfold buildInput
    simp only [hsup, Bool.false_eq_true, if_false, hrt, hwt]
    have hw : ∃ r, buildInputWitness env input input.prevOutType true = Except.ok r := by
      unfold buildInputWitness
      split
      · rename_i heq
        exact absurd heq hnw
      · rw [if_neg (by simp), hwt]
        exact ⟨_, rfl⟩
      · exact ⟨_, rfl⟩
    obtain ⟨r, hr⟩ := hw
    by_cases hsh : input.prevOutType = some ScriptType.P2SH
    · rw [if_pos hsh, if_neg (by simp)]
      simp only [supportedType]
      rw [hr]
      exact ⟨_, rfl⟩
    · rw [if_neg hsh, hr]
      exact ⟨_, rfl⟩


/-- Strict mode: the `forEach` callback of `__build` throws "Not enough signatures provided"
on a single-signature spend whose slot is absent. -/
theorem buildChecked_unsigned_strict (env : Collab) (input : Input) (h : UnsignedSingle input) :
    buildChecked env false input = Except.error Err.notEnoughSignatures := by
  obtain ⟨hshape, sigs, hs, hsl⟩ := h
  have hk1 := buildStack_unsigned env ScriptType.P2PKH sigs input.pubKeys false (Or.inl rfl) hsl
  have hk2 := buildStack_unsigned env ScriptType.P2PK sigs input.pubKeys false (Or.inr rfl) hsl
  simp only [Bool.false_eq_true, if_false] at hk1 hk2
  unfold singleSigShape at hshape
  unfold buildChecked buildInput buildInputWitness
  rw [hs]
  rcases hpt : input.prevOutType with _ | pt
  · simp [hpt] at hshape
  · cases pt
    case P2PKH => simp [hk1, supportedType]
    case P2PK => simp [hk2, supportedType]
    case P2WPKH => simp [hk1, supportedType]
    case MULTISIG => simp [hpt] at hshape
    case NONSTANDARD => simp [hpt] at hshape
    case P2SH =>
      rcases hrt : input.redeemScriptType with _ | rt
      · simp [hpt, hrt] at hshape
      · cases rt
        case P2PKH => simp [hk1, supportedType, supportedP2SHType]
        case P2PK => simp [hk2, supportedType, supportedP2SHType]
        case P2WPKH => simp [hk1, supportedType, supportedP2SHType]
        case MULTISIG => simp [hpt, hrt] at hshape
        case NONSTANDARD => simp [hpt, hrt] at hshape
        case P2SH => simp [hpt, hrt] at hshape
        case P2WSH =>
          simp only [hpt, hrt, decide_eq_true_eq] at hshape
          rcases hshape with hwt | hwt
          · simp [hwt, hk1, supportedType, supportedP2SHType]
          · simp [hwt, hk2, supportedType, supportedP2SHType]
    case P2WSH =>
      simp only [hpt, decide_eq_true_eq] at hshape
      rcases hshape with hwt | hwt
      · simp [hwt, hk1, supportedType]
      · simp [hwt, hk2, supportedType]

/-- Strict mode: the callback throws "Transaction is not complete" on a record without a
resolvable script type. -/
theorem buildChecked_untyped_strict (env : Collab) (input : Input) (h : Untyped input) :
    buildChecked env false input = Except.error Err.notComplete := by
  obtain ⟨h1, h2, h3⟩ := h
  unfold buildChecked
  simp [h1, h2, h3]

/-- Incomplete mode: on a well-formed single-signature spend whose slot is absent, and on a
record without a resolvable script type, `buildInput` returns the script compiled from the
redeem script alone (if any) and the witness made of the witness script alone (if any): the
signature stack is empty. -/
theorem buildInput_unsigned_incomplete (env : Collab) (input : Input)
    (h : UnsignedSingle input ∨ Untyped input) (hok : InputOK input) :
    ∃ r, buildInput env input true = Except.ok r ∧
      r.script = env.compile ((wrapperScript input).map some) ∧
      r.witness = (wrapperWitness input).map some := by
  obtain ⟨_, _, hc, hd⟩ := hok
  rcases h with ⟨hshape, sigs, hs, hsl⟩ | ⟨h1, h2, h3⟩
  · have hk1 := buildStack_unsigned env ScriptType.P2PKH sigs input.pubKeys true (Or.inl rfl) hsl
    have hk2 := buildStack_unsigned env ScriptType.P2PK sigs input.pubKeys true (Or.inr rfl) hsl
    simp only [if_true] at hk1 hk2
    unfold singleSigShape at hshape
    unfold buildInput buildInputWitness wrapperScript wrapperWitness
    rw [hs]
    rcases hpt : input.prevOutType with _ | pt
    · simp [hpt] at hshape
    · cases pt
      case P2PKH => simp [hk1, supportedType]
      case P2PK => simp [hk2, supportedType]
      case P2WPKH => simp [hk1, supportedType]
      case MULTISIG => simp [hpt] at hshape
      case NONSTANDARD => simp [hpt] at hshape
      case P2SH =>
        rcases hrt : input.redeemScriptType with _ | rt
        · simp [hpt, hrt] at hshape
        · obtain ⟨rsc, hrs⟩ : ∃ rsc, input.redeemScript = some rsc := by
            have := hc (by rw [hrt]; rfl)
            cases hx : input.redeemScript with
            | none => rw [hx] at this; cases this
            | some rsc => exact ⟨rsc, rfl⟩
          cases rt
          case P2PKH => simp [hk1, hrs, supportedType, supportedP2SHType]
          case P2PK => simp [hk2, hrs, supportedType, supportedP2SHType]
          case P2WPKH => simp [hk1, hrs, supportedType, supportedP2SHType]
          case MULTISIG => simp [hpt, hrt] at hshape
          case NONSTANDARD => simp [hpt, hrt] at hshape
          case P2SH => simp [hpt, hrt] at hshape
          case P2WSH =>
            simp only [hpt, hrt, decide_eq_true_eq] at hshape
            obtain ⟨wsc, hws⟩ : ∃ wsc, input.witnessScript = some wsc := by
              have := hd (by rcases hshape with hwt | hwt <;> rw [hwt] <;> rfl)
              cases hx : input.witnessScript with
              | none => rw [hx] at this; cases this
              | some wsc => exact ⟨wsc, rfl⟩
            rcases hshape with hwt | hwt
            · simp [hwt, hk1, hrs, hws, supportedType, supportedP2SHType]
            · simp [hwt, hk2, hrs, hws, supportedType, supportedP2SHType]
      case P2WSH =>
        simp only [hpt, decide_eq_true_eq] at hshape
        obtain ⟨wsc, hws⟩ : ∃ wsc, input.witnessScript = some wsc := by
          have := hd (by rcases hshape with hwt | hwt <;> rw [hwt] <;> rfl)
          cases hx : input.witnessScript with
          | none => rw [hx] at this; cases this
          | some wsc => exact ⟨wsc, rfl⟩
        rcases hshape with hwt | hwt
        · simp [hwt, hk1, hws, supportedType]
        · simp [hwt, hk2, hws, supportedType]
  · unfold buildInput buildInputWitness wrapperScript wrapperWitness
    simp [h1, h2, h3, supportedType]


/-! ## Well-formed records -/

theorem inputOK_empty : InputOK {} := by
  refine ⟨rfl, fun _ => ⟨rfl, rfl, rfl, ?_⟩, ?_, ?_⟩
  · intro hh; cases hh
  · intro hh; cases hh
  · intro hh; cases hh

theorem inputOK_value (input : Input) (v : Option Nat) (h : InputOK input) :
    InputOK { input with value := v } := h

theorem inputOK_signatures (input : Input) (sigs : List Slot) (h : InputOK input)
    (hp : input.pubKeys.isSome = true) : InputOK { input with signatures := some sigs } := by
  obtain ⟨_, _, hc, hd⟩ := h
  refine ⟨hp, ?_, hc, hd⟩
  intro hh
  cases hh

theorem expandInput_inputOK (env : Collab) (scriptSig : Buffer) (witnessStack : List Chunk)
    (input : Input) (h : expandInput env scriptSig witnessStack = Except.ok input) :
    InputOK input := by
  unfold expandInput at h
  simp only at h
  repeat' split at h
  all_goals cases h
  all_goals simp [InputOK, supportedType]


theorem addPrevOutScript_inputOK (env : Collab) (input : Input) (prevOutScript : Option Buffer)
    (input1 : Input) (hok : InputOK input)
    (h : addPrevOutScript env input prevOutScript = Except.ok input1) : InputOK input1 := by
  obtain ⟨ha, hb, hc, hd⟩ := hok
  unfold addPrevOutScript at h
  cases hps : input.prevOutScript with
  | some p =>
    rw [hps] at h
    cases h
    exact ⟨ha, hb, hc, hd⟩
  | none =>
    cases prevOutScript with
    | none =>
      rw [hps] at h
      cases h
      exact ⟨ha, hb, hc, hd⟩
    | some script =>
      rw [hps] at h
      simp only at h
      by_cases hboth : input.pubKeys.isNone = true ∧ input.signatures.isNone = true
      · rw [if_pos hboth] at h
        have hsn : input.signatures = none := by
          cases hx : input.signatures with
          | none => rfl
          | some _ => rw [hx] at hboth; cases hboth.2
        obtain ⟨hrt, hwt, _, _⟩ := hb hsn
        cases he : expandOutput env (some script) none none with
        | error e => rw [he] at h; cases h
        | ok expanded =>
          rw [he] at h
          simp only [Except.ok.injEq] at h
          obtain ⟨e1, e2, e3, _⟩ := expandOutput_shape env _ _ _ expanded he
          by_cases hpk : expanded.pubKeys.isSome = true
          · rw [if_pos hpk] at h
            subst h
            refine ⟨e1, ?_, hc, hd⟩
            intro hh
            simp only at hh
            rw [hh] at e1
            rw [e1] at hpk
            cases hpk
          · rw [if_neg hpk] at h
            subst h
            have hpn : expanded.pubKeys = none := by
              cases hx : expanded.pubKeys with
              | none => rfl
              | some _ => rw [hx] at hpk; exact absurd rfl hpk
            obtain ⟨f1, f2⟩ := e2 hpn
            refine ⟨ha, fun _ => ⟨hrt, hwt, f1, ?_⟩, hc, hd⟩
            intro hh
            simp only [Option.some.injEq] at hh
            exact f2 hh
      · rw [if_neg hboth] at h
        simp only [Except.ok.injEq] at h
        subst h
        refine ⟨ha, ?_, hc, hd⟩
        intro hh
        simp only at hh
        exfalso
        apply hboth
        rw [hh] at ha
        cases hx : input.pubKeys with
        | none => rw [hh]; exact ⟨rfl, rfl⟩
        | some _ => rw [hx] at ha; cases ha

theorem prepareInputAssign_inputOK (env : Collab) (input : Input)
    (expanded : ExpandedOutput) (pot : ScriptType) (pos : Buffer)
    (p2sh p2wsh : Option (Buffer × ScriptType)) (w : Bool) (st : ScriptType) (ss : Buffer)
    (hok : InputOK input) (h1 : expanded.pubKeys.isSome = expanded.signatures.isSome)
    (h2 : expanded.pubKeys.isSome = true) :
    InputOK (prepareInputAssign env input expanded pot pos p2sh p2wsh w st ss) := by
  obtain ⟨_, _, hc, hd⟩ := hok
  unfold prepareInputAssign
  refine ⟨h1, ?_, ?_, ?_⟩
  · intro hh
    simp only at hh
    rw [hh] at h1
    rw [h1] at h2
    cases h2
  · cases p2sh with
    | none => cases p2wsh <;> exact hc
    | some p => cases p2wsh <;> exact fun _ => rfl
  · cases p2sh with
    | none =>
      cases p2wsh with
      | none => exact hd
      | some q => exact fun _ => rfl
    | some p =>
      cases p2wsh with
      | none => exact hd
      | some q => exact fun _ => rfl

theorem prepareInput_inputOK (env : Collab) (input : Input) (k : Buffer)
    (rs : Option Buffer) (wv : Option Nat) (ws : Option Buffer) (input1 : Input)
    (h : prepareInput env input k rs wv ws = Except.ok input1) (hok : InputOK input) :
    InputOK input1 := by
  rcases prepareInput_ok env input k rs wv ws input1 h with heq |
    ⟨ex, pot, pos, p2sh, p2wsh, w, st, ss, sc, ty, heq, hex, _, _, hpk⟩
  · rw [heq]
    exact hok
  · rw [heq]
    exact prepareInputAssign_inputOK env input ex pot pos p2sh p2wsh w st ss hok
      (expandOutput_shape env sc ty (some k) ex hex).1 hpk

theorem signPrepare_inputOK (env : Collab) (input : Input) (k : Buffer)
    (rs : Option Buffer) (wv : Option Nat) (ws : Option Buffer) (hok : InputOK input) :
    InputOK (signPrepare env input k rs wv ws).1 := by
  have rest : ∀ input0 : Input, InputOK input0 →
      InputOK (signPrepareRest env input0 k rs wv ws).1 := by
    intro input0 h0
    rcases signPrepareRest_cases env input0 k rs wv ws with h | ⟨_, h⟩
    · rw [h]
      exact h0
    · exact prepareInput_inputOK env input0 k rs wv ws _ h h0
  unfold signPrepare
  by_cases hc : canSign input = true
  · rw [if_pos hc]
    exact hok
  · rw [if_neg hc]
    cases wv with
    | none => exact rest input hok
    | some v =>
      simp only
      by_cases h1 : input.value.isSome = true ∧ input.value ≠ some v
      · rw [if_pos h1]
        exact hok
      · rw [if_neg h1]
        by_cases h2 : env.isSatoshi v = false
        · rw [if_pos h2]
          exact hok
        · rw [if_neg h2]
          exact rest _ (inputOK_value input (some v) hok)

theorem signReady_inputOK (env : Collab) (tx : Transaction) (vin : Nat) (input1 : Input)
    (K : KeyPair) (k : Buffer) (hashType : Nat) (hok : InputOK input1) :
    InputOK (signReady env tx vin input1 K k hashType).1 := by
  rcases signReady_cases env tx vin input1 K k hashType with h | ⟨sigs, pks, n, sig, _, hp, _, _, h⟩
  · rw [h]
    exact hok
  · rw [h]
    exact inputOK_signatures input1 _ hok (by rw [hp]; rfl)

theorem fixMultisigOrder_inputOK (env : Collab) (input : Input) (transaction : Transaction)
    (vin : Nat) (input1 : Input) (hok : InputOK input)
    (h : fixMultisigOrder env input transaction vin = Except.ok input1) : InputOK input1 := by
  unfold fixMultisigOrder at h
  split at h
  · cases h
    exact hok
  · split at h
    · cases h
      exact hok
    · split at h
      · rename_i pks sigs hp hs
        split at h
        · cases h
          exact hok
        · split at h
          · cases h
          · cases h
            exact inputOK_signatures input _ hok (by rw [hp]; rfl)
      · cases h

theorem fixAll_inputOK (env : Collab) (transaction : Transaction)
    (inputs : List (Option Input)) (i : Nat) (inputs1 : List (Option Input))
    (hok : ∀ input, some input ∈ inputs → InputOK input)
    (h : fixAll env transaction inputs i = Except.ok inputs1) :
    ∀ input, some input ∈ inputs1 → InputOK input := by
  induction inputs generalizing i inputs1 with
  | nil =>
    unfold fixAll at h
    cases h
    intro input hmem
    cases hmem
  | cons oi rest ih =>
    cases oi with
    | none =>
      unfold fixAll at h
      cases hr : fixAll env transaction rest (i + 1) with
      | error e => rw [hr] at h; cases h
      | ok rest1 =>
        rw [hr] at h
        cases h
        intro input hmem
        rcases List.mem_cons.1 hmem with hh | hh
        · cases hh
        · exact ih (i + 1) rest1 (fun x hx => hok x (List.mem_cons_of_mem _ hx)) hr input hh
    | some input0 =>
      unfold fixAll at h
      cases hf : fixMultisigOrder env input0 transaction i with
      | error e => rw [hf] at h; cases h
      | ok input1 =>
        rw [hf] at h
        cases hr : fixAll env transaction rest (i + 1) with
        | error e => rw [hr] at h; cases h
        | ok rest1 =>
          rw [hr] at h
          cases h
          intro input hmem
          rcases List.mem_cons.1 hmem with hh | hh
          · cases hh
            exact fixMultisigOrder_inputOK env input0 transaction i _
              (hok input0 (List.mem_cons_self _ _)) hf
          · exact ih (i + 1) rest1 (fun x hx => hok x (List.mem_cons_of_mem _ hx)) hr input hh


/-- The records of the builder after `__addInputUnsafe`: those before it, or those and one
new well-formed record. -/
theorem addInputUnsafe_inputs (env : Collab) (s : TransactionBuilder) (txHash : Buffer)
    (vout : Nat) (options : AddInputOptions) :
    (addInputUnsafe env s txHash vout options).1.inputs = s.inputs ∨
    ∃ input, InputOK input ∧
      (addInputUnsafe env s txHash vout options).1.inputs =
        arraySet s.inputs s.tx.ins.length (some input) := by
  unfold addInputUnsafe
  by_cases hcb : Transaction.isCoinbaseHash txHash = true
  · rw [if_pos hcb]
    exact Or.inl rfl
  · rw [if_neg hcb]
    by_cases hdup : (mapGet s.prevTxMap (txHash, vout)).isSome = true
    · rw [if_pos hdup]
      exact Or.inl rfl
    · rw [if_neg hdup]
      have h0 : ∀ r0 : Except Err Input, (∀ i0, r0 = Except.ok i0 → InputOK i0) →
          ((match r0 with
            | Except.error e => (s, Except.error e)
            | Except.ok input0 =>
              match addPrevOutScript env (match options.value with
                  | some v => { input0 with value := some v }
                  | none => input0) options.prevOutScript with
              | Except.error e => (s, Except.error e)
              | Except.ok input2 =>
                ({ s with
                    tx := (s.tx.addInput txHash vout options.sequence options.scriptSig).1
                    inputs := arraySet s.inputs
                      (s.tx.addInput txHash vout options.sequence options.scriptSig).2 (some input2)
                    prevTxMap := ((txHash, vout),
                      (s.tx.addInput txHash vout options.sequence options.scriptSig).2) ::
                        s.prevTxMap },
                  Except.ok (s.tx.addInput txHash vout options.sequence options.scriptSig).2) :
              TransactionBuilder × Except Err Nat).1.inputs = s.inputs ∨
          ∃ input, InputOK input ∧
            (match r0 with
            | Except.error e => (s, Except.error e)
            | Except.ok input0 =>
              match addPrevOutScript env (match options.value with
                  | some v => { input0 with value := some v }
                  | none => input0) options.prevOutScript with
              | Except.error e => (s, Except.error e)
              | Except.ok input2 =>
                ({ s with
                    tx := (s.tx.addInput txHash vout options.sequence options.scriptSig).1
                    inputs := arraySet s.inputs
                      (s.tx.addInput txHash vout options.sequence options.scriptSig).2 (some input2)
                    prevTxMap := ((txHash, vout),
                      (s.tx.addInput txHash vout options.sequence options.scriptSig).2) ::
                        s.prevTxMap },
                  Except.ok (s.tx.addInput txHash vout options.sequence options.scriptSig).2) :
              TransactionBuilder × Except Err Nat).1.inputs =
              arraySet s.inputs s.tx.ins.length (some input)) := by
        intro r0 hr0
        cases r0 with
        | error e => exact Or.inl rfl
        | ok input0 =>
          simp only
          have h1 : InputOK (match options.value with
              | some v => { input0 with value := some v }
              | none => input0) := by
            cases options.value with
            | none => exact hr0 input0 rfl
            | some v => exact inputOK_value input0 (some v) (hr0 input0 rfl)
          cases hp : addPrevOutScript env (match options.value with
              | some v => { input0 with value := some v }
              | none => input0) options.prevOutScript with
          | error e => exact Or.inl rfl
          | ok input2 =>
            exact Or.inr ⟨input2, addPrevOutScript_inputOK env _ _ input2 h1 hp, rfl⟩
      apply h0
      intro i0 hi0
      cases hsc : options.script with
      | none =>
        rw [hsc] at hi0
        cases hi0
        exact inputOK_empty
      | some sc =>
        rw [hsc] at hi0
        exact expandInput_inputOK env sc _ i0 hi0

theorem recordsOK_arraySet (xs : List (Option Input)) (i : Nat) (input : Input)
    (h : ∀ x, some x ∈ xs → InputOK x) (hi : InputOK input) :
    ∀ x, some x ∈ arraySet xs i (some input) → InputOK x := by
  intro x hx
  rcases mem_arraySet _ _ _ _ hx with hm | hm | hm
  · exact h x hm
  · cases hm
    exact hi
  · cases hm

theorem recordsOK_addInputUnsafe (env : Collab) (s : TransactionBuilder) (txHash : Buffer)
    (vout : Nat) (options : AddInputOptions) (h : RecordsOK s) :
    RecordsOK (addInputUnsafe env s txHash vout options).1 := by
  unfold RecordsOK at h ⊢
  rcases addInputUnsafe_inputs env s txHash vout options with hs | ⟨input, hi, hs⟩
  · rw [hs]
    exact h
  · rw [hs]
    exact recordsOK_arraySet _ _ _ h hi

theorem recordsOK_addInput (env : Collab) (s : TransactionBuilder) (txHash : TxHashArg)
    (vout : Nat) (sequence : Option Nat) (prevOutScript : Option Buffer) (h : RecordsOK s) :
    RecordsOK (addInput env s txHash vout sequence prevOutScript).1 := by
  rcases addInput_cases env s txHash vout sequence prevOutScript with hs | ⟨hh, o, hs⟩
  · rw [hs]
    exact h
  · rw [hs]
    exact recordsOK_addInputUnsafe env s hh vout o h

theorem addOutput_inputs (env : Collab) (s : TransactionBuilder)
    (scriptPubKey : ScriptPubKeyArg) (value : Nat) :
    (addOutput env s scriptPubKey value).1.inputs = s.inputs := by
  rcases addOutput_cases env s scriptPubKey value with hs | ⟨script, _, hs⟩ <;> rw [hs]

theorem recordsOK_sign (env : Collab) (s : TransactionBuilder) (vin : Nat) (K : KeyPair)
    (rs : Option Buffer) (ht wv : Option Nat) (ws : Option Buffer) (h : RecordsOK s) :
    RecordsOK (sign env s vin K rs ht wv ws).1 := by
  have key : ∀ X, InputOK X → RecordsOK (setInput s vin X) := by
    intro X hX i hmem
    unfold setInput at hmem
    rcases List.mem_or_eq_of_mem_set hmem with hm | hm
    · exact h i hm
    · cases hm
      exact hX
  rcases sign_state env s vin K rs ht wv ws with hst | ⟨input, hin, hst | ⟨_, hst⟩⟩
  · rw [hst]
    exact h
  · rw [hst]
    exact key _ (signPrepare_inputOK env input _ rs wv ws (h input (List.getElem?_mem hin)))
  · rw [hst]
    exact key _ (signReady_inputOK _ _ _ _ _ _ _
      (signPrepare_inputOK env input _ rs wv ws (h input (List.getElem?_mem hin))))

theorem recordsOK_addOutputs (env : Collab) (outs : List TxOut) (s s1 : TransactionBuilder)
    (h : RecordsOK s) (hr : addOutputs env s outs = Except.ok s1) : RecordsOK s1 := by
  induction outs generalizing s with
  | nil =>
    unfold addOutputs at hr
    cases hr
    exact h
  | cons txOut rest ih =>
    unfold addOutputs at hr
    have hstep := addOutput_inputs env s (ScriptPubKeyArg.script txOut.script) txOut.value
    cases hres : addOutput env s (ScriptPubKeyArg.script txOut.script) txOut.value with
    | mk s2 r =>
      rw [hres] at hr hstep
      cases r with
      | error e => cases hr
      | ok v =>
        apply ih s2 _ hr
        unfold RecordsOK at h ⊢
        rw [hstep]
        exact h

theorem recordsOK_addInputs (env : Collab) (ins : List TxIn) (s s1 : TransactionBuilder)
    (h : RecordsOK s) (hr : addInputs env s ins = Except.ok s1) : RecordsOK s1 := by
  induction ins generalizing s with
  | nil =>
    unfold addInputs at hr
    cases hr
    exact h
  | cons txIn rest ih =>
    unfold addInputs at hr
    have hstep := recordsOK_addInputUnsafe env s txIn.hash txIn.index
      { sequence := some txIn.sequence, script := some txIn.script,
        witness := some txIn.witness } h
    cases hres : addInputUnsafe env s txIn.hash txIn.index
        { sequence := some txIn.sequence, script := some txIn.script,
          witness := some txIn.witness } with
    | mk s2 r =>
      rw [hres] at hr hstep
      cases r with
      | error e => cases hr
      | ok v => exact ih s2 hstep hr

/-- Every record of a reachable builder state is well formed. -/
theorem recordsOK_reachable (env : Collab) (s : TransactionBuilder) (h : Reachable env s) :
    RecordsOK s := by
  induction h with
  | new network maximumFeeRate =>
    intro input hmem
    cases hmem
  | fromTransaction transaction network s h =>
    obtain ⟨txb3, txb4, inputs, h3, h4, h5, hs⟩ := fromTransaction_ok env transaction network s h
    have i0 : RecordsOK (setLockTime (setVersion (TransactionBuilder.new network none)
        transaction.version).1 transaction.locktime).1 := by
      unfold RecordsOK
      rw [setLockTime_inputs, setVersion_inputs]
      intro input hmem
      cases hmem
    have i4 := recordsOK_addInputs env _ _ txb4 (recordsOK_addOutputs env _ _ txb3 i0 h3) h4
    subst hs
    exact fixAll_inputOK env transaction _ 0 inputs i4 h5
  | addInput s txHash vout sequence prevOutScript _ ih =>
    exact recordsOK_addInput env s txHash vout sequence prevOutScript ih
  | addOutput s scriptPubKey value _ ih =>
    unfold RecordsOK at ih ⊢
    rw [addOutput_inputs]
    exact ih
  | sign s vin keyPair redeemScript hashType witnessValue witnessScript _ ih =>
    exact recordsOK_sign env s vin keyPair redeemScript hashType witnessValue witnessScript ih
  | setVersion s version _ ih =>
    unfold RecordsOK at ih ⊢
    rw [setVersion_inputs]
    exact ih
  | setLockTime s locktime _ ih =>
    unfold RecordsOK at ih ⊢
    rw [setLockTime_inputs]
    exact ih

theorem buildInvariant_reachable (env : Collab) (s : TransactionBuilder)
    (h : Reachable env s) : BuildInvariant s :=
  ⟨recordsOK_reachable env s h, (spend_reachable env s h).2.2.1⟩


/-! ## The loop of `__build` -/

theorem setInputScript_ok (tx : Transaction) (i : Nat) (script : Buffer) (txIn : TxIn)
    (h : tx.ins[i]? = some txIn) :
    tx.setInputScript i script =
      Except.ok { tx with ins := tx.ins.set i { txIn with script := script } } := by
  unfold Transaction.setInputScript
  rw [h]

theorem all_isSome_map_some (xs : List Chunk) : (xs.map some).all Option.isSome = true := by
  simp

theorem filterMap_id_map_some (xs : List Chunk) : (xs.map some).filterMap id = xs := by
  induction xs with
  | nil => rfl
  | cons x rest ih =>
    show x :: (rest.map some).filterMap id = x :: rest
    rw [ih]

theorem setWitness_ok (tx : Transaction) (i : Nat) (witness : List Slot) (txIn : TxIn)
    (h : tx.ins[i]? = some txIn) (hw : witness.all Option.isSome = true) :
    tx.setWitness i witness =
      Except.ok { tx with ins := tx.ins.set i { txIn with witness := witness.filterMap id } } := by
  unfold Transaction.setWitness
  rw [h]
  simp only
  rw [if_pos hw]

theorem setWitness_error (tx : Transaction) (i : Nat) (witness : List Slot)
    (hw : witness.all Option.isSome = false) :
    tx.setWitness i witness = Except.error Err.typeError := by
  unfold Transaction.setWitness
  cases tx.ins[i]? with
  | none => rfl
  | some txIn =>
    simp only
    rw [if_neg (by rw [hw]; decide)]

/-- The witness that the `switch` of `buildInput` makes holds no `undefined` when a recorded
witness script type comes with its witness script. -/
theorem buildInputWitness_defined (env : Collab) (input : Input) (t : Option ScriptType)
    (a : Bool) (r : List Slot × Option ScriptType)
    (hd : input.witnessScriptType.isSome = true → input.witnessScript.isSome = true)
    (h : buildInputWitness env input t a = Except.ok r) : r.1.all Option.isSome = true := by
  unfold buildInputWitness at h
  split at h
  · split at h
    · cases h
    · cases h
      exact all_isSome_map_some _
  · split at h
    · cases h
    · split at h
      · rename_i hsup
        split at h
        · cases h
        · cases h
          have hsome : input.witnessScriptType.isSome = true := by
            cases hw : input.witnessScriptType with
            | none => rw [hw] at hsup; cases hsup
            | some _ => rfl
          obtain ⟨ws, hws⟩ := Option.isSome_iff_exists.1 (hd hsome)
          simp only [hws, Option.map_some', List.all_append, List.all_cons, List.all_nil,
            Option.isSome_some, Bool.and_true, all_isSome_map_some]
      · cases h
        rfl
  · cases h
    rfl

theorem buildInput_defined (env : Collab) (input : Input) (a : Bool) (r : BuiltInput)
    (hd : input.witnessScriptType.isSome = true → input.witnessScript.isSome = true)
    (h : buildInput env input a = Except.ok r) : r.witness.all Option.isSome = true := by
  have key := fun t w => buildInputWitness_defined env input t a w hd
  unfold buildInput at h
  simp only at h
  split at h
  · cases h
  · split at h
    · split at h
      · cases h
      · split at h
        · cases h
        · split at h
          · split at h
            · cases h
            · rename_i hw
              cases h
              exact key _ _ hw
          · split at h
            · cases h
            · rename_i hw
              cases h
              exact key _ _ hw
    · split at h
      · cases h
      · rename_i hw
        cases h
        exact key _ _ hw

theorem buildChecked_defined (env : Collab) (input : Input) (a : Bool) (r : BuiltInput)
    (hok : InputOK input) (h : buildChecked env a input = Except.ok r) :
    r.witness.all Option.isSome = true := by
  unfold buildChecked at h
  simp only at h
  split at h
  · cases h
  · cases hb : buildInput env input a with
    | error e => rw [hb] at h; cases h
    | ok r1 =>
      rw [hb] at h
      simp only at h
      split at h
      · cases h
      · cases h
        exact buildInput_defined env input a _ hok.2.2.2 hb

/-- The callback of `__build` on an existing input whose checks pass: the script and the
witness of input `i` are replaced, everything else is kept. -/
theorem buildOne_ok (env : Collab) (a : Bool) (tx : Transaction) (i : Nat) (input : Input)
    (r : BuiltInput) (txIn : TxIn) (hr : buildChecked env a input = Except.ok r)
    (hi : tx.ins[i]? = some txIn) (hw : r.witness.all Option.isSome = true) :
    buildOne env a tx i input =
      Except.ok { tx with
        ins := tx.ins.set i
          { txIn with script := r.script, witness := r.witness.filterMap id } } := by
  unfold buildOne
  rw [hr]
  simp only
  rw [setInputScript_ok tx i r.script txIn hi]
  simp only
  have hlt : i < tx.ins.length := getElem?_lt _ _ _ hi
  rw [setWitness_ok _ i r.witness { txIn with script := r.script } (by simp [hlt]) hw]
  simp

theorem buildOne_error (env : Collab) (a : Bool) (tx : Transaction) (i : Nat) (input : Input)
    (e : Err) (hr : buildChecked env a input = Except.error e) :
    buildOne env a tx i input = Except.error e := by
  unfold buildOne
  rw [hr]

/-- The loop throws as soon as the checks of one record fail. -/
theorem buildLoop_fails (env : Collab) (a : Bool) (inputs : List (Option Input)) (start : Nat)
    (tx : Transaction) (input : Input) (e : Err) (hmem : some input ∈ inputs)
    (hr : buildChecked env a input = Except.error e) :
    ∃ e1, buildLoop env a inputs start tx = Except.error e1 := by
  induction inputs generalizing start tx with
  | nil => cases hmem
  | cons oi rest ih =>
    cases oi with
    | none =>
      unfold buildLoop
      rcases List.mem_cons.1 hmem with hh | hh
      · cases hh
      · exact ih (start + 1) tx hh
    | some x =>
      unfold buildLoop
      cases hb : buildOne env a tx start x with
      | error e1 => exact ⟨e1, rfl⟩
      | ok tx1 =>
        simp only
        rcases List.mem_cons.1 hmem with hh | hh
        · cases hh
          rw [buildOne_error env a tx start input e hr] at hb
          cases hb
        · exact ih (start + 1) tx1 hh

/-- The loop throws the error of the first record whose checks fail, when the records before
it pass and the transaction has an input for each index. -/
theorem buildLoop_first_error (env : Collab) (a : Bool) (inputs : List (Option Input))
    (start : Nat) (tx : Transaction) (k : Nat) (input : Input) (e : Err)
    (hk : inputs[k]? = some (some input)) (hr : buildChecked env a input = Except.error e)
    (hbefore : ∀ j x, j < k → inputs[j]? = some (some x) →
      ∃ r, buildChecked env a x = Except.ok r)
    (hok : ∀ x, some x ∈ inputs → InputOK x)
    (hlen : start + inputs.length ≤ tx.ins.length) :
    buildLoop env a inputs start tx = Except.error e := by
  induction inputs generalizing start tx k with
  | nil => simp at hk
  | cons oi rest ih =>
    simp only [List.length_cons] at hlen
    have hok2 : ∀ x, some x ∈ rest → InputOK x :=
      fun x hx => hok x (List.mem_cons_of_mem _ hx)
    cases k with
    | zero =>
      simp only [List.getElem?_cons_zero, Option.some.injEq] at hk
      subst hk
      unfold buildLoop
      rw [buildOne_error env a tx start input e hr]
    | succ k =>
      simp only [List.getElem?_cons_succ] at hk
      have hb2 : ∀ j x, j < k → rest[j]? = some (some x) →
          ∃ r, buildChecked env a x = Except.ok r := by
        intro j x hj hx
        exact hbefore (j + 1) x (by omega) (by simpa using hx)
      cases oi with
      | none =>
        unfold buildLoop
        exact ih (start + 1) tx k hk hb2 hok2 (by omega)
      | some x =>
        unfold buildLoop
        obtain ⟨r, hrx⟩ := hbefore 0 x (by omega) (by simp)
        obtain ⟨txIn, hti⟩ : ∃ txIn, tx.ins[start]? = some txIn := by
          have hlt : start < tx.ins.length := by omega
          exact ⟨tx.ins[start], by simp [hlt]⟩
        rw [buildOne_ok env a tx start x r txIn hrx hti
          (buildChecked_defined env x a r (hok x (List.mem_cons_self _ _)) hrx)]
        simp only
        exact ih (start + 1) _ k hk hb2 hok2 (by simp only [List.length_set]; omega)

/-- The loop returns when the checks of every record pass and the transaction has an input
for each index; input `start + k` then carries the script and the witness built from
record `k`, and the inputs before `start` are untouched. -/
theorem buildLoop_ok (env : Collab) (a : Bool) (inputs : List (Option Input)) (start : Nat)
    (tx : Transaction)
    (hall : ∀ x, some x ∈ inputs →
      ∃ r, buildChecked env a x = Except.ok r ∧ r.witness.all Option.isSome = true)
    (hlen : start + inputs.length ≤ tx.ins.length) :
    ∃ tx1, buildLoop env a inputs start tx = Except.ok tx1 ∧
      tx1.ins.length = tx.ins.length ∧
      (∀ j, j < start → tx1.ins[j]? = tx.ins[j]?) ∧
      (∀ k x r txIn, inputs[k]? = some (some x) → buildChecked env a x = Except.ok r →
        tx.ins[start + k]? = some txIn →
        tx1.ins[start + k]? =
          some { txIn with script := r.script, witness := r.witness.filterMap id }) := by
  induction inputs generalizing start tx with
  | nil =>
    refine ⟨tx, rfl, rfl, fun _ _ => rfl, ?_⟩
    intro k x r txIn hk
    simp at hk
  | cons oi rest ih =>
    simp only [List.length_cons] at hlen
    have hall2 : ∀ x, some x ∈ rest →
        ∃ r, buildChecked env a x = Except.ok r ∧ r.witness.all Option.isSome = true :=
      fun x hx => hall x (List.mem_cons_of_mem _ hx)
    cases oi with
    | none =>
      unfold buildLoop
      obtain ⟨tx1, h1, h2, h3, h4⟩ := ih (start + 1) tx hall2 (by omega)
      refine ⟨tx1, h1, h2, fun j hj => h3 j (by omega), ?_⟩
      intro k x r txIn hk hr hti
      cases k with
      | zero => simp at hk
      | succ k =>
        simp only [List.getElem?_cons_succ] at hk
        have := h4 k x r txIn hk hr (by rw [show start + 1 + k = start + (k + 1) by omega]; exact hti)
        rw [show start + 1 + k = start + (k + 1) by omega] at this
        exact this
    | some x0 =>
      unfold buildLoop
      obtain ⟨r0, hr0, hw0⟩ := hall x0 (List.mem_cons_self _ _)
      obtain ⟨txIn0, hti0⟩ : ∃ txIn, tx.ins[start]? = some txIn := by
        have hlt : start < tx.ins.length := by omega
        exact ⟨tx.ins[start], by simp [hlt]⟩
      rw [buildOne_ok env a tx start x0 r0 txIn0 hr0 hti0 hw0]
      simp only
      obtain ⟨tx1, h1, h2, h3, h4⟩ := ih (start + 1)
        { tx with ins := tx.ins.set start { txIn0 with script := r0.script, witness := r0.witness.filterMap id } }
        hall2 (by simp only [List.length_set]; omega)
      simp only [List.length_set] at h2
      refine ⟨tx1, h1, h2, ?_, ?_⟩
      · intro j hj
        rw [h3 j (by omega)]
        simp only
        rw [List.getElem?_set_ne (by omega)]
      · intro k x r txIn hk hr hti
        cases k with
        | zero =>
          simp only [List.getElem?_cons_zero, Option.some.injEq] at hk
          subst hk
          rw [hr0] at hr
          cases hr
          simp only [Nat.add_zero] at hti ⊢
          rw [hti0] at hti
          cases hti
          rw [h3 start (by omega)]
          have hlt : start < tx.ins.length := by omega
          simp [hlt]
        | succ k =>
          simp only [List.getElem?_cons_succ] at hk
          have := h4 k x r txIn hk hr (by
            simp only
            rw [List.getElem?_set_ne (by omega),
              show start + 1 + k = start + (k + 1) by omega]
            exact hti)
          rw [show start + 1 + k = start + (k + 1) by omega] at this
          exact this


/-! ## Strict completeness for single-signature inputs -/

theorem buildChecked_incomplete (env : Collab) (input : Input) :
    buildChecked env true input = buildInput env input true := by
  unfold buildChecked
  simp only [Bool.true_eq_false, and_false, false_and, if_false]
  cases buildInput env input true <;> rfl

/-- On a reachable builder state `buildIncomplete()` returns a transaction; each input of it
carries the script and the witness that `buildInput` makes from its record. -/
theorem buildIncomplete_ok (env : Collab) (s : TransactionBuilder) (h : Reachable env s) :
    ∃ tx, buildIncomplete env s = Except.ok tx ∧
      ∀ (i : Nat) (input : Input) (r : BuiltInput) (txIn : TxIn),
        s.inputs[i]? = some (some input) →
        buildInput env input true = Except.ok r → s.tx.ins[i]? = some txIn →
        tx.ins[i]? =
          some { txIn with script := r.script, witness := r.witness.filterMap id } := by
  obtain ⟨hrec, hlen⟩ := buildInvariant_reachable env s h
  obtain ⟨tx1, h1, _, _, h4⟩ := buildLoop_ok env true s.inputs 0 s.tx
    (fun x hx => by
      obtain ⟨r, hr⟩ := buildInput_total env x (hrec x hx)
      exact ⟨r, by rw [buildChecked_incomplete]; exact hr,
        buildInput_defined env x true r (hrec x hx).2.2.2 hr⟩)
    (by omega)
  refine ⟨tx1, ?_, ?_⟩
  · unfold buildIncomplete buildWith
    simp only [Bool.true_eq_false, false_and, if_false, h1]
  · intro i input r txIn hi hr hti
    have := h4 i input r txIn hi (by rw [buildChecked_incomplete]; exact hr)
      (by rw [Nat.zero_add]; exact hti)
    rw [Nat.zero_add] at this
    exact this

/-- Strict `build()` throws when the checks of some record fail, and it throws the error of
that record when the builder has an output, the records before it pass and `inputs` is as
long as `tx.ins`. -/
theorem build_fails (env : Collab) (s : TransactionBuilder) (i : Nat) (input : Input) (e : Err)
    (hi : s.inputs[i]? = some (some input)) (hr : buildChecked env false input = Except.error e) :
    (∃ e1, build env s = Except.error e1) ∧
    (s.inputs.length = s.tx.ins.length → RecordsOK s → s.tx.outs ≠ [] →
      (∀ j x, j < i → s.inputs[j]? = some (some x) →
        ∃ r, buildChecked env false x = Except.ok r) →
      build env s = Except.error e) := by
  constructor
  · unfold build buildWith
    split
    · exact ⟨_, rfl⟩
    · split
      · exact ⟨_, rfl⟩
      · obtain ⟨e1, he1⟩ := buildLoop_fails env false s.inputs 0 s.tx input e
          (List.getElem?_mem hi) hr
        rw [he1]
        exact ⟨_, rfl⟩
  · intro hlen hrec houts hbefore
    have hilt : i < s.inputs.length := getElem?_lt _ _ _ hi
    unfold build buildWith
    rw [if_neg (by
      intro hh
      have := hh.2
      omega)]
    rw [if_neg (by
      intro hh
      exact houts (List.length_eq_zero.1 hh.2))]
    rw [buildLoop_first_error env false s.inputs 0 s.tx i input e hi hr hbefore hrec
      (by omega)]

/-- C10, counterexample. The input of `demoUnsignedNoOutput` resolves to PubKeyHash and was
never signed (`signatures` is empty), yet strict `build()` throws "Transaction has no
outputs", not "Not enough signatures provided": the builder has no output. The builder
`demoUntypedThenUnsigned` has an output, its input 1 resolves to PubKeyHash and was never
signed, and strict `build()` throws "Transaction is not complete", the error of input 0,
which has no script type. The same holds after a failing `sign` has prepared the input, so
that its single slot is there and absent (`demoPreparedNoOutput`,
`demoUntypedThenPrepared`). -/
theorem build_unsigned_other_error :
    ((demoPreparedNoOutput.inputs[0]?).join.map
      (fun input => (input.prevOutType, input.signatures))) =
        some (some ScriptType.P2PKH, some [none]) ∧
    build demo demoPreparedNoOutput = Except.error Err.noOutputs ∧
    build demo demoPreparedNoOutput ≠ Except.error Err.notEnoughSignatures ∧
    ((demoUntypedThenPrepared.inputs[1]?).join.map
      (fun input => (input.prevOutType, input.signatures))) =
        some (some ScriptType.P2PKH, some [none]) ∧
    demoUntypedThenPrepared.tx.outs.length = 1 ∧
    build demo demoUntypedThenPrepared = Except.error Err.notComplete ∧
    build demo demoUntypedThenPrepared ≠ Except.error Err.notEnoughSignatures ∧
    ((demoUnsignedNoOutput.inputs[0]?).join.map
      (fun input => (input.prevOutType, input.signatures))) =
        some (some ScriptType.P2PKH, some []) ∧
    build demo demoUnsignedNoOutput = Except.error Err.noOutputs ∧
    ((demoUntypedThenUnsigned.inputs[1]?).join.map
      (fun input => (input.prevOutType, input.signatures))) =
        some (some ScriptType.P2PKH, some []) ∧
    demoUntypedThenUnsigned.tx.outs.length = 1 ∧
    build demo demoUntypedThenUnsigned = Except.error Err.notComplete :=
  ⟨by decide, by decide, by decide, by decide, by decide, by decide, by decide, by decide,
    by decide, by decide, by decide, by decide⟩

/-- C10, amended. Let the record of input `i` of a reachable builder state be a
single-signature spend (PubKeyHash, PubKey or WitnessPubKeyHash directly or as the P2SH
redeem type, PubKeyHash or PubKey as the witness script type) whose single signature slot
is absent (`signatures` is empty, as on an input that was never signed, or its slot holds
no signature), or a record with no resolvable script type. Then strict `build()` throws; the
error is "Not enough signatures provided" in the first case and "Transaction is not
complete" in the second whenever the builder has an output and every earlier input passes
the checks of `__build`. `buildIncomplete()` returns a transaction on the same state, in
which input `i` carries an empty signature stack: its script is compiled from the redeem
script alone, if any, and its witness is the witness script alone, if any. -/
theorem strict_completeness_single (env : Collab) (s : TransactionBuilder)
    (h : Reachable env s) (i : Nat) (input : Input) (hi : s.inputs[i]? = some (some input)) :
    (UnsignedSingle input →
      (∃ e, build env s = Except.error e) ∧
      (s.tx.outs ≠ [] →
        (∀ j x, j < i → s.inputs[j]? = some (some x) →
          ∃ r, buildChecked env false x = Except.ok r) →
        build env s = Except.error Err.notEnoughSignatures)) ∧
    (Untyped input →
      (∃ e, build env s = Except.error e) ∧
      (s.tx.outs ≠ [] →
        (∀ j x, j < i → s.inputs[j]? = some (some x) →
          ∃ r, buildChecked env false x = Except.ok r) →
        build env s = Except.error Err.notComplete)) ∧
    (UnsignedSingle input ∨ Untyped input →
      ∃ tx txIn, buildIncomplete env s = Except.ok tx ∧ s.tx.ins[i]? = some txIn ∧
        tx.ins[i]? = some { txIn with
          script := env.compile ((wrapperScript input).map some),
          witness := wrapperWitness input }) ∧
    (UnsignedSingle input → ∀ type, type = ScriptType.P2PKH ∨ type = ScriptType.P2PK →
      buildStack env (some type) input.signatures input.pubKeys true = Except.ok []) := by
  obtain ⟨hrec, hlen⟩ := buildInvariant_reachable env s h
  refine ⟨?_, ?_, ?_, ?_⟩
  · intro hu
    obtain ⟨h1, h2⟩ := build_fails env s i input _ hi (buildChecked_unsigned_strict env input hu)
    exact ⟨h1, h2 hlen hrec⟩
  · intro hu
    obtain ⟨h1, h2⟩ := build_fails env s i input _ hi (buildChecked_untyped_strict env input hu)
    exact ⟨h1, h2 hlen hrec⟩
  · intro hu
    obtain ⟨tx, htx, hall⟩ := buildIncomplete_ok env s h
    obtain ⟨r, hr, hsc, hw⟩ := buildInput_unsigned_incomplete env input hu
      (hrec input (List.getElem?_mem hi))
    have hilt : i < s.tx.ins.length := by
      rw [← hlen]
      exact getElem?_lt _ _ _ hi
    refine ⟨tx, s.tx.ins[i], htx, by simp [hilt], ?_⟩
    have := hall i input r s.tx.ins[i] hi hr (by simp [hilt])
    rw [this, hsc, hw, filterMap_id_map_some]
  · rintro ⟨_, sigs, hs, hsl⟩ type ht
    rw [hs, buildStack_unsigned env type sigs input.pubKeys true ht hsl]
    rfl

theorem demoUnsigned_reachable : Reachable demo demoUnsigned :=
  Reachable.addInput _ _ _ _ _ (Reachable.addOutput _ _ _ (Reachable.new none none))

theorem demoUnsignedWitnessKey_reachable : Reachable demo demoUnsignedWitnessKey :=
  Reachable.addInput _ _ _ _ _ (Reachable.addOutput _ _ _ (Reachable.new none none))

theorem strict_completeness_single_witness :
    Reachable demo demoUnsigned ∧
    demoUnsigned.inputs[0]? = some (some demoUnsignedInput) ∧
    (demoUnsignedInput.prevOutType, demoUnsignedInput.signatures) =
      (some ScriptType.P2PKH, some []) ∧
    UnsignedSingle demoUnsignedInput ∧
    build demo demoUnsigned = Except.error Err.notEnoughSignatures ∧
    ((UnsignedSingle demoUnsignedInput →
      (∃ e, build demo demoUnsigned = Except.error e) ∧
      (demoUnsigned.tx.outs ≠ [] →
        (∀ j x, j < 0 → demoUnsigned.inputs[j]? = some (some x) →
          ∃ r, buildChecked demo false x = Except.ok r) →
        build demo demoUnsigned = Except.error Err.notEnoughSignatures)) ∧
    (Untyped demoUnsignedInput →
      (∃ e, build demo demoUnsigned = Except.error e) ∧
      (demoUnsigned.tx.outs ≠ [] →
        (∀ j x, j < 0 → demoUnsigned.inputs[j]? = some (some x) →
          ∃ r, buildChecked demo false x = Except.ok r) →
        build demo demoUnsigned = Except.error Err.notComplete)) ∧
    (UnsignedSingle demoUnsignedInput ∨ Untyped demoUnsignedInput →
      ∃ tx txIn, buildIncomplete demo demoUnsigned = Except.ok tx ∧
        demoUnsigned.tx.ins[0]? = some txIn ∧
        tx.ins[0]? = some { txIn with
          script := demo.compile ((wrapperScript demoUnsignedInput).map some),
          witness := wrapperWitness demoUnsignedInput }) ∧
    (UnsignedSingle demoUnsignedInput → ∀ type,
      type = ScriptType.P2PKH ∨ type = ScriptType.P2PK →
      buildStack demo (some type) demoUnsignedInput.signatures demoUnsignedInput.pubKeys true =
        Except.ok [])) ∧
    (demoUnsignedWitnessKeyInput.prevOutType, demoUnsignedWitnessKeyInput.signatures) =
      (some ScriptType.P2WPKH, some []) ∧
    build demo demoUnsignedWitnessKey = Except.error Err.notEnoughSignatures :=
  ⟨demoUnsigned_reachable, by decide, by decide, ⟨by decide, [], by decide, rfl⟩, by decide,
    strict_completeness_single demo demoUnsigned demoUnsigned_reachable 0 demoUnsignedInput
      (by decide),
    by decide,
    ((strict_completeness_single demo demoUnsignedWitnessKey demoUnsignedWitnessKey_reachable
      0 demoUnsignedWitnessKeyInput (by decide)).1 ⟨by decide, [], by decide, rfl⟩).2
      (by decide) (fun j _ hj => absurd hj (Nat.not_lt_zero j))⟩


/-! ## The multisig stack -/

theorem orOP0_eq (sl : Slot) :
    orOP0 sl = if truthy sl then sl.getD (Chunk.op 0) else Chunk.op 0 := by
  rcases sl with _ | c
  · rfl
  · unfold orOP0
    by_cases h : truthy (some c) = true
    · simp [h]
    · simp [h]

theorem orOP0_ne (sl : Slot) : orOP0 sl ≠ Chunk.op 0 ↔ truthy sl = true := by
  rcases sl with _ | ⟨b | n⟩
  · simp [orOP0, truthy]
  · simp [orOP0, truthy]
  · by_cases hn : n = 0
    · subst hn
      simp [orOP0, truthy]
    · simp [orOP0, truthy, hn]

theorem filter_orOP0 (signatures : List Slot) :
    (signatures.map orOP0).filter (fun x => x ≠ Chunk.op 0) = presentSignatures signatures := by
  unfold presentSignatures
  induction signatures with
  | nil => rfl
  | cons sl rest ih =>
    rw [List.map_cons, List.filterMap_cons]
    by_cases h : truthy sl = true
    · have h1 : orOP0 sl ≠ Chunk.op 0 := (orOP0_ne sl).2 h
      rw [List.filter_cons_of_pos (by simpa using h1), ih]
      rcases sl with _ | c
      · cases h
      · simp [h, orOP0]
    · have h1 : ¬ orOP0 sl ≠ Chunk.op 0 := fun hh => h ((orOP0_ne sl).1 hh)
      rw [List.filter_cons_of_neg (by simpa using h1), ih]
      simp [h]

theorem presentSignatures_some (signatures : List Slot) :
    (presentSignatures signatures).map some = signatures.filter truthy := by
  unfold presentSignatures
  induction signatures with
  | nil => rfl
  | cons sl rest ih =>
    rw [List.filterMap_cons]
    by_cases ht : truthy sl = true
    · rcases sl with _ | c
      · cases ht
      · simp only [ht, if_true, List.map_cons, ih]
        rw [List.filter_cons_of_pos ht]
    · simp only [ht]
      rw [List.filter_cons_of_neg ht]
      simpa using ih

/-- C14. `buildStack` for the type MultiSig and a non-empty slot list returns what the multisig
stack encoder makes of, in slot order, one element per slot with `OP_0` in place of every
absent slot when `allowIncomplete` is true, and of exactly the present signatures, every
absent slot removed, when it is false. The list for the incomplete mode is as long as the
slot list and holds each present signature at its own position; the list for the strict
mode is the list of present slots, so signatures are neither reordered nor altered. -/
theorem buildStack_multisig (env : Collab) (signatures : List Slot)
    (pubKeys : Option (List Slot)) (h : signatures ≠ []) :
    buildStack env (some ScriptType.MULTISIG) (some signatures) pubKeys true =
      Except.ok (env.multisigInputEncodeStack (withPlaceholders signatures)) ∧
    buildStack env (some ScriptType.MULTISIG) (some signatures) pubKeys false =
      Except.ok (env.multisigInputEncodeStack (presentSignatures signatures)) ∧
    (withPlaceholders signatures).length = signatures.length ∧
    (∀ (i : Nat) (c : Chunk), signatures[i]? = some (some c) → truthy (some c) = true →
      (withPlaceholders signatures)[i]? = some c) ∧
    (∀ (i : Nat) (sl : Slot), signatures[i]? = some sl → truthy sl = false →
      (withPlaceholders signatures)[i]? = some (Chunk.op 0)) ∧
    (presentSignatures signatures).map some = signatures.filter truthy := by
  have hw : signatures.map orOP0 = withPlaceholders signatures := by
    unfold withPlaceholders
    exact List.map_congr_left (fun sl _ => orOP0_eq sl)
  refine ⟨?_, ?_, ?_, ?_, ?_, ?_⟩
  · rcases signatures with _ | ⟨sl, rest⟩
    · exact absurd rfl h
    · unfold buildStack
      simp only [if_true]
      rw [hw]
  · rcases signatures with _ | ⟨sl, rest⟩
    · exact absurd rfl h
    · unfold buildStack
      simp only [Bool.false_eq_true, if_false]
      rw [filter_orOP0]
  · simp [withPlaceholders]
  · intro i c hi ht
    simp [withPlaceholders, hi, ht]
  · intro i sl hi ht
    simp [withPlaceholders, hi, ht]
  · exact presentSignatures_some signatures

theorem buildStack_multisig_witness :
    buildStack demo (some ScriptType.MULTISIG)
      (some [some (Chunk.buf [1, 1]), none, some (Chunk.buf [2, 1])]) none true =
      Except.ok [Chunk.op 0, Chunk.buf [1, 1], Chunk.op 0, Chunk.buf [2, 1]] ∧
    buildStack demo (some ScriptType.MULTISIG)
      (some [some (Chunk.buf [1, 1]), none, some (Chunk.buf [2, 1])]) none false =
      Except.ok [Chunk.op 0, Chunk.buf [1, 1], Chunk.buf [2, 1]] :=
  ⟨(buildStack_multisig demo [some (Chunk.buf [1, 1]), none, some (Chunk.buf [2, 1])] none
      (by decide)).1,
    (buildStack_multisig demo [some (Chunk.buf [1, 1]), none, some (Chunk.buf [2, 1])] none
      (by decide)).2.1⟩

/-! ## The fee guard -/

theorem feeRateExceeds_iff (s : TransactionBuilder) (bytes : Nat) (hb : 0 < bytes) :
    feeRateExceeds s bytes ↔
      (recordedInputValue s : Int) - (outputValue s : Int) >
        (s.maximumFeeRate : Int) * (bytes : Int) := by
  unfold feeRateExceeds
  have hq : (0 : ℚ) < (bytes : ℚ) := by exact_mod_cast hb
  rw [gt_iff_lt, lt_div_iff₀ hq, gt_iff_lt]
  constructor
  · intro h
    exact_mod_cast h
  · intro h
    exact_mod_cast h

theorem overMaximumFees_iff (s : TransactionBuilder) (bytes : Nat) (hb : 0 < bytes) :
    overMaximumFees s bytes = true ↔
      (((s.inputs.map (fun oi =>
        match oi with
        | some x => (x.value.getD 0) % 2 ^ 32
        | none => 0)).sum : Nat) : Int) - (outputValue s : Int) >
        (s.maximumFeeRate : Int) * (bytes : Int) := by
  unfold overMaximumFees outputValue
  simp only
  rw [if_neg (by omega)]
  exact decide_eq_true_iff

theorem truncated_sum (inputs : List (Option Input))
    (h : ∀ input v, some input ∈ inputs → input.value = some v → v < 2 ^ 32) :
    (inputs.map (fun oi =>
      match oi with
      | some x => (x.value.getD 0) % 2 ^ 32
      | none => 0)).sum =
    (inputs.map (fun oi =>
      match oi with
      | some x => x.value.getD 0
      | none => 0)).sum := by
  induction inputs with
  | nil => rfl
  | cons oi rest ih =>
    rw [List.map_cons, List.map_cons, List.sum_cons, List.sum_cons,
      ih (fun input v hm hv => h input v (List.mem_cons_of_mem _ hm) hv)]
    congr 1
    rcases oi with _ | x
    · rfl
    · show x.value.getD 0 % 2 ^ 32 = x.value.getD 0
      rcases hv : x.value with _ | v
      · rfl
      · exact Nat.mod_eq_of_lt (h x v (List.mem_cons_self _ _) hv)

/-- C16, the code against the claim. For a positive size `__overMaximumFees` compares the
sum of the recorded input values, each reduced modulo `2 ^ 32` by `x.value >>> 0`, minus the
sum of the output values with `maximumFeeRate * bytes`. It agrees with the guard of the
claim when every recorded value is below `2 ^ 32`. On `demoLargeValue`, whose input has the
recorded value `2 ^ 32` and whose output pays 1000 satoshi, the fee rate at 100 bytes
exceeds the maximum fee rate 2500, yet `__overMaximumFees(100)` is false and strict
`build()` returns the transaction. -/
theorem overMaximumFees_truncates :
    (∀ s bytes, 0 < bytes →
      (overMaximumFees s bytes = true ↔
        (((s.inputs.map (fun oi =>
          match oi with
          | some x => (x.value.getD 0) % 2 ^ 32
          | none => 0)).sum : Nat) : Int) - (outputValue s : Int) >
          (s.maximumFeeRate : Int) * (bytes : Int))) ∧
    (∀ s bytes, 0 < bytes →
      (∀ input v, some input ∈ s.inputs → input.value = some v → v < 2 ^ 32) →
      (overMaximumFees s bytes = true ↔ feeRateExceeds s bytes)) ∧
    ((demoLargeValue.inputs[0]?).join.bind (fun input => input.value)) = some (2 ^ 32) ∧
    recordedInputValue demoLargeValue = 2 ^ 32 ∧
    outputValue demoLargeValue = 1000 ∧
    demoLargeValue.maximumFeeRate = 2500 ∧
    feeRateExceeds demoLargeValue 100 ∧
    overMaximumFees demoLargeValue 100 = false ∧
    returned (build demo demoLargeValue) = true := by
  refine ⟨fun s bytes hb => overMaximumFees_iff s bytes hb, ?_, by decide, by decide, by decide,
    by decide, ?_, by decide, by decide⟩
  · intro s bytes hb hv
    rw [overMaximumFees_iff s bytes hb, feeRateExceeds_iff s bytes hb, truncated_sum s.inputs hv]
    rfl
  · rw [feeRateExceeds_iff _ _ (by decide)]
    decide

/-! ## The relevance rule of `expandOutput` -/

/-- C17. The relevance rule of `expandOutput`, for a script whose type (the hint, or else the
classification of the script) is `type`. PubKeyHash and WitnessPubKeyHash, with the hash
embedded at position 2 respectively 1 of the decompiled script: `pubKeys` is `[candidate]`
when a candidate key is given and its `hash160` equals the embedded hash, and the empty list
otherwise; without a candidate it is the empty list whatever the script holds. PubKey: the
single embedded key (`slice(0, 1)`); MultiSig: every embedded key (`slice(1, -2)`); both
whatever the candidate. Any other type: no `pubKeys` and no `signatures`. Whenever `pubKeys`
is returned, `signatures` is a list of the same length whose slots are all absent. -/
theorem expandOutput_relevance (env : Collab) (script : Buffer) (hint : Option ScriptType) :
    (∀ h candidate, hint.getD (env.classifyOutput script) = ScriptType.P2PKH →
      (env.decompile script)[2]? = some (Chunk.buf h) →
      expandOutput env (some script) hint candidate = Except.ok
        ⟨some (match candidate with
          | some k => if h = env.hash160 k then [some (Chunk.buf k)] else []
          | none => []), ScriptType.P2PKH,
         some (match candidate with
          | some k => if h = env.hash160 k then [none] else []
          | none => [])⟩) ∧
    (∀ h candidate, hint.getD (env.classifyOutput script) = ScriptType.P2WPKH →
      (env.decompile script)[1]? = some (Chunk.buf h) →
      expandOutput env (some script) hint candidate = Except.ok
        ⟨some (match candidate with
          | some k => if h = env.hash160 k then [some (Chunk.buf k)] else []
          | none => []), ScriptType.P2WPKH,
         some (match candidate with
          | some k => if h = env.hash160 k then [none] else []
          | none => [])⟩) ∧
    (∀ type, hint.getD (env.classifyOutput script) = type →
      type = ScriptType.P2PKH ∨ type = ScriptType.P2WPKH →
      expandOutput env (some script) hint none = Except.ok ⟨some [], type, some []⟩) ∧
    (∀ candidate, hint.getD (env.classifyOutput script) = ScriptType.P2PK →
      expandOutput env (some script) hint candidate = Except.ok
        ⟨some (((env.decompile script).take 1).map some), ScriptType.P2PK,
         some (((env.decompile script).take 1).map (fun _ => none))⟩) ∧
    (∀ candidate, hint.getD (env.classifyOutput script) = ScriptType.MULTISIG →
      expandOutput env (some script) hint candidate = Except.ok
        ⟨some ((sliceOneMinusTwo (env.decompile script)).map some), ScriptType.MULTISIG,
         some ((sliceOneMinusTwo (env.decompile script)).map (fun _ => none))⟩) ∧
    (∀ candidate type, hint.getD (env.classifyOutput script) = type →
      type = ScriptType.P2SH ∨ type = ScriptType.P2WSH ∨ type = ScriptType.NONSTANDARD →
      expandOutput env (some script) hint candidate = Except.ok ⟨none, type, none⟩) ∧
    (∀ candidate r pubKeys, expandOutput env (some script) hint candidate = Except.ok r →
      r.pubKeys = some pubKeys → r.signatures = some (List.replicate pubKeys.length none)) := by
  have hty : ∀ candidate, expandOutput env (some script) hint candidate =
      expandOutputSwitch env (env.decompile script) (hint.getD (env.classifyOutput script))
        candidate := by
    intro candidate
    unfold expandOutput
    cases hint <;> rfl
  refine ⟨?_, ?_, ?_, ?_, ?_, ?_, ?_⟩
  · intro h candidate ht hc
    rw [hty, ht]
    unfold expandOutputSwitch
    rcases candidate with _ | k
    · rfl
    · simp only [hc, chunkEquals]
      by_cases hk : h = env.hash160 k
      · simp [hk]
      · simp [hk]
  · intro h candidate ht hc
    rw [hty, ht]
    unfold expandOutputSwitch
    rcases candidate with _ | k
    · rfl
    · simp only [hc, chunkEquals]
      by_cases hk : h = env.hash160 k
      · simp [hk]
      · simp [hk]
  · intro type ht hor
    rw [hty, ht]
    rcases hor with hor | hor <;> subst hor <;> rfl
  · intro candidate ht
    rw [hty, ht]
    rfl
  · intro candidate ht
    rw [hty, ht]
    rfl
  · intro candidate type ht hor
    rw [hty, ht]
    rcases hor with hor | hor | hor <;> subst hor <;> rfl
  · intro candidate r pubKeys hr hp
    rw [hty] at hr
    unfold expandOutputSwitch at hr
    cases htype : hint.getD (env.classifyOutput script) <;> rw [htype] at hr <;>
      simp only at hr
    case P2PKH =>
      rcases candidate with _ | k
      · cases hr
        cases hp
        rfl
      · simp only at hr
        cases hce : chunkEquals (env.decompile script)[2]? (env.hash160 k) with
        | error e => rw [hce] at hr; cases hr
        | ok b =>
          rw [hce] at hr
          cases b <;> cases hr <;> cases hp <;> rfl
    case P2WPKH =>
      rcases candidate with _ | k
      · cases hr
        cases hp
        rfl
      · simp only at hr
        cases hce : chunkEquals (env.decompile script)[1]? (env.hash160 k) with
        | error e => rw [hce] at hr; cases hr
        | ok b =>
          rw [hce] at hr
          cases b <;> cases hr <;> cases hp <;> rfl
    case P2PK =>
      cases hr
      cases hp
      simp [List.eq_replicate_iff]
    case MULTISIG =>
      cases hr
      cases hp
      simp [List.eq_replicate_iff]
    case P2SH => cases hr; cases hp
    case P2WSH => cases hr; cases hp
    case NONSTANDARD => cases hr; cases hp

/-! ## P2SH and P2WSH wrapping -/

/-- C15. P2SH wrapping. Let the record have `prevOutType` ScriptHash and a recorded
`redeemScriptType`, and let `buildInput` return. Then the unlocking script is compiled from
the stack of the inner type followed by the value of `input.redeemScript` as its last
element (the redeem script, or `undefined` when the record holds none); the stack of the
inner type is what `buildStack` returns for it when the inner type is PubKeyHash, PubKey or
MultiSig, and it is empty for every other inner type, in particular for the witness types.
When the inner type is WitnessScriptHash and the witness script type is supported, the
witness stack is the stack of the witness script type followed by the value of
`input.witnessScript` as its last element; when the inner type is WitnessPubKeyHash the
witness stack is the PubKeyHash stack. -/
theorem buildInput_p2sh (env : Collab) (input : Input) (allowIncomplete : Bool)
    (r : BuiltInput) (t : ScriptType) (hp : input.prevOutType = some ScriptType.P2SH)
    (ht : input.redeemScriptType = some t)
    (hr : buildInput env input allowIncomplete = Except.ok r) :
    ∃ stack : List Chunk,
      r.script = env.compile (stack.map some ++ [input.redeemScript.map Chunk.buf]) ∧
      (stack.map some ++ [input.redeemScript.map Chunk.buf]).getLast? =
        some (input.redeemScript.map Chunk.buf) ∧
      (∀ redeemScript, input.redeemScript = some redeemScript →
        r.script = env.compile ((stack ++ [Chunk.buf redeemScript]).map some) ∧
        (stack ++ [Chunk.buf redeemScript]).getLast? = some (Chunk.buf redeemScript)) ∧
      (supportedType (some t) = true →
        buildStack env (some t) input.signatures input.pubKeys allowIncomplete =
          Except.ok stack) ∧
      (supportedType (some t) = false → stack = []) ∧
      (t = ScriptType.P2WPKH ∨ t = ScriptType.P2WSH → stack = []) ∧
      (t = ScriptType.P2WSH → supportedType input.witnessScriptType = true →
        ∃ inner,
          buildStack env input.witnessScriptType input.signatures input.pubKeys
            allowIncomplete = Except.ok inner ∧
          r.witness = inner.map some ++ [input.witnessScript.map Chunk.buf] ∧
          r.witness.getLast? = some (input.witnessScript.map Chunk.buf) ∧
          ∀ witnessScript, input.witnessScript = some witnessScript →
            r.witness = (inner ++ [Chunk.buf witnessScript]).map some) ∧
      (t = ScriptType.P2WPKH →
        ∃ inner,
          buildStack env (some ScriptType.P2PKH) input.signatures input.pubKeys
            allowIncomplete = Except.ok inner ∧
          r.witness = inner.map some) := by
  unfold buildInput at hr
  simp only [hp, ht, supportedType, Bool.false_eq_true, if_false, if_true] at hr
  split at hr
  · cases hr
  · rename_i hstrict
    cases hst : (if supportedType (some t) = true then
        buildStack env (some t) input.signatures input.pubKeys allowIncomplete
        else Except.ok []) with
    | error e =>
      simp only [supportedType] at hst
      rw [hst] at hr
      cases hr
    | ok sig1 =>
      have hst2 := hst
      simp only [supportedType] at hst
      rw [hst] at hr
      simp only at hr
      cases hw : buildInputWitness env input (some t) allowIncomplete with
      | error e => rw [hw] at hr; cases hr
      | ok wr =>
        obtain ⟨witness, scriptType⟩ := wr
        rw [hw] at hr
        simp only [Except.ok.injEq] at hr
        subst hr
        have hsup : supportedType (some t) = false → sig1 = [] := by
          intro hf
          rw [if_neg (by simp [hf])] at hst2
          cases hst2
          rfl
        refine ⟨sig1, rfl, by simp, ?_, ?_, hsup, ?_, ?_, ?_⟩
        · intro redeemScript hrs
          rw [hrs]
          exact ⟨by simp, by simp⟩
        · intro hs
          rw [if_pos hs] at hst2
          exact hst2
        · rintro (h1 | h1) <;> subst h1 <;> exact hsup rfl
        · intro h1 hs
          subst h1
          unfold buildInputWitness at hw
          simp only at hw
          rw [if_neg (by simp [hs]), if_pos hs] at hw
          cases hb : buildStack env input.witnessScriptType input.signatures input.pubKeys
              allowIncomplete with
          | error e => rw [hb] at hw; cases hw
          | ok inner =>
            rw [hb] at hw
            simp only [Except.ok.injEq, Prod.mk.injEq] at hw
            obtain ⟨hw1, _⟩ := hw
            subst hw1
            refine ⟨inner, rfl, rfl, by simp, ?_⟩
            intro witnessScript hws
            rw [hws]
            simp
        · intro h1
          subst h1
          unfold buildInputWitness at hw
          simp only at hw
          cases hb : buildStack env (some ScriptType.P2PKH) input.signatures input.pubKeys
              allowIncomplete with
          | error e => rw [hb] at hw; cases hw
          | ok inner =>
            rw [hb] at hw
            simp only [Except.ok.injEq, Prod.mk.injEq] at hw
            obtain ⟨hw1, _⟩ := hw
            subst hw1
            exact ⟨inner, rfl, rfl⟩

/-! ## Failures of the preparation inside `sign` -/

theorem signPrepareRest_error (env : Collab) (input1 : Input) (k : Buffer)
    (rs : Option Buffer) (wv : Option Nat) (ws : Option Buffer) (e : Err)
    (hv : canSign input1 = false)
    (hp : prepareInput env input1 k rs wv ws = Except.error e) :
    signPrepareRest env input1 k rs wv ws = (input1, Except.error e) := by
  unfold signPrepareRest
  rw [if_neg (by simp [hv]), hp]

theorem signPrepare_error (env : Collab) (input : Input) (k : Buffer)
    (rs : Option Buffer) (wv : Option Nat) (ws : Option Buffer) (e : Err)
    (hns : canSign input = false) (hv : canSign (recordValue input wv) = false)
    (hp : prepareInput env (recordValue input wv) k rs wv ws = Except.error e) :
    (∃ e1, (signPrepare env input k rs wv ws).2 = Except.error e1) ∧
    ((signPrepare env input k rs wv ws).1 = input ∨
      (signPrepare env input k rs wv ws).1 = recordValue input wv) ∧
    ((∀ v, wv = some v →
        ¬ (input.value.isSome = true ∧ input.value ≠ some v) ∧ env.isSatoshi v = true) →
      signPrepare env input k rs wv ws = (recordValue input wv, Except.error e)) := by
  unfold signPrepare
  rw [if_neg (by simp [hns])]
  rcases wv with _ | v
  · simp only [recordValue] at hv hp
    simp only [recordValue]
    rw [signPrepareRest_error env input k rs none ws e hv hp]
    exact ⟨⟨e, rfl⟩, Or.inl rfl, fun _ => rfl⟩
  · simp only [recordValue] at hv hp
    simp only [recordValue]
    by_cases h1 : input.value.isSome = true ∧ input.value ≠ some v
    · rw [if_pos h1]
      exact ⟨⟨_, rfl⟩, Or.inl rfl, fun hh => absurd h1 (hh v rfl).1⟩
    · rw [if_neg h1]
      by_cases h2 : env.isSatoshi v = false
      · rw [if_pos h2]
        refine ⟨⟨_, rfl⟩, Or.inl rfl, fun hh => ?_⟩
        have := (hh v rfl).2
        rw [h2] at this
        cases this
      · rw [if_neg h2, signPrepareRest_error env _ k rs (some v) ws e hv hp]
        exact ⟨⟨e, rfl⟩, Or.inr rfl, fun _ => rfl⟩

/-- A `sign` call whose preparation throws: the call fails, the builder is unchanged except
that the witness value may have been recorded, and the error is the one of `prepareInput`
when the checks before it pass. -/
theorem sign_prepare_error (env : Collab) (s : TransactionBuilder) (vin : Nat) (K : KeyPair)
    (rs : Option Buffer) (ht wv : Option Nat) (ws : Option Buffer) (input : Input) (e : Err)
    (hi : s.inputs[vin]? = some (some input)) (hns : canSign input = false)
    (hv : canSign (recordValue input wv) = false)
    (hp : prepareInput env (recordValue input wv) K.publicKey rs wv ws = Except.error e) :
    (∃ e1, (sign env s vin K rs ht wv ws).2 = Except.error e1) ∧
    ((sign env s vin K rs ht wv ws).1 = s ∨
      (sign env s vin K rs ht wv ws).1 = setInput s vin (recordValue input wv)) ∧
    (¬ (K.network.isSome = true ∧ K.network ≠ some s.network) →
      ¬ (input.redeemScript.isSome = true ∧ rs.isSome = true ∧ input.redeemScript ≠ rs) →
      (∀ v, wv = some v →
        ¬ (input.value.isSome = true ∧ input.value ≠ some v) ∧ env.isSatoshi v = true) →
      (sign env s vin K rs ht wv ws).2 = Except.error e) := by
  obtain ⟨⟨e1, h1⟩, h2, h3⟩ := signPrepare_error env input K.publicKey rs wv ws e hns hv hp
  unfold sign
  by_cases hn : K.network.isSome = true ∧ K.network ≠ some s.network
  · rw [if_pos hn]
    exact ⟨⟨_, rfl⟩, Or.inl rfl, fun hh => absurd hn hh⟩
  · rw [if_neg hn, hi]
    simp only [join_some_some]
    by_cases hr : input.redeemScript.isSome = true ∧ rs.isSome = true ∧ input.redeemScript ≠ rs
    · rw [if_pos hr]
      exact ⟨⟨_, rfl⟩, Or.inl rfl, fun _ hh => absurd hr hh⟩
    · rw [if_neg hr]
      cases hsp : signPrepare env input K.publicKey rs wv ws with
      | mk input1 r =>
        rw [hsp] at h1 h2 h3
        simp only at h1 h2
        subst h1
        simp only
        refine ⟨⟨e1, rfl⟩, ?_, ?_⟩
        · rcases h2 with h2 | h2
          · left
            rw [h2]
            exact setInput_same s vin input hi
          · right
            rw [h2]
        · intro _ _ hh
          have := h3 hh
          simp only [Prod.mk.injEq] at this
          rw [this.2]

theorem prepareInput_requires (env : Collab) (input : Input) (k : Buffer) (wv : Option Nat)
    (h : input.prevOutType = some ScriptType.P2SH ∨ input.prevOutType = some ScriptType.P2WSH) :
    prepareInput env input k none wv none = Except.error Err.requiresRedeemScript := by
  unfold prepareInput
  rcases h with h | h <;> simp [h]

theorem recordValue_prevOut (input : Input) (wv : Option Nat) :
    (recordValue input wv).prevOutType = input.prevOutType ∧
    (recordValue input wv).prevOutScript = input.prevOutScript ∧
    (recordValue input wv).signatures = input.signatures ∧
    (recordValue input wv).pubKeys = input.pubKeys := by
  cases wv <;> exact ⟨rfl, rfl, rfl, rfl⟩

/-- C18, amended. Let the record of input `vin` be not signable, with `prevOutType` ScriptHash
or WitnessScriptHash, and let it stay not signable once the witness value given to `sign`,
if any, is recorded. Then a `sign` call that supplies neither a redeem script nor a witness
script fails; the builder is left unchanged except that the witness value may have been
recorded, so no signature is stored; and the error is "requires redeemScript" when the key
pair is on the network of the builder and the witness value, if given, is a satoshi amount
that does not contradict a recorded value. -/
theorem sign_requires_redeemScript (env : Collab) (s : TransactionBuilder) (vin : Nat)
    (K : KeyPair) (ht wv : Option Nat) (input : Input)
    (hi : s.inputs[vin]? = some (some input)) (hns : canSign input = false)
    (hv : canSign (recordValue input wv) = false)
    (h : input.prevOutType = some ScriptType.P2SH ∨ input.prevOutType = some ScriptType.P2WSH) :
    (∃ e, (sign env s vin K none ht wv none).2 = Except.error e) ∧
    ((sign env s vin K none ht wv none).1 = s ∨
      (sign env s vin K none ht wv none).1 = setInput s vin (recordValue input wv)) ∧
    (recordValue input wv).signatures = input.signatures ∧
    (¬ (K.network.isSome = true ∧ K.network ≠ some s.network) →
      (∀ v, wv = some v →
        ¬ (input.value.isSome = true ∧ input.value ≠ some v) ∧ env.isSatoshi v = true) →
      (sign env s vin K none ht wv none).2 = Except.error Err.requiresRedeemScript) := by
  have hp := prepareInput_requires env (recordValue input wv) K.publicKey wv
    (by rw [(recordValue_prevOut input wv).1]; exact h)
  obtain ⟨h1, h2, h3⟩ := sign_prepare_error env s vin K none ht wv none input _ hi hns hv hp
  exact ⟨h1, h2, (recordValue_prevOut input wv).2.2.1, fun hn hw => h3 hn (by simp) hw⟩

theorem checkP2SHInput_error (env : Collab) (input : Input) (hash : Buffer) (t : ScriptType)
    (ht : input.prevOutType = some t)
    (h : ¬ (t = ScriptType.P2SH ∧ ∃ p, input.prevOutScript = some p ∧
      (env.decompile p)[1]? = some (Chunk.buf hash))) :
    ∃ e, checkP2SHInput env input hash = Except.error e := by
  unfold checkP2SHInput
  rw [ht]
  simp only
  by_cases h1 : t = ScriptType.P2SH
  · rw [if_neg (by simp [h1])]
    rcases hp : input.prevOutScript with _ | p
    · exact ⟨_, rfl⟩
    · simp only
      rcases hc : (env.decompile p)[1]? with _ | ⟨b | n⟩
      · exact ⟨_, rfl⟩
      · simp only [chunkEquals]
        by_cases hb : b = hash
        · exact absurd ⟨h1, p, hp, by rw [hc, hb]⟩ h
        · simp only [hb, decide_False]
          exact ⟨_, rfl⟩
      · exact ⟨_, rfl⟩
  · rw [if_pos h1]
    exact ⟨_, rfl⟩

theorem checkP2WSHInput_error (env : Collab) (input : Input) (hash : Buffer) (t : ScriptType)
    (ht : input.prevOutType = some t)
    (h : ¬ (t = ScriptType.P2WSH ∧ ∃ p, input.prevOutScript = some p ∧
      (env.decompile p)[1]? = some (Chunk.buf hash))) :
    ∃ e, checkP2WSHInput env input hash = Except.error e := by
  unfold checkP2WSHInput
  rw [ht]
  simp only
  by_cases h1 : t = ScriptType.P2WSH
  · rw [if_neg (by simp [h1])]
    rcases hp : input.prevOutScript with _ | p
    · exact ⟨_, rfl⟩
    · simp only
      rcases hc : (env.decompile p)[1]? with _ | ⟨b | n⟩
      · exact ⟨_, rfl⟩
      · simp only [chunkEquals]
        by_cases hb : b = hash
        · exact absurd ⟨h1, p, hp, by rw [hc, hb]⟩ h
        · simp only [hb, decide_False]
          exact ⟨_, rfl⟩
      · exact ⟨_, rfl⟩
  · rw [if_pos h1]
    exact ⟨_, rfl⟩

theorem prepareInput_redeem_error (env : Collab) (input : Input) (k r : Buffer)
    (wv : Option Nat) (ws : Option Buffer) (e : Err)
    (h : checkP2SHInput env input (env.hash160 r) = Except.error e) :
    prepareInput env input k (some r) wv ws = Except.error e := by
  unfold prepareInput
  cases ws <;> simp only [h]

theorem prepareInput_witness_error (env : Collab) (input : Input) (k w : Buffer)
    (wv : Option Nat) (e : Err)
    (h : checkP2WSHInput env input (env.sha256 w) = Except.error e) :
    prepareInput env input k none wv (some w) = Except.error e := by
  unfold prepareInput
  simp only [h]

theorem prepareInput_both_error (env : Collab) (input : Input) (k r w : Buffer)
    (wv : Option Nat) (h : r ≠ env.witnessScriptHashOutputEncode (env.sha256 w)) :
    ∃ e, prepareInput env input k (some r) wv (some w) = Except.error e := by
  unfold prepareInput
  simp only
  cases checkP2SHInput env input (env.hash160 r) with
  | error e => exact ⟨e, rfl⟩
  | ok u =>
    simp only
    rw [if_pos h]
    exact ⟨_, rfl⟩

/-- C19, amended. Hash consistency on preparation. Let the record of input `vin` be not
signable, with a recorded `prevOutType`, and let it stay not signable once the witness value
given to `sign`, if any, is recorded. Then a `sign` call supplying a redeem script fails
unless `prevOutType` is ScriptHash and the hash embedded in the recorded `prevOutScript`
(element 1 of the decompiled script) equals `hash160(redeemScript)`; a call supplying only
a witness script fails unless `prevOutType` is WitnessScriptHash and the embedded hash equals
`sha256(witnessScript)`; and a call supplying both fails unless the redeem script equals the
WitnessScriptHash encoding of `sha256(witnessScript)`. -/
theorem sign_hash_consistency (env : Collab) (s : TransactionBuilder) (vin : Nat)
    (K : KeyPair) (rs : Option Buffer) (ht wv : Option Nat) (ws : Option Buffer)
    (input : Input) (t : ScriptType)
    (hi : s.inputs[vin]? = some (some input)) (hns : canSign input = false)
    (hv : canSign (recordValue input wv) = false) (hty : input.prevOutType = some t) :
    (∀ r, rs = some r →
      ¬ (t = ScriptType.P2SH ∧ ∃ p, input.prevOutScript = some p ∧
        (env.decompile p)[1]? = some (Chunk.buf (env.hash160 r))) →
      ∃ e, (sign env s vin K rs ht wv ws).2 = Except.error e) ∧
    (∀ w, rs = none → ws = some w →
      ¬ (t = ScriptType.P2WSH ∧ ∃ p, input.prevOutScript = some p ∧
        (env.decompile p)[1]? = some (Chunk.buf (env.sha256 w))) →
      ∃ e, (sign env s vin K rs ht wv ws).2 = Except.error e) ∧
    (∀ r w, rs = some r → ws = some w →
      r ≠ env.witnessScriptHashOutputEncode (env.sha256 w) →
      ∃ e, (sign env s vin K rs ht wv ws).2 = Except.error e) := by
  have hty2 : (recordValue input wv).prevOutType = some t := by
    rw [(recordValue_prevOut input wv).1]
    exact hty
  have hps : (recordValue input wv).prevOutScript = input.prevOutScript :=
    (recordValue_prevOut input wv).2.1
  refine ⟨?_, ?_, ?_⟩
  · intro r hr hnot
    subst hr
    obtain ⟨e, he⟩ := checkP2SHInput_error env (recordValue input wv) (env.hash160 r) t hty2
      (by rw [hps]; exact hnot)
    exact (sign_prepare_error env s vin K (some r) ht wv ws input e hi hns hv
      (prepareInput_redeem_error env _ K.publicKey r wv ws e he)).1
  · intro w hr hw hnot
    subst hr
    subst hw
    obtain ⟨e, he⟩ := checkP2WSHInput_error env (recordValue input wv) (env.sha256 w) t hty2
      (by rw [hps]; exact hnot)
    exact (sign_prepare_error env s vin K none ht wv (some w) input e hi hns hv
      (prepareInput_witness_error env _ K.publicKey w wv e he)).1
  · intro r w hr hw hne
    subst hr
    subst hw
    obtain ⟨e, he⟩ := prepareInput_both_error env (recordValue input wv) K.publicKey r w wv hne
    exact (sign_prepare_error env s vin K (some r) ht wv (some w) input e hi hns hv he).1

/-- C18, counterexample. The record of `demoImported` has `prevOutType` WitnessScriptHash and
is not signable, yet `sign` with the key pair of key 2, a witness value and neither a redeem
script nor a witness script returns and stores a second signature: recording the value makes
the record signable, so `prepareInput` is not called. -/
theorem sign_imported_without_script :
    fromTransaction demo demoPartialWitnessTx none = Except.ok demoImported ∧
    ((demoImported.inputs[0]?).join.map
      (fun input => (input.prevOutType, canSign input))) =
        some (some ScriptType.P2WSH, false) ∧
    presentCount demoImported 0 = 1 ∧
    (sign demo demoImported 0 (demoKeyPair 2) none none (some 1000) none).2 = Except.ok () ∧
    presentCount (sign demo demoImported 0 (demoKeyPair 2) none none (some 1000) none).1 0 =
      2 := by
  decide

theorem sign_requires_redeemScript_witness :
    demoScriptHashInput.inputs[0]? = some (some demoScriptHashRecord) ∧
    canSign demoScriptHashRecord = false ∧
    demoScriptHashRecord.prevOutType = some ScriptType.P2SH ∧
    (sign demo demoScriptHashInput 0 (demoKeyPair 1) none none none none).2 =
      Except.error Err.requiresRedeemScript :=
  ⟨by decide, by decide, by decide,
    (sign_requires_redeemScript demo demoScriptHashInput 0 (demoKeyPair 1) none none
      demoScriptHashRecord (by decide) (by decide) (by decide) (Or.inl (by decide))).2.2.2
      (by decide) (fun v hv => by cases hv)⟩

/-- C19, counterexample. The record of `demoImported` has `prevOutType` WitnessScriptHash and
is not signable, and the hash embedded in its `prevOutScript` is not the `sha256` of the
script `[1, 2, 3]`; yet `sign` with the key pair of key 2, a witness value and the witness
script `[1, 2, 3]` returns: recording the value makes the record signable, so the
consistency checks of `prepareInput` do not run. -/
theorem sign_imported_wrong_witnessScript :
    ((demoImported.inputs[0]?).join.map
      (fun input => (input.prevOutType, canSign input))) =
        some (some ScriptType.P2WSH, false) ∧
    ((demoImported.inputs[0]?).join.bind (fun input => input.prevOutScript)).map
      (fun p => decide ((demo.decompile p)[1]? = some (Chunk.buf (demo.sha256 [1, 2, 3])))) =
        some false ∧
    (sign demo demoImported 0 (demoKeyPair 2) none none (some 1000) (some [1, 2, 3])).2 =
      Except.ok () := by
  decide

theorem sign_hash_consistency_witness :
    demoScriptHashInput.inputs[0]? = some (some demoScriptHashRecord) ∧
    canSign demoScriptHashRecord = false ∧
    demoScriptHashRecord.prevOutType = some ScriptType.P2SH ∧
    ∃ e, (sign demo demoScriptHashInput 0 (demoKeyPair 1) (some [0x51]) none none
      none).2 = Except.error e :=
  ⟨by decide, by decide, by decide,
    (sign_hash_consistency demo demoScriptHashInput 0 (demoKeyPair 1) (some [0x51])
      none none none demoScriptHashRecord ScriptType.P2SH (by decide) (by decide) (by decide)
      (by decide)).1 [0x51] rfl (by
        rintro ⟨_, p, hp, hc⟩
        have hps : demoScriptHashRecord.prevOutScript =
            some (demo.scriptHashOutputEncode (demo.hash160 demoRedeem)) := by decide
        rw [hps] at hp
        cases hp
        revert hc
        decide)⟩

/-! ## Strict and incomplete build of a fully signed builder -/

theorem filter_orOP0_present (signatures : List Slot)
    (h : ∀ sl ∈ signatures, truthy sl = true) :
    (signatures.map orOP0).filter (fun x => x ≠ Chunk.op 0) = signatures.map orOP0 := by
  rw [List.filter_eq_self]
  intro c hc
  obtain ⟨sl, hsl, rfl⟩ := List.mem_map.1 hc
  simpa using (orOP0_ne sl).2 (h sl hsl)

theorem buildStack_strict_incomplete (env : Collab) (type : Option ScriptType)
    (signatures pubKeys : Option (List Slot)) (stack : List Chunk)
    (hall : ∀ l, signatures = some l → ∀ sl ∈ l, truthy sl = true)
    (h : buildStack env type signatures pubKeys false = Except.ok stack) :
    buildStack env type signatures pubKeys true = Except.ok stack := by
  rcases type with _ | t
  · cases h
  · cases t
    case P2PKH =>
      rcases signatures with _ | _ | ⟨_ | ⟨b | n⟩, _ | ⟨x, rest⟩⟩ <;>
        first
        | exact h
        | cases h
        | (rcases pubKeys with _ | _ | ⟨p, _ | ⟨q, rest2⟩⟩ <;> first | exact h | cases h)
    case P2PK =>
      rcases signatures with _ | _ | ⟨_ | ⟨b | n⟩, _ | ⟨x, rest⟩⟩ <;>
        first | exact h | cases h
    case MULTISIG =>
      rcases signatures with _ | _ | ⟨sl, rest⟩
      · cases h
      · cases h
      · unfold buildStack at h ⊢
        simp only [Bool.false_eq_true, if_false, if_true] at h ⊢
        rw [filter_orOP0_present _ (hall _ rfl)] at h
        exact h
    case P2SH => cases h
    case P2WPKH => cases h
    case P2WSH => cases h
    case NONSTANDARD => cases h

theorem buildInputWitness_strict_incomplete (env : Collab) (input : Input)
    (t : Option ScriptType) (r : List Slot × Option ScriptType)
    (hall : ∀ l, input.signatures = some l → ∀ sl ∈ l, truthy sl = true)
    (h : buildInputWitness env input t false = Except.ok r) :
    buildInputWitness env input t true = Except.ok r := by
  have key := fun ty st => buildStack_strict_incomplete env ty input.signatures input.pubKeys
    st hall
  unfold buildInputWitness at h ⊢
  rcases t with _ | t
  · exact h
  · cases t
    case P2WPKH =>
      simp only at h ⊢
      cases hb : buildStack env (some ScriptType.P2PKH) input.signatures input.pubKeys false with
      | error e => rw [hb] at h; cases h
      | ok st =>
        rw [hb] at h
        rw [key _ st hb]
        exact h
    case P2WSH =>
      simp only at h ⊢
      by_cases hs : supportedType input.witnessScriptType = true
      · rw [if_neg (by simp [hs]), if_pos hs] at h
        rw [if_neg (by simp), if_pos hs]
        cases hb : buildStack env input.witnessScriptType input.signatures input.pubKeys
            false with
        | error e => rw [hb] at h; cases h
        | ok st =>
          rw [hb] at h
          rw [key _ st hb]
          exact h
      · rw [if_pos (by simp [hs])] at h
        cases h
    all_goals exact h

theorem buildInput_strict_incomplete (env : Collab) (input : Input) (r : BuiltInput)
    (hall : ∀ l, input.signatures = some l → ∀ sl ∈ l, truthy sl = true)
    (h : buildInput env input false = Except.ok r) :
    buildInput env input true = Except.ok r := by
  have key := fun ty st => buildStack_strict_incomplete env ty input.signatures input.pubKeys
    st hall
  have keyw := fun ty wr => buildInputWitness_strict_incomplete env input ty wr hall
  unfold buildInput at h ⊢
  simp only at h ⊢
  have h0 : ∀ sig0, (if supportedType input.prevOutType = true then
        buildStack env input.prevOutType input.signatures input.pubKeys false
        else Except.ok []) = Except.ok sig0 →
      (if supportedType input.prevOutType = true then
        buildStack env input.prevOutType input.signatures input.pubKeys true
        else Except.ok []) = Except.ok sig0 := by
    intro sig0 hh
    by_cases hs : supportedType input.prevOutType = true
    · rw [if_pos hs] at hh ⊢
      exact key _ _ hh
    · rw [if_neg hs] at hh ⊢
      exact hh
  cases hb0 : (if supportedType input.prevOutType = true then
        buildStack env input.prevOutType input.signatures input.pubKeys false
        else Except.ok []) with
  | error e => rw [hb0] at h; cases h
  | ok sig0 =>
    rw [hb0] at h
    rw [h0 sig0 hb0]
    simp only at h ⊢
    by_cases hp : input.prevOutType = some ScriptType.P2SH
    · rw [if_pos hp] at h ⊢
      by_cases hsp : supportedP2SHType input.redeemScriptType = false
      · rw [if_pos (by simp [hsp])] at h
        cases h
      · rw [if_neg (by simp [hsp])] at h
        rw [if_neg (by simp)]
        have h1 : ∀ sig1, (if supportedType input.redeemScriptType = true then
              buildStack env input.redeemScriptType input.signatures input.pubKeys false
              else Except.ok sig0) = Except.ok sig1 →
            (if supportedType input.redeemScriptType = true then
              buildStack env input.redeemScriptType input.signatures input.pubKeys true
              else Except.ok sig0) = Except.ok sig1 := by
          intro sig1 hh
          by_cases hs : supportedType input.redeemScriptType = true
          · rw [if_pos hs] at hh ⊢
            exact key _ _ hh
          · rw [if_neg hs] at hh ⊢
            exact hh
        cases hb1 : (if supportedType input.redeemScriptType = true then
              buildStack env input.redeemScriptType input.signatures input.pubKeys false
              else Except.ok sig0) with
        | error e => rw [hb1] at h; cases h
        | ok sig1 =>
          rw [hb1] at h
          rw [h1 sig1 hb1]
          simp only at h ⊢
          rcases hrt : input.redeemScriptType with _ | t
          · rw [hrt] at h
            simp only at h ⊢
            cases hw : buildInputWitness env input input.prevOutType false with
            | error e => rw [hw] at h; cases h
            | ok wr =>
              rw [hw] at h
              rw [keyw _ wr hw]
              exact h
          · rw [hrt] at h
            simp only at h ⊢
            cases hw : buildInputWitness env input (some t) false with
            | error e => rw [hw] at h; cases h
            | ok wr =>
              rw [hw] at h
              rw [keyw _ wr hw]
              exact h
    · rw [if_neg hp] at h ⊢
      cases hw : buildInputWitness env input input.prevOutType false with
      | error e => rw [hw] at h; cases h
      | ok wr =>
        rw [hw] at h
        rw [keyw _ wr hw]
        exact h

theorem buildChecked_strict_incomplete (env : Collab) (input : Input) (r : BuiltInput)
    (hall : ∀ l, input.signatures = some l → ∀ sl ∈ l, truthy sl = true)
    (h : buildChecked env false input = Except.ok r) :
    buildChecked env true input = Except.ok r := by
  rw [buildChecked_incomplete]
  apply buildInput_strict_incomplete env input r hall
  unfold buildChecked at h
  simp only at h
  split at h
  · cases h
  · cases hb : buildInput env input false with
    | error e => rw [hb] at h; cases h
    | ok r1 =>
      rw [hb] at h
      simp only at h
      split at h
      · cases h
      · exact h

theorem buildOne_inv (env : Collab) (a : Bool) (tx : Transaction) (i : Nat) (input : Input)
    (tx1 : Transaction) (h : buildOne env a tx i input = Except.ok tx1) :
    ∃ r txIn, buildChecked env a input = Except.ok r ∧ tx.ins[i]? = some txIn ∧
      r.witness.all Option.isSome = true ∧
      tx1 = { tx with
        ins := tx.ins.set i
          { txIn with script := r.script, witness := r.witness.filterMap id } } := by
  cases hr : buildChecked env a input with
  | error e =>
    rw [buildOne_error env a tx i input e hr] at h
    cases h
  | ok r =>
    cases hi : tx.ins[i]? with
    | none =>
      unfold buildOne Transaction.setInputScript at h
      rw [hr] at h
      simp only [hi] at h
      cases h
    | some txIn =>
      cases hw : r.witness.all Option.isSome with
      | false =>
        unfold buildOne at h
        rw [hr] at h
        simp only at h
        rw [setInputScript_ok tx i r.script txIn hi] at h
        simp only at h
        rw [setWitness_error _ i r.witness hw] at h
        cases h
      | true =>
        rw [buildOne_ok env a tx i input r txIn hr hi hw] at h
        cases h
        exact ⟨r, txIn, rfl, rfl, hw, rfl⟩

theorem buildOne_strict_incomplete (env : Collab) (tx : Transaction) (i : Nat) (input : Input)
    (tx1 : Transaction)
    (hall : ∀ l, input.signatures = some l → ∀ sl ∈ l, truthy sl = true)
    (h : buildOne env false tx i input = Except.ok tx1) :
    buildOne env true tx i input = Except.ok tx1 := by
  obtain ⟨r, txIn, hr, hi, hw, heq⟩ := buildOne_inv env false tx i input tx1 h
  rw [buildOne_ok env true tx i input r txIn
    (buildChecked_strict_incomplete env input r hall hr) hi hw, heq]

theorem buildLoop_strict_incomplete (env : Collab) (inputs : List (Option Input))
    (start : Nat) (tx tx1 : Transaction)
    (hall : ∀ input, some input ∈ inputs →
      ∀ l, input.signatures = some l → ∀ sl ∈ l, truthy sl = true)
    (h : buildLoop env false inputs start tx = Except.ok tx1) :
    buildLoop env true inputs start tx = Except.ok tx1 := by
  induction inputs generalizing start tx with
  | nil => exact h
  | cons oi rest ih =>
    have hall2 : ∀ input, some input ∈ rest →
        ∀ l, input.signatures = some l → ∀ sl ∈ l, truthy sl = true :=
      fun input hm => hall input (List.mem_cons_of_mem _ hm)
    cases oi with
    | none =>
      unfold buildLoop at h ⊢
      exact ih (start + 1) tx hall2 h
    | some x =>
      unfold buildLoop at h ⊢
      cases hb : buildOne env false tx start x with
      | error e => rw [hb] at h; cases h
      | ok tx2 =>
        rw [hb] at h
        rw [buildOne_strict_incomplete env tx start x tx2 (hall x (List.mem_cons_self _ _)) hb]
        exact ih (start + 1) tx2 hall2 h

theorem allSlotsPresent_iff (s : TransactionBuilder) :
    allSlotsPresent s = true ↔
      ∀ input, some input ∈ s.inputs →
        ∀ l, input.signatures = some l → ∀ sl ∈ l, truthy sl = true := by
  unfold allSlotsPresent
  rw [List.all_eq_true]
  constructor
  · intro h input hm l hl sl hsl
    have := h (some input) hm
    simp only [hl, List.all_eq_true] at this
    exact this sl hsl
  · intro h oi hm
    rcases oi with _ | input
    · rfl
    · show (match input.signatures with
        | none => true
        | some signatures => signatures.all truthy) = true
      rcases hl : input.signatures with _ | l
      · rfl
      · simp only [List.all_eq_true]
        exact h input hm l hl

/-- The stages of a successful strict `build()`. -/
theorem build_ok (env : Collab) (s : TransactionBuilder) (tx : Transaction)
    (h : build env s = Except.ok tx) :
    s.tx.ins.length ≠ 0 ∧ s.tx.outs.length ≠ 0 ∧
    buildLoop env false s.inputs 0 s.tx = Except.ok tx ∧
    overMaximumFees s (env.virtualSize tx) = false := by
  unfold build buildWith at h
  by_cases h1 : s.tx.ins.length = 0
  · rw [if_pos (by simp [h1])] at h
    cases h
  · rw [if_neg (by simp [h1])] at h
    by_cases h2 : s.tx.outs.length = 0
    · rw [if_pos (by simp [h2])] at h
      cases h
    · rw [if_neg (by simp [h2])] at h
      cases hl : buildLoop env false s.inputs 0 s.tx with
      | error e => rw [hl] at h; cases h
      | ok tx1 =>
        rw [hl] at h
        simp only at h
        by_cases h3 : overMaximumFees s (env.virtualSize tx1) = true
        · rw [if_pos (by simp [h3])] at h
          cases h
        · rw [if_neg (by simp [h3])] at h
          cases h
          exact ⟨h1, h2, rfl, by simpa using h3⟩

/-- C11, counterexample. On `demoTwoOfThree`, whose 2-of-3 multisig input holds the two
signatures it needs, strict `build()` and `buildIncomplete()` both return, and the
transactions differ: the incomplete build keeps an `OP_0` for the empty third slot in the
unlocking script, the strict build removes it. -/
theorem build_differs_from_buildIncomplete :
    presentCount demoTwoOfThree 0 = 2 ∧
    returned (build demo demoTwoOfThree) = true ∧
    returned (buildIncomplete demo demoTwoOfThree) = true ∧
    build demo demoTwoOfThree ≠ buildIncomplete demo demoTwoOfThree := by
  set_option maxRecDepth 4096 in decide

/-- C11, amended. For every builder state on which strict `build()` returns and in which no
signature slot of any input is absent, `buildIncomplete()` returns the same transaction, so
every input carries the same unlocking script and the same witness stack. -/
theorem buildIncomplete_eq_build (env : Collab) (s : TransactionBuilder) (tx : Transaction)
    (h : build env s = Except.ok tx) (hall : allSlotsPresent s = true) :
    buildIncomplete env s = Except.ok tx ∧
    ∀ (i : Nat) (txIn : TxIn), tx.ins[i]? = some txIn →
      ∃ (tx1 : Transaction) (txIn1 : TxIn), buildIncomplete env s = Except.ok tx1 ∧ tx1.ins[i]? = some txIn1 ∧
        txIn1.script = txIn.script ∧ txIn1.witness = txIn.witness := by
  obtain ⟨_, _, hl, _⟩ := build_ok env s tx h
  have hinc : buildIncomplete env s = Except.ok tx := by
    unfold buildIncomplete buildWith
    simp only [Bool.true_eq_false, false_and, if_false]
    rw [buildLoop_strict_incomplete env s.inputs 0 s.tx tx ((allSlotsPresent_iff s).1 hall) hl]
  exact ⟨hinc, fun i txIn hi => ⟨tx, txIn, hinc, hi, rfl, rfl⟩⟩

theorem buildIncomplete_eq_build_witness :
    allSlotsPresent demoSignedInOut = true ∧
    returned (build demo demoSignedInOut) = true ∧
    buildIncomplete demo demoSignedInOut = build demo demoSignedInOut :=
  ⟨by decide, by decide,
    (buildIncomplete_eq_build demo demoSignedInOut
      ((build demo demoSignedInOut).toOption.getD Transaction.empty) (by decide)
      (by decide)).1.trans (by decide)⟩

/-! ## The bare pay-to-pubkey-hash default -/

theorem prepareInput_empty (env : Collab) (k : Buffer)
    (hcodec : (env.decompile (env.pubKeyHashOutputEncode (env.hash160 k)))[2]? =
      some (Chunk.buf (env.hash160 k))) :
    prepareInput env {} k none none none = Except.ok (barePubKeyHashRecord env k none) := by
  unfold prepareInput expandOutput expandOutputSwitch
  simp only [hcodec, chunkEquals, decide_True]
  rfl

theorem signReady_bare (env : Collab) (tx : Transaction) (vin : Nat) (K : KeyPair) (d : Nat)
    (hashType : Nat) (hd : K.d = some d) :
    signReady env tx vin (barePubKeyHashRecord env K.publicKey none) K K.publicKey hashType =
      (barePubKeyHashRecord env K.publicKey
        (some (Chunk.buf (toScriptSignature
          (env.ecdsaSign (env.hashForSignature tx vin
            (env.pubKeyHashOutputEncode (env.hash160 K.publicKey)) hashType) d) hashType))),
        Except.ok ()) := by
  unfold signReady barePubKeyHashRecord signLoop KeyPair.sign
  simp [hd, truthy, arraySet]

theorem sign_empty (env : Collab) (s : TransactionBuilder) (vin : Nat) (K : KeyPair)
    (ht : Option Nat) (d : Nat)
    (hi : s.inputs[vin]? = some (some {}))
    (hnet : K.network = none ∨ K.network = some s.network) (hd : K.d = some d)
    (hcodec : (env.decompile (env.pubKeyHashOutputEncode (env.hash160 K.publicKey)))[2]? =
      some (Chunk.buf (env.hash160 K.publicKey))) :
    sign env s vin K none ht none none =
      (setInput s vin (barePubKeyHashRecord env K.publicKey
        (some (Chunk.buf (toScriptSignature
          (env.ecdsaSign (env.hashForSignature s.tx vin
            (env.pubKeyHashOutputEncode (env.hash160 K.publicKey)) (defaultHashType ht)) d)
          (defaultHashType ht))))), Except.ok ()) := by
  have hprep : signPrepare env {} K.publicKey none none none =
      (barePubKeyHashRecord env K.publicKey none, Except.ok ()) := by
    unfold signPrepare signPrepareRest
    rw [if_neg (by decide)]
    simp only
    rw [if_neg (by decide), prepareInput_empty env K.publicKey hcodec]
    simp only
    rw [if_pos (by rfl)]
  unfold sign
  rw [if_neg (by
    rintro ⟨h1, h2⟩
    rcases hnet with h | h
    · rw [h] at h1
      cases h1
    · exact h2 h), hi]
  simp only [join_some_some]
  rw [if_neg (by rintro ⟨h1, _⟩; cases h1), hprep]
  simp only
  rw [signReady_bare env s.tx vin K d _ hd]

theorem buildChecked_bare (env : Collab) (k sig : Buffer) :
    buildChecked env false (barePubKeyHashRecord env k (some (Chunk.buf sig))) =
      Except.ok ⟨some ScriptType.P2PKH,
        env.compile ((env.pubKeyHashInputEncodeStack sig (some (Chunk.buf k))).map some),
        []⟩ := by
  unfold buildChecked buildInput buildInputWitness buildStack barePubKeyHashRecord
  simp [supportedType]

theorem buildLoop_checked (env : Collab) (a : Bool) (inputs : List (Option Input))
    (start : Nat) (tx tx1 : Transaction)
    (h : buildLoop env a inputs start tx = Except.ok tx1) :
    ∀ x, some x ∈ inputs →
      ∃ r, buildChecked env a x = Except.ok r ∧ r.witness.all Option.isSome = true := by
  induction inputs generalizing start tx with
  | nil =>
    intro x hx
    cases hx
  | cons oi rest ih =>
    intro x hx
    cases oi with
    | none =>
      unfold buildLoop at h
      rcases List.mem_cons.1 hx with hh | hh
      · cases hh
      · exact ih (start + 1) tx h x hh
    | some y =>
      unfold buildLoop at h
      cases hb : buildOne env a tx start y with
      | error e => rw [hb] at h; cases h
      | ok tx2 =>
        rw [hb] at h
        rcases List.mem_cons.1 hx with hh | hh
        · cases hh
          obtain ⟨r, _, hr, _, hw, _⟩ := buildOne_inv env a tx start x tx2 hb
          exact ⟨r, hr, hw⟩
        · exact ih (start + 1) tx2 h x hh

/-- What a returning strict `build()` put into input `i`, on a builder whose `inputs` is as
long as `tx.ins`. -/
theorem build_input (env : Collab) (s : TransactionBuilder) (tx : Transaction)
    (hlen : s.inputs.length = s.tx.ins.length) (h : build env s = Except.ok tx)
    (i : Nat) (input : Input) (hi : s.inputs[i]? = some (some input)) :
    ∃ r txIn, buildChecked env false input = Except.ok r ∧ s.tx.ins[i]? = some txIn ∧
      tx.ins[i]? =
        some { txIn with script := r.script, witness := r.witness.filterMap id } := by
  obtain ⟨_, _, hl, _⟩ := build_ok env s tx h
  have hall := buildLoop_checked env false s.inputs 0 s.tx tx hl
  obtain ⟨tx1, h1, _, _, h4⟩ := buildLoop_ok env false s.inputs 0 s.tx hall (by omega)
  rw [hl] at h1
  cases h1
  obtain ⟨r, hr, _⟩ := hall input (List.getElem?_mem hi)
  have hilt : i < s.tx.ins.length := by
    rw [← hlen]
    exact getElem?_lt _ _ _ hi
  refine ⟨r, s.tx.ins[i], hr, by simp [hilt], ?_⟩
  have := h4 i input r s.tx.ins[i] hi hr (by simp [hilt])
  rw [Nat.zero_add] at this
  exact this

theorem overMaximumFees_unvalued (s : TransactionBuilder) (bytes : Nat)
    (h : ∀ input, some input ∈ s.inputs → input.value = none) :
    overMaximumFees s bytes = false := by
  have hsum : (s.inputs.map (fun oi =>
      match oi with
      | some x => (x.value.getD 0) % 2 ^ 32
      | none => 0)).sum = 0 := by
    apply List.sum_eq_zero
    intro n hn
    obtain ⟨oi, hoi, rfl⟩ := List.mem_map.1 hn
    rcases oi with _ | x
    · rfl
    · show x.value.getD 0 % 2 ^ 32 = 0
      rw [h x hoi]
      rfl
  have key : ∀ c : Nat, c = 0 →
      (if bytes = 0 then
        decide ((c : Int) - (((s.tx.outs.map (fun x => x.value)).sum : Nat) : Int) > 0)
      else decide ((c : Int) - (((s.tx.outs.map (fun x => x.value)).sum : Nat) : Int) >
        (s.maximumFeeRate : Int) * (bytes : Int))) = false := by
    intro c hc
    subst hc
    have hout : (0 : Int) ≤ (((s.tx.outs.map (fun x => x.value)).sum : Nat) : Int) :=
      Int.ofNat_nonneg _
    have hrate : (0 : Int) ≤ (s.maximumFeeRate : Int) * (bytes : Int) :=
      Int.mul_nonneg (Int.ofNat_nonneg _) (Int.ofNat_nonneg _)
    split
    · simp only [decide_eq_false_iff_not, not_lt, gt_iff_lt]
      omega
    · simp only [decide_eq_false_iff_not, not_lt, gt_iff_lt]
      omega
  exact key _ hsum

/-- C20. The bare pay-to-pubkey-hash default. Let the record of input `vin` be empty (the
input was added with no previous-output script, no value and no unlocking data), let the
key pair `K` be on the network of the builder (or on none) and hold a private key, and let
the P2PKH template embed the hash at position 2 of the decompiled script. Then
`sign(vin, K)` with no redeem and no witness script returns and leaves the record with
`prevOutType` PubKeyHash, `prevOutScript` the P2PKH script of `hash160(pubKey(K))`,
`witness` false, `pubKeys = [pubKey(K)]` and its one slot filled with the signature followed
by the hash-type byte. On that record the checks of strict `build()` pass and give the
script compiled from the PubKeyHash stack of the signature and the key (which is exactly
`[signature, pubKey(K)]` for the PubKeyHash stack encoder of the templates) and an empty
witness. On a reachable builder every returning `build()` carries this script and witness
in input `vin`, and `build()` does return when this is the only input and there is an
output. -/
theorem sign_bare_pubKeyHash (env : Collab) (s : TransactionBuilder) (vin : Nat) (K : KeyPair)
    (ht : Option Nat) (d : Nat)
    (hi : s.inputs[vin]? = some (some {}))
    (hnet : K.network = none ∨ K.network = some s.network) (hd : K.d = some d)
    (hcodec : (env.decompile (env.pubKeyHashOutputEncode (env.hash160 K.publicKey)))[2]? =
      some (Chunk.buf (env.hash160 K.publicKey))) :
    ∃ signature s1 script,
      signature = toScriptSignature
        (env.ecdsaSign (env.hashForSignature s.tx vin
          (env.pubKeyHashOutputEncode (env.hash160 K.publicKey)) (defaultHashType ht)) d)
        (defaultHashType ht) ∧
      sign env s vin K none ht none none = (s1, Except.ok ()) ∧
      s1 = setInput s vin (barePubKeyHashRecord env K.publicKey (some (Chunk.buf signature))) ∧
      s1.inputs[vin]? =
        some (some (barePubKeyHashRecord env K.publicKey (some (Chunk.buf signature)))) ∧
      script = env.compile
        ((env.pubKeyHashInputEncodeStack signature (some (Chunk.buf K.publicKey))).map some) ∧
      (env.pubKeyHashInputEncodeStack signature (some (Chunk.buf K.publicKey)) =
          [Chunk.buf signature, Chunk.buf K.publicKey] →
        script = env.compile ([Chunk.buf signature, Chunk.buf K.publicKey].map some)) ∧
      buildChecked env false
          (barePubKeyHashRecord env K.publicKey (some (Chunk.buf signature))) =
        Except.ok ⟨some ScriptType.P2PKH, script, []⟩ ∧
      (Reachable env s → ∀ tx, build env s1 = Except.ok tx →
        ∃ txIn, s.tx.ins[vin]? = some txIn ∧
          tx.ins[vin]? = some { txIn with script := script, witness := [] }) ∧
      (Reachable env s → s.inputs.length = 1 → s.tx.outs ≠ [] →
        ∃ tx, build env s1 = Except.ok tx) := by
  have hsign := sign_empty env s vin K ht d hi hnet hd hcodec
  have hvin : vin < s.inputs.length := getElem?_lt _ _ _ hi
  refine ⟨_, _, _, rfl, hsign, rfl, setInput_get s vin _ hvin, rfl, ?_,
    buildChecked_bare env K.publicKey _, ?_, ?_⟩
  · intro h
    rw [h]
  · intro hreach tx hb
    have hlen : s.inputs.length = s.tx.ins.length := (buildInvariant_reachable env s hreach).2
    obtain ⟨r, txIn, hr, hti, htx⟩ := build_input env _ tx
      (by simp only [setInput, List.length_set]; exact hlen) hb vin _
      (setInput_get s vin _ hvin)
    rw [buildChecked_bare] at hr
    cases hr
    exact ⟨txIn, hti, htx⟩
  · intro hreach hone houts
    have hlen : s.inputs.length = s.tx.ins.length := (buildInvariant_reachable env s hreach).2
    have hv0 : vin = 0 := by omega
    subst hv0
    have hins : s.inputs = [some {}] := by
      rcases hs : s.inputs with _ | ⟨x, _ | ⟨y, rest⟩⟩
      · rw [hs] at hone
        cases hone
      · rw [hs] at hi
        simp only [List.getElem?_cons_zero, Option.some.injEq] at hi
        rw [hi]
      · rw [hs] at hone
        simp at hone
    obtain ⟨tx1, h1, _, _, _⟩ := buildLoop_ok env false
      (setInput s 0 (barePubKeyHashRecord env K.publicKey (some (Chunk.buf (toScriptSignature
        (env.ecdsaSign (env.hashForSignature s.tx 0
          (env.pubKeyHashOutputEncode (env.hash160 K.publicKey)) (defaultHashType ht)) d)
        (defaultHashType ht)))))).inputs 0 s.tx
      (by
        intro x hx
        simp only [setInput, hins, List.set_cons_zero, List.mem_singleton,
          Option.some.injEq] at hx
        subst hx
        exact ⟨_, buildChecked_bare env K.publicKey _, rfl⟩)
      (by simp only [setInput, List.length_set]; omega)
    refine ⟨tx1, ?_⟩
    unfold build buildWith
    have e1 : (setInput s 0 (barePubKeyHashRecord env K.publicKey (some (Chunk.buf
        (toScriptSignature (env.ecdsaSign (env.hashForSignature s.tx 0
          (env.pubKeyHashOutputEncode (env.hash160 K.publicKey)) (defaultHashType ht)) d)
        (defaultHashType ht)))))).tx = s.tx := rfl
    rw [e1, if_neg (by
      rintro ⟨_, h0⟩
      omega), if_neg (by
      rintro ⟨_, h0⟩
      exact houts (List.length_eq_zero.1 h0)), h1]
    simp only
    rw [if_neg (by
      rintro ⟨_, hfee⟩
      rw [overMaximumFees_unvalued _ _ (by
        intro x hx
        simp only [setInput, hins, List.set_cons_zero, List.mem_singleton,
          Option.some.injEq] at hx
        subst hx
        rfl)] at hfee
      cases hfee)]

set_option maxRecDepth 4096 in
theorem buildInput_p2sh_witness :
    buildInput demo demoTwoOfThreeInput false = Except.ok demoTwoOfThreeBuilt ∧
    ∃ stack,
      demoTwoOfThreeBuilt.script =
        demo.compile ((stack ++ [Chunk.buf demoRedeem]).map some) ∧
      (stack ++ [Chunk.buf demoRedeem]).getLast? = some (Chunk.buf demoRedeem) ∧
      buildStack demo (some ScriptType.MULTISIG) demoTwoOfThreeInput.signatures
        demoTwoOfThreeInput.pubKeys false = Except.ok stack := by
  refine ⟨by decide, ?_⟩
  obtain ⟨stack, _, _, h2, h3, _⟩ :=
    buildInput_p2sh demo demoTwoOfThreeInput false demoTwoOfThreeBuilt ScriptType.MULTISIG
      (by decide) (by decide) (by decide)
  have hr : demoTwoOfThreeInput.redeemScript = some demoRedeem := by decide
  exact ⟨stack, (h2 _ hr).1, (h2 _ hr).2, h3 rfl⟩

theorem sign_bare_pubKeyHash_witness :
    demoInOut.inputs[0]? = some (some ({} : Input)) ∧
    ∃ signature s1,
      sign demo demoInOut 0 (demoKeyPair 5) none none none none = (s1, Except.ok ()) ∧
      s1.inputs[0]? =
        some (some (barePubKeyHashRecord demo (demoPubKey 5) (some (Chunk.buf signature)))) ∧
      ∃ tx, build demo s1 = Except.ok tx := by
  refine ⟨by decide, ?_⟩
  obtain ⟨signature, s1, script, _, h2, _, h4, _, _, _, _, h9⟩ :=
    sign_bare_pubKeyHash demo demoInOut 0 (demoKeyPair 5) none 5 (by decide) (Or.inl rfl) rfl
      (by decide)
  exact ⟨signature, s1, h2, h4,
    h9 (Reachable.addOutput _ _ _ (Reachable.addInput _ _ _ _ _ (Reachable.new none none)))
      (by decide) (by decide)⟩

/-! ## Reordering of multisig signatures on import -/

theorem mem_set_none (u : List Slot) (p : Nat) (c : Chunk) (h : some c ∈ u.set p none) :
    some c ∈ u := by
  rcases List.mem_or_eq_of_mem_set h with h1 | h1
  · exact h1
  · cases h1

theorem mem_set_of_ne (u : List Slot) (p : Nat) (c c1 : Chunk) (hp : u[p]? = some (some c))
    (hne : c1 ≠ c) (h : some c1 ∈ u) : some c1 ∈ u.set p none := by
  obtain ⟨q, hq⟩ := List.getElem?_of_mem h
  have hqp : p ≠ q := by
    intro hh
    subst hh
    rw [hp] at hq
    simp only [Option.some.injEq] at hq
    exact hne hq.symm
  apply List.getElem?_mem (n := q)
  rw [List.getElem?_set_ne hqp]
  exact hq

/-- The scan of `fixMultisigOrder` for one key: it returns the first present signature that
verifies against the key and blanks its position, or returns nothing and leaves the pool. -/
theorem findMatch_spec (env : Collab) (transaction : Transaction) (vin : Nat)
    (redeemScript : Buffer) (pubKey : Slot) (u : List Slot)
    (hparse : ∀ c, some c ∈ u → truthy (some c) = true →
      (env.parseScriptSignature c).isSome = true) :
    (∃ p c, u[p]? = some (some c) ∧ truthy (some c) = true ∧
      verifiesAgainst env transaction vin redeemScript pubKey c = true ∧
      findMatch env transaction vin redeemScript pubKey u = Except.ok (some c, u.set p none)) ∨
    ((∀ c, some c ∈ u → truthy (some c) = true →
        verifiesAgainst env transaction vin redeemScript pubKey c = false) ∧
      findMatch env transaction vin redeemScript pubKey u = Except.ok (none, u)) := by
  induction u with
  | nil =>
    right
    exact ⟨fun c hc => (by cases hc), rfl⟩
  | cons sl rest ih =>
    have hparse2 : ∀ c, some c ∈ rest → truthy (some c) = true →
        (env.parseScriptSignature c).isSome = true :=
      fun c hc => hparse c (List.mem_cons_of_mem _ hc)
    have hskip : (∀ c, sl = some c → truthy (some c) = true →
        verifiesAgainst env transaction vin redeemScript pubKey c = false) →
        findMatch env transaction vin redeemScript pubKey (sl :: rest) =
          (match findMatch env transaction vin redeemScript pubKey rest with
            | Except.error e => Except.error e
            | Except.ok (m, rest1) => Except.ok (m, sl :: rest1)) →
        (∃ p c, (sl :: rest)[p]? = some (some c) ∧ truthy (some c) = true ∧
          verifiesAgainst env transaction vin redeemScript pubKey c = true ∧
          findMatch env transaction vin redeemScript pubKey (sl :: rest) =
            Except.ok (some c, (sl :: rest).set p none)) ∨
        ((∀ c, some c ∈ sl :: rest → truthy (some c) = true →
            verifiesAgainst env transaction vin redeemScript pubKey c = false) ∧
          findMatch env transaction vin redeemScript pubKey (sl :: rest) =
            Except.ok (none, sl :: rest)) := by
      intro hhead heq
      rcases ih hparse2 with ⟨p, c, h1, h2, h3, h4⟩ | ⟨h1, h2⟩
      · left
        refine ⟨p + 1, c, by simpa using h1, h2, h3, ?_⟩
        rw [heq, h4]
        rfl
      · right
        refine ⟨?_, ?_⟩
        · intro c hc ht
          rcases List.mem_cons.1 hc with hh | hh
          · exact hhead c hh.symm ht
          · exact h1 c hh ht
        · rw [heq, h2]
    rcases sl with _ | c
    · apply hskip
      · intro c hc
        cases hc
      · rw [findMatch]
        try rfl
    · by_cases ht : truthy (some c) = true
      · have hp := hparse c (List.mem_cons_self _ _) ht
        cases hps : env.parseScriptSignature c with
        | none => rw [hps] at hp; cases hp
        | some r =>
          obtain ⟨sig, hashType⟩ := r
          by_cases hv : env.verify pubKey
              (env.hashForSignature transaction vin redeemScript hashType) sig = true
          · left
            refine ⟨0, c, by simp, ht, ?_, ?_⟩
            · unfold verifiesAgainst
              rw [hps]
              exact hv
            · rw [findMatch]
              simp only [ht, hps, hv]
              try rfl
          · apply hskip
            · intro c1 hc1 _
              cases hc1
              unfold verifiesAgainst
              rw [hps]
              simpa using hv
            · rw [findMatch]
              simp only [ht, hps, hv]
              try rfl
      · apply hskip
        · intro c1 hc1 ht1
          cases hc1
          exact absurd ht1 ht
        · rw [findMatch]
          simp only [ht]
          try rfl

/-- The map of `fixMultisigOrder` over the keys. When every key is valid, every present
signature of the pool parses, no signature verifies against two key positions and no key is
verified by two different signatures, the result has one slot per key, and the slot of a
key holds a signature exactly when that signature is in the pool and verifies against it. -/
theorem matchAll_spec (env : Collab) (transaction : Transaction) (vin : Nat)
    (redeemScript : Buffer) (pks u : List Slot)
    (hvalid : ∀ pk ∈ pks, env.validPublicKey pk = true)
    (hparse : ∀ c, some c ∈ u → truthy (some c) = true →
      (env.parseScriptSignature c).isSome = true)
    (hkey : ∀ c, some c ∈ u → truthy (some c) = true → ∀ (i j : Nat) (pi pj : Slot),
      pks[i]? = some pi → pks[j]? = some pj →
      verifiesAgainst env transaction vin redeemScript pi c = true →
      verifiesAgainst env transaction vin redeemScript pj c = true → i = j)
    (huniq : ∀ c c1, some c ∈ u → some c1 ∈ u → truthy (some c) = true →
      truthy (some c1) = true → ∀ pk ∈ pks,
      verifiesAgainst env transaction vin redeemScript pk c = true →
      verifiesAgainst env transaction vin redeemScript pk c1 = true → c = c1) :
    ∃ out, matchAll env transaction vin redeemScript pks u = Except.ok out ∧
      out.length = pks.length ∧
      ∀ (j : Nat) (pk : Slot), pks[j]? = some pk → ∀ c,
        (out[j]? = some (some c) ↔
          (some c ∈ u ∧ truthy (some c) = true ∧
            verifiesAgainst env transaction vin redeemScript pk c = true)) := by
  induction pks generalizing u with
  | nil =>
    refine ⟨[], rfl, rfl, ?_⟩
    intro j pk hj
    simp at hj
  | cons pk rest ih =>
    have hv : env.validPublicKey pk = true := hvalid pk (List.mem_cons_self _ _)
    have hvalid2 : ∀ pk ∈ rest, env.validPublicKey pk = true :=
      fun p hp => hvalid p (List.mem_cons_of_mem _ hp)
    rcases findMatch_spec env transaction vin redeemScript pk u hparse with
      ⟨p, c, h1, h2, h3, h4⟩ | ⟨h1, h2⟩
    · have hcu : some c ∈ u := List.getElem?_mem h1
      obtain ⟨out, ho1, ho2, ho3⟩ := ih (u.set p none) hvalid2
        (fun c1 hc1 => hparse c1 (mem_set_none u p c1 hc1))
        (fun c1 hc1 ht1 i j pi pj hi hj vi vj => by
          have := hkey c1 (mem_set_none u p c1 hc1) ht1 (i + 1) (j + 1) pi pj
            (by simpa using hi) (by simpa using hj) vi vj
          omega)
        (fun c1 c2 hc1 hc2 ht1 ht2 pk2 hpk2 v1 v2 =>
          huniq c1 c2 (mem_set_none u p c1 hc1) (mem_set_none u p c2 hc2) ht1 ht2 pk2
            (List.mem_cons_of_mem _ hpk2) v1 v2)
      refine ⟨some c :: out, ?_, by simp [ho2], ?_⟩
      · rw [matchAll]
        simp only [hv, h4, ho1]
        try rfl
      · intro j pkj hj c1
        cases j with
        | zero =>
          simp only [List.getElem?_cons_zero, Option.some.injEq] at hj ⊢
          subst hj
          constructor
          · intro hc
            subst hc
            exact ⟨hcu, h2, h3⟩
          · rintro ⟨hc1, ht1, hv1⟩
            exact huniq c c1 hcu hc1 h2 ht1 pk (List.mem_cons_self _ _) h3 hv1
        | succ j =>
          simp only [List.getElem?_cons_succ] at hj ⊢
          rw [ho3 j pkj hj c1]
          constructor
          · rintro ⟨hc1, ht1, hv1⟩
            exact ⟨mem_set_none u p c1 hc1, ht1, hv1⟩
          · rintro ⟨hc1, ht1, hv1⟩
            refine ⟨mem_set_of_ne u p c c1 h1 ?_ hc1, ht1, hv1⟩
            intro heq
            subst heq
            have := hkey c1 hc1 ht1 0 (j + 1) pk pkj (by simp) (by simpa using hj) h3 hv1
            omega
    · obtain ⟨out, ho1, ho2, ho3⟩ := ih u hvalid2 hparse
        (fun c1 hc1 ht1 i j pi pj hi hj vi vj => by
          have := hkey c1 hc1 ht1 (i + 1) (j + 1) pi pj
            (by simpa using hi) (by simpa using hj) vi vj
          omega)
        (fun c1 c2 hc1 hc2 ht1 ht2 pk2 hpk2 v1 v2 =>
          huniq c1 c2 hc1 hc2 ht1 ht2 pk2 (List.mem_cons_of_mem _ hpk2) v1 v2)
      refine ⟨none :: out, ?_, by simp [ho2], ?_⟩
      · rw [matchAll]
        simp only [hv, h2, ho1]
        try rfl
      · intro j pkj hj c1
        cases j with
        | zero =>
          simp only [List.getElem?_cons_zero, Option.some.injEq] at hj ⊢
          subst hj
          constructor
          · intro hc
            cases hc
          · rintro ⟨hc1, ht1, hv1⟩
            rw [h1 c1 hc1 ht1] at hv1
            cases hv1
        | succ j =>
          simp only [List.getElem?_cons_succ] at hj ⊢
          exact ho3 j pkj hj c1

/-! ## The stages of `fromTransaction` -/

theorem arraySet_length_eq {α : Type} (xs : List (Option α)) (x : Option α) :
    arraySet xs xs.length x = xs ++ [x] := by
  unfold arraySet
  rw [if_neg (by omega)]
  simp

/-- The call `__addInputUnsafe(hash, index, { sequence, script, witness })` made by
`fromTransaction`, spelled out. -/
theorem addInputUnsafe_import (env : Collab) (s : TransactionBuilder) (txIn : TxIn) :
    addInputUnsafe env s txIn.hash txIn.index
        { sequence := some txIn.sequence, script := some txIn.script,
          witness := some txIn.witness } =
      if Transaction.isCoinbaseHash txIn.hash then (s, Except.error Err.coinbaseNotSupported)
      else if (mapGet s.prevTxMap (txIn.hash, txIn.index)).isSome then
        (s, Except.error Err.duplicateTxOut)
      else
        match expandInput env txIn.script txIn.witness with
        | Except.error e => (s, Except.error e)
        | Except.ok e =>
          ({ s with
              tx := { s.tx with
                ins := s.tx.ins ++ [⟨txIn.hash, txIn.index, [], txIn.sequence, []⟩] }
              inputs := arraySet s.inputs s.tx.ins.length (some e)
              prevTxMap := ((txIn.hash, txIn.index), s.tx.ins.length) :: s.prevTxMap },
            Except.ok s.tx.ins.length) := by
  unfold addInputUnsafe
  by_cases hcb : Transaction.isCoinbaseHash txIn.hash = true
  · rw [if_pos hcb, if_pos hcb]
  · rw [if_neg hcb, if_neg hcb]
    by_cases hdup : (mapGet s.prevTxMap (txIn.hash, txIn.index)).isSome = true
    · rw [if_pos hdup, if_pos hdup]
    · rw [if_neg hdup, if_neg hdup]
      simp only [Option.getD_some]
      cases expandInput env txIn.script txIn.witness with
      | error e => rfl
      | ok e =>
        simp only [addPrevOutScript, Transaction.addInput, Option.getD_some, Option.getD_none]
        cases e.prevOutScript <;> rfl

theorem addInputs_inv (env : Collab) (ins : List TxIn) (s s1 : TransactionBuilder)
    (hlen : s.inputs.length = s.tx.ins.length)
    (h : addInputs env s ins = Except.ok s1) :
    ∃ es, List.Forall₂ (fun txIn e => expandInput env txIn.script txIn.witness = Except.ok e)
        ins es ∧
      s1.inputs = s.inputs ++ es.map some := by
  induction ins generalizing s with
  | nil =>
    unfold addInputs at h
    cases h
    exact ⟨[], List.Forall₂.nil, by simp⟩
  | cons txIn rest ih =>
    unfold addInputs at h
    rw [addInputUnsafe_import] at h
    by_cases hcb : Transaction.isCoinbaseHash txIn.hash = true
    · rw [if_pos hcb] at h
      cases h
    · rw [if_neg hcb] at h
      by_cases hdup : (mapGet s.prevTxMap (txIn.hash, txIn.index)).isSome = true
      · rw [if_pos hdup] at h
        cases h
      · rw [if_neg hdup] at h
        cases he : expandInput env txIn.script txIn.witness with
        | error e => rw [he] at h; cases h
        | ok e =>
          rw [he] at h
          simp only at h
          obtain ⟨es, h1, h2⟩ := ih _ (by
            simp only [← hlen, arraySet_length_eq, List.length_append, List.length_singleton]) h
          refine ⟨e :: es, List.Forall₂.cons he h1, ?_⟩
          rw [h2]
          simp only [← hlen, arraySet_length_eq, List.map_cons, List.append_assoc,
            List.singleton_append]

theorem mapGet_none_of_not_mem (m : List ((Buffer × Nat) × Nat)) (k : Buffer × Nat)
    (h : k ∉ m.map Prod.fst) : mapGet m k = none := by
  induction m with
  | nil => rfl
  | cons kv rest ih =>
    obtain ⟨k2, v⟩ := kv
    simp only [List.map_cons, List.mem_cons, not_or] at h
    rw [mapGet_cons, if_neg (fun hh => h.1 hh.symm)]
    exact ih h.2

theorem addInputs_total (env : Collab) (ins : List TxIn) (s : TransactionBuilder)
    (es : List Input)
    (hlen : s.inputs.length = s.tx.ins.length)
    (hcb : ∀ txIn ∈ ins, Transaction.isCoinbaseHash txIn.hash = false)
    (hmap : ∀ txIn ∈ ins, (txIn.hash, txIn.index) ∉ s.prevTxMap.map Prod.fst)
    (hnd : (ins.map (fun t => (t.hash, t.index))).Nodup)
    (hes : List.Forall₂ (fun txIn e => expandInput env txIn.script txIn.witness = Except.ok e)
      ins es) :
    ∃ s1, addInputs env s ins = Except.ok s1 ∧ s1.inputs = s.inputs ++ es.map some ∧
      s1.network = s.network := by
  induction ins generalizing s es with
  | nil =>
    cases hes
    exact ⟨s, rfl, by simp, rfl⟩
  | cons txIn rest ih =>
    cases hes with
    | cons he hrest =>
      rename_i e es1
      unfold addInputs
      rw [addInputUnsafe_import, if_neg (by simp [hcb txIn (List.mem_cons_self _ _)]),
        if_neg (by
          rw [mapGet_none_of_not_mem _ _ (hmap txIn (List.mem_cons_self _ _))]
          simp), he]
      simp only
      simp only [List.map_cons, List.nodup_cons] at hnd
      obtain ⟨s1, h1, h2, h3⟩ := ih
        { s with
          tx := { s.tx with
            ins := s.tx.ins ++ [⟨txIn.hash, txIn.index, [], txIn.sequence, []⟩] }
          inputs := arraySet s.inputs s.tx.ins.length (some e)
          prevTxMap := ((txIn.hash, txIn.index), s.tx.ins.length) :: s.prevTxMap } es1
        (by simp only [← hlen, arraySet_length_eq, List.length_append, List.length_singleton])
        (fun t ht => hcb t (List.mem_cons_of_mem _ ht))
        (by
          intro t ht
          simp only [List.map_cons, List.mem_cons, not_or]
          refine ⟨?_, hmap t (List.mem_cons_of_mem _ ht)⟩
          intro heq
          apply hnd.1
          rw [← heq]
          exact List.mem_map.2 ⟨t, ht, rfl⟩)
        hnd.2 hrest
      refine ⟨s1, h1, ?_, h3⟩
      rw [h2]
      simp only [← hlen, arraySet_length_eq, List.map_cons, List.append_assoc,
        List.singleton_append]

theorem fixAll_inv (env : Collab) (transaction : Transaction) (es : List Input) (start : Nat)
    (out : List (Option Input))
    (h : fixAll env transaction (es.map some) start = Except.ok out) :
    ∃ fs : List Input, out = fs.map some ∧ fs.length = es.length ∧
      ∀ (k : Nat) (e : Input), es[k]? = some e →
        ∃ f, fs[k]? = some f ∧ fixMultisigOrder env e transaction (start + k) = Except.ok f := by
  induction es generalizing start out with
  | nil =>
    unfold fixAll at h
    cases h
    exact ⟨[], rfl, rfl, fun k e hk => by simp at hk⟩
  | cons e rest ih =>
    rw [List.map_cons] at h
    unfold fixAll at h
    cases hf : fixMultisigOrder env e transaction start with
    | error err => rw [hf] at h; cases h
    | ok f =>
      rw [hf] at h
      simp only at h
      cases hr : fixAll env transaction (rest.map some) (start + 1) with
      | error err => rw [hr] at h; cases h
      | ok out1 =>
        rw [hr] at h
        cases h
        obtain ⟨fs, h1, h2, h3⟩ := ih (start + 1) out1 hr
        refine ⟨f :: fs, by rw [h1]; rfl, by simp [h2], ?_⟩
        intro k e1 hk
        cases k with
        | zero =>
          simp only [List.getElem?_cons_zero, Option.some.injEq] at hk
          subst hk
          exact ⟨f, by simp, hf⟩
        | succ k =>
          simp only [List.getElem?_cons_succ] at hk
          obtain ⟨f1, hf1, hf2⟩ := h3 k e1 hk
          refine ⟨f1, by simpa using hf1, ?_⟩
          rw [← hf2]
          congr 1
          omega

theorem fixAll_total (env : Collab) (transaction : Transaction) (es fs : List Input)
    (start : Nat) (hlen : fs.length = es.length)
    (h : ∀ (k : Nat) (e : Input), es[k]? = some e →
      ∃ f, fs[k]? = some f ∧ fixMultisigOrder env e transaction (start + k) = Except.ok f) :
    fixAll env transaction (es.map some) start = Except.ok (fs.map some) := by
  induction es generalizing start fs with
  | nil =>
    rcases fs with _ | ⟨f, fs⟩
    · rfl
    · simp at hlen
  | cons e rest ih =>
    rcases fs with _ | ⟨f, fs⟩
    · simp at hlen
    · rw [List.map_cons]
      unfold fixAll
      obtain ⟨f0, hf0, hf1⟩ := h 0 e (by simp)
      simp only [List.getElem?_cons_zero, Option.some.injEq, Nat.add_zero] at hf0 hf1
      subst hf0
      rw [hf1]
      simp only
      rw [ih fs (start + 1) (by simpa using hlen) (by
        intro k e1 hk
        obtain ⟨f1, hf2, hf3⟩ := h (k + 1) e1 (by simpa using hk)
        refine ⟨f1, by simpa using hf2, ?_⟩
        rw [← hf3]
        congr 1
        omega)]
      rfl

theorem addOutput_frame (env : Collab) (s : TransactionBuilder)
    (scriptPubKey : ScriptPubKeyArg) (value : Nat) :
    (addOutput env s scriptPubKey value).1.inputs = s.inputs ∧
    (addOutput env s scriptPubKey value).1.tx.ins = s.tx.ins ∧
    (addOutput env s scriptPubKey value).1.prevTxMap = s.prevTxMap ∧
    (addOutput env s scriptPubKey value).1.network = s.network := by
  rcases addOutput_cases env s scriptPubKey value with hs | ⟨script, _, hs⟩ <;> rw [hs] <;>
    exact ⟨rfl, rfl, rfl, rfl⟩

theorem addOutputs_frame (env : Collab) (outs : List TxOut) (s s1 : TransactionBuilder)
    (h : addOutputs env s outs = Except.ok s1) :
    s1.inputs = s.inputs ∧ s1.tx.ins = s.tx.ins ∧ s1.prevTxMap = s.prevTxMap ∧
    s1.network = s.network := by
  induction outs generalizing s with
  | nil =>
    unfold addOutputs at h
    cases h
    exact ⟨rfl, rfl, rfl, rfl⟩
  | cons txOut rest ih =>
    unfold addOutputs at h
    have hf := addOutput_frame env s (ScriptPubKeyArg.script txOut.script) txOut.value
    cases hres : addOutput env s (ScriptPubKeyArg.script txOut.script) txOut.value with
    | mk s2 r =>
      rw [hres] at h hf
      cases r with
      | error e => cases h
      | ok n =>
        simp only at h hf
        obtain ⟨h1, h2, h3, h4⟩ := ih s2 h
        exact ⟨h1.trans hf.1, h2.trans hf.2.1, h3.trans hf.2.2.1, h4.trans hf.2.2.2⟩

theorem addOutputs_total (env : Collab) (outs : List TxOut) (s : TransactionBuilder)
    (hin : s.inputs = []) : ∃ s1, addOutputs env s outs = Except.ok s1 := by
  induction outs generalizing s with
  | nil => exact ⟨s, rfl⟩
  | cons txOut rest ih =>
    unfold addOutputs
    have hc : canModifyOutputs s = Except.ok true := by
      unfold canModifyOutputs
      rw [hin]
      rfl
    have hstep : addOutput env s (ScriptPubKeyArg.script txOut.script) txOut.value =
        ({ s with tx := (s.tx.addOutput txOut.script txOut.value).1 },
          Except.ok (s.tx.addOutput txOut.script txOut.value).2) := by
      unfold addOutput
      rw [hc]
    rw [hstep]
    exact ih _ hin

theorem fromTransaction_start (network : Option Network) (version locktime : Nat) :
    (setLockTime (setVersion (TransactionBuilder.new network none) version).1 locktime).1.inputs
      = [] ∧
    (setLockTime (setVersion (TransactionBuilder.new network none) version).1
      locktime).1.tx.ins = [] ∧
    (setLockTime (setVersion (TransactionBuilder.new network none) version).1
      locktime).1.prevTxMap = [] ∧
    (setLockTime (setVersion (TransactionBuilder.new network none) version).1
      locktime).1.network = network.getD networks.bitcoin := by
  unfold setLockTime setVersion
  split <;> split <;> (try split) <;> exact ⟨rfl, rfl, rfl, rfl⟩

/-- What a returning `fromTransaction` stored: the record of input `k` is what
`fixMultisigOrder` makes of the record that `expandInput` reads from the unlocking script
and the witness of that input. -/
theorem fromTransaction_inv (env : Collab) (transaction : Transaction)
    (network : Option Network) (s : TransactionBuilder)
    (h : fromTransaction env transaction network = Except.ok s) :
    ∃ es fs : List Input,
      List.Forall₂ (fun txIn e => expandInput env txIn.script txIn.witness = Except.ok e)
        transaction.ins es ∧
      fs.length = es.length ∧
      (∀ (k : Nat) (e : Input), es[k]? = some e →
        ∃ f, fs[k]? = some f ∧ fixMultisigOrder env e transaction k = Except.ok f) ∧
      s.inputs = fs.map some := by
  obtain ⟨txb3, txb4, inputs, h3, h4, h5, hs⟩ := fromTransaction_ok env transaction network s h
  obtain ⟨s1, s2, _, _⟩ := fromTransaction_start network transaction.version
    transaction.locktime
  obtain ⟨f1, f2, _, _⟩ := addOutputs_frame env _ _ txb3 h3
  rw [s1] at f1
  rw [s2] at f2
  obtain ⟨es, he1, he2⟩ := addInputs_inv env transaction.ins txb3 txb4 (by rw [f1, f2]; rfl) h4
  rw [f1, List.nil_append] at he2
  rw [he2] at h5
  obtain ⟨fs, hf1, hf2, hf3⟩ := fixAll_inv env transaction es 0 inputs h5
  refine ⟨es, fs, he1, hf2, ?_, ?_⟩
  · intro k e hk
    obtain ⟨f, hfk, hfix⟩ := hf3 k e hk
    rw [Nat.zero_add] at hfix
    exact ⟨f, hfk, hfix⟩
  · rw [hs]
    exact hf1

/-- The function `fromTransaction` returns when version and locktime are uint32, no input
spends the coinbase marker or an outpoint twice, and `expandInput` and `fixMultisigOrder`
return on every input; the records it stores are the results of `fixMultisigOrder`. -/
theorem fromTransaction_total (env : Collab) (transaction : Transaction)
    (network : Option Network) (es fs : List Input)
    (hv : isUInt32 transaction.version = true) (hl : isUInt32 transaction.locktime = true)
    (hcb : ∀ txIn ∈ transaction.ins, Transaction.isCoinbaseHash txIn.hash = false)
    (hnd : (outpoints transaction).Nodup)
    (hes : List.Forall₂
      (fun txIn e => expandInput env txIn.script txIn.witness = Except.ok e)
      transaction.ins es)
    (hlen : fs.length = es.length)
    (hfs : ∀ (k : Nat) (e : Input), es[k]? = some e →
      ∃ f, fs[k]? = some f ∧ fixMultisigOrder env e transaction k = Except.ok f) :
    ∃ s, fromTransaction env transaction network = Except.ok s ∧ s.inputs = fs.map some := by
  have hsv : setVersion (TransactionBuilder.new network none) transaction.version =
      ({ TransactionBuilder.new network none with
        tx := { (TransactionBuilder.new network none).tx with version := transaction.version } },
        Except.ok ()) := by
    unfold setVersion
    rw [if_neg (by simp [hv])]
  have hsl : ∀ s0 : TransactionBuilder, s0.inputs = [] →
      setLockTime s0 transaction.locktime =
        ({ s0 with tx := { s0.tx with locktime := transaction.locktime } }, Except.ok ()) := by
    intro s0 h0
    unfold setLockTime
    rw [if_neg (by simp [hl]), if_neg (by
      unfold anySignature
      rw [h0]
      simp)]
  obtain ⟨s1, s2, s3, _⟩ := fromTransaction_start network transaction.version
    transaction.locktime
  obtain ⟨txb3, h3⟩ := addOutputs_total env transaction.outs _ s1
  obtain ⟨f1, f2, f3, _⟩ := addOutputs_frame env _ _ txb3 h3
  rw [s1] at f1
  rw [s2] at f2
  rw [s3] at f3
  obtain ⟨txb4, h4, h4i, _⟩ := addInputs_total env transaction.ins txb3 es (by rw [f1, f2]; rfl)
    hcb (by
      intro t _
      rw [f3]
      simp) hnd hes
  rw [f1, List.nil_append] at h4i
  have h5 := fixAll_total env transaction es fs 0 hlen (by
    intro k e hk
    obtain ⟨f, hfk, hfix⟩ := hfs k e hk
    exact ⟨f, hfk, by rw [Nat.zero_add]; exact hfix⟩)
  refine ⟨{ txb4 with inputs := fs.map some }, ?_, rfl⟩
  unfold fromTransaction
  simp only
  rw [hsv]
  simp only
  rw [hsv] at h3
  simp only at h3
  rw [hsl _ rfl] at h3 ⊢
  simp only at h3 ⊢
  rw [h3]
  simp only
  rw [h4]
  simp only
  rw [h4i, h5]

theorem forall₂_getElem? {α β : Type} (R : α → β → Prop) (l1 : List α) (l2 : List β)
    (h : List.Forall₂ R l1 l2) (i : Nat) (a : α) (hi : l1[i]? = some a) :
    ∃ b, l2[i]? = some b ∧ R a b := by
  induction h generalizing i with
  | nil => simp at hi
  | cons hab _ ih =>
    cases i with
    | zero =>
      simp only [List.getElem?_cons_zero, Option.some.injEq] at hi
      subst hi
      exact ⟨_, by simp, hab⟩
    | succ i =>
      simp only [List.getElem?_cons_succ] at hi
      obtain ⟨b, hb, hr⟩ := ih i hi
      exact ⟨b, by simpa using hb, hr⟩

/-- The record that a returning `fromTransaction` stores for input `i`. -/
theorem fromTransaction_record (env : Collab) (transaction : Transaction)
    (network : Option Network) (s : TransactionBuilder) (i : Nat) (txIn : TxIn)
    (e f : Input) (h : fromTransaction env transaction network = Except.ok s)
    (hin : transaction.ins[i]? = some txIn)
    (hex : expandInput env txIn.script txIn.witness = Except.ok e)
    (hfix : fixMultisigOrder env e transaction i = Except.ok f) :
    s.inputs[i]? = some (some f) := by
  obtain ⟨es, fs, h1, _, h3, h4⟩ := fromTransaction_inv env transaction network s h
  obtain ⟨e1, he1, hr1⟩ := forall₂_getElem? _ _ _ h1 i txIn hin
  rw [hex] at hr1
  cases hr1
  obtain ⟨f1, hf1, hf2⟩ := h3 i e he1
  rw [hfix] at hf2
  cases hf2
  rw [h4]
  simp [hf1]

theorem fixMultisigOrder_run (env : Collab) (input : Input) (transaction : Transaction)
    (vin : Nat) (redeemScript : Buffer) (pubKeys signatures out : List Slot)
    (hrt : input.redeemScriptType = some ScriptType.MULTISIG)
    (hrs : input.redeemScript = some redeemScript)
    (hpk : input.pubKeys = some pubKeys) (hsg : input.signatures = some signatures)
    (hne : pubKeys.length ≠ signatures.length)
    (h : matchAll env transaction vin redeemScript pubKeys signatures = Except.ok out) :
    fixMultisigOrder env input transaction vin =
      Except.ok { input with signatures := some out } := by
  unfold fixMultisigOrder
  simp only [hrs, hrt, hpk, hsg, ne_eq, not_true_eq_false, if_false, if_neg hne, h]

/-- C13, amended. Multisig reorder. Let `expandInput` read input `i` of a transaction as a
P2SH multisig spend with the keys `pubKeys` and the embedded signatures `signatures`, in
whatever order they appear, and let their number differ from the number of keys. Let every
key be valid, let every present signature parse, let no signature verify against two key
positions and let no key be verified by two different signatures. Then `fixMultisigOrder`
returns a record whose `signatures` list has one slot per key; the slot of a key holds a
signature exactly when that signature is embedded and verifies against the key, and is
absent otherwise; every returning `fromTransaction` stores this record for input `i`; and
the list is the same for every permutation of the embedded signatures. -/
theorem fixMultisigOrder_restores (env : Collab) (transaction : Transaction)
    (network : Option Network) (i : Nat) (txIn : TxIn) (input : Input)
    (redeemScript : Buffer) (pubKeys signatures : List Slot)
    (hin : transaction.ins[i]? = some txIn)
    (hex : expandInput env txIn.script txIn.witness = Except.ok input)
    (hrt : input.redeemScriptType = some ScriptType.MULTISIG)
    (hrs : input.redeemScript = some redeemScript)
    (hpk : input.pubKeys = some pubKeys) (hsg : input.signatures = some signatures)
    (hne : pubKeys.length ≠ signatures.length)
    (hvalid : ∀ pk ∈ pubKeys, env.validPublicKey pk = true)
    (hparse : ∀ c, some c ∈ signatures → truthy (some c) = true →
      (env.parseScriptSignature c).isSome = true)
    (hkey : ∀ c, some c ∈ signatures → truthy (some c) = true → ∀ (j k : Nat) (pj pk : Slot),
      pubKeys[j]? = some pj → pubKeys[k]? = some pk →
      verifiesAgainst env transaction i redeemScript pj c = true →
      verifiesAgainst env transaction i redeemScript pk c = true → j = k)
    (huniq : ∀ c c1, some c ∈ signatures → some c1 ∈ signatures → truthy (some c) = true →
      truthy (some c1) = true → ∀ pk ∈ pubKeys,
      verifiesAgainst env transaction i redeemScript pk c = true →
      verifiesAgainst env transaction i redeemScript pk c1 = true → c = c1) :
    ∃ out : List Slot,
      fixMultisigOrder env input transaction i =
        Except.ok { input with signatures := some out } ∧
      out.length = pubKeys.length ∧
      (∀ (j : Nat) (pk : Slot), pubKeys[j]? = some pk → ∀ c,
        (out[j]? = some (some c) ↔
          (some c ∈ signatures ∧ truthy (some c) = true ∧
            verifiesAgainst env transaction i redeemScript pk c = true))) ∧
      (∀ s, fromTransaction env transaction network = Except.ok s →
        s.inputs[i]? = some (some { input with signatures := some out })) ∧
      (∀ permuted : List Slot, permuted.Perm signatures →
        permuted.length ≠ pubKeys.length ∧
        fixMultisigOrder env { input with signatures := some permuted } transaction i =
          Except.ok { input with signatures := some out }) := by
  obtain ⟨out, ho1, ho2, ho3⟩ := matchAll_spec env transaction i redeemScript pubKeys
    signatures hvalid hparse hkey huniq
  have hfix := fixMultisigOrder_run env input transaction i redeemScript pubKeys signatures
    out hrt hrs hpk hsg hne ho1
  refine ⟨out, hfix, ho2, ho3, ?_, ?_⟩
  · intro s hs
    exact fromTransaction_record env transaction network s i txIn input _ hs hin hex hfix
  · intro permuted hperm
    have hm : ∀ sl, sl ∈ permuted ↔ sl ∈ signatures := fun sl => hperm.mem_iff
    obtain ⟨out2, hp1, hp2, hp3⟩ := matchAll_spec env transaction i redeemScript pubKeys
      permuted hvalid
      (fun c hc => hparse c ((hm _).1 hc))
      (fun c hc => hkey c ((hm _).1 hc))
      (fun c c1 hc hc1 => huniq c c1 ((hm _).1 hc) ((hm _).1 hc1))
    have heq : out2 = out := by
      apply List.ext_getElem?
      intro j
      by_cases hj : j < pubKeys.length
      · have hpk : pubKeys[j]? = some pubKeys[j] := by simp [hj]
        have e1 := ho3 j _ hpk
        have e2 := hp3 j _ hpk
        have hj1 : j < out.length := by omega
        have hj2 : j < out2.length := by omega
        rcases h1 : out[j]? with _ | a
        · simp [hj1] at h1
        · rcases h2 : out2[j]? with _ | b
          · simp [hj2] at h2
          · rcases a with _ | c
            · rcases b with _ | c2
              · rfl
              · have := (e2 c2).1 h2
                rw [hm] at this
                rw [(e1 c2).2 this] at h1
                cases h1
            · have := (e1 c).1 h1
              rw [← hm] at this
              rw [(e2 c).2 this] at h2
              cases h2
              rfl
      · rw [List.getElem?_eq_none (by omega), List.getElem?_eq_none (by omega)]
    refine ⟨by rw [hperm.length_eq]; exact fun hh => hne hh.symm, ?_⟩
    rw [fixMultisigOrder_run env { input with signatures := some permuted } transaction i
      redeemScript pubKeys permuted out2 hrt hrs hpk rfl
      (by rw [hperm.length_eq]; exact hne) hp1, heq]

/-- C13, counterexample. The input of `demoSwappedTx` is a correctly signed 2-of-2 P2SH
multisig spend whose two signatures are embedded in swapped order: the signature of key 2
comes first. `fromTransaction` returns, and the record keeps the swapped order: slot 0, the
slot of key 1, holds the signature that verifies against key 2 and not against key 1.
`fixMultisigOrder` does nothing when there are as many signatures as keys. -/
theorem fromTransaction_keeps_swapped_order :
    (importedRecord demo demoSwappedTx 0).map
      (fun r => (r.redeemScriptType, r.pubKeys, r.signatures)) =
      some (some ScriptType.MULTISIG,
        some [some (Chunk.buf (demoPubKey 1)), some (Chunk.buf (demoPubKey 2))],
        some [some (Chunk.buf (demoSignature demoWitnessScript 2)),
          some (Chunk.buf (demoSignature demoWitnessScript 1))]) ∧
    verifiesAgainst demo demoSwappedTx 0 demoWitnessScript (some (Chunk.buf (demoPubKey 1)))
      (Chunk.buf (demoSignature demoWitnessScript 1)) = true ∧
    verifiesAgainst demo demoSwappedTx 0 demoWitnessScript (some (Chunk.buf (demoPubKey 2)))
      (Chunk.buf (demoSignature demoWitnessScript 2)) = true ∧
    verifiesAgainst demo demoSwappedTx 0 demoWitnessScript (some (Chunk.buf (demoPubKey 1)))
      (Chunk.buf (demoSignature demoWitnessScript 2)) = false ∧
    verifiesAgainst demo demoSwappedTx 0 demoWitnessScript (some (Chunk.buf (demoPubKey 2)))
      (Chunk.buf (demoSignature demoWitnessScript 1)) = false := by
  set_option maxRecDepth 8192 in decide

set_option maxRecDepth 8192 in
theorem fixMultisigOrder_restores_witness :
    importedRecord demo demoScrambledTx 0 =
      some { demoScrambledRecord with
        signatures := some [some (Chunk.buf (demoSignature demoRedeem 1)),
          some (Chunk.buf (demoSignature demoRedeem 2)), none] } := by
  have hkeys : demoScrambledRecord.pubKeys = some [some (Chunk.buf (demoPubKey 1)),
      some (Chunk.buf (demoPubKey 2)), some (Chunk.buf (demoPubKey 3))] := by decide
  have hsigs : demoScrambledRecord.signatures =
      some [some (Chunk.buf (demoSignature demoRedeem 2)),
        some (Chunk.buf (demoSignature demoRedeem 1))] := by decide
  obtain ⟨out, h1, h2, h3, h4, _⟩ := fixMultisigOrder_restores demo demoScrambledTx none 0
    ⟨demoHash 0, 0,
      demoCompile [Chunk.op 0, Chunk.buf (demoSignature demoRedeem 2),
        Chunk.buf (demoSignature demoRedeem 1), Chunk.buf demoRedeem],
      DEFAULT_SEQUENCE, []⟩
    demoScrambledRecord demoRedeem _ _ (by decide) (by decide) (by decide) (by decide)
    hkeys hsigs (by decide) (by decide)
    (by
      intro c hc _
      simp only [List.mem_cons, Option.some.injEq, List.mem_singleton, List.not_mem_nil,
        or_false] at hc
      rcases hc with rfl | rfl <;> decide)
    (by
      intro c hc _ j k pj pk hj hk vj vk
      simp only [List.mem_cons, Option.some.injEq, List.mem_singleton, List.not_mem_nil,
        or_false] at hc
      rcases hc with rfl | rfl <;> rcases j with _ | _ | _ | j <;>
        rcases k with _ | _ | _ | k <;>
        simp only [List.getElem?_cons_zero, List.getElem?_cons_succ, List.getElem?_nil,
          Option.some.injEq, reduceCtorEq] at hj hk <;>
        first
        | rfl
        | (subst hj; subst hk; revert vj vk; decide))
    (by
      intro c c1 hc hc1 _ _ pk hpk v v1
      simp only [List.mem_cons, Option.some.injEq, List.mem_singleton, List.not_mem_nil,
        or_false] at hc hc1 hpk
      rcases hc with rfl | rfl <;> rcases hc1 with rfl | rfl <;>
        rcases hpk with rfl | rfl | rfl <;>
        first
        | rfl
        | (revert v v1; decide))
  have hs : ∃ s, fromTransaction demo demoScrambledTx none = Except.ok s := by
    cases h : fromTransaction demo demoScrambledTx none with
    | ok s => exact ⟨s, rfl⟩
    | error e =>
      have : returned (fromTransaction demo demoScrambledTx none) = true := by decide
      rw [h] at this
      cases this
  obtain ⟨s, hs⟩ := hs
  have hrec := h4 s hs
  have hout : out = [some (Chunk.buf (demoSignature demoRedeem 1)),
      some (Chunk.buf (demoSignature demoRedeem 2)), none] := by
    have e0 := (h3 0 _ (by rfl) (Chunk.buf (demoSignature demoRedeem 1))).2
      ⟨by decide, by decide, by decide⟩
    have e1 := (h3 1 _ (by rfl) (Chunk.buf (demoSignature demoRedeem 2))).2
      ⟨by decide, by decide, by decide⟩
    rcases out with _ | ⟨a, _ | ⟨b, _ | ⟨c, _ | ⟨d, rest⟩⟩⟩⟩ <;>
      simp only [List.length_cons, List.length_nil] at h2 <;> try omega
    simp only [List.getElem?_cons_zero, List.getElem?_cons_succ, Option.some.injEq] at e0 e1
    subst e0
    subst e1
    rcases c with _ | c
    · rfl
    · have := (h3 2 _ (by rfl) c).1 (by simp)
      obtain ⟨hm, _, hv⟩ := this
      simp only [List.mem_cons, Option.some.injEq, List.mem_singleton, List.not_mem_nil,
        or_false] at hm
      rcases hm with rfl | rfl <;> revert hv <;> decide
  unfold importedRecord
  rw [hs]
  simp only [hrec, join_some_some, hout]

/-! ## Export and import -/

theorem extractChunks_template (env : Collab) (t : ScriptType) (signatures pubKeys : List Slot)
    (script script1 : Option Buffer) (stack : List Chunk)
    (h : TemplateStack env t signatures pubKeys script stack)
    (hs : t = ScriptType.P2PKH ∨ script1 = script) :
    extractChunks env (some t) stack script1 = (pubKeys, signatures) ∧
    pubKeys.length = signatures.length := by
  cases t
  case P2PKH =>
    obtain ⟨sig, k, h1, h2, h3⟩ := h
    subst h1 h2 h3
    exact ⟨rfl, rfl⟩
  case P2PK =>
    obtain ⟨sig, S, h1, h2, h3, h4⟩ := h
    rcases hs with hs | hs
    · cases hs
    · subst h1 h2 h3 h4 hs
      exact ⟨rfl, rfl⟩
  case MULTISIG =>
    obtain ⟨x, l, S, h1, h2, h3, h4, h5, h6⟩ := h
    rcases hs with hs | hs
    · cases hs
    · subst h1 h3 h4 hs
      refine ⟨?_, h6⟩
      unfold extractChunks
      simp only [List.drop_succ_cons, List.drop_zero, ← h5, Prod.mk.injEq, true_and]
      exact List.map_congr_left h2
  all_goals exact absurd h (by simp [TemplateStack])

theorem fixMultisigOrder_same (env : Collab) (e : Input) (transaction : Transaction) (i : Nat)
    (p s : List Slot) (hp : e.pubKeys = some p) (hs : e.signatures = some s)
    (hlen : p.length = s.length) : fixMultisigOrder env e transaction i = Except.ok e := by
  unfold fixMultisigOrder
  rcases e.redeemScript with _ | r
  · rfl
  · simp only [hp, hs, hlen, if_true]
    split <;> rfl

theorem lastBuffer_append (xs : List Chunk) (b : Buffer) :
    lastBuffer (xs ++ [Chunk.buf b]) = some b := by
  unfold lastBuffer
  simp

/-- The last branch of `expandInput`: neither a redeem script nor a witness program. -/
theorem expandInput_plain (env : Collab) (script : Buffer) (witness : List Chunk)
    (h1 : script ≠ [])
    (h2 : env.classifyInput (env.decompile script) true ≠ ScriptType.P2SH)
    (h3 : env.classifyWitness witness true ≠ ScriptType.P2WSH)
    (h4 : env.classifyWitness witness true ≠ ScriptType.P2WPKH) :
    ∃ e, expandInput env script witness = Except.ok e ∧
      e.pubKeys = some (extractChunks env (some (env.classifyInputScript script))
        (env.decompile script) none).1 ∧
      e.signatures = some (extractChunks env (some (env.classifyInputScript script))
        (env.decompile script) none).2 := by
  have hl : script.length ≠ 0 := fun hh => h1 (List.length_eq_zero.1 hh)
  unfold expandInput
  simp only [hl, false_and, if_false, h2, h3, h4, decide_False, Bool.false_eq_true]
  exact ⟨_, rfl, rfl, rfl⟩

/-- The redeem-script branch of `expandInput`. -/
theorem expandInput_redeem (env : Collab) (script R : Buffer) (witness : List Chunk)
    (h1 : script ≠ [])
    (h2 : env.classifyInput (env.decompile script) true = ScriptType.P2SH)
    (hl : lastBuffer (env.decompile script) = some R)
    (h3 : env.classifyWitness witness true ≠ ScriptType.P2WSH)
    (h4 : env.classifyWitness witness true ≠ ScriptType.P2WPKH)
    (h5 : supportedP2SHType (some (env.classifyOutput R)) = true) :
    ∃ e, expandInput env script witness = Except.ok e ∧
      e.pubKeys = some (extractChunks env (some (env.classifyOutput R))
        (env.decompile script).dropLast (some R)).1 ∧
      e.signatures = some (extractChunks env (some (env.classifyOutput R))
        (env.decompile script).dropLast (some R)).2 := by
  have hlen : script.length ≠ 0 := fun hh => h1 (List.length_eq_zero.1 hh)
  unfold expandInput
  simp only [hlen, false_and, if_false, h2, hl, h3, h4, decide_True, if_true, Option.map_some',
    Option.isNone_some, Bool.false_eq_true, and_false, h5]
  exact ⟨_, rfl, rfl, rfl⟩

/-- The WitnessPubKeyHash branch of `expandInput`, bare or under P2SH. -/
theorem expandInput_witnessPubKeyHash (env : Collab) (script key : Buffer)
    (witness : List Chunk)
    (hw : env.classifyWitness witness true = ScriptType.P2WPKH)
    (hk : lastBuffer witness = some key)
    (h : (script = [] ∧ env.classifyInput (env.decompile script) true ≠ ScriptType.P2SH) ∨
      (script ≠ [] ∧ env.classifyInput (env.decompile script) true = ScriptType.P2SH ∧
        lastBuffer (env.decompile script) =
          some (env.witnessPubKeyHashOutputEncode (env.hash160 key)))) :
    ∃ e script1, expandInput env script witness = Except.ok e ∧
      e.pubKeys = some (extractChunks env (some ScriptType.P2PKH) witness script1).1 ∧
      e.signatures = some (extractChunks env (some ScriptType.P2PKH) witness script1).2 := by
  have hwl : witness.length ≠ 0 := by
    intro hh
    rw [List.length_eq_zero.1 hh] at hk
    cases hk
  have hw2 : env.classifyWitness witness true ≠ ScriptType.P2WSH := by
    rw [hw]
    decide
  unfold expandInput
  rcases h with ⟨h1, h2⟩ | ⟨h1, h2, h3⟩
  · subst h1
    simp only [hwl, and_false, if_false, h2, decide_False, Bool.false_eq_true, false_and, hw2,
      hw, if_true, hk, List.length_nil, Option.isSome_none]
    exact ⟨_, _, rfl, rfl, rfl⟩
  · have hlen : script.length ≠ 0 := fun hh => h1 (List.length_eq_zero.1 hh)
    simp only [hlen, false_and, if_false, h2, h3, decide_True, if_true, Option.isNone_some,
      Bool.false_eq_true, and_false, hw2, hw, hk, ne_eq, not_true_eq_false]
    exact ⟨_, _, rfl, rfl, rfl⟩

/-- The WitnessScriptHash branch of `expandInput`, bare or under P2SH. -/
theorem expandInput_witnessScriptHash (env : Collab) (script W : Buffer)
    (witness : List Chunk)
    (hw : env.classifyWitness witness true = ScriptType.P2WSH)
    (hk : lastBuffer witness = some W)
    (hs : supportedType (some (env.classifyOutput W)) = true)
    (h : (script = [] ∧ env.classifyInput (env.decompile script) true ≠ ScriptType.P2SH) ∨
      (script ≠ [] ∧ env.classifyInput (env.decompile script) true = ScriptType.P2SH ∧
        lastBuffer (env.decompile script) =
          some (env.witnessScriptHashOutputEncode (env.sha256 W)))) :
    ∃ e, expandInput env script witness = Except.ok e ∧
      e.pubKeys = some (extractChunks env (some (env.classifyOutput W)) witness.dropLast
        (some W)).1 ∧
      e.signatures = some (extractChunks env (some (env.classifyOutput W)) witness.dropLast
        (some W)).2 := by
  have hwl : witness.length ≠ 0 := by
    intro hh
    rw [List.length_eq_zero.1 hh] at hk
    cases hk
  unfold expandInput
  rcases h with ⟨h1, h2⟩ | ⟨h1, h2, h3⟩
  · subst h1
    simp only [hwl, and_false, if_false, h2, decide_False, Bool.false_eq_true, false_and,
      hw, if_true, hk, List.length_nil, Option.isSome_none, hs, Option.map_none']
    exact ⟨_, rfl, rfl, rfl⟩
  · have hlen : script.length ≠ 0 := fun hh => h1 (List.length_eq_zero.1 hh)
    simp only [hlen, false_and, if_false, h2, h3, decide_True, if_true, Option.isNone_some,
      Bool.false_eq_true, and_false, hw, hk, ne_eq, not_true_eq_false, hs]
    exact ⟨_, rfl, rfl, rfl⟩

theorem compile_ne_nil (env : Collab) (cs : List Slot) (out : List Chunk)
    (h0 : env.decompile [] = []) (h : env.decompile (env.compile cs) = out) (hne : out ≠ []) :
    env.compile cs ≠ [] := by
  intro hh
  rw [hh, h0] at h
  exact hne h.symm

/-- One record through export and import: when the templates read the unlocking data of the
record back, `expandInput` applied to the script and the witness that strict `buildInput`
made returns a record with the same `pubKeys` and the same `signatures`, which have the same
length. -/
theorem readsBack_roundtrip (env : Collab) (input : Input) (r : BuiltInput)
    (h : ReadsBack env input) (hr : buildInput env input false = Except.ok r) :
    ∃ e p s, expandInput env r.script (r.witness.filterMap id) = Except.ok e ∧
      e.pubKeys = input.pubKeys ∧ e.signatures = input.signatures ∧
      e.pubKeys = some p ∧ e.signatures = some s ∧ p.length = s.length := by
  obtain ⟨hc0, hd0, signatures, pubKeys, stack, hsig, hpk, hshape⟩ := h
  rw [hsig, hpk]
  have fin : ∀ (e : Input) (t : ScriptType) (st : List Chunk) (sc sc1 : Option Buffer),
      TemplateStack env t signatures pubKeys sc st →
      (t = ScriptType.P2PKH ∨ sc1 = sc) →
      e.pubKeys = some (extractChunks env (some t) st sc1).1 →
      e.signatures = some (extractChunks env (some t) st sc1).2 →
      e.pubKeys = some pubKeys ∧ e.signatures = some signatures ∧
        e.pubKeys = some pubKeys ∧ e.signatures = some signatures ∧
        pubKeys.length = signatures.length := by
    intro e t st sc sc1 hts hsc h1 h2
    obtain ⟨hx, hlen⟩ := extractChunks_template env t signatures pubKeys sc sc1 st hts hsc
    rw [hx] at h1 h2
    exact ⟨h1, h2, h1, h2, hlen⟩
  have hfm : ∀ (st : List Chunk) (W : Buffer),
      (st.map some ++ [some (Chunk.buf W)]).filterMap id = st ++ [Chunk.buf W] := by
    intro st W
    rw [List.filterMap_append, filterMap_id_map_some]
    rfl
  rcases hshape with ⟨hpt, hb, hts, hcodec, hci, hw1, hw2, hcs⟩ |
    ⟨hpt, hb, hts, hci, hcw⟩ |
    ⟨hpt, t, R, back, hrt, hsup, hrs, hb, hcodec, hts, hci, hw1, hw2, hco⟩ |
    ⟨hpt, hrt, R, sig, k, hrs, hb, hs1, hp1, hst, hcodec, hci, hcw, hR⟩ |
    ⟨hpt, t, W, hwt, hsup, hws, hb, hts, hci, hcw, hco⟩ |
    ⟨hpt, hrt, t, R, W, hrs, hwt, hsup, hws, hb, hts, hcodec, hci, hcw, hR, hco⟩
  · -- bare PubKeyHash
    unfold buildInput buildInputWitness at hr
    simp only [hpt, hsig, hpk, supportedType, if_true, hb, reduceCtorEq, if_false,
      Option.some.injEq, Except.ok.injEq] at hr
    subst hr
    have hne : stack ≠ [] := by
      obtain ⟨sig, k, _, _, h3⟩ := hts
      rw [h3]
      simp
    obtain ⟨e, he, h1, h2⟩ := expandInput_plain env (env.compile (stack.map some)) []
      (compile_ne_nil env _ _ hd0 hcodec hne) (by rw [hcodec]; exact hci) hw1 hw2
    rw [hcs, hcodec] at h1 h2
    exact ⟨e, pubKeys, signatures, he, fin e _ _ none none hts (Or.inl rfl) h1 h2⟩
  · -- bare WitnessPubKeyHash
    unfold buildInput buildInputWitness at hr
    simp only [hpt, hsig, hpk, supportedType, Bool.false_eq_true, if_false, hb, reduceCtorEq,
      Option.some.injEq, Except.ok.injEq, List.map_nil] at hr
    subst hr
    obtain ⟨sig, k, h1, h2, h3⟩ := id hts
    obtain ⟨e, sc1, he, e1, e2⟩ := expandInput_witnessPubKeyHash env (env.compile []) k stack
      hcw (by rw [h3]; rfl) (Or.inl ⟨hc0, by rw [hc0, hd0]; exact hci⟩)
    refine ⟨e, pubKeys, signatures, ?_, fin e _ _ none sc1 hts (Or.inl rfl) e1 e2⟩
    simp only [filterMap_id_map_some]
    exact he
  · -- P2SH of a signable type
    have hrC : r = ⟨some t, env.compile (stack.map some ++ [some (Chunk.buf R)]), []⟩ := by
      unfold buildInput buildInputWitness at hr
      cases t <;> simp only [supportedType, reduceCtorEq] at hsup <;>
        simp only [hpt, hrt, hsig, hpk, hrs, supportedType, supportedP2SHType,
          Bool.false_eq_true, if_false, if_true, hb, and_false, Bool.true_eq_false,
          Option.map_some', Except.ok.injEq] at hr <;> exact hr.symm
    subst hrC
    simp only [List.filterMap_nil]
    obtain ⟨e, he, h1, h2⟩ := expandInput_redeem env
      (env.compile (stack.map some ++ [some (Chunk.buf R)])) R
      [] (compile_ne_nil env _ _ hd0 hcodec (by simp)) (by rw [hcodec]; exact hci)
      (by rw [hcodec]; exact lastBuffer_append back R) hw1 hw2
      (by
        rw [hco]
        cases t <;> simp only [supportedType, reduceCtorEq] at hsup <;> rfl)
    rw [hcodec, hco, List.dropLast_concat] at h1 h2
    exact ⟨e, pubKeys, signatures, he, fin e _ _ (some R) (some R) hts (Or.inr rfl) h1 h2⟩
  · -- P2SH of WitnessPubKeyHash
    unfold buildInput buildInputWitness at hr
    simp only [hpt, hrt, hsig, hpk, hrs, supportedType, supportedP2SHType, Bool.false_eq_true,
      if_false, if_true, hb, and_false, Bool.true_eq_false, List.nil_append, List.map_nil,
      Option.map_some', Except.ok.injEq] at hr
    subst hr
    obtain ⟨e, sc1, he, e1, e2⟩ := expandInput_witnessPubKeyHash env
      (env.compile [some (Chunk.buf R)]) k stack hcw (by rw [hst]; rfl)
      (Or.inr ⟨compile_ne_nil env _ _ hd0 hcodec (by simp), by rw [hcodec]; exact hci,
        by rw [hcodec, hR]; rfl⟩)
    refine ⟨e, pubKeys, signatures, ?_,
      fin e ScriptType.P2PKH stack none sc1 ⟨sig, k, hs1, hp1, hst⟩ (Or.inl rfl) e1 e2⟩
    simp only [filterMap_id_map_some]
    exact he
  · -- bare P2WSH
    have s1 : supportedType (some ScriptType.P2WSH) = false := rfl
    unfold buildInput buildInputWitness at hr
    simp only [hpt, hwt, hsig, hpk, hws, s1, Bool.false_eq_true, if_false, hsup,
      if_true, hb, reduceCtorEq, Option.some.injEq, and_false, Bool.true_eq_false,
      List.map_nil, Option.map_some', Except.ok.injEq] at hr
    subst hr
    obtain ⟨e, he, h1, h2⟩ := expandInput_witnessScriptHash env (env.compile []) W
      (stack ++ [Chunk.buf W]) hcw (lastBuffer_append stack W) (by rw [hco]; exact hsup)
      (Or.inl ⟨hc0, by rw [hc0, hd0]; exact hci⟩)
    rw [hco, List.dropLast_concat] at h1 h2
    refine ⟨e, pubKeys, signatures, ?_, fin e _ _ (some W) (some W) hts (Or.inr rfl) h1 h2⟩
    simp only [hfm]
    exact he
  · -- P2SH of P2WSH
    have s1 : supportedType (some ScriptType.P2SH) = false := rfl
    have s2 : supportedType (some ScriptType.P2WSH) = false := rfl
    have s3 : supportedP2SHType (some ScriptType.P2WSH) = true := rfl
    unfold buildInput buildInputWitness at hr
    simp only [hpt, hrt, hwt, hsig, hpk, hrs, hws, s1, s2, s3,
      Bool.false_eq_true, if_false, if_true, hsup, hb, and_false, Bool.true_eq_false,
      List.nil_append, List.map_nil, Option.map_some', Except.ok.injEq] at hr
    subst hr
    obtain ⟨e, he, h1, h2⟩ := expandInput_witnessScriptHash env
      (env.compile [some (Chunk.buf R)]) W
      (stack ++ [Chunk.buf W]) hcw (lastBuffer_append stack W) (by rw [hco]; exact hsup)
      (Or.inr ⟨compile_ne_nil env _ _ hd0 hcodec (by simp), by rw [hcodec]; exact hci,
        by rw [hcodec, hR]; rfl⟩)
    rw [hco, List.dropLast_concat] at h1 h2
    refine ⟨e, pubKeys, signatures, ?_, fin e _ _ (some W) (some W) hts (Or.inr rfl) h1 h2⟩
    simp only [hfm]
    exact he

theorem export_setVersion (s : TransactionBuilder) (version : Nat) (h : ExportInvariant s) :
    ExportInvariant (setVersion s version).1 := by
  unfold setVersion
  by_cases hv : isUInt32 version = false
  · rw [if_pos hv]
    exact h
  · rw [if_neg hv]
    exact ⟨by simpa using hv, h.2.1, h.2.2⟩

theorem export_setLockTime (s : TransactionBuilder) (locktime : Nat) (h : ExportInvariant s) :
    ExportInvariant (setLockTime s locktime).1 := by
  unfold setLockTime
  by_cases hv : isUInt32 locktime = false
  · rw [if_pos hv]
    exact h
  · rw [if_neg hv]
    split
    · exact h
    · exact ⟨h.1, by simpa using hv, h.2.2⟩

theorem export_addOutput (env : Collab) (s : TransactionBuilder)
    (scriptPubKey : ScriptPubKeyArg) (value : Nat) (h : ExportInvariant s) :
    ExportInvariant (addOutput env s scriptPubKey value).1 := by
  rcases addOutput_cases env s scriptPubKey value with hs | ⟨script, _, hs⟩ <;> rw [hs] <;>
    exact h

theorem export_addInputUnsafe (env : Collab) (s : TransactionBuilder) (txHash : Buffer)
    (vout : Nat) (options : AddInputOptions) (h : ExportInvariant s)
    (hlen : s.inputs.length = s.tx.ins.length) :
    ExportInvariant (addInputUnsafe env s txHash vout options).1 := by
  rcases addInputUnsafe_cases env s txHash vout options with ⟨hs, _⟩ |
    ⟨_, _, _, input, txIn, _, _, hs⟩
  · rw [hs]
    exact h
  · rw [hs]
    refine ⟨h.1, h.2.1, ?_⟩
    intro oi hoi
    simp only [← hlen, arraySet_length_eq, List.mem_append, List.mem_singleton] at hoi
    rcases hoi with hoi | hoi
    · exact h.2.2 oi hoi
    · rw [hoi]
      rfl

theorem export_sign (env : Collab) (s : TransactionBuilder) (vin : Nat) (K : KeyPair)
    (rs : Option Buffer) (ht wv : Option Nat) (ws : Option Buffer) (h : ExportInvariant s) :
    ExportInvariant (sign env s vin K rs ht wv ws).1 := by
  have key : ∀ X, ExportInvariant (setInput s vin X) := by
    intro X
    refine ⟨h.1, h.2.1, ?_⟩
    intro oi hoi
    unfold setInput at hoi
    rcases List.mem_or_eq_of_mem_set hoi with hm | hm
    · exact h.2.2 oi hm
    · rw [hm]
      rfl
  rcases sign_state env s vin K rs ht wv ws with hst | ⟨input, _, hst | ⟨_, hst⟩⟩
  · rw [hst]
    exact h
  · rw [hst]
    exact key _
  · rw [hst]
    exact key _

theorem addOutputs_version (env : Collab) (outs : List TxOut) (s s1 : TransactionBuilder)
    (h : addOutputs env s outs = Except.ok s1) :
    s1.tx.version = s.tx.version ∧ s1.tx.locktime = s.tx.locktime := by
  induction outs generalizing s with
  | nil =>
    unfold addOutputs at h
    cases h
    exact ⟨rfl, rfl⟩
  | cons txOut rest ih =>
    unfold addOutputs at h
    have hf : (addOutput env s (ScriptPubKeyArg.script txOut.script) txOut.value).1.tx.version
          = s.tx.version ∧
        (addOutput env s (ScriptPubKeyArg.script txOut.script) txOut.value).1.tx.locktime
          = s.tx.locktime := by
      rcases addOutput_cases env s (ScriptPubKeyArg.script txOut.script) txOut.value with
        hs | ⟨script, _, hs⟩ <;> rw [hs] <;> exact ⟨rfl, rfl⟩
    cases hres : addOutput env s (ScriptPubKeyArg.script txOut.script) txOut.value with
    | mk s2 r =>
      rw [hres] at h hf
      cases r with
      | error e => cases h
      | ok n =>
        simp only at h hf
        obtain ⟨h1, h2⟩ := ih s2 h
        exact ⟨h1.trans hf.1, h2.trans hf.2⟩

theorem addInputs_version (env : Collab) (ins : List TxIn) (s s1 : TransactionBuilder)
    (h : addInputs env s ins = Except.ok s1) :
    s1.tx.version = s.tx.version ∧ s1.tx.locktime = s.tx.locktime := by
  induction ins generalizing s with
  | nil =>
    unfold addInputs at h
    cases h
    exact ⟨rfl, rfl⟩
  | cons txIn rest ih =>
    unfold addInputs at h
    have hf : ∀ o, (addInputUnsafe env s txIn.hash txIn.index o).1.tx.version = s.tx.version ∧
        (addInputUnsafe env s txIn.hash txIn.index o).1.tx.locktime = s.tx.locktime := by
      intro o
      rcases addInputUnsafe_cases env s txIn.hash txIn.index o with ⟨hs, _⟩ |
        ⟨_, _, _, input, t, _, _, hs⟩ <;> rw [hs] <;> exact ⟨rfl, rfl⟩
    have hf2 := hf ⟨some txIn.sequence, none, none, some txIn.script, some txIn.witness, none⟩
    cases hres : addInputUnsafe env s txIn.hash txIn.index
        ⟨some txIn.sequence, none, none, some txIn.script, some txIn.witness, none⟩ with
    | mk s2 r =>
      rw [hres] at h hf2
      cases r with
      | error e => cases h
      | ok n =>
        simp only at h hf2
        obtain ⟨h1, h2⟩ := ih s2 h
        exact ⟨h1.trans hf2.1, h2.trans hf2.2⟩

theorem export_new (network : Option Network) (maximumFeeRate : Option Nat) :
    ExportInvariant (TransactionBuilder.new network maximumFeeRate) :=
  ⟨rfl, rfl, fun oi hoi => by cases hoi⟩

theorem export_fromTransaction (env : Collab) (transaction : Transaction)
    (network : Option Network) (s : TransactionBuilder)
    (h : fromTransaction env transaction network = Except.ok s) : ExportInvariant s := by
  obtain ⟨es, fs, _, _, _, hin⟩ := fromTransaction_inv env transaction network s h
  obtain ⟨txb3, txb4, inputs, h3, h4, h5, hs⟩ := fromTransaction_ok env transaction network s h
  have i0 := export_setLockTime _ transaction.locktime
    (export_setVersion _ transaction.version (export_new network none))
  obtain ⟨v3, l3⟩ := addOutputs_version env _ _ txb3 h3
  obtain ⟨v4, l4⟩ := addInputs_version env _ _ txb4 h4
  refine ⟨?_, ?_, ?_⟩
  · rw [hs]
    simp only
    rw [v4, v3]
    exact i0.1
  · rw [hs]
    simp only
    rw [l4, l3]
    exact i0.2.1
  · intro oi hoi
    rw [hin] at hoi
    obtain ⟨f, _, rfl⟩ := List.mem_map.1 hoi
    rfl

/-- Every reachable builder state has a uint32 version and locktime and no hole in
`inputs`. -/
theorem export_reachable (env : Collab) (s : TransactionBuilder) (h : Reachable env s) :
    ExportInvariant s ∧ SpendInvariant s := by
  induction h with
  | new network maximumFeeRate => exact ⟨export_new _ _, spend_new _ _⟩
  | fromTransaction transaction network s h =>
    exact ⟨export_fromTransaction env _ _ s h, spend_fromTransaction env _ _ s h⟩
  | addInput s txHash vout sequence prevOutScript _ ih =>
    refine ⟨?_, spend_addInput env s txHash vout sequence prevOutScript ih.2⟩
    rcases addInput_cases env s txHash vout sequence prevOutScript with hs | ⟨hh, o, hs⟩
    · rw [hs]
      exact ih.1
    · rw [hs]
      exact export_addInputUnsafe env s hh vout o ih.1 ih.2.2.2.1
  | addOutput s scriptPubKey value _ ih =>
    exact ⟨export_addOutput env s scriptPubKey value ih.1,
      spend_addOutput env s scriptPubKey value ih.2⟩
  | sign s vin keyPair redeemScript hashType witnessValue witnessScript _ ih =>
    exact ⟨export_sign env s vin keyPair redeemScript hashType witnessValue witnessScript ih.1,
      spend_sign env s vin keyPair redeemScript hashType witnessValue witnessScript ih.2⟩
  | setVersion s version _ ih =>
    exact ⟨export_setVersion s version ih.1, spend_setVersion s version ih.2⟩
  | setLockTime s locktime _ ih =>
    exact ⟨export_setLockTime s locktime ih.1, spend_setLockTime s locktime ih.2⟩

theorem set_map_outpoint (ins : List TxIn) (i : Nat) (txIn : TxIn) (script : Buffer)
    (witness : List Chunk) (h : ins[i]? = some txIn) :
    (ins.set i { txIn with script := script, witness := witness }).map
        (fun t => (t.hash, t.index)) = ins.map (fun t => (t.hash, t.index)) := by
  apply List.ext_getElem?
  intro j
  by_cases hj : i = j
  · subst hj
    have hlt : i < ins.length := getElem?_lt _ _ _ h
    have hg : ins[i] = txIn := by
      rw [List.getElem?_eq_getElem hlt] at h
      exact Option.some.inj h
    simp [List.getElem?_map, hlt, hg]
  · simp [List.getElem?_map, List.getElem?_set_ne hj]

/-- The loop of `__build` changes nothing but scripts and witnesses. -/
theorem buildLoop_frame (env : Collab) (a : Bool) (inputs : List (Option Input)) (start : Nat)
    (tx tx1 : Transaction) (h : buildLoop env a inputs start tx = Except.ok tx1) :
    tx1.version = tx.version ∧ tx1.locktime = tx.locktime ∧ tx1.outs = tx.outs ∧
    outpoints tx1 = outpoints tx := by
  induction inputs generalizing start tx with
  | nil =>
    unfold buildLoop at h
    cases h
    exact ⟨rfl, rfl, rfl, rfl⟩
  | cons oi rest ih =>
    cases oi with
    | none =>
      unfold buildLoop at h
      exact ih (start + 1) tx h
    | some x =>
      unfold buildLoop at h
      cases hb : buildOne env a tx start x with
      | error e => rw [hb] at h; cases h
      | ok tx2 =>
        rw [hb] at h
        obtain ⟨r, txIn, _, hi, _, heq⟩ := buildOne_inv env a tx start x tx2 hb
        obtain ⟨h1, h2, h3, h4⟩ := ih (start + 1) tx2 h
        subst heq
        refine ⟨h1, h2, h3, ?_⟩
        rw [h4]
        unfold outpoints
        exact set_map_outpoint tx.ins start txIn r.script (r.witness.filterMap id) hi

theorem buildChecked_buildInput (env : Collab) (input : Input) (r : BuiltInput)
    (h : buildChecked env false input = Except.ok r) :
    buildInput env input false = Except.ok r := by
  unfold buildChecked at h
  simp only at h
  split at h
  · cases h
  · cases hb : buildInput env input false with
    | error e => rw [hb] at h; cases h
    | ok r1 =>
      rw [hb] at h
      simp only at h
      split at h
      · cases h
      · exact h

theorem forall₂_of_forall_exists {α β : Type} (R : α → β → Prop) (l : List α)
    (h : ∀ a ∈ l, ∃ b, R a b) : ∃ l2, List.Forall₂ R l l2 := by
  induction l with
  | nil => exact ⟨[], List.Forall₂.nil⟩
  | cons a rest ih =>
    obtain ⟨b, hb⟩ := h a (List.mem_cons_self _ _)
    obtain ⟨l2, hl2⟩ := ih (fun x hx => h x (List.mem_cons_of_mem _ hx))
    exact ⟨b :: l2, List.Forall₂.cons hb hl2⟩

theorem forall₂_getElem?_right {α β : Type} (R : α → β → Prop) (l1 : List α) (l2 : List β)
    (h : List.Forall₂ R l1 l2) (i : Nat) (b : β) (hi : l2[i]? = some b) :
    ∃ a, l1[i]? = some a ∧ R a b := by
  induction h generalizing i with
  | nil => simp at hi
  | cons hab _ ih =>
    cases i with
    | zero =>
      simp only [List.getElem?_cons_zero, Option.some.injEq] at hi
      subst hi
      exact ⟨_, by simp, hab⟩
    | succ i =>
      simp only [List.getElem?_cons_succ] at hi
      obtain ⟨a, ha, hr⟩ := ih i hi
      exact ⟨a, by simpa using ha, hr⟩

/-- C12, amended. Import round trip. Let strict `build()` return `tx` on a reachable builder
state each of whose input records is a bare PubKeyHash or WitnessPubKeyHash spend, or a
PubKeyHash, PubKey, WitnessPubKeyHash or fully signed MultiSig spend wrapped in P2SH, or a
PubKeyHash, PubKey or fully signed MultiSig spend wrapped in P2WSH or P2SH-P2WSH, and let
the script codec and the classifiers of the templates read the unlocking data of each record
back (`ReadsBack`). Then `fromTransaction(tx)` returns a builder with as many input records,
and the record of each input index has the same `pubKeys` list and the same `signatures`
list as the record of the original builder. -/
theorem import_round_trip (env : Collab) (s : TransactionBuilder) (tx : Transaction)
    (hreach : Reachable env s) (hb : build env s = Except.ok tx)
    (hrb : ∀ input, some input ∈ s.inputs → ReadsBack env input) :
    ∃ s1, fromTransaction env tx (some s.network) = Except.ok s1 ∧
      s1.inputs.length = s.inputs.length ∧
      ∀ (i : Nat) (input : Input), s.inputs[i]? = some (some input) →
        ∃ input1, s1.inputs[i]? = some (some input1) ∧
          input1.pubKeys = input.pubKeys ∧ input1.signatures = input.signatures := by
  obtain ⟨⟨hv, hl, hholes⟩, ⟨hnd, _, hlen, hcb⟩⟩ := export_reachable env s hreach
  obtain ⟨_, _, hloop, _⟩ := build_ok env s tx hb
  have hall := buildLoop_checked env false s.inputs 0 s.tx tx hloop
  obtain ⟨tx1, h1, hlen1, _, h4⟩ := buildLoop_ok env false s.inputs 0 s.tx hall (by omega)
  rw [hloop] at h1
  cases h1
  obtain ⟨fv, fl, _, fo⟩ := buildLoop_frame env false s.inputs 0 s.tx tx hloop
  have hidx : ∀ (i : Nat) (txIn1 : TxIn), tx.ins[i]? = some txIn1 →
      ∃ input e p sg, s.inputs[i]? = some (some input) ∧
        expandInput env txIn1.script txIn1.witness = Except.ok e ∧
        e.pubKeys = input.pubKeys ∧ e.signatures = input.signatures ∧
        e.pubKeys = some p ∧ e.signatures = some sg ∧ p.length = sg.length := by
    intro i txIn1 hi
    have hi1 : i < tx.ins.length := getElem?_lt _ _ _ hi
    have hi2 : i < s.inputs.length := by omega
    have hi3 : i < s.tx.ins.length := by omega
    have hsome := hholes s.inputs[i] (List.getElem_mem hi2)
    rcases hrec : s.inputs[i] with _ | input
    · rw [hrec] at hsome
      cases hsome
    · have hget : s.inputs[i]? = some (some input) := by
        rw [List.getElem?_eq_getElem hi2, hrec]
      obtain ⟨r, hr, _⟩ := hall input (List.getElem?_mem hget)
      have hti := h4 i input r s.tx.ins[i] hget hr (by simp [hi3])
      rw [Nat.zero_add, hi] at hti
      simp only [Option.some.injEq] at hti
      obtain ⟨e, p, sg, he, e1, e2, e3, e4, e5⟩ := readsBack_roundtrip env input r
        (hrb input (List.getElem?_mem hget)) (buildChecked_buildInput env input r hr)
      refine ⟨input, e, p, sg, hget, ?_, e1, e2, e3, e4, e5⟩
      rw [hti]
      exact he
  obtain ⟨es, hes⟩ := forall₂_of_forall_exists
    (fun (txIn : TxIn) (e : Input) => expandInput env txIn.script txIn.witness = Except.ok e)
    tx.ins (by
      intro txIn1 hmem
      obtain ⟨i, hi⟩ := List.getElem?_of_mem hmem
      obtain ⟨_, e, _, _, _, he, _⟩ := hidx i txIn1 hi
      exact ⟨e, he⟩)
  obtain ⟨s1, hs1, hin1⟩ := fromTransaction_total env tx (some s.network) es es
    (by rw [fv]; exact hv) (by rw [fl]; exact hl)
    (by
      intro txIn1 hmem
      have : (txIn1.hash, txIn1.index) ∈ outpoints tx := List.mem_map.2 ⟨txIn1, hmem, rfl⟩
      rw [fo] at this
      obtain ⟨t, ht, heq⟩ := List.mem_map.1 this
      simp only [Prod.mk.injEq] at heq
      rw [← heq.1]
      exact hcb t ht)
    (by rw [fo]; exact hnd) hes rfl
    (by
      intro k e hk
      obtain ⟨txIn1, hk1, hr1⟩ := forall₂_getElem?_right _ _ _ hes k e hk
      obtain ⟨_, e2, p, sg, _, he2, _, _, hp, hsg, hps⟩ := hidx k txIn1 hk1
      rw [hr1] at he2
      cases he2
      exact ⟨e, hk, fixMultisigOrder_same env e tx k p sg hp hsg hps⟩)
  refine ⟨s1, hs1, ?_, ?_⟩
  · rw [hin1, List.length_map, ← hes.length_eq]
    omega
  · intro i input hi
    have hi2 : i < s.inputs.length := getElem?_lt _ _ _ hi
    have hi1 : i < tx.ins.length := by omega
    obtain ⟨e, he, hr⟩ := forall₂_getElem? _ _ _ hes i tx.ins[i] (by simp [hi1])
    obtain ⟨input2, e2, _, _, hget, he2, e1, e3, _⟩ := hidx i tx.ins[i] (by simp [hi1])
    rw [hi] at hget
    simp only [Option.some.injEq] at hget
    subst hget
    rw [hr] at he2
    cases he2
    refine ⟨e, ?_, e1, e3⟩
    rw [hin1]
    simp [he]

/-- C12, counterexample. The input of `demoPubKeySigned` is a bare PubKey spend, signed:
its record holds the key in `pubKeys` and the signature in `signatures`, and strict
`build()` returns. After `fromTransaction(build())` the record of the input holds the same
signature, but its `pubKeys` list is `[undefined]`: the unlocking script of a bare PubKey
spend does not contain the key, and `extractChunks` has no script to decode it from. The
same happens to a bare MultiSig spend with every slot filled (`demoBareMultisigSigned`):
after the import its `pubKeys` list is empty. -/
theorem import_loses_bare_pubKey :
    ((demoPubKeySigned.inputs[0]?).join.map
      (fun r => (r.prevOutType, r.pubKeys, r.signatures))) =
      some (some ScriptType.P2PK, some [some (Chunk.buf (demoPubKey 5))],
        some [some (Chunk.buf (demoSignature demoPubKeyScript 5))]) ∧
    returned (build demo demoPubKeySigned) = true ∧
    (reimportedRecord demo demoPubKeySigned 0).map (fun r => (r.pubKeys, r.signatures)) =
      some (some [none], some [some (Chunk.buf (demoSignature demoPubKeyScript 5))]) ∧
    ((demoBareMultisigSigned.inputs[0]?).join.map
      (fun r => (r.prevOutType, r.pubKeys, r.signatures))) =
      some (some ScriptType.MULTISIG,
        some [some (Chunk.buf (demoPubKey 1)), some (Chunk.buf (demoPubKey 2))],
        some [some (Chunk.buf (demoSignature demoWitnessScript 1)),
          some (Chunk.buf (demoSignature demoWitnessScript 2))]) ∧
    returned (build demo demoBareMultisigSigned) = true ∧
    (reimportedRecord demo demoBareMultisigSigned 0).map (fun r => (r.pubKeys, r.signatures)) =
      some (some [], some [some (Chunk.buf (demoSignature demoWitnessScript 1)),
        some (Chunk.buf (demoSignature demoWitnessScript 2))]) :=
  ⟨by set_option maxRecDepth 8192 in decide, by set_option maxRecDepth 8192 in decide,
    by set_option maxRecDepth 8192 in decide, by set_option maxRecDepth 8192 in decide,
    by set_option maxRecDepth 8192 in decide, by set_option maxRecDepth 8192 in decide⟩

set_option maxRecDepth 8192 in
theorem import_round_trip_witness :
    (build demo demoSignedInOut = Except.ok demoSignedTx ∧
      ∃ s1 input1, fromTransaction demo demoSignedTx (some demoSignedInOut.network) =
          Except.ok s1 ∧
        s1.inputs[0]? = some (some input1) ∧
        input1.pubKeys = demoSignedRecord.pubKeys ∧
        input1.signatures = demoSignedRecord.signatures) ∧
    (demoBothSignedRecord.prevOutType, demoBothSignedRecord.redeemScriptType) =
      (some ScriptType.P2SH, some ScriptType.MULTISIG) ∧
    buildStack demoEmptyPush (some ScriptType.MULTISIG) demoBothSignedRecord.signatures
        demoBothSignedRecord.pubKeys false =
      Except.ok [Chunk.buf [], Chunk.buf (demoSignature demoWitnessScript 1),
        Chunk.buf (demoSignature demoWitnessScript 2)] ∧
    build demoEmptyPush demoBothSigned = Except.ok demoBothSignedTx ∧
    ∃ s1 input1, fromTransaction demoEmptyPush demoBothSignedTx
        (some demoBothSigned.network) = Except.ok s1 ∧
      s1.inputs[0]? = some (some input1) ∧
      input1.pubKeys = demoBothSignedRecord.pubKeys ∧
      input1.signatures = demoBothSignedRecord.signatures := by
  have hb : build demo demoSignedInOut = Except.ok demoSignedTx := by decide
  have hin : demoSignedInOut.inputs = [some demoSignedRecord] := by decide
  obtain ⟨s1, h1, _, h3⟩ := import_round_trip demo demoSignedInOut demoSignedTx
    (Reachable.sign _ _ _ _ _ _ _
      (Reachable.addOutput _ _ _ (Reachable.addInput _ _ _ _ _ (Reachable.new none none))))
    hb (by
      intro input hmem
      rw [hin] at hmem
      simp only [List.mem_singleton, Option.some.injEq] at hmem
      subst hmem
      refine ⟨rfl, rfl,
        [some (Chunk.buf (demoSignature
          (demo.pubKeyHashOutputEncode (demo.hash160 (demoPubKey 5))) 5))],
        [some (Chunk.buf (demoPubKey 5))],
        [Chunk.buf (demoSignature
          (demo.pubKeyHashOutputEncode (demo.hash160 (demoPubKey 5))) 5),
          Chunk.buf (demoPubKey 5)],
        by decide, by decide, Or.inl ⟨by decide, by decide, ⟨_, _, rfl, rfl, rfl⟩,
          by decide, by decide, by decide, by decide, by decide⟩⟩)
  obtain ⟨input1, e1, e2, e3⟩ := h3 0 demoSignedRecord (by rw [hin]; rfl)
  have hb2 : build demoEmptyPush demoBothSigned = Except.ok demoBothSignedTx := by decide
  have hin2 : demoBothSigned.inputs = [some demoBothSignedRecord] := by decide
  obtain ⟨s2, g1, _, g3⟩ := import_round_trip demoEmptyPush demoBothSigned demoBothSignedTx
    (Reachable.sign _ _ _ _ _ _ _ (Reachable.sign _ _ _ _ _ _ _
      (Reachable.addOutput _ _ _ (Reachable.addInput _ _ _ _ _ (Reachable.new none none)))))
    hb2 (by
      intro input hmem
      rw [hin2] at hmem
      simp only [List.mem_singleton, Option.some.injEq] at hmem
      subst hmem
      refine ⟨rfl, rfl,
        [some (Chunk.buf (demoSignature demoWitnessScript 1)),
          some (Chunk.buf (demoSignature demoWitnessScript 2))],
        [some (Chunk.buf (demoPubKey 1)), some (Chunk.buf (demoPubKey 2))],
        [Chunk.buf [], Chunk.buf (demoSignature demoWitnessScript 1),
          Chunk.buf (demoSignature demoWitnessScript 2)],
        by decide, by decide, Or.inr (Or.inr (Or.inl ⟨by decide, ScriptType.MULTISIG,
          demoWitnessScript,
          [Chunk.op 0, Chunk.buf (demoSignature demoWitnessScript 1),
            Chunk.buf (demoSignature demoWitnessScript 2)],
          by decide, rfl, by decide, by decide, by decide,
          ⟨Chunk.op 0, [Chunk.buf (demoSignature demoWitnessScript 1),
            Chunk.buf (demoSignature demoWitnessScript 2)], demoWitnessScript,
            rfl, by decide, rfl, rfl, by decide, rfl⟩,
          by decide, by decide, by decide, by decide⟩))⟩)
  obtain ⟨input2, f1, f2, f3⟩ := g3 0 demoBothSignedRecord (by rw [hin2]; rfl)
  exact ⟨⟨hb, s1, input1, h1, e1, e2, e3⟩, by decide, by decide, hb2, s2, input2, g1, f1, f2,
    f3⟩


/-! ## Monotonicity of the output guard -/

theorem guard_addOutput (env : Collab) (s : TransactionBuilder) (spk : ScriptPubKeyArg)
    (v : Nat) (hg : canModifyOutputs s = Except.ok true) :
    canModifyOutputs (addOutput env s spk v).1 = Except.ok true := by
  rcases addOutput_cases env s spk v with h | ⟨script, _, h⟩
  · rw [h]
    exact hg
  · rw [h]
    rw [canModifyOutputs_ok_iff] at hg ⊢
    intro c hc
    obtain ⟨x, hx, hcase⟩ := hg c hc
    refine ⟨x, hx, ?_⟩
    rcases hcase with h1 | ⟨h1, h2⟩
    · exact Or.inl h1
    · refine Or.inr ⟨h1, ?_⟩
      simp only [List.length_append, List.length_singleton]
      omega

theorem guard_afterOutputs (env : Collab) (calls : List (ScriptPubKeyArg × Nat)) :
    ∀ s : TransactionBuilder, canModifyOutputs s = Except.ok true →
      canModifyOutputs (afterOutputs env s calls) = Except.ok true := by
  induction calls with
  | nil => intro s hg; exact hg
  | cons c rest ih =>
    intro s hg
    exact ih _ (guard_addOutput env s c.1 c.2 hg)

/-- C30. Monotonicity of the output guard. Let `__canModifyOutputs()` be true on a builder
state. Then it is true after every `addOutput` call on that state, and after every run of
`addOutput` calls; on the state after such a run `addOutput` with a script returns, and
`addOutput` with an address fails only when the address has no output script. -/
theorem canModifyOutputs_monotone (env : Collab) (s : TransactionBuilder)
    (hg : canModifyOutputs s = Except.ok true) :
    (∀ spk v, canModifyOutputs (addOutput env s spk v).1 = Except.ok true) ∧
    (∀ calls, canModifyOutputs (afterOutputs env s calls) = Except.ok true) ∧
    (∀ calls script v, ∃ i,
      (addOutput env (afterOutputs env s calls) (ScriptPubKeyArg.script script) v).2 =
        Except.ok i) ∧
    (∀ calls a v,
      (∃ i, (addOutput env (afterOutputs env s calls) (ScriptPubKeyArg.address a) v).2 =
        Except.ok i) ∨
      ∃ e, env.toOutputScript a (afterOutputs env s calls).network = Except.error e ∧
        (addOutput env (afterOutputs env s calls) (ScriptPubKeyArg.address a) v).2 =
          Except.error e) := by
  refine ⟨fun spk v => guard_addOutput env s spk v hg,
    fun calls => guard_afterOutputs env calls s hg, ?_, ?_⟩
  · intro calls script v
    have h := guard_afterOutputs env calls s hg
    unfold addOutput
    simp only [h]
    exact ⟨_, rfl⟩
  · intro calls a v
    have h := guard_afterOutputs env calls s hg
    unfold addOutput
    simp only [h]
    cases ho : env.toOutputScript a (afterOutputs env s calls).network with
    | error e => exact Or.inr ⟨e, rfl, rfl⟩
    | ok b => exact Or.inl ⟨_, rfl⟩

theorem canModifyOutputs_monotone_witness :
    canModifyOutputs demoSignedSingle = Except.ok true ∧
    canModifyOutputs (afterOutputs demo demoSignedSingle
      [(ScriptPubKeyArg.script [0x51], 7), (ScriptPubKeyArg.address [], 8),
        (ScriptPubKeyArg.script [0x52], 9)]) = Except.ok true ∧
    (afterOutputs demo demoSignedSingle
      [(ScriptPubKeyArg.script [0x51], 7), (ScriptPubKeyArg.address [], 8),
        (ScriptPubKeyArg.script [0x52], 9)]).tx.outs.length = 3 :=
  ⟨by decide,
    (canModifyOutputs_monotone demo demoSignedSingle (by decide)).2.1 _, by decide⟩

/-! ## Reconciliation of redeem script and witness script in `expandInput` -/

/-- C22. Reconciliation in `expandInput`. Let the witness stack classify as WitnessScriptHash
and let the unlocking script be non-empty. If `expandInput` returns a record, the unlocking
script classifies as ScriptHash, its last chunk is a redeem script `r`, the last witness
element is a script `w`, `r` is the WitnessScriptHash encoding of `sha256(w)`, and the record
holds `r` as `redeemScript` and `w` as `witnessScript`. Otherwise `expandInput` throws; it
throws "Redeem script didn't match witnessScript" when both scripts are there and `r` is not
that encoding; and it does return when the equation holds and the witness script is of a
supported type. -/
theorem expandInput_reconciles (env : Collab) (scriptSig : Buffer) (witnessStack : List Chunk)
    (hw : env.classifyWitness witnessStack true = ScriptType.P2WSH)
    (hne : scriptSig.length ≠ 0) :
    (∀ input, expandInput env scriptSig witnessStack = Except.ok input →
      ∃ r w, env.classifyInput (env.decompile scriptSig) true = ScriptType.P2SH ∧
        lastBuffer (env.decompile scriptSig) = some r ∧
        lastBuffer witnessStack = some w ∧
        r = env.witnessScriptHashOutputEncode (env.sha256 w) ∧
        input.redeemScript = some r ∧ input.witnessScript = some w) ∧
    ((¬ ∃ w, env.classifyInput (env.decompile scriptSig) true = ScriptType.P2SH ∧
        lastBuffer witnessStack = some w ∧
        lastBuffer (env.decompile scriptSig) =
          some (env.witnessScriptHashOutputEncode (env.sha256 w))) →
      ∃ e, expandInput env scriptSig witnessStack = Except.error e) ∧
    (∀ r w, env.classifyInput (env.decompile scriptSig) true = ScriptType.P2SH →
      lastBuffer (env.decompile scriptSig) = some r → lastBuffer witnessStack = some w →
      r ≠ env.witnessScriptHashOutputEncode (env.sha256 w) →
      expandInput env scriptSig witnessStack = Except.error Err.redeemMismatchWitnessScript) ∧
    (∀ w, env.classifyInput (env.decompile scriptSig) true = ScriptType.P2SH →
      lastBuffer witnessStack = some w →
      lastBuffer (env.decompile scriptSig) =
        some (env.witnessScriptHashOutputEncode (env.sha256 w)) →
      supportedType (some (env.classifyOutput w)) = true →
      ∃ input, expandInput env scriptSig witnessStack = Except.ok input) := by
  have hne2 : ¬ (scriptSig.length = 0 ∧ witnessStack.length = 0) := fun h => hne h.1
  have key : ∀ input, expandInput env scriptSig witnessStack = Except.ok input →
      ∃ r w, env.classifyInput (env.decompile scriptSig) true = ScriptType.P2SH ∧
        lastBuffer (env.decompile scriptSig) = some r ∧
        lastBuffer witnessStack = some w ∧
        r = env.witnessScriptHashOutputEncode (env.sha256 w) ∧
        input.redeemScript = some r ∧ input.witnessScript = some w := by
    intro input h
    unfold expandInput at h
    rw [if_neg hne2] at h
    simp only [hw, if_true, if_neg hne] at h
    split at h
    · cases h
    · cases hlw : lastBuffer witnessStack with
      | none => simp only [hlw] at h; cases h
      | some w =>
        simp only [hlw] at h
        by_cases hp : env.classifyInput (env.decompile scriptSig) true = ScriptType.P2SH
        · simp only [hp, decide_True, if_true] at h
          cases hlr : lastBuffer (env.decompile scriptSig) with
          | none => simp only [hlr] at h; cases h
          | some r =>
            simp only [hlr] at h
            split at h
            · cases h
            · rename_i heq
              split at h
              · cases h
              · cases h
                exact ⟨r, w, hp, rfl, rfl, by simpa using heq, rfl, rfl⟩
        · simp only [hp, decide_False, Bool.false_eq_true, if_false] at h
          cases h
  refine ⟨key, ?_, ?_, ?_⟩
  · intro hno
    cases hres : expandInput env scriptSig witnessStack with
    | error e => exact ⟨e, rfl⟩
    | ok input =>
      obtain ⟨r, w, h1, h2, h3, h4, _, _⟩ := key input hres
      exact absurd ⟨w, h1, h3, by rw [h2, h4]⟩ hno
  · intro r w hp hlr hlw hneq
    unfold expandInput
    rw [if_neg hne2]
    simp only [hw, if_true, if_neg hne, hp, hlr, hlw, decide_True]
    rw [if_neg (by simp), if_pos hneq]
  · intro w hp hlw hlr hsup
    unfold expandInput
    rw [if_neg hne2]
    have hnot : ¬ (ScriptType.P2SH = ScriptType.P2SH ∧
        (some (env.witnessScriptHashOutputEncode (env.sha256 w)) : Option Buffer).isNone =
          true) := fun h => by cases h.2
    simp only [hw, if_true, if_neg hne, hp, hlr, hlw, decide_True, if_neg hnot, ne_eq,
      not_true_eq_false, if_false, hsup, Bool.true_eq_false]
    exact ⟨_, rfl⟩

set_option maxRecDepth 8192 in
theorem expandInput_reconciles_witness :
    ∃ input, expandInput demo (demoCompile [Chunk.buf demoWitnessProgram]) demoWitnessStack =
        Except.ok input ∧
      input.redeemScript = some demoWitnessProgram ∧
      input.witnessScript = some demoWitnessScript ∧
      demoWitnessProgram = demo.witnessScriptHashOutputEncode (demo.sha256 demoWitnessScript) ∧
      expandInput demo
          (demoCompile [Chunk.buf (demo.witnessScriptHashOutputEncode
            (demo.sha256 demoPubKeyScript))]) demoWitnessStack =
        Except.error Err.redeemMismatchWitnessScript := by
  have h := expandInput_reconciles demo (demoCompile [Chunk.buf demoWitnessProgram])
    demoWitnessStack (by decide) (by decide)
  obtain ⟨input, hin⟩ := h.2.2.2 demoWitnessScript (by decide) (by decide) (by decide)
    (by decide)
  obtain ⟨r, w, _, h2, h3, h4, h5, h6⟩ := h.1 input hin
  have hw : w = demoWitnessScript := by
    have : lastBuffer demoWitnessStack = some demoWitnessScript := by decide
    rw [this] at h3
    cases h3
    rfl
  subst hw
  refine ⟨input, hin, ?_, h6, rfl, by decide⟩
  rw [h5, h4]
  rfl

/-! ## The WitnessPubKeyHash normalisation of `prepareInput` -/

theorem prepareInputAssign_fields (env : Collab) (input : Input)
    (expanded : ExpandedOutput) (pot : ScriptType) (pos : Buffer)
    (p2sh p2wsh : Option (Buffer × ScriptType)) (w : Bool) (st : ScriptType) (ss : Buffer) :
    (prepareInputAssign env input expanded pot pos p2sh p2wsh w st ss).signType = some st ∧
    (prepareInputAssign env input expanded pot pos p2sh p2wsh w st ss).witness = some w ∧
    (prepareInputAssign env input expanded pot pos p2sh p2wsh w st ss).signScript =
      some (if st = ScriptType.P2WPKH then
        env.pubKeyHashOutputEncode (env.witnessPubKeyHashOutputDecode ss) else ss) ∧
    (prepareInputAssign env input expanded pot pos p2sh p2wsh w st ss).prevOutType = some pot ∧
    (prepareInputAssign env input expanded pot pos p2sh p2wsh w st ss).prevOutScript =
      some pos ∧
    (prepareInputAssign env input expanded pot pos p2sh p2wsh w st ss).value = input.value ∧
    (∀ r t, p2sh = some (r, t) →
      (prepareInputAssign env input expanded pot pos p2sh p2wsh w st ss).redeemScript =
        some r ∧
      (prepareInputAssign env input expanded pot pos p2sh p2wsh w st ss).redeemScriptType =
        some t) := by
  unfold prepareInputAssign
  refine ⟨rfl, rfl, rfl, rfl, rfl, ?_, ?_⟩
  · cases p2sh <;> cases p2wsh <;> rfl
  · intro r t hp
    subst hp
    cases p2wsh <;> exact ⟨rfl, rfl⟩

/-- What a returning `prepareInput` did: it left the record untouched because the recorded
previous-output type is one `expandOutput` knows no keys for, or it assigned the resolved
fields, with the sign script `ss` taken from the witness script, else the redeem script, else
the recorded previous-output script, and with `witness` true whenever the sign type is
WitnessPubKeyHash. -/
theorem prepareInput_resolved (env : Collab) (input : Input) (k : Buffer)
    (rs : Option Buffer) (wv : Option Nat) (ws : Option Buffer) (input1 : Input)
    (h : prepareInput env input k rs wv ws = Except.ok input1) :
    (input1 = input ∧ rs = none ∧ ws = none ∧ input.prevOutType = some ScriptType.NONSTANDARD) ∨
    ∃ expanded pot pos p2sh p2wsh w st ss,
      input1 = prepareInputAssign env input expanded pot pos p2sh p2wsh w st ss ∧
      (st = ScriptType.P2WPKH → w = true) ∧
      (ws = some ss ∨ (ws = none ∧ rs = some ss) ∨
        (ws = none ∧ rs = none ∧ input.prevOutType = some st ∧ pot = st ∧ pos = ss ∧
          input.prevOutScript = some ss) ∨
        (ws = none ∧ rs = none ∧ input.prevOutType = none ∧ st = ScriptType.P2PKH)) ∧
      (∀ r, ws = none → rs = some r →
        pot = ScriptType.P2SH ∧ p2sh = some (r, st) ∧ st = env.classifyOutput r) := by
  unfold prepareInput at h
  cases rs with
  | some r =>
    cases ws with
    | some w =>
      simp only at h
      split at h
      · cases h
      · split at h
        · cases h
        · split at h
          · cases h
          · split at h
            · cases h
            · cases h
              exact Or.inr ⟨_, _, _, _, _, _, _, _, rfl, fun _ => rfl, Or.inl rfl,
                fun _ hc => by cases hc⟩
    | none =>
      simp only at h
      split at h
      · cases h
      · split at h
        · cases h
        · rename_i expanded hex
          split at h
          · cases h
          · cases h
            have hst : expanded.scriptType = env.classifyOutput r := by
              unfold expandOutput at hex
              simp only at hex
              exact (expandOutputSwitch_shape env _ _ _ _ hex).1
            refine Or.inr ⟨_, _, _, _, _, _, _, _, rfl, (fun hp => by simp [hp]),
              Or.inr (Or.inl ⟨rfl, rfl⟩), ?_⟩
            intro r1 _ hr
            cases hr
            exact ⟨rfl, rfl, hst⟩
  | none =>
    cases ws with
    | some w =>
      simp only at h
      split at h
      · cases h
      · split at h
        · cases h
        · split at h
          · cases h
          · cases h
            exact Or.inr ⟨_, _, _, _, _, _, _, _, rfl, fun _ => rfl, Or.inl rfl,
              fun _ _ hc => by cases hc⟩
    | none =>
      simp only at h
      cases ht : input.prevOutType with
      | some t =>
        simp only [ht] at h
        split at h
        · cases h
        · rename_i hnot
          split at h
          · cases h
          · rename_i expanded hex
            have hsh := expandOutput_shape env _ _ _ _ hex
            have hst : expanded.scriptType = t := hsh.2.2.2 t rfl
            split at h
            · rename_i hnone
              cases h
              have hn : expanded.pubKeys = none := by
                cases hpk : expanded.pubKeys with
                | none => rfl
                | some x => rw [hpk] at hnone; cases hnone
              obtain ⟨h1, h2⟩ := hsh.2.1 hn
              rw [hst] at h1 h2
              refine Or.inl ⟨rfl, rfl, rfl, ?_⟩
              cases t
              case P2PKH => cases h1
              case P2PK => cases h1
              case MULTISIG => cases h1
              case P2SH => exact absurd (Or.inl rfl) hnot
              case P2WPKH => exact absurd rfl h2
              case P2WSH => exact absurd (Or.inr rfl) hnot
              case NONSTANDARD => rfl
            · split at h
              · cases h
              · rename_i p hp
                cases h
                exact Or.inr ⟨_, _, _, _, _, _, _, _, rfl, (fun hp2 => by simp [hp2]),
                  Or.inr (Or.inr (Or.inl ⟨rfl, rfl, rfl, rfl, rfl, hp⟩)),
                  fun _ _ hc => by cases hc⟩
      | none =>
        simp only [ht] at h
        split at h
        · cases h
        · cases h
          exact Or.inr ⟨_, _, _, _, _, _, _, _, rfl, (fun hp => by cases hp),
            Or.inr (Or.inr (Or.inr ⟨rfl, rfl, rfl, rfl⟩)), fun _ _ hc => by cases hc⟩

/-- C21. WitnessPubKeyHash normalisation. Let `prepareInput` return. For a bare P2WPKH
previous output (no redeem or witness script given, recorded `prevOutType`
WitnessPubKeyHash) and for a P2WPKH redeem script under P2SH, the record has `signType`
WitnessPubKeyHash, `witness` true, and its `signScript` is the PubKeyHash locking script
encoded from what the WitnessPubKeyHash template decodes from the witness program, which is
the recorded `prevOutScript` in the first case and the redeem script in the second. In
general, whenever `prepareInput` assigned the record and the sign type is WitnessPubKeyHash,
`witness` is true and `signScript` is that PubKeyHash script of the script that was resolved:
the witness script, else the redeem script, else the recorded `prevOutScript`. -/
theorem prepareInput_witnessPubKeyHash (env : Collab) (input : Input) (k : Buffer)
    (rs : Option Buffer) (wv : Option Nat) (ws : Option Buffer) (input1 : Input)
    (h : prepareInput env input k rs wv ws = Except.ok input1) :
    (∀ p, rs = none → ws = none → input.prevOutType = some ScriptType.P2WPKH →
      input.prevOutScript = some p →
      input1.signType = some ScriptType.P2WPKH ∧ input1.witness = some true ∧
      input1.signScript =
        some (env.pubKeyHashOutputEncode (env.witnessPubKeyHashOutputDecode p)) ∧
      input1.prevOutType = some ScriptType.P2WPKH ∧ input1.prevOutScript = some p) ∧
    (∀ r, rs = some r → ws = none → env.classifyOutput r = ScriptType.P2WPKH →
      input1.signType = some ScriptType.P2WPKH ∧ input1.witness = some true ∧
      input1.signScript =
        some (env.pubKeyHashOutputEncode (env.witnessPubKeyHashOutputDecode r)) ∧
      input1.prevOutType = some ScriptType.P2SH ∧ input1.redeemScript = some r ∧
      input1.redeemScriptType = some ScriptType.P2WPKH) ∧
    (input1.signType = some ScriptType.P2WPKH →
      ¬ (rs = none ∧ ws = none ∧ input.prevOutType = some ScriptType.NONSTANDARD) →
      input1.witness = some true ∧
      ∃ script,
        input1.signScript =
          some (env.pubKeyHashOutputEncode (env.witnessPubKeyHashOutputDecode script)) ∧
        (ws = some script ∨ (ws = none ∧ rs = some script) ∨
          (ws = none ∧ rs = none ∧ input.prevOutScript = some script))) := by
  rcases prepareInput_resolved env input k rs wv ws input1 h with ⟨_, h1, h2, h3⟩ |
    ⟨ex, pot, pos, p2sh, p2wsh, w, st, ss, heq, hw, hsrc, hrs⟩
  · refine ⟨?_, ?_, ?_⟩
    · intro p _ _ ht _
      rw [h3] at ht
      cases ht
    · intro r hr
      rw [h1] at hr
      cases hr
    · intro _ hn
      exact absurd ⟨h1, h2, h3⟩ hn
  · obtain ⟨f1, f2, f3, f4, f5, _, f7⟩ :=
      prepareInputAssign_fields env input ex pot pos p2sh p2wsh w st ss
    rw [← heq] at f1 f2 f3 f4 f5 f7
    refine ⟨?_, ?_, ?_⟩
    · intro p hr hws ht hp
      subst hr
      subst hws
      rcases hsrc with hc | ⟨_, hc⟩ | ⟨_, _, h1, h2, h3, h4⟩ | ⟨_, _, h1, _⟩
      · cases hc
      · cases hc
      · rw [ht] at h1
        cases h1
        rw [hp] at h4
        cases h4
        subst h2
        subst h3
        refine ⟨f1, ?_, ?_, f4, f5⟩
        · rw [f2, hw rfl]
        · rw [f3, if_pos rfl]
      · rw [ht] at h1
        cases h1
    · intro r hr hws hc
      subst hr
      subst hws
      obtain ⟨h1, h2, h3⟩ := hrs r rfl rfl
      rw [hc] at h3
      subst h3
      subst h1
      rcases hsrc with hc1 | ⟨_, hc1⟩ | ⟨_, hc1, _⟩ | ⟨_, hc1, _⟩
      · cases hc1
      · cases hc1
        obtain ⟨g1, g2⟩ := f7 _ _ h2
        refine ⟨f1, ?_, ?_, f4, g1, g2⟩
        · rw [f2, hw rfl]
        · rw [f3, if_pos rfl]
      · cases hc1
      · cases hc1
    · intro hst _
      rw [f1] at hst
      cases hst
      refine ⟨by rw [f2, hw rfl], ss, by rw [f3, if_pos rfl], ?_⟩
      rcases hsrc with hc | hc | ⟨h1, h2, _, _, _, h6⟩ | ⟨_, _, _, h4⟩
      · exact Or.inl hc
      · exact Or.inr (Or.inl hc)
      · exact Or.inr (Or.inr ⟨h1, h2, h6⟩)
      · cases h4

set_option maxRecDepth 8192 in
theorem prepareInput_witnessPubKeyHash_witness :
    ∃ input1, prepareInput demo demoWitnessKeyRecord (demoPubKey 5) none none none =
        Except.ok input1 ∧
      demoWitnessKeyRecord.prevOutScript = some demoKeyProgram ∧
      input1.signType = some ScriptType.P2WPKH ∧ input1.witness = some true ∧
      input1.signScript =
        some (demo.pubKeyHashOutputEncode (demo.hash160 (demoPubKey 5))) ∧
      demo.pubKeyHashOutputEncode (demo.hash160 (demoPubKey 5)) ≠ demoKeyProgram := by
  cases hp : prepareInput demo demoWitnessKeyRecord (demoPubKey 5) none none none with
  | error e =>
    have : returned (prepareInput demo demoWitnessKeyRecord (demoPubKey 5) none none none) =
        true := by decide
    rw [hp] at this
    cases this
  | ok input1 =>
    obtain ⟨h1, h2, h3, _, _⟩ :=
      (prepareInput_witnessPubKeyHash demo demoWitnessKeyRecord (demoPubKey 5) none none none
        input1 hp).1 demoKeyProgram rfl rfl (by decide) (by decide)
    refine ⟨input1, rfl, by decide, h1, h2, ?_, by decide⟩
    rw [h3]
    decide

/-! ## The builder after a failing `sign` -/

theorem signReady_error (env : Collab) (tx : Transaction) (vin : Nat) (input1 : Input)
    (K : KeyPair) (k : Buffer) (hashType : Nat) (e : Err)
    (h : (signReady env tx vin input1 K k hashType).2 = Except.error e) :
    (signReady env tx vin input1 K k hashType).1 = input1 := by
  unfold signReady at h ⊢
  cases hss : input1.signScript with
  | none => rfl
  | some ss =>
    cases hpk : input1.pubKeys with
    | none => rfl
    | some pks =>
      cases hsg : input1.signatures with
      | none => rfl
      | some sigs =>
        simp only [hss, hpk, hsg] at h ⊢
        generalize signLoop env K k input1.signType _ hashType sigs pks 0 = res at h ⊢
        cases res with
        | error e1 => rfl
        | ok o =>
          cases o with
          | none => rfl
          | some sigs1 => cases h

/-- The record that the preparation block of `sign` leaves, whatever its outcome: the record
it was given, or, for a record that was not signable, the record with the witness value
stored or the record that `prepareInput` made of that one. -/
theorem signPrepare_cases (env : Collab) (input : Input) (k : Buffer)
    (rs : Option Buffer) (wv : Option Nat) (ws : Option Buffer) :
    (signPrepare env input k rs wv ws).1 = input ∨
    (canSign input = false ∧
      ((signPrepare env input k rs wv ws).1 = recordValue input wv ∨
        prepareInput env (recordValue input wv) k rs wv ws =
          Except.ok (signPrepare env input k rs wv ws).1)) := by
  unfold signPrepare
  by_cases hc : canSign input = true
  · rw [if_pos hc]
    exact Or.inl rfl
  · rw [if_neg hc]
    have hcf : canSign input = false := by simpa using hc
    cases wv with
    | none =>
      rcases signPrepareRest_cases env input k rs none ws with h | ⟨_, h⟩
      · exact Or.inl h
      · exact Or.inr ⟨hcf, Or.inr h⟩
    | some v =>
      simp only
      by_cases h1 : input.value.isSome = true ∧ input.value ≠ some v
      · rw [if_pos h1]
        exact Or.inl rfl
      · rw [if_neg h1]
        by_cases h2 : env.isSatoshi v = false
        · rw [if_pos h2]
          exact Or.inl rfl
        · rw [if_neg h2]
          rcases signPrepareRest_cases env { input with value := some v } k rs (some v) ws
            with h | ⟨_, h⟩
          · exact Or.inr ⟨hcf, Or.inl h⟩
          · exact Or.inr ⟨hcf, Or.inr h⟩

/-- The builder after a failing `sign`: the builder before the call, or, when the record
was not signable, the builder with that record replaced by the record with the witness
value stored or by the record that `prepareInput` made of that one. -/
theorem sign_error_cases (env : Collab) (s : TransactionBuilder) (vin : Nat) (K : KeyPair)
    (rs : Option Buffer) (ht wv : Option Nat) (ws : Option Buffer) (e : Err)
    (h : (sign env s vin K rs ht wv ws).2 = Except.error e) :
    (sign env s vin K rs ht wv ws).1 = s ∨
    ∃ input input1, s.inputs[vin]? = some (some input) ∧ canSign input = false ∧
      (sign env s vin K rs ht wv ws).1 = setInput s vin input1 ∧
      (input1 = recordValue input wv ∨
        prepareInput env (recordValue input wv) K.publicKey rs wv ws = Except.ok input1) := by
  unfold sign at h ⊢
  by_cases hn : K.network.isSome = true ∧ K.network ≠ some s.network
  · rw [if_pos hn]
    exact Or.inl rfl
  · rw [if_neg hn] at h ⊢
    cases hv : s.inputs[vin]? with
    | none => exact Or.inl rfl
    | some oi =>
      cases oi with
      | none => exact Or.inl rfl
      | some input =>
        simp only [hv, join_some_some] at h ⊢
        by_cases hr : input.redeemScript.isSome = true ∧ rs.isSome = true ∧ input.redeemScript ≠ rs
        · rw [if_pos hr]
          exact Or.inl rfl
        · rw [if_neg hr] at h ⊢
          have hcases := signPrepare_cases env input K.publicKey rs wv ws
          cases hsp : signPrepare env input K.publicKey rs wv ws with
          | mk input1 r =>
            rw [hsp] at hcases
            simp only at hcases
            have fin : ∀ X : Input, X = input1 →
                setInput s vin X = s ∨
                ∃ input0 input2, some (some input) = some (some input0) ∧
                  canSign input0 = false ∧ setInput s vin X = setInput s vin input2 ∧
                  (input2 = recordValue input0 wv ∨
                    prepareInput env (recordValue input0 wv) K.publicKey rs wv ws =
                      Except.ok input2) := by
              intro X hX
              subst hX
              rcases hcases with hc | ⟨hc1, hc2⟩
              · rw [hc]
                exact Or.inl (setInput_same s vin input hv)
              · exact Or.inr ⟨input, X, rfl, hc1, rfl, hc2⟩
            cases r with
            | error e1 => exact fin input1 rfl
            | ok u =>
              simp only [hsp] at h ⊢
              exact fin _ (signReady_error _ _ _ _ _ _ _ e h)

/-- A failing `sign` changes nothing but the record at `vin`. -/
theorem sign_error_frame (env : Collab) (s : TransactionBuilder) (vin : Nat) (K : KeyPair)
    (rs : Option Buffer) (ht wv : Option Nat) (ws : Option Buffer) :
    (sign env s vin K rs ht wv ws).1.tx = s.tx ∧
    (sign env s vin K rs ht wv ws).1.prevTxMap = s.prevTxMap ∧
    (sign env s vin K rs ht wv ws).1.network = s.network ∧
    (sign env s vin K rs ht wv ws).1.maximumFeeRate = s.maximumFeeRate ∧
    (sign env s vin K rs ht wv ws).1.inputs.length = s.inputs.length ∧
    (∀ j, j ≠ vin → (sign env s vin K rs ht wv ws).1.inputs[j]? = s.inputs[j]?) := by
  rcases sign_state env s vin K rs ht wv ws with h | ⟨input, _, h | ⟨_, h⟩⟩
  · rw [h]
    exact ⟨rfl, rfl, rfl, rfl, rfl, fun _ _ => rfl⟩
  · rw [h]
    unfold setInput
    refine ⟨rfl, rfl, rfl, rfl, by simp, ?_⟩
    intro j hj
    simp only
    rw [List.getElem?_set_ne (fun hh => hj hh.symm)]
  · rw [h]
    unfold setInput
    refine ⟨rfl, rfl, rfl, rfl, by simp, ?_⟩
    intro j hj
    simp only
    rw [List.getElem?_set_ne (fun hh => hj hh.symm)]

/-- A failing `sign` stores no signature: every present signature of the builder after the
call was a present signature of the builder before it. -/
theorem sign_error_presentSig (env : Collab) (s : TransactionBuilder) (vin : Nat)
    (K : KeyPair) (rs : Option Buffer) (ht wv : Option Nat) (ws : Option Buffer) (e : Err)
    (h : (sign env s vin K rs ht wv ws).2 = Except.error e) :
    ∀ c, PresentSig (sign env s vin K rs ht wv ws).1 c → PresentSig s c := by
  intro c hc
  rcases sign_error_cases env s vin K rs ht wv ws e h with hs | ⟨input, input1, hin, _, hs, hcase⟩
  · rw [hs] at hc
    exact hc
  · rw [hs] at hc
    obtain ⟨inp, sigs, hmem, hsig, hcm, htr⟩ := hc
    unfold setInput at hmem
    rcases List.mem_or_eq_of_mem_set hmem with hm | hm
    · exact ⟨inp, sigs, hm, hsig, hcm, htr⟩
    · cases hm
      have hinmem : some input ∈ s.inputs := List.getElem?_mem hin
      have hrv : (recordValue input wv).signatures = input.signatures :=
        (recordValue_prevOut input wv).2.2.1
      rcases hcase with hcase | hcase
      · rw [hcase, hrv] at hsig
        exact ⟨input, sigs, hinmem, hsig, hcm, htr⟩
      · rcases prepareInput_ok env _ K.publicKey rs wv ws _ hcase with heq |
          ⟨ex, pot, pos, p2sh, p2wsh, w, st, ss, sc, ty, heq, hex, _, _, _⟩
        · rw [heq, hrv] at hsig
          exact ⟨input, sigs, hinmem, hsig, hcm, htr⟩
        · rw [heq, prepareInputAssign_signatures] at hsig
          have := expandOutput_signatures env sc ty (some K.publicKey) ex hex sigs hsig
            (some c) hcm
          cases this

/-- The record at `vin` after a failing `sign`: the record as it was, or with the witness
value stored, or as `prepareInput` resolved that record. -/
theorem failing_sign_record (env : Collab) (s : TransactionBuilder) (vin : Nat)
    (K : KeyPair) (rs : Option Buffer) (ht wv : Option Nat) (ws : Option Buffer) (e : Err)
    (h : (sign env s vin K rs ht wv ws).2 = Except.error e) :
    ∀ input, s.inputs[vin]? = some (some input) →
      ∃ input1, (sign env s vin K rs ht wv ws).1.inputs[vin]? = some (some input1) ∧
        (input1 = input ∨ input1 = recordValue input wv ∨
          prepareInput env (recordValue input wv) K.publicKey rs wv ws =
            Except.ok input1) := by
  intro input hin
  have hvin : vin < s.inputs.length := getElem?_lt _ _ _ hin
  rcases sign_error_cases env s vin K rs ht wv ws e h with hs | ⟨input0, input1, hin0, _, hs, hcase⟩
  · rw [hs]
    exact ⟨input, hin, Or.inl rfl⟩
  · rw [hin] at hin0
    cases hin0
    rw [hs]
    exact ⟨input1, setInput_get s vin input1 hvin, Or.inr hcase⟩

/-- What a successful `sign` did to the record: the preparation block left a signable
record `input1`, the uncompressed-key check passed for its sign type, and the record after
the call is `input1` with a `signatures` list of the same length. -/
theorem sign_ok_record (env : Collab) (s : TransactionBuilder) (vin : Nat) (K : KeyPair)
    (rs : Option Buffer) (ht wv : Option Nat) (ws : Option Buffer)
    (h : (sign env s vin K rs ht wv ws).2 = Except.ok ()) :
    ∃ input input1 sigs sigs1,
      s.inputs[vin]? = some (some input) ∧
      (signPrepare env input K.publicKey rs wv ws).1 = input1 ∧
      canSign input1 = true ∧ input1.signatures = some sigs ∧ sigs1.length = sigs.length ∧
      ¬ (K.publicKey.length ≠ 33 ∧ input1.signType = some ScriptType.P2WPKH) ∧
      (sign env s vin K rs ht wv ws).1 =
        setInput s vin { input1 with signatures := some sigs1 } ∧
      (sign env s vin K rs ht wv ws).1.inputs[vin]? =
        some (some { input1 with signatures := some sigs1 }) := by
  obtain ⟨input, input1, pks, sigs, n, sig, hin, _, _, hsp, hc, hpk, hsg, hlen, hn, _, _, hst⟩ :=
    sign_ok env s vin K rs ht wv ws h
  have hvin : vin < s.inputs.length := getElem?_lt _ _ _ hin
  refine ⟨input, input1, sigs, _, hin, by rw [hsp], hc, hsg, by simp, ?_, hst, ?_⟩
  · intro hbad
    unfold sign at h
    have hin2 : (s.inputs[vin]?).join = some input := by rw [hin]; rfl
    simp only [hin2, hsp] at h
    split at h
    · cases h
    · simp only at h
      unfold signReady at h
      obtain ⟨pks2, sigs2, ss, hpk2, hsg2, hss, _, _⟩ := canSign_lengths input1 hc
      simp only [hpk2, hsg2, hss] at h
      generalize hl : signLoop env K K.publicKey input1.signType _ (defaultHashType ht)
        sigs2 pks2 0 = res at h
      cases res with
      | error e => cases h
      | ok o =>
        cases o with
        | none => cases h
        | some sigs3 =>
          obtain ⟨_, _, _, _, _, _, h5, _⟩ := signLoop_ok _ _ _ _ _ _ _ _ _ _ hl
          exact h5 hbad
  · rw [hst]
    exact setInput_get s vin _ hvin

/-! ## What a failing `sign` leaves behind -/

/-- C26, counterexample. The input of `demoUnsigned` records the P2PKH script of key 5.
`sign` with the key pair of key 6, the wrong key, throws "pubkeyhash not supported", and the
builder after the call is not the builder before it: `prepareInput` has assigned
`signScript`, `signType` and `witness` to the record before the call failed. -/
theorem sign_wrong_key_mutates :
    (sign demo demoUnsigned 0 (demoKeyPair 6) none none none none).2 =
      Except.error (Err.typeNotSupported (some ScriptType.P2PKH)) ∧
    (sign demo demoUnsigned 0 (demoKeyPair 6) none none none none).1 ≠ demoUnsigned ∧
    ((demoUnsigned.inputs[0]?).join.map
      (fun input => (input.signScript, input.signType, input.witness))) =
      some (none, none, none) ∧
    (((sign demo demoUnsigned 0 (demoKeyPair 6) none none none none).1.inputs[0]?).join.map
      (fun input => (input.signScript, input.signType, input.witness))) =
      some (some (demo.pubKeyHashOutputEncode (demo.hash160 (demoPubKey 5))),
        some ScriptType.P2PKH, some false) :=
  ⟨by decide, by decide, by decide, by decide⟩

/-- C26, amended. What a failing `sign` leaves behind. The draft transaction, `prevTxMap`,
the network, the maximum fee rate, the number of records and every record other than the
one at `vin` are unchanged, and no signature is stored: every present signature after the
call was present before it. The whole builder is unchanged when the record at `vin` was
signable before the call or does not exist. Otherwise the record at `vin` is left as it was,
or with the witness value stored, or as `prepareInput` resolved that record. -/
theorem sign_failure_state (env : Collab) (s : TransactionBuilder) (vin : Nat) (K : KeyPair)
    (rs : Option Buffer) (ht wv : Option Nat) (ws : Option Buffer) (e : Err)
    (h : (sign env s vin K rs ht wv ws).2 = Except.error e) :
    (sign env s vin K rs ht wv ws).1.tx = s.tx ∧
    (sign env s vin K rs ht wv ws).1.prevTxMap = s.prevTxMap ∧
    (sign env s vin K rs ht wv ws).1.network = s.network ∧
    (sign env s vin K rs ht wv ws).1.maximumFeeRate = s.maximumFeeRate ∧
    (sign env s vin K rs ht wv ws).1.inputs.length = s.inputs.length ∧
    (∀ j, j ≠ vin → (sign env s vin K rs ht wv ws).1.inputs[j]? = s.inputs[j]?) ∧
    (∀ c, PresentSig (sign env s vin K rs ht wv ws).1 c → PresentSig s c) ∧
    (∀ input, s.inputs[vin]? = some (some input) → canSign input = true →
      (sign env s vin K rs ht wv ws).1 = s) ∧
    ((s.inputs[vin]?).join = none → (sign env s vin K rs ht wv ws).1 = s) ∧
    (∀ input, s.inputs[vin]? = some (some input) →
      ∃ input1, (sign env s vin K rs ht wv ws).1.inputs[vin]? = some (some input1) ∧
        (input1 = input ∨ input1 = recordValue input wv ∨
          prepareInput env (recordValue input wv) K.publicKey rs wv ws =
            Except.ok input1)) := by
  obtain ⟨f1, f2, f3, f4, f5, f6⟩ := sign_error_frame env s vin K rs ht wv ws
  have hcases := sign_error_cases env s vin K rs ht wv ws e h
  refine ⟨f1, f2, f3, f4, f5, f6, sign_error_presentSig env s vin K rs ht wv ws e h,
    ?_, ?_, ?_⟩
  · intro input hin hc
    rcases hcases with hs | ⟨input0, _, hin0, hc0, _, _⟩
    · exact hs
    · rw [hin] at hin0
      cases hin0
      rw [hc] at hc0
      cases hc0
  · intro hnone
    rcases hcases with hs | ⟨input0, _, hin0, _, _, _⟩
    · exact hs
    · rw [hin0] at hnone
      cases hnone
  · exact failing_sign_record env s vin K rs ht wv ws e h

theorem sign_failure_state_witness :
    (sign demo demoUnsigned 0 (demoKeyPair 6) none none none none).2 =
      Except.error (Err.typeNotSupported (some ScriptType.P2PKH)) ∧
    (sign demo demoUnsigned 0 (demoKeyPair 6) none none none none).1.tx = demoUnsigned.tx ∧
    (sign demo demoUnsigned 0 (demoKeyPair 6) none none none none).1.prevTxMap =
      demoUnsigned.prevTxMap ∧
    presentCount (sign demo demoUnsigned 0 (demoKeyPair 6) none none none none).1 0 = 0 :=
  ⟨by decide,
    (sign_failure_state demo demoUnsigned 0 (demoKeyPair 6) none none none none
      (Err.typeNotSupported (some ScriptType.P2PKH)) (by decide)).1,
    (sign_failure_state demo demoUnsigned 0 (demoKeyPair 6) none none none none
      (Err.typeNotSupported (some ScriptType.P2PKH)) (by decide)).2.1,
    by decide⟩

/-! ## The witness value -/

theorem prepareInput_value (env : Collab) (input : Input) (k : Buffer)
    (rs : Option Buffer) (wv : Option Nat) (ws : Option Buffer) (input1 : Input)
    (h : prepareInput env input k rs wv ws = Except.ok input1) :
    input1.value = input.value := by
  rcases prepareInput_ok env input k rs wv ws input1 h with heq |
    ⟨ex, pot, pos, p2sh, p2wsh, w, st, ss, _, _, heq, _, _, _, _⟩
  · rw [heq]
  · rw [heq]
    exact (prepareInputAssign_fields env input ex pot pos p2sh p2wsh w st ss).2.2.2.2.2.1

theorem canSign_needs_value (input : Input) (h : canSign input = true)
    (hw : input.witness = some true) : input.value.isSome = true := by
  unfold canSign at h
  rw [hw] at h
  simp only [Bool.and_eq_true, Bool.or_eq_true, beq_iff_eq] at h
  rcases h.2 with h2 | h2
  · cases h2
  · exact h2.2

/-- C25, counterexample. The record of `demoValued` is not signable and holds the value
`2 ^ 32`. A `sign` call that supplies the witness value 1000 fails, but with a key pair of
another network the error is "Inconsistent network", not "Input didn't match
witnessValue": the network is checked first. -/
theorem sign_value_mismatch_other_error :
    ((demoValued.inputs[0]?).join.map (fun input => (canSign input, input.value))) =
      some (false, some (2 ^ 32)) ∧
    (sign demo demoValued 0 demoForeignKeyPair none none (some 1000) none).2 =
      Except.error Err.inconsistentNetwork ∧
    (sign demo demoValued 0 (demoKeyPair 5) none none (some 1000) none).2 =
      Except.error Err.witnessValueMismatch :=
  ⟨by decide, by decide, by decide⟩

/-- C25, amended. The witness value. Let the record at `vin` exist. If it holds no value and
no witness value is supplied, then whenever the record after the call has `witness` true the
call failed, and it stored no signature. If the record is not signable and holds a value
other than the witness value supplied, the call fails and leaves the builder, and so the
recorded value, unchanged; the error is "Input didn't match witnessValue" when the key pair
is on the network of the builder (or on none) and the redeem script supplied, if any, does
not differ from a recorded one. -/
theorem sign_witness_value (env : Collab) (s : TransactionBuilder) (vin : Nat) (K : KeyPair)
    (rs : Option Buffer) (ht : Option Nat) (ws : Option Buffer) (input : Input)
    (hi : s.inputs[vin]? = some (some input)) :
    (input.value = none → ∀ input1,
      (sign env s vin K rs ht none ws).1.inputs[vin]? = some (some input1) →
      input1.witness = some true →
      (∃ e, (sign env s vin K rs ht none ws).2 = Except.error e) ∧
      input1.value = none ∧
      ∀ c, PresentSig (sign env s vin K rs ht none ws).1 c → PresentSig s c) ∧
    (∀ v0 v, canSign input = false → input.value = some v0 → v0 ≠ v →
      (∃ e, (sign env s vin K rs ht (some v) ws).2 = Except.error e) ∧
      (sign env s vin K rs ht (some v) ws).1 = s ∧
      (¬ (K.network.isSome = true ∧ K.network ≠ some s.network) →
        ¬ (input.redeemScript.isSome = true ∧ rs.isSome = true ∧ input.redeemScript ≠ rs) →
        (sign env s vin K rs ht (some v) ws).2 = Except.error Err.witnessValueMismatch)) := by
  refine ⟨?_, ?_⟩
  · intro hval input1 hafter hw
    cases hres : (sign env s vin K rs ht none ws).2 with
    | error e =>
      refine ⟨⟨e, rfl⟩, ?_, sign_error_presentSig env s vin K rs ht none ws e hres⟩
      obtain ⟨input2, h2, hcase⟩ :=
        (failing_sign_record env s vin K rs ht none ws e hres) input hi
      rw [hafter] at h2
      cases h2
      rcases hcase with hc | hc | hc
      · rw [hc]; exact hval
      · rw [hc]; exact hval
      · rw [prepareInput_value env _ _ _ _ _ _ hc]
        exact hval
    | ok u =>
      exfalso
      obtain ⟨input0, inputp, sigs, sigs1, hin0, hsp, hc, _, _, _, _, hget⟩ :=
        sign_ok_record env s vin K rs ht none ws hres
      rw [hi] at hin0
      cases hin0
      rw [hafter] at hget
      cases hget
      have hv := canSign_needs_value inputp hc hw
      have hpv : inputp.value = none := by
        rcases signPrepare_cases env input K.publicKey rs none ws with h1 | ⟨_, h1 | h1⟩
        · rw [← hsp, h1]; exact hval
        · rw [← hsp, h1]; exact hval
        · rw [hsp] at h1
          rw [prepareInput_value env _ _ _ _ _ _ h1]
          exact hval
      rw [hpv] at hv
      cases hv
  · intro v0 v hns hv0 hne
    have hmis : input.value.isSome = true ∧ input.value ≠ some v := by
      rw [hv0]
      exact ⟨rfl, fun hh => hne (Option.some.inj hh)⟩
    have hsp : signPrepare env input K.publicKey rs (some v) ws =
        (input, Except.error Err.witnessValueMismatch) := by
      unfold signPrepare
      rw [if_neg (by rw [hns]; exact Bool.false_ne_true)]
      simp only
      rw [if_pos hmis]
    have hin2 : (s.inputs[vin]?).join = some input := by rw [hi]; rfl
    refine ⟨?_, ?_, ?_⟩
    · unfold sign
      simp only [hin2, hsp]
      split
      · exact ⟨_, rfl⟩
      · split
        · exact ⟨_, rfl⟩
        · exact ⟨_, rfl⟩
    · unfold sign
      simp only [hin2, hsp]
      split
      · rfl
      · split
        · rfl
        · exact setInput_same s vin input hi
    · intro hn hr
      unfold sign
      simp only [hin2, hsp]
      rw [if_neg hn, if_neg hr]

set_option maxRecDepth 8192 in
theorem sign_witness_value_witness :
    (demoWitnessKeyRecord.value = none ∧ demoWitnessKeyPrepared.witness = some true ∧
      ∃ e, (sign demo demoWitnessKeyInput 0 (demoKeyPair 5) none none none none).2 =
        Except.error e) ∧
    (demoValuedRecord.value = some (2 ^ 32) ∧
      (sign demo demoValued 0 (demoKeyPair 5) none none (some 1000) none).1 = demoValued ∧
      (sign demo demoValued 0 (demoKeyPair 5) none none (some 1000) none).2 =
        Except.error Err.witnessValueMismatch) :=
  ⟨⟨by decide, by decide,
      ((sign_witness_value demo demoWitnessKeyInput 0 (demoKeyPair 5) none none none
        demoWitnessKeyRecord (by decide)).1 (by decide) demoWitnessKeyPrepared (by decide)
        (by decide)).1⟩,
    ⟨by decide,
      ((sign_witness_value demo demoValued 0 (demoKeyPair 5) none none none
        demoValuedRecord (by decide)).2 (2 ^ 32) 1000 (by decide) (by decide) (by decide)).2.1,
      ((sign_witness_value demo demoValued 0 (demoKeyPair 5) none none none
        demoValuedRecord (by decide)).2 (2 ^ 32) 1000 (by decide) (by decide) (by decide)).2.2
        (by decide) (by decide)⟩⟩

/-! ## Uncompressed keys and the WitnessPubKeyHash sign type -/

/-- A call of `sign`, whatever its outcome, leaves a signable record signable and leaves its
sign type as it is. -/
theorem sign_keeps_signable (env : Collab) (s : TransactionBuilder) (vin vin2 : Nat)
    (K : KeyPair) (rs : Option Buffer) (ht wv : Option Nat) (ws : Option Buffer)
    (input : Input) (hin : s.inputs[vin]? = some (some input)) (hc : canSign input = true) :
    ∃ input1, (sign env s vin2 K rs ht wv ws).1.inputs[vin]? = some (some input1) ∧
      canSign input1 = true ∧ input1.signType = input.signType := by
  by_cases hv : vin2 = vin
  · subst hv
    have hvin : vin2 < s.inputs.length := getElem?_lt _ _ _ hin
    rcases sign_state env s vin2 K rs ht wv ws with hst | ⟨input0, hin0, hst⟩
    · rw [hst]
      exact ⟨input, hin, hc, rfl⟩
    · rw [hin] at hin0
      cases hin0
      rw [signPrepare_of_canSign env input K.publicKey rs wv ws hc] at hst
      simp only at hst
      rcases hst with hst | ⟨_, hst⟩
      · rw [hst, setInput_same s vin2 input hin]
        exact ⟨input, hin, hc, rfl⟩
      · rw [hst]
        rcases signReady_cases env s.tx vin2 input K K.publicKey (defaultHashType ht) with hr |
          ⟨sigs, pks, n, sig, hs, hpk, hn, _, hr⟩
        · rw [hr]
          exact ⟨input, setInput_get s vin2 input hvin, hc, rfl⟩
        · rw [hr]
          obtain ⟨pks2, sigs2, _, hpk2, hsg2, _, hlen, _⟩ := canSign_lengths input hc
          rw [hpk] at hpk2
          cases hpk2
          rw [hs] at hsg2
          cases hsg2
          have hnlt : n < sigs.length := by rw [hlen]; exact getElem?_lt _ _ _ hn
          rw [arraySet_lt _ _ _ hnlt]
          exact ⟨_, setInput_get s vin2 _ hvin,
            canSign_set_signatures input _ sigs hs (by simp) hc, rfl⟩
  · refine ⟨input, ?_, hc, rfl⟩
    rw [(sign_error_frame env s vin2 K rs ht wv ws).2.2.2.2.2 vin (fun hh => hv hh.symm)]
    exact hin

theorem setVersion_ins (s : TransactionBuilder) (version : Nat) :
    (setVersion s version).1.tx.ins = s.tx.ins := by
  unfold setVersion
  split <;> rfl

theorem setLockTime_ins (s : TransactionBuilder) (locktime : Nat) :
    (setLockTime s locktime).1.tx.ins = s.tx.ins := by
  unfold setLockTime
  split
  · rfl
  · split <;> rfl

/-- In every state reached from a state in which the record at `vin` is signable, that
record is signable and has the sign type it had. -/
theorem signable_reachableFrom (env : Collab) (s0 s : TransactionBuilder) (vin : Nat)
    (input0 : Input) (hlen : s0.inputs.length = s0.tx.ins.length)
    (hin : s0.inputs[vin]? = some (some input0)) (hc : canSign input0 = true)
    (h : ReachableFrom env s0 s) :
    s.inputs.length = s.tx.ins.length ∧
    ∃ input, s.inputs[vin]? = some (some input) ∧ canSign input = true ∧
      input.signType = input0.signType := by
  induction h with
  | refl => exact ⟨hlen, input0, hin, hc, rfl⟩
  | addInput s txHash vout sequence prevOutScript _ ih =>
    obtain ⟨ihl, input, ihin, ihc, iht⟩ := ih
    rcases addInput_cases env s txHash vout sequence prevOutScript with h1 | ⟨hh, options, h1⟩
    · rw [h1]
      exact ⟨ihl, input, ihin, ihc, iht⟩
    · rw [h1]
      rcases addInputUnsafe_cases env s hh vout options with ⟨h2, _⟩ |
        ⟨_, _, _, inputn, txIn, _, _, h2⟩
      · rw [h2]
        exact ⟨ihl, input, ihin, ihc, iht⟩
      · rw [h2]
        have hvin : vin < s.inputs.length := getElem?_lt _ _ _ ihin
        have hset : arraySet s.inputs s.tx.ins.length (some inputn) =
            s.inputs ++ [some inputn] := by
          unfold arraySet
          rw [if_neg (by omega)]
          rw [← ihl]
          simp
        simp only [hset]
        refine ⟨by simp [ihl], input, ?_, ihc, iht⟩
        rw [List.getElem?_append_left hvin]
        exact ihin
  | addOutput s scriptPubKey value _ ih =>
    obtain ⟨ihl, input, ihin, ihc, iht⟩ := ih
    rcases addOutput_cases env s scriptPubKey value with h1 | ⟨script, _, h1⟩
    · rw [h1]
      exact ⟨ihl, input, ihin, ihc, iht⟩
    · rw [h1]
      exact ⟨ihl, input, ihin, ihc, iht⟩
  | sign s vin2 keyPair redeemScript hashType witnessValue witnessScript _ ih =>
    obtain ⟨ihl, input, ihin, ihc, iht⟩ := ih
    obtain ⟨f1, _, _, _, f5, _⟩ :=
      sign_error_frame env s vin2 keyPair redeemScript hashType witnessValue witnessScript
    obtain ⟨input1, h1, h2, h3⟩ := sign_keeps_signable env s vin vin2 keyPair redeemScript
      hashType witnessValue witnessScript input ihin ihc
    exact ⟨by rw [f5, f1]; exact ihl, input1, h1, h2, by rw [h3, iht]⟩
  | setVersion s version _ ih =>
    obtain ⟨ihl, input, ihin, ihc, iht⟩ := ih
    refine ⟨by rw [setVersion_inputs, setVersion_ins]; exact ihl, input, ?_, ihc, iht⟩
    rw [setVersion_inputs]
    exact ihin
  | setLockTime s locktime _ ih =>
    obtain ⟨ihl, input, ihin, ihc, iht⟩ := ih
    refine ⟨by rw [setLockTime_inputs, setLockTime_ins]; exact ihl, input, ?_, ihc, iht⟩
    rw [setLockTime_inputs]
    exact ihin

/-- C23. Uncompressed keys and the WitnessPubKeyHash sign type. Let the public key of the
key pair not be 33 bytes long. If the record at `vin` after a `sign` call has `signType`
WitnessPubKeyHash, the call failed and stored no signature: every present signature after
the call was present before it. Hence, when a `sign` call with such a key pair succeeds on
a reachable builder, the record it signed does not have `signType` WitnessPubKeyHash, in the
state after the call and in every state reached from it. -/
theorem sign_rejects_uncompressed (env : Collab) (s : TransactionBuilder) (vin : Nat)
    (K : KeyPair) (rs : Option Buffer) (ht wv : Option Nat) (ws : Option Buffer)
    (hk : K.publicKey.length ≠ 33) :
    (∀ input1, (sign env s vin K rs ht wv ws).1.inputs[vin]? = some (some input1) →
      input1.signType = some ScriptType.P2WPKH →
      (∃ e, (sign env s vin K rs ht wv ws).2 = Except.error e) ∧
      ∀ c, PresentSig (sign env s vin K rs ht wv ws).1 c → PresentSig s c) ∧
    (Reachable env s → (sign env s vin K rs ht wv ws).2 = Except.ok () →
      ∀ s2, ReachableFrom env (sign env s vin K rs ht wv ws).1 s2 →
        ∃ input2, s2.inputs[vin]? = some (some input2) ∧
          input2.signType ≠ some ScriptType.P2WPKH) := by
  have hok : (sign env s vin K rs ht wv ws).2 = Except.ok () →
      ∃ input1, (sign env s vin K rs ht wv ws).1.inputs[vin]? = some (some input1) ∧
        canSign input1 = true ∧ input1.signType ≠ some ScriptType.P2WPKH := by
    intro h
    obtain ⟨input, input1, sigs, sigs1, _, _, hc, hsg, hlen, hnot, _, hget⟩ :=
      sign_ok_record env s vin K rs ht wv ws h
    exact ⟨_, hget, canSign_set_signatures input1 sigs1 sigs hsg hlen hc,
      fun ht2 => hnot ⟨hk, ht2⟩⟩
  refine ⟨?_, ?_⟩
  · intro input1 hafter hst
    cases hres : (sign env s vin K rs ht wv ws).2 with
    | error e => exact ⟨⟨e, rfl⟩, sign_error_presentSig env s vin K rs ht wv ws e hres⟩
    | ok u =>
      obtain ⟨input2, h2, _, h3⟩ := hok hres
      rw [hafter] at h2
      cases h2
      exact absurd hst h3
  · intro hreach h s2 hfrom
    obtain ⟨input1, h1, h2, h3⟩ := hok h
    have hlen : (sign env s vin K rs ht wv ws).1.inputs.length =
        (sign env s vin K rs ht wv ws).1.tx.ins.length := by
      obtain ⟨f1, _, _, _, f5, _⟩ := sign_error_frame env s vin K rs ht wv ws
      rw [f5, f1]
      exact (buildInvariant_reachable env s hreach).2
    obtain ⟨_, input2, g1, _, g2⟩ :=
      signable_reachableFrom env _ s2 vin input1 hlen h1 h2 hfrom
    exact ⟨input2, g1, by rw [g2]; exact h3⟩

set_option maxRecDepth 8192 in
theorem sign_rejects_uncompressed_witness :
    demoUncompressedKeyPair.publicKey.length = 65 ∧
    demoUncompressedKeyPrepared.signType = some ScriptType.P2WPKH ∧
    (∃ e, (sign demo demoUncompressedKeyInput 0 demoUncompressedKeyPair none none (some 1000)
      none).2 = Except.error e) ∧
    (sign demo demoUncompressedKeyInput 0 demoUncompressedKeyPair none none (some 1000)
      none).2 = Except.error Err.bip143Uncompressed ∧
    presentCount (sign demo demoUncompressedKeyInput 0 demoUncompressedKeyPair none none
      (some 1000) none).1 0 = 0 :=
  ⟨by decide, by decide,
    ((sign_rejects_uncompressed demo demoUncompressedKeyInput 0 demoUncompressedKeyPair none
      none (some 1000) none (by decide)).1 demoUncompressedKeyPrepared (by decide)
      (by decide)).1,
    by decide, by decide⟩

/-! ## Uncompressed keys under a witness script -/

/-- C24, the code against the claim. The key pair `demoUncompressedKeyPair` has a public key
of 65 bytes. `sign` with it, a witness value and the witness script `demoUncompressedScript`
(pay-to-pubkey of that key) returns, as a P2WSH spend and as a P2SH-P2WSH spend: the record
has `witness` true and `witnessScriptType` PubKey and holds the signature, and strict
`build()` returns. The check `kpPubKey.length !== 33` is made for the sign type
WitnessPubKeyHash only, and the sign type here is PubKey. -/
theorem sign_accepts_uncompressed_witness_script :
    demoUncompressedKeyPair.publicKey.length = 65 ∧
    (sign demo demoInOut 0 demoUncompressedKeyPair none none (some 1000)
      (some demoUncompressedScript)).2 = Except.ok () ∧
    ((demoUncompressedWitness.inputs[0]?).join.map
      (fun input => (input.prevOutType, input.witness, input.witnessScriptType))) =
      some (some ScriptType.P2WSH, some true, some ScriptType.P2PK) ∧
    ((demoUncompressedWitness.inputs[0]?).join.map (fun input => input.signType)) =
      some (some ScriptType.P2PK) ∧
    presentCount demoUncompressedWitness 0 = 1 ∧
    returned (build demo demoUncompressedWitness) = true ∧
    (sign demo demoInOut 0 demoUncompressedKeyPair
      (some (demo.witnessScriptHashOutputEncode (demo.sha256 demoUncompressedScript))) none
      (some 1000) (some demoUncompressedScript)).2 = Except.ok () ∧
    ((demoUncompressedNested.inputs[0]?).join.map
      (fun input => (input.prevOutType, input.witness, input.witnessScriptType))) =
      some (some ScriptType.P2SH, some true, some ScriptType.P2PK) ∧
    presentCount demoUncompressedNested 0 = 1 ∧
    returned (build demo demoUncompressedNested) = true :=
  ⟨by decide, by decide, by decide, by decide, by decide,
    by set_option maxRecDepth 8192 in decide, by decide, by decide, by decide,
    by set_option maxRecDepth 8192 in decide⟩

/-! ## Import of a P2SH-wrapped witness-pubkey-hash spend -/

theorem prepareInput_nested (env : Collab) (k : Buffer) (v : Nat)
    (hco : env.classifyOutput (env.witnessPubKeyHashOutputEncode (env.hash160 k)) =
      ScriptType.P2WPKH)
    (hcodec : (env.decompile (env.witnessPubKeyHashOutputEncode (env.hash160 k)))[1]? =
      some (Chunk.buf (env.hash160 k))) :
    prepareInput env { value := some v } k
        (some (env.witnessPubKeyHashOutputEncode (env.hash160 k))) (some v) none =
      Except.ok (nestedWitnessKeyRecord env k v none) := by
  unfold prepareInput expandOutput expandOutputSwitch checkP2SHInput
  simp only [hco, hcodec, chunkEquals, decide_True]
  rfl

theorem signReady_nested (env : Collab) (tx : Transaction) (vin : Nat) (K : KeyPair)
    (d v : Nat) (hashType : Nat) (hd : K.d = some d) (hk : K.publicKey.length = 33) :
    signReady env tx vin (nestedWitnessKeyRecord env K.publicKey v none) K K.publicKey
        hashType =
      (nestedWitnessKeyRecord env K.publicKey v
        (some (Chunk.buf (toScriptSignature
          (env.ecdsaSign (env.hashForWitnessV0 tx vin
            (env.pubKeyHashOutputEncode (env.witnessPubKeyHashOutputDecode
              (env.witnessPubKeyHashOutputEncode (env.hash160 K.publicKey)))) v hashType) d)
          hashType))),
        Except.ok ()) := by
  unfold signReady nestedWitnessKeyRecord signLoop KeyPair.sign
  simp [hd, hk, truthy, arraySet]

theorem sign_nested (env : Collab) (s : TransactionBuilder) (vin : Nat) (K : KeyPair)
    (ht : Option Nat) (d v : Nat)
    (hi : s.inputs[vin]? = some (some {}))
    (hnet : K.network = none ∨ K.network = some s.network) (hd : K.d = some d)
    (hk : K.publicKey.length = 33) (hv : env.isSatoshi v = true)
    (hco : env.classifyOutput (env.witnessPubKeyHashOutputEncode (env.hash160 K.publicKey)) =
      ScriptType.P2WPKH)
    (hcodec :
      (env.decompile (env.witnessPubKeyHashOutputEncode (env.hash160 K.publicKey)))[1]? =
        some (Chunk.buf (env.hash160 K.publicKey))) :
    sign env s vin K (some (env.witnessPubKeyHashOutputEncode (env.hash160 K.publicKey))) ht
        (some v) none =
      (setInput s vin (nestedWitnessKeyRecord env K.publicKey v
        (some (Chunk.buf (toScriptSignature
          (env.ecdsaSign (env.hashForWitnessV0 s.tx vin
            (env.pubKeyHashOutputEncode (env.witnessPubKeyHashOutputDecode
              (env.witnessPubKeyHashOutputEncode (env.hash160 K.publicKey)))) v
            (defaultHashType ht)) d)
          (defaultHashType ht))))), Except.ok ()) := by
  have hprep : signPrepare env {} K.publicKey
      (some (env.witnessPubKeyHashOutputEncode (env.hash160 K.publicKey))) (some v) none =
      (nestedWitnessKeyRecord env K.publicKey v none, Except.ok ()) := by
    unfold signPrepare signPrepareRest
    rw [if_neg (by decide)]
    simp only
    rw [if_neg (by rintro ⟨h1, _⟩; cases h1), if_neg (by rw [hv]; decide)]
    rw [if_neg (by intro hcs; cases hcs)]
    have hp := prepareInput_nested env K.publicKey v hco hcodec
    rw [hp]
    simp only
    rw [if_pos (by rfl)]
  unfold sign
  rw [if_neg (by
    rintro ⟨h1, h2⟩
    rcases hnet with h | h
    · rw [h] at h1
      cases h1
    · exact h2 h), hi]
  simp only [join_some_some]
  rw [if_neg (by rintro ⟨h1, _⟩; cases h1), hprep]
  simp only
  rw [signReady_nested env s.tx vin K d v _ hd hk]

/-- C27. Import of a P2SH-wrapped witness-pubkey-hash spend. Let `P` be the P2WPKH program
of `hash160(K)`, let the unlocking script be the single push of `P`, which the script codec
reads back and the templates classify as a ScriptHash input with a WitnessPubKeyHash redeem
script, and let the templates classify the witness stack `[S, K]` as WitnessPubKeyHash. Then
`expandInput` returns a record with `witness` true, `prevOutType` ScriptHash,
`redeemScriptType` WitnessPubKeyHash, the redeem script `P`, `pubKeys = [K]` and
`signatures = [S]`. Signing an empty record directly with a key pair of the compressed key
`K` under the redeem script `P` returns and records `pubKeys = [K]` and one signature, with
the same `witness`, `prevOutType`, `redeemScript` and `redeemScriptType`; so when `S` is that
signature both records hold the same key and signature pair. -/
theorem expandInput_nested_witnessPubKeyHash (env : Collab) (K S : Buffer)
    (hne : env.compile [some (Chunk.buf (env.witnessPubKeyHashOutputEncode (env.hash160 K)))] ≠ [])
    (hrt : env.decompile
        (env.compile [some (Chunk.buf (env.witnessPubKeyHashOutputEncode (env.hash160 K)))]) =
      [Chunk.buf (env.witnessPubKeyHashOutputEncode (env.hash160 K))])
    (hci : env.classifyInput
      [Chunk.buf (env.witnessPubKeyHashOutputEncode (env.hash160 K))] true = ScriptType.P2SH)
    (hco : env.classifyOutput (env.witnessPubKeyHashOutputEncode (env.hash160 K)) =
      ScriptType.P2WPKH)
    (hcw : env.classifyWitness [Chunk.buf S, Chunk.buf K] true = ScriptType.P2WPKH) :
    ∃ input,
      expandInput env
          (env.compile [some (Chunk.buf (env.witnessPubKeyHashOutputEncode (env.hash160 K)))])
          [Chunk.buf S, Chunk.buf K] = Except.ok input ∧
      input.witness = some true ∧ input.prevOutType = some ScriptType.P2SH ∧
      input.redeemScriptType = some ScriptType.P2WPKH ∧
      input.redeemScript = some (env.witnessPubKeyHashOutputEncode (env.hash160 K)) ∧
      input.pubKeys = some [some (Chunk.buf K)] ∧
      input.signatures = some [some (Chunk.buf S)] ∧
      ∀ (s : TransactionBuilder) (vin : Nat) (keyPair : KeyPair) (ht : Option Nat) (d v : Nat),
        keyPair.publicKey = K → keyPair.d = some d → K.length = 33 →
        s.inputs[vin]? = some (some {}) →
        (keyPair.network = none ∨ keyPair.network = some s.network) →
        env.isSatoshi v = true →
        (env.decompile (env.witnessPubKeyHashOutputEncode (env.hash160 K)))[1]? =
          some (Chunk.buf (env.hash160 K)) →
        ∃ sig signed,
          sig = toScriptSignature
            (env.ecdsaSign (env.hashForWitnessV0 s.tx vin
              (env.pubKeyHashOutputEncode (env.witnessPubKeyHashOutputDecode
                (env.witnessPubKeyHashOutputEncode (env.hash160 K)))) v
              (defaultHashType ht)) d) (defaultHashType ht) ∧
          sign env s vin keyPair
              (some (env.witnessPubKeyHashOutputEncode (env.hash160 K))) ht (some v) none =
            (setInput s vin signed, Except.ok ()) ∧
          signed = nestedWitnessKeyRecord env K v (some (Chunk.buf sig)) ∧
          signed.witness = input.witness ∧ signed.prevOutType = input.prevOutType ∧
          signed.redeemScriptType = input.redeemScriptType ∧
          signed.redeemScript = input.redeemScript ∧
          signed.pubKeys = input.pubKeys ∧
          signed.signatures = some [some (Chunk.buf sig)] ∧
          (S = sig → signed.signatures = input.signatures) := by
  have hexp : expandInput env
      (env.compile [some (Chunk.buf (env.witnessPubKeyHashOutputEncode (env.hash160 K)))])
      [Chunk.buf S, Chunk.buf K] =
      Except.ok
        { pubKeys := some [some (Chunk.buf K)], signatures := some [some (Chunk.buf S)],
          prevOutScript := some (env.scriptHashOutputEncode
            (env.hash160 (env.witnessPubKeyHashOutputEncode (env.hash160 K)))),
          prevOutType := some ScriptType.P2SH,
          signType := some ScriptType.P2PKH,
          signScript := some (env.witnessPubKeyHashOutputEncode (env.hash160 K)),
          witness := some true,
          redeemScript := some (env.witnessPubKeyHashOutputEncode (env.hash160 K)),
          redeemScriptType := some ScriptType.P2WPKH } := by
    have hlen : ¬ (env.compile
        [some (Chunk.buf (env.witnessPubKeyHashOutputEncode (env.hash160 K)))]).length = 0 := by
      intro h0
      exact hne (List.length_eq_zero.1 h0)
    unfold expandInput
    rw [if_neg (fun h => hlen h.1)]
    simp only [hrt, hci, hcw, lastBuffer, List.getLast?_singleton, decide_True, if_true,
      Option.map_some', hco]
    rw [if_neg (by rintro ⟨_, h2⟩; cases h2)]
    rw [if_neg (by decide)]
    simp only [List.getLast?_cons_cons, List.getLast?_singleton, if_neg hlen, ne_eq,
      not_true_eq_false, if_false, extractChunks, List.drop_succ_cons, List.drop_zero,
      List.map_cons, List.map_nil, List.take_succ_cons, List.take_zero]
  refine ⟨_, hexp, rfl, rfl, rfl, rfl, rfl, rfl, ?_⟩
  intro s vin keyPair ht d v hK hd hk hi hnet hv hcodec
  subst hK
  refine ⟨_, _, rfl, sign_nested env s vin keyPair ht d v hi hnet hd hk hv hco hcodec, rfl,
    rfl, rfl, rfl, rfl, rfl, rfl, ?_⟩
  intro hS
  rw [hS]
  rfl

set_option maxRecDepth 8192 in
theorem expandInput_nested_witnessPubKeyHash_witness :
    ∃ input signed,
      expandInput demo (demo.compile [some (Chunk.buf demoKeyProgram)])
        [Chunk.buf demoNestedSignature, Chunk.buf (demoPubKey 5)] = Except.ok input ∧
      input.witness = some true ∧ input.prevOutType = some ScriptType.P2SH ∧
      input.redeemScriptType = some ScriptType.P2WPKH ∧
      input.pubKeys = some [some (Chunk.buf (demoPubKey 5))] ∧
      input.signatures = some [some (Chunk.buf demoNestedSignature)] ∧
      sign demo demoInOut 0 (demoKeyPair 5) (some demoKeyProgram) none (some 1000) none =
        (setInput demoInOut 0 signed, Except.ok ()) ∧
      signed.pubKeys = input.pubKeys ∧ signed.signatures = input.signatures := by
  obtain ⟨input, h1, h2, h3, h4, _, h6, h7, hsign⟩ :=
    expandInput_nested_witnessPubKeyHash demo (demoPubKey 5) demoNestedSignature
      (by decide) (by decide) (by decide) (by decide) (by decide)
  obtain ⟨sig, signed, hsig, hs, _, _, _, _, _, g1, _, g3⟩ :=
    hsign demoInOut 0 (demoKeyPair 5) none 5 1000 rfl rfl (by decide) (by decide)
      (Or.inl rfl) (by decide) (by decide)
  exact ⟨input, signed, h1, h2, h3, h4, h6, h7, hs, g1, g3 (by rw [hsig]; rfl)⟩

/-! ## `build` and `buildIncomplete` leave the builder as it is -/

theorem buildWith_loop (env : Collab) (s : TransactionBuilder) (a : Bool) (tx : Transaction)
    (h : buildWith env s a = Except.ok tx) :
    buildLoop env a s.inputs 0 s.tx = Except.ok tx := by
  unfold buildWith at h
  split at h
  · cases h
  · split at h
    · cases h
    · cases hl : buildLoop env a s.inputs 0 s.tx with
      | error e => simp only [hl] at h; cases h
      | ok tx1 =>
        simp only [hl] at h
        split at h
        · cases h
        · cases h
          rfl

theorem store_extends_refl (m : Store) : Store.Extends m m :=
  ⟨Nat.le_refl _, fun _ _ => rfl⟩

theorem store_extends_trans (m0 m1 m2 : Store) (h1 : Store.Extends m0 m1)
    (h2 : Store.Extends m1 m2) : Store.Extends m0 m2 :=
  ⟨Nat.le_trans h1.1 h2.1, fun p hp => by
    rw [h2.2 p (Nat.lt_of_lt_of_le hp h1.1), h1.2 p hp]⟩

theorem store_extends_alloc (m : Store) (o : Obj) : Store.Extends m (Store.alloc m o).1 := by
  unfold Store.alloc
  refine ⟨by simp, fun p hp => ?_⟩
  simp only
  rw [List.getElem?_append_left hp]

theorem store_alloc_length (m : Store) (o : Obj) :
    (Store.alloc m o).1.length = m.length + 1 := by
  unfold Store.alloc
  simp

theorem store_alloc_get (m : Store) (o : Obj) :
    (Store.alloc m o).1[(Store.alloc m o).2]? = some o := by
  unfold Store.alloc
  simp

theorem store_extends_set (m0 m : Store) (a : Nat) (o : Obj) (h : Store.Extends m0 m)
    (ha : m0.length ≤ a) : Store.Extends m0 (m.set a o) := by
  refine ⟨by rw [List.length_set]; exact h.1, fun p hp => ?_⟩
  rw [List.getElem?_set_ne (by omega)]
  exact h.2 p hp

theorem store_extends_get (m m1 : Store) (p : Nat) (o : Obj) (h : Store.Extends m m1)
    (hp : m[p]? = some o) : m1[p]? = some o := by
  rw [h.2 p (getElem?_lt _ _ _ hp)]
  exact hp

theorem store_array_lt (m : Store) (a : Nat) (elems : List Slot)
    (h : Store.array m a = some elems) : a < m.length := by
  unfold Store.array at h
  cases hg : m[a]? with
  | none => rw [hg] at h; cases h
  | some o => exact getElem?_lt _ _ _ hg

theorem store_array_get (m : Store) (a : Nat) (elems : List Slot) :
    Store.array m a = some elems ↔ m[a]? = some (Obj.array elems) := by
  unfold Store.array
  constructor
  · intro h
    split at h
    · rename_i e heq
      cases h
      exact heq
    · cases h
  · intro h
    rw [h]

theorem store_array_extends (m m1 : Store) (a : Nat) (elems : List Slot)
    (h : Store.Extends m m1) (ha : Store.array m a = some elems) :
    Store.array m1 a = some elems :=
  (store_array_get m1 a elems).2
    (store_extends_get m m1 a _ h ((store_array_get m a elems).1 ha))

theorem store_array_alloc (m : Store) (elems : List Slot) :
    Store.array (Store.alloc m (Obj.array elems)).1 (Store.alloc m (Obj.array elems)).2 =
      some elems :=
  (store_array_get _ _ _).2 (store_alloc_get m _)

theorem store_alloc_snd (m : Store) (o : Obj) : (Store.alloc m o).2 = m.length := rfl

/-- What `buildStack` over the store does: it makes new objects only, and it returns what
`buildStack` returns on the content of the arrays, in a new array. -/
theorem store_buildStack_spec (env : Collab) (m : Store) (type : Option ScriptType)
    (signatures pubKeys : Option Nat) (a : Bool) :
    Store.Extends m (Store.buildStack env m type signatures pubKeys a).1 ∧
    (match (Store.buildStack env m type signatures pubKeys a).2 with
      | Except.error e =>
        buildStack env type (signatures.bind (Store.array m)) (pubKeys.bind (Store.array m))
          a = Except.error e
      | Except.ok addr =>
        m.length ≤ addr ∧
        ∃ stack, buildStack env type (signatures.bind (Store.array m))
            (pubKeys.bind (Store.array m)) a = Except.ok stack ∧
          Store.array (Store.buildStack env m type signatures pubKeys a).1 addr =
            some (stack.map some)) := by
  have hinc : ∀ (v : Except Err (List Chunk)),
      v = (if a = true then Except.ok [] else Except.error Err.notEnoughSignatures) →
      Store.Extends m (if a = true then
          ((Store.alloc m (Obj.array [])).1, (Except.ok (Store.alloc m (Obj.array [])).2 :
            Except Err Nat))
        else (m, Except.error Err.notEnoughSignatures)).1 ∧
      (match (if a = true then
          ((Store.alloc m (Obj.array [])).1, (Except.ok (Store.alloc m (Obj.array [])).2 :
            Except Err Nat))
        else (m, Except.error Err.notEnoughSignatures)).2 with
      | Except.error e => v = Except.error e
      | Except.ok addr =>
        m.length ≤ addr ∧
        ∃ stack, v = Except.ok stack ∧
          Store.array (if a = true then
              ((Store.alloc m (Obj.array [])).1,
                (Except.ok (Store.alloc m (Obj.array [])).2 : Except Err Nat))
            else (m, Except.error Err.notEnoughSignatures)).1 addr = some (stack.map some)) := by
    intro v hv
    cases a with
    | true =>
      simp only [if_true] at hv ⊢
      exact ⟨store_extends_alloc m _, Nat.le_refl _, [], hv, store_array_alloc m []⟩
    | false =>
      simp only [Bool.false_eq_true, if_false] at hv ⊢
      exact ⟨store_extends_refl m, hv⟩
  have hnew : ∀ (stack : List Chunk),
      Store.Extends m (Store.alloc m (Obj.array (stack.map some))).1 ∧
      m.length ≤ (Store.alloc m (Obj.array (stack.map some))).2 ∧
      ∃ st, (Except.ok stack : Except Err (List Chunk)) = Except.ok st ∧
        Store.array (Store.alloc m (Obj.array (stack.map some))).1
          (Store.alloc m (Obj.array (stack.map some))).2 = some (st.map some) :=
    fun stack => ⟨store_extends_alloc m _, Nat.le_refl _, stack, rfl, store_array_alloc m _⟩
  rcases type with _ | t
  · exact ⟨store_extends_refl m, rfl⟩
  · cases t
    case P2SH => exact ⟨store_extends_refl m, rfl⟩
    case P2WPKH => exact ⟨store_extends_refl m, rfl⟩
    case P2WSH => exact ⟨store_extends_refl m, rfl⟩
    case NONSTANDARD => exact ⟨store_extends_refl m, rfl⟩
    case P2PKH =>
      unfold Store.buildStack buildStack
      simp only
      rcases signatures.bind (Store.array m) with _ | sigs
      · exact ⟨store_extends_refl m, rfl⟩
      · rcases sigs with _ | ⟨sl, rest⟩
        · exact hinc _ rfl
        · rcases sl with _ | ⟨b | n⟩
          · rcases rest with _ | ⟨x, rest⟩ <;> exact hinc _ rfl
          · rcases rest with _ | ⟨x, rest⟩
            · rcases pubKeys.bind (Store.array m) with _ | pks
              · exact ⟨store_extends_refl m, rfl⟩
              · rcases pks with _ | ⟨pk, _ | ⟨y, rest2⟩⟩
                · exact hinc _ rfl
                · exact hnew _
                · exact hinc _ rfl
            · exact hinc _ rfl
          · rcases rest with _ | ⟨x, rest⟩ <;> exact hinc _ rfl
    case P2PK =>
      unfold Store.buildStack buildStack
      simp only
      rcases signatures.bind (Store.array m) with _ | sigs
      · exact ⟨store_extends_refl m, rfl⟩
      · rcases sigs with _ | ⟨sl, rest⟩
        · exact hinc _ rfl
        · rcases sl with _ | ⟨b | n⟩
          · rcases rest with _ | ⟨x, rest⟩ <;> exact hinc _ rfl
          · rcases rest with _ | ⟨x, rest⟩
            · exact hnew _
            · exact hinc _ rfl
          · rcases rest with _ | ⟨x, rest⟩ <;> exact hinc _ rfl
    case MULTISIG =>
      unfold Store.buildStack buildStack
      simp only
      rcases signatures.bind (Store.array m) with _ | sigs
      · exact ⟨store_extends_refl m, rfl⟩
      · rcases sigs with _ | ⟨sl, rest⟩
        · exact hinc _ rfl
        · simp only
          cases a with
          | true =>
            simp only [if_true]
            refine ⟨store_extends_trans _ _ _ (store_extends_alloc m _)
              (store_extends_alloc _ _), ?_, _, rfl, store_array_alloc _ _⟩
            rw [store_alloc_snd, store_alloc_length]
            omega
          | false =>
            simp only [Bool.false_eq_true, if_false]
            refine ⟨store_extends_trans _ _ _ (store_extends_alloc m _)
              (store_extends_trans _ _ _ (store_extends_alloc _ _)
                (store_extends_alloc _ _)), ?_, _, rfl, store_array_alloc _ _⟩
            rw [store_alloc_snd, store_alloc_length, store_alloc_length]
            omega

theorem store_readSlots_bind (m : Store) (ref : Option Nat) (v : Option (List Slot))
    (h : Store.readSlots m ref = some v) : ref.bind (Store.array m) = v := by
  unfold Store.readSlots at h
  cases ref with
  | none => cases h; rfl
  | some a =>
    simp only at h
    cases ha : Store.array m a with
    | none => rw [ha] at h; cases h
    | some elems =>
      rw [ha] at h
      cases h
      simpa using ha

theorem store_readSlots_extends (m m1 : Store) (ref : Option Nat) (v : Option (List Slot))
    (he : Store.Extends m m1) (h : Store.readSlots m ref = some v) :
    Store.readSlots m1 ref = some v := by
  unfold Store.readSlots at h ⊢
  cases ref with
  | none => exact h
  | some a =>
    simp only at h ⊢
    cases ha : Store.array m a with
    | none => rw [ha] at h; cases h
    | some elems =>
      rw [ha] at h
      rw [store_array_extends m m1 a elems he ha]
      exact h

/-- The record that a record object stands for has the scalar properties of the object, and
its `pubKeys` and `signatures` are the content of the arrays the object refers to. -/
theorem store_readInput_fields (m : Store) (r : InputObject) (iv : Input)
    (h : Store.readInput m r = some iv) :
    r.signatures.bind (Store.array m) = iv.signatures ∧
    r.pubKeys.bind (Store.array m) = iv.pubKeys ∧
    r.prevOutType = iv.prevOutType ∧ r.redeemScript = iv.redeemScript ∧
    r.redeemScriptType = iv.redeemScriptType ∧ r.witnessScript = iv.witnessScript ∧
    r.witnessScriptType = iv.witnessScriptType ∧ r.value = iv.value := by
  unfold Store.readInput at h
  cases hp : Store.readSlots m r.pubKeys with
  | none => rw [hp] at h; cases h
  | some p =>
    cases hs : Store.readSlots m r.signatures with
    | none => rw [hp, hs] at h; cases h
    | some s =>
      rw [hp, hs] at h
      cases h
      exact ⟨store_readSlots_bind m _ _ hs, store_readSlots_bind m _ _ hp, rfl, rfl, rfl, rfl,
        rfl, rfl⟩

theorem store_readInput_extends (m m1 : Store) (r : InputObject) (iv : Input)
    (he : Store.Extends m m1) (h : Store.readInput m r = some iv) :
    Store.readInput m1 r = some iv := by
  unfold Store.readInput at h ⊢
  cases hp : Store.readSlots m r.pubKeys with
  | none => rw [hp] at h; cases h
  | some p =>
    cases hs : Store.readSlots m r.signatures with
    | none => rw [hp, hs] at h; cases h
    | some s =>
      rw [hp, hs] at h
      rw [store_readSlots_extends m m1 _ _ he hp, store_readSlots_extends m m1 _ _ he hs]
      exact h

theorem store_array_set_self (m : Store) (a : Nat) (elems : List Slot) (h : a < m.length) :
    Store.array (m.set a (Obj.array elems)) a = some elems := by
  unfold Store.array
  rw [List.getElem?_set_self h]

theorem store_array_set_ne (m : Store) (a b : Nat) (o : Obj) (h : a ≠ b) :
    Store.array (m.set a o) b = Store.array m b := by
  unfold Store.array
  rw [List.getElem?_set_ne h]

/-- The call `push` on an array of the store: the array gets the element, and every object
made before the array is left as it was. -/
theorem store_push_spec (m : Store) (a : Nat) (x : Slot) :
    (∀ m0, Store.Extends m0 m → m0.length ≤ a → Store.Extends m0 (Store.push m a x).1) ∧
    (∀ elems, Store.array m a = some elems →
      Store.push m a x = (m.set a (Obj.array (elems ++ [x])), Except.ok ()) ∧
      Store.array (Store.push m a x).1 a = some (elems ++ [x]) ∧
      ∀ b, b ≠ a → Store.array (Store.push m a x).1 b = Store.array m b) := by
  constructor
  · intro m0 he ha
    unfold Store.push
    cases Store.array m a with
    | none => exact he
    | some elems => exact store_extends_set m0 m a _ he ha
  · intro elems h
    unfold Store.push
    rw [h]
    exact ⟨rfl, store_array_set_self m a _ (store_array_lt m a elems h),
      fun b hb => store_array_set_ne m a b _ (fun hh => hb hh.symm)⟩

/-- The `switch` of `buildInput` over the store: it leaves every object made before it as it
was, the witness it returns is the array given or a new one, and it returns what the
`switch` returns on the record that the object stands for. -/
theorem store_buildInputWitness_spec (env : Collab) (m : Store) (r : InputObject)
    (witness : Nat) (t : Option ScriptType) (a : Bool) :
    Store.Extends m (Store.buildInputWitness env m r witness t a).1 ∧
    (match (Store.buildInputWitness env m r witness t a).2 with
      | Except.error e =>
        ∀ iv, Store.readInput m r = some iv → buildInputWitness env iv t a = Except.error e
      | Except.ok (w, t1) =>
        (w = witness ∨ m.length ≤ w) ∧
        ∀ iv, Store.readInput m r = some iv → Store.array m witness = some [] →
          ∃ wv, buildInputWitness env iv t a = Except.ok (wv, t1) ∧
            Store.array (Store.buildInputWitness env m r witness t a).1 w = some wv) := by
  have hkeep : Store.Extends m m ∧
      ((witness = witness ∨ m.length ≤ witness) ∧
        ∀ iv, Store.readInput m r = some iv → Store.array m witness = some [] →
          ∃ wv, (Except.ok ([], t) : Except Err (List Slot × Option ScriptType)) =
              Except.ok (wv, t) ∧ Store.array m witness = some wv) :=
    ⟨store_extends_refl m, Or.inl rfl, fun iv _ hw => ⟨[], rfl, hw⟩⟩
  rcases t with _ | t
  · exact hkeep
  · cases t
    case P2PKH => exact hkeep
    case P2PK => exact hkeep
    case MULTISIG => exact hkeep
    case P2SH => exact hkeep
    case NONSTANDARD => exact hkeep
    case P2WPKH =>
      have hs := store_buildStack_spec env m (some ScriptType.P2PKH) r.signatures r.pubKeys a
      unfold Store.buildInputWitness
      simp only
      rcases hbs : Store.buildStack env m (some ScriptType.P2PKH) r.signatures r.pubKeys a with
        ⟨m1, e | addr⟩
      · rw [hbs] at hs
        simp only at hs ⊢
        refine ⟨hs.1, fun iv hiv => ?_⟩
        obtain ⟨f1, f2, _⟩ := store_readInput_fields m r iv hiv
        unfold buildInputWitness
        simp only
        rw [← f1, ← f2, hs.2]
      · rw [hbs] at hs
        simp only at hs ⊢
        obtain ⟨he, hle, stack, hv, harr⟩ := hs
        refine ⟨he, Or.inr hle, fun iv hiv _ => ?_⟩
        obtain ⟨f1, f2, _⟩ := store_readInput_fields m r iv hiv
        unfold buildInputWitness
        simp only
        rw [← f1, ← f2, hv]
        exact ⟨_, rfl, harr⟩
    case P2WSH =>
      unfold Store.buildInputWitness
      simp only
      by_cases hstrict : a = false ∧ supportedType r.witnessScriptType = false
      · rw [if_pos hstrict]
        refine ⟨store_extends_refl m, fun iv hiv => ?_⟩
        obtain ⟨_, _, _, _, _, _, f7, _⟩ := store_readInput_fields m r iv hiv
        unfold buildInputWitness
        simp only
        rw [← f7, if_pos hstrict]
      · rw [if_neg hstrict]
        by_cases hsup : supportedType r.witnessScriptType = true
        · rw [if_pos hsup]
          have hs := store_buildStack_spec env m r.witnessScriptType r.signatures r.pubKeys a
          rcases hbs : Store.buildStack env m r.witnessScriptType r.signatures r.pubKeys a with
            ⟨m1, e | addr⟩
          · rw [hbs] at hs
            simp only at hs ⊢
            refine ⟨hs.1, fun iv hiv => ?_⟩
            obtain ⟨f1, f2, _, _, _, _, f7, _⟩ := store_readInput_fields m r iv hiv
            unfold buildInputWitness
            simp only
            rw [← f7, if_neg hstrict, if_pos hsup, ← f1, ← f2, hs.2]
          · rw [hbs] at hs
            simp only at hs ⊢
            obtain ⟨he, hle, stack, hv, harr⟩ := hs
            obtain ⟨hp1, hp2⟩ := store_push_spec m1 addr (r.witnessScript.map Chunk.buf)
            obtain ⟨hpe, hpa, _⟩ := hp2 _ harr
            rw [hpe]
            simp only
            refine ⟨?_, Or.inr hle, fun iv hiv _ => ?_⟩
            · have := hp1 m he hle
              rw [hpe] at this
              exact this
            · obtain ⟨f1, f2, _, _, _, f6, f7, _⟩ := store_readInput_fields m r iv hiv
              unfold buildInputWitness
              simp only
              rw [← f7, if_neg hstrict, if_pos hsup, ← f1, ← f2, hv, ← f6]
              rw [hpe] at hpa
              exact ⟨_, rfl, hpa⟩
        · rw [if_neg hsup]
          refine ⟨store_extends_refl m, Or.inl rfl, fun iv hiv hw => ?_⟩
          obtain ⟨_, _, _, _, _, _, f7, _⟩ := store_readInput_fields m r iv hiv
          unfold buildInputWitness
          simp only
          rw [← f7, if_neg hstrict, if_neg hsup]
          exact ⟨[], rfl, hw⟩

/-- The end of `buildInput` over the store: the only array it writes to besides new ones is
`sig`, and it returns what the `switch` and the `push` of the redeem script give on the
record that the object stands for. -/
theorem store_buildInputEnd_spec (env : Collab) (m : Store) (r : InputObject)
    (sig witness : Nat) (t : Option ScriptType) (p2sh a : Bool) :
    (∀ m0, Store.Extends m0 m → m0.length ≤ sig →
      Store.Extends m0 (Store.buildInputEnd env m r sig witness t p2sh a).1) ∧
    (match (Store.buildInputEnd env m r sig witness t p2sh a).2 with
      | Except.error e =>
        ∀ iv sigS, Store.readInput m r = some iv → Store.array m sig = some sigS →
          buildInputWitness env iv t a = Except.error e
      | Except.ok b =>
        (b.witness = witness ∨ m.length ≤ b.witness) ∧
        ∀ iv sigS, Store.readInput m r = some iv → Store.array m witness = some [] →
          Store.array m sig = some sigS → sig ≠ witness →
          ∃ wv, buildInputWitness env iv t a = Except.ok (wv, b.type) ∧
            b.script = env.compile
              (if p2sh then sigS ++ [iv.redeemScript.map Chunk.buf] else sigS) ∧
            Store.array (Store.buildInputEnd env m r sig witness t p2sh a).1 b.witness =
              some wv) := by
  have hw := store_buildInputWitness_spec env m r witness t a
  unfold Store.buildInputEnd
  rcases hbw : Store.buildInputWitness env m r witness t a with ⟨m1, e | ⟨w, t1⟩⟩
  · rw [hbw] at hw
    simp only at hw ⊢
    exact ⟨fun m0 h0 _ => store_extends_trans m0 m m1 h0 hw.1,
      fun iv sigS hiv _ => hw.2 iv hiv⟩
  · rw [hbw] at hw
    simp only at hw ⊢
    obtain ⟨he, hwit, hval⟩ := hw
    cases p2sh with
    | false =>
      simp only [Bool.false_eq_true, if_false]
      refine ⟨fun m0 h0 _ => store_extends_trans m0 m m1 h0 he, hwit,
        fun iv sigS hiv hwa hsa _ => ?_⟩
      obtain ⟨wv, h1, h2⟩ := hval iv hiv hwa
      refine ⟨wv, h1, ?_, h2⟩
      rw [store_array_extends m m1 sig sigS he hsa]
      rfl
    | true =>
      simp only [if_true]
      obtain ⟨hp1, hp2⟩ := store_push_spec m1 sig (r.redeemScript.map Chunk.buf)
      cases hps : Store.array m1 sig with
      | none =>
        have hpush : Store.push m1 sig (r.redeemScript.map Chunk.buf) =
            (m1, Except.error Err.typeError) := by
          unfold Store.push
          rw [hps]
        rw [hpush]
        simp only
        refine ⟨fun m0 h0 _ => store_extends_trans m0 m m1 h0 he, fun iv sigS hiv hsa => ?_⟩
        rw [store_array_extends m m1 sig sigS he hsa] at hps
        cases hps
      | some elems =>
        obtain ⟨hpe, hpa, hpo⟩ := hp2 elems hps
        have hfr := fun m0 h0 hs => hp1 m0 (store_extends_trans m0 m m1 h0 he) hs
        rw [hpe] at hfr hpa hpo ⊢
        simp only at hfr hpa hpo ⊢
        refine ⟨hfr, hwit, fun iv sigS hiv hwa hsa hne => ?_⟩
        obtain ⟨wv, h1, h2⟩ := hval iv hiv hwa
        have hsl : sig < m.length := store_array_lt m sig sigS hsa
        have hel : elems = sigS := by
          rw [store_array_extends m m1 sig sigS he hsa] at hps
          cases hps
          rfl
        obtain ⟨_, _, _, f4, _⟩ := store_readInput_fields m r iv hiv
        refine ⟨wv, h1, ?_, ?_⟩
        · rw [hpa, hel, f4]
          rfl
        · rw [hpo w (by
            rcases hwit with hh | hh
            · rw [hh]
              exact fun h => hne h.symm
            · omega)]
          exact h2

/-- The function `buildInput` over the store: it leaves every object made before the call
as it was, and it returns what `buildInput` returns on the record that the object stands
for, with the witness in a new array. -/
theorem store_buildInput_spec (env : Collab) (m : Store) (r : InputObject) (a : Bool) :
    Store.Extends m (Store.buildInput env m r a).1 ∧
    (match (Store.buildInput env m r a).2 with
      | Except.error e =>
        ∀ iv, Store.readInput m r = some iv → buildInput env iv a = Except.error e
      | Except.ok b =>
        m.length ≤ b.witness ∧
        ∀ iv, Store.readInput m r = some iv →
          ∃ wv, buildInput env iv a = Except.ok ⟨b.type, b.script, wv⟩ ∧
            Store.array (Store.buildInput env m r a).1 b.witness = some wv) := by
  -- the two arrays `sig = []` and `witness = []`
  have e1 : Store.Extends m (Store.alloc m (Obj.array [])).1 := store_extends_alloc m _
  have e2 : Store.Extends m (Store.alloc (Store.alloc m (Obj.array [])).1 (Obj.array [])).1 :=
    store_extends_trans _ _ _ e1 (store_extends_alloc _ _)
  have l2 : (Store.alloc (Store.alloc m (Obj.array [])).1 (Obj.array [])).1.length =
      m.length + 2 := by
    rw [store_alloc_length, store_alloc_length]
  have hsigA : Store.array (Store.alloc (Store.alloc m (Obj.array [])).1 (Obj.array [])).1
      (Store.alloc m (Obj.array [])).2 = some [] :=
    store_array_extends _ _ _ _ (store_extends_alloc _ _) (store_array_alloc m [])
  have hwitA : Store.array (Store.alloc (Store.alloc m (Obj.array [])).1 (Obj.array [])).1
      (Store.alloc (Store.alloc m (Obj.array [])).1 (Obj.array [])).2 = some [] :=
    store_array_alloc _ []
  have hsigV : (Store.alloc m (Obj.array [])).2 = m.length := rfl
  have hwitV : (Store.alloc (Store.alloc m (Obj.array [])).1 (Obj.array [])).2 =
      m.length + 1 := by
    rw [store_alloc_snd, store_alloc_length]
  generalize hmw : (Store.alloc (Store.alloc m (Obj.array [])).1 (Obj.array [])).1 = mw
    at e2 l2 hsigA hwitA
  generalize hwa : (Store.alloc (Store.alloc m (Obj.array [])).1 (Obj.array [])).2 = wit
    at hwitA hwitV
  generalize hsa : (Store.alloc m (Obj.array [])).2 = sg at hsigA hsigV
  -- the end of the function, from a store `m1` that extends `mw`
  have hend : ∀ (m1 : Store) (sig : Nat) (stack : List Chunk) (t : Option ScriptType)
      (p2sh : Bool), Store.Extends mw m1 → Store.array m1 sig = some (stack.map some) →
      sig ≠ wit → m.length ≤ sig →
      Store.Extends m (Store.buildInputEnd env m1 r sig wit t p2sh a).1 ∧
      (match (Store.buildInputEnd env m1 r sig wit t p2sh a).2 with
        | Except.error e =>
          ∀ iv, Store.readInput m r = some iv → buildInputWitness env iv t a = Except.error e
        | Except.ok b =>
          m.length ≤ b.witness ∧
          ∀ iv, Store.readInput m r = some iv →
            ∃ wv, buildInputWitness env iv t a = Except.ok (wv, b.type) ∧
              b.script = env.compile
                (if p2sh then stack.map some ++ [iv.redeemScript.map Chunk.buf]
                  else stack.map some) ∧
              Store.array (Store.buildInputEnd env m1 r sig wit t p2sh a).1 b.witness =
                some wv) := by
    intro m1 sig stack t p2sh he hs hne hle
    have hm1 : Store.Extends m m1 := store_extends_trans _ _ _ e2 he
    obtain ⟨hf, hv⟩ := store_buildInputEnd_spec env m1 r sig wit t p2sh a
    refine ⟨hf m hm1 hle, ?_⟩
    rcases hR : (Store.buildInputEnd env m1 r sig wit t p2sh a).2 with e | b
    · rw [hR] at hv
      simp only at hv ⊢
      exact fun iv hiv => hv iv _ (store_readInput_extends m m1 r iv hm1 hiv) hs
    · rw [hR] at hv
      simp only at hv ⊢
      refine ⟨?_, fun iv hiv => hv.2 iv _ (store_readInput_extends m m1 r iv hm1 hiv)
        (store_array_extends mw m1 wit [] he hwitA) hs hne⟩
      rcases hv.1 with hh | hh
      · rw [hh, hwitV]
        omega
      · have := hm1.1
        omega
  unfold Store.buildInput
  simp only [hmw, hwa, hsa]
  -- the first call of `buildStack`
  have h0 : ∀ (t : Option ScriptType) (mp : Store) (sp : Nat) (stp : List Chunk),
      Store.Extends mw mp → Store.array mp sp = some (stp.map some) → sp ≠ wit →
      m.length ≤ sp →
      Store.Extends mw (if supportedType t = true then
          Store.buildStack env mp t r.signatures r.pubKeys a else (mp, Except.ok sp)).1 ∧
      (match (if supportedType t = true then
          Store.buildStack env mp t r.signatures r.pubKeys a else (mp, Except.ok sp)).2 with
        | Except.error e =>
          ∀ iv, Store.readInput m r = some iv →
            (if supportedType t = true then buildStack env t iv.signatures iv.pubKeys a
              else Except.ok stp) = Except.error e
        | Except.ok sig =>
          sig ≠ wit ∧ m.length ≤ sig ∧
          ∃ stack, Store.array (if supportedType t = true then
              Store.buildStack env mp t r.signatures r.pubKeys a
                else (mp, Except.ok sp)).1 sig = some (stack.map some) ∧
            ∀ iv, Store.readInput m r = some iv →
              (if supportedType t = true then buildStack env t iv.signatures iv.pubKeys a
                else Except.ok stp) = Except.ok stack) := by
    intro t mp sp stp he hs hne hle
    have hmp : Store.Extends m mp := store_extends_trans _ _ _ e2 he
    by_cases hsup : supportedType t = true
    · simp only [if_pos hsup]
      obtain ⟨hf, hv⟩ := store_buildStack_spec env mp t r.signatures r.pubKeys a
      refine ⟨store_extends_trans _ _ _ he hf, ?_⟩
      rcases hR : (Store.buildStack env mp t r.signatures r.pubKeys a).2 with e | sig
      · rw [hR] at hv
        simp only at hv ⊢
        intro iv hiv
        obtain ⟨f1, f2, _⟩ := store_readInput_fields mp r iv
          (store_readInput_extends m mp r iv hmp hiv)
        rw [← f1, ← f2]
        exact hv
      · rw [hR] at hv
        simp only at hv ⊢
        obtain ⟨hge, stack, hval, harr⟩ := hv
        have := he.1
        refine ⟨by rw [hwitV]; omega, by omega, stack, harr, fun iv hiv => ?_⟩
        obtain ⟨f1, f2, _⟩ := store_readInput_fields mp r iv
          (store_readInput_extends m mp r iv hmp hiv)
        rw [← f1, ← f2]
        exact hval
    · simp only [if_neg hsup]
      exact ⟨he, hne, hle, stp, hs, fun _ _ => rfl⟩
  obtain ⟨hf0, hv0⟩ := h0 r.prevOutType mw sg [] (store_extends_refl mw) hsigA
    (by rw [hsigV, hwitV]; omega) (by rw [hsigV])
  rcases hR0 : (if supportedType r.prevOutType = true then
      Store.buildStack env mw r.prevOutType r.signatures r.pubKeys a
      else (mw, Except.ok sg)) with ⟨m1, e | sig0⟩
  · rw [hR0] at hf0 hv0
    simp only at hf0 hv0 ⊢
    refine ⟨store_extends_trans _ _ _ e2 hf0, fun iv hiv => ?_⟩
    obtain ⟨_, _, f3, _⟩ := store_readInput_fields m r iv hiv
    have := hv0 iv hiv
    rw [f3] at this
    unfold buildInput
    simp only
    rw [this]
  · rw [hR0] at hf0 hv0
    simp only at hf0 hv0 ⊢
    obtain ⟨hne0, hle0, stack0, harr0, hval0⟩ := hv0
    by_cases hsh : r.prevOutType = some ScriptType.P2SH
    · rw [if_pos hsh]
      by_cases hstrict : a = false ∧ supportedP2SHType r.redeemScriptType = false
      · rw [if_pos hstrict]
        refine ⟨store_extends_trans _ _ _ e2 hf0, fun iv hiv => ?_⟩
        obtain ⟨_, _, f3, _, f5, _⟩ := store_readInput_fields m r iv hiv
        have := hval0 iv hiv
        rw [f3] at this hsh
        rw [f5] at hstrict
        unfold buildInput
        simp only
        rw [this]
        simp only
        rw [if_pos hsh, if_pos hstrict]
      · rw [if_neg hstrict]
        obtain ⟨hf1, hv1⟩ := h0 r.redeemScriptType m1 sig0 stack0 hf0 harr0 hne0 hle0
        rcases hR1 : (if supportedType r.redeemScriptType = true then
            Store.buildStack env m1 r.redeemScriptType r.signatures r.pubKeys a
            else (m1, Except.ok sig0)) with ⟨m2, e | sig1⟩
        · rw [hR1] at hf1 hv1
          simp only at hf1 hv1 ⊢
          refine ⟨store_extends_trans _ _ _ e2 hf1, fun iv hiv => ?_⟩
          obtain ⟨_, _, f3, _, f5, _⟩ := store_readInput_fields m r iv hiv
          have h00 := hval0 iv hiv
          have h11 := hv1 iv hiv
          rw [f3] at h00 hsh
          rw [f5] at hstrict h11
          unfold buildInput
          simp only
          rw [h00]
          simp only
          rw [if_pos hsh, if_neg hstrict, h11]
        · rw [hR1] at hf1 hv1
          simp only at hf1 hv1 ⊢
          obtain ⟨hne1, hle1, stack1, harr1, hval1⟩ := hv1
          rcases hrt : r.redeemScriptType with _ | t
          · simp only
            obtain ⟨hfe, hve⟩ := hend m2 sig1 stack1 r.prevOutType false hf1 harr1 hne1 hle1
            refine ⟨hfe, ?_⟩
            rcases hRe : (Store.buildInputEnd env m2 r sig1 wit r.prevOutType false a).2 with
              e | b
            · rw [hRe] at hve
              simp only at hve ⊢
              intro iv hiv
              obtain ⟨_, _, f3, _, f5, _⟩ := store_readInput_fields m r iv hiv
              have h00 := hval0 iv hiv
              have h11 := hval1 iv hiv
              have hee := hve iv hiv
              rw [f3] at h00 hsh hee
              rw [f5] at hstrict h11 hrt
              unfold buildInput
              simp only
              rw [h00]
              simp only
              rw [if_pos hsh, if_neg hstrict, h11]
              simp only [hrt]
              rw [hee]
            · rw [hRe] at hve
              simp only at hve ⊢
              refine ⟨hve.1, fun iv hiv => ?_⟩
              obtain ⟨_, _, f3, _, f5, _⟩ := store_readInput_fields m r iv hiv
              have h00 := hval0 iv hiv
              have h11 := hval1 iv hiv
              obtain ⟨wv, hee, hsc, hwv⟩ := hve.2 iv hiv
              rw [f3] at h00 hsh hee
              rw [f5] at hstrict h11 hrt
              refine ⟨wv, ?_, hwv⟩
              unfold buildInput
              simp only
              rw [h00]
              simp only
              rw [if_pos hsh, if_neg hstrict, h11]
              simp only [hrt]
              rw [hee]
              simp only
              rw [hsc]
              rfl
          · simp only
            obtain ⟨hfe, hve⟩ := hend m2 sig1 stack1 (some t) true hf1 harr1 hne1 hle1
            refine ⟨hfe, ?_⟩
            rcases hRe : (Store.buildInputEnd env m2 r sig1 wit (some t) true a).2 with e | b
            · rw [hRe] at hve
              simp only at hve ⊢
              intro iv hiv
              obtain ⟨_, _, f3, _, f5, _⟩ := store_readInput_fields m r iv hiv
              have h00 := hval0 iv hiv
              have h11 := hval1 iv hiv
              have hee := hve iv hiv
              rw [f3] at h00 hsh
              rw [f5] at hstrict h11 hrt
              unfold buildInput
              simp only
              rw [h00]
              simp only
              rw [if_pos hsh, if_neg hstrict, h11]
              simp only [hrt]
              rw [hee]
            · rw [hRe] at hve
              simp only at hve ⊢
              refine ⟨hve.1, fun iv hiv => ?_⟩
              obtain ⟨_, _, f3, _, f5, _⟩ := store_readInput_fields m r iv hiv
              have h00 := hval0 iv hiv
              have h11 := hval1 iv hiv
              obtain ⟨wv, hee, hsc, hwv⟩ := hve.2 iv hiv
              rw [f3] at h00 hsh
              rw [f5] at hstrict h11 hrt
              refine ⟨wv, ?_, hwv⟩
              unfold buildInput
              simp only
              rw [h00]
              simp only
              rw [if_pos hsh, if_neg hstrict, h11]
              simp only [hrt]
              rw [hee]
              simp only
              rw [hsc]
              rfl
    · rw [if_neg hsh]
      obtain ⟨hfe, hve⟩ := hend m1 sig0 stack0 r.prevOutType false hf0 harr0 hne0 hle0
      refine ⟨hfe, ?_⟩
      rcases hRe : (Store.buildInputEnd env m1 r sig0 wit r.prevOutType false a).2 with e | b
      · rw [hRe] at hve
        simp only at hve ⊢
        intro iv hiv
        obtain ⟨_, _, f3, _⟩ := store_readInput_fields m r iv hiv
        have h00 := hval0 iv hiv
        have hee := hve iv hiv
        rw [f3] at h00 hsh hee
        unfold buildInput
        simp only
        rw [h00]
        simp only
        rw [if_neg hsh, hee]
      · rw [hRe] at hve
        simp only at hve ⊢
        refine ⟨hve.1, fun iv hiv => ?_⟩
        obtain ⟨_, _, f3, _⟩ := store_readInput_fields m r iv hiv
        have h00 := hval0 iv hiv
        obtain ⟨wv, hee, hsc, hwv⟩ := hve.2 iv hiv
        rw [f3] at h00 hsh hee
        refine ⟨wv, ?_, hwv⟩
        unfold buildInput
        simp only
        rw [h00]
        simp only
        rw [if_neg hsh, hee]
        simp only
        rw [hsc]
        rfl

theorem store_transaction_get (m : Store) (a : Nat) (t : Transaction) :
    Store.transaction m a = some t ↔ m[a]? = some (Obj.transaction t) := by
  unfold Store.transaction
  constructor
  · intro h
    split at h
    · rename_i e heq
      cases h
      exact heq
    · cases h
  · intro h
    rw [h]

theorem store_transaction_extends (m m1 : Store) (a : Nat) (t : Transaction)
    (h : Store.Extends m m1) (ha : Store.transaction m a = some t) :
    Store.transaction m1 a = some t :=
  (store_transaction_get m1 a t).2
    (store_extends_get m m1 a _ h ((store_transaction_get m a t).1 ha))

/-- A write to the transaction at address `tx` leaves the arrays of the store as they
were. -/
theorem store_set_transaction (m : Store) (tx : Nat) (t t1 : Transaction)
    (h : Store.transaction m tx = some t) :
    Store.transaction (m.set tx (Obj.transaction t1)) tx = some t1 ∧
    ∀ b, Store.array (m.set tx (Obj.transaction t1)) b = Store.array m b := by
  have hg := (store_transaction_get m tx t).1 h
  have hlt : tx < m.length := getElem?_lt _ _ _ hg
  refine ⟨?_, fun b => ?_⟩
  · unfold Store.transaction
    rw [List.getElem?_set_self hlt]
  · by_cases hb : tx = b
    · subst hb
      unfold Store.array
      rw [List.getElem?_set_self hlt, hg]
    · exact store_array_set_ne m tx b _ hb

theorem store_setInputScript_spec (m : Store) (tx i : Nat) (script : Buffer) :
    (∀ m0, Store.Extends m0 m → m0.length ≤ tx →
      Store.Extends m0 (Store.setInputScript m tx i script).1) ∧
    ∀ t, Store.transaction m tx = some t →
      (∀ b, Store.array (Store.setInputScript m tx i script).1 b = Store.array m b) ∧
      match (Store.setInputScript m tx i script).2 with
      | Except.error e =>
        t.setInputScript i script = Except.error e ∧
          Store.transaction (Store.setInputScript m tx i script).1 tx = some t
      | Except.ok _ =>
        ∃ t1, t.setInputScript i script = Except.ok t1 ∧
          Store.transaction (Store.setInputScript m tx i script).1 tx = some t1 := by
  constructor
  · intro m0 he hle
    unfold Store.setInputScript
    cases Store.transaction m tx with
    | none => exact he
    | some t =>
      simp only
      cases t.setInputScript i script with
      | error e => exact he
      | ok t1 => exact store_extends_set m0 m tx _ he hle
  · intro t ht
    unfold Store.setInputScript
    rw [ht]
    simp only
    cases hs : t.setInputScript i script with
    | error e => exact ⟨fun _ => rfl, rfl, ht⟩
    | ok t1 =>
      obtain ⟨h1, h2⟩ := store_set_transaction m tx t t1 ht
      exact ⟨h2, t1, rfl, h1⟩

theorem store_setWitness_spec (m : Store) (tx i witness : Nat) :
    (∀ m0, Store.Extends m0 m → m0.length ≤ tx →
      Store.Extends m0 (Store.setWitness m tx i witness).1) ∧
    ∀ t w, Store.transaction m tx = some t → Store.array m witness = some w →
      match (Store.setWitness m tx i witness).2 with
      | Except.error e => t.setWitness i w = Except.error e
      | Except.ok _ =>
        ∃ t1, t.setWitness i w = Except.ok t1 ∧
          Store.transaction (Store.setWitness m tx i witness).1 tx = some t1 := by
  constructor
  · intro m0 he hle
    unfold Store.setWitness
    cases Store.transaction m tx with
    | none => exact he
    | some t =>
      cases Store.array m witness with
      | none => exact he
      | some w =>
        simp only
        cases t.setWitness i w with
        | error e => exact he
        | ok t1 => exact store_extends_set m0 m tx _ he hle
  · intro t w ht hw
    unfold Store.setWitness
    rw [ht, hw]
    simp only
    cases hs : t.setWitness i w with
    | error e => rfl
    | ok t1 => exact ⟨t1, rfl, (store_set_transaction m tx t t1 ht).1⟩

/-- The callback of `__build` over the store: it writes to new objects and to the
transaction at `tx` only, and it does to that transaction what the callback does on the
record that the object stands for. -/
theorem store_buildOne_spec (env : Collab) (a : Bool) (m : Store) (tx i input : Nat) :
    (∀ m0, Store.Extends m0 m → m0.length ≤ tx →
      Store.Extends m0 (Store.buildOne env a m tx i input).1) ∧
    ∀ r iv t, Store.record m input = some r → Store.readInput m r = some iv →
      Store.transaction m tx = some t →
      match (Store.buildOne env a m tx i input).2 with
      | Except.error e => buildOne env a t i iv = Except.error e
      | Except.ok _ =>
        ∃ t1, buildOne env a t i iv = Except.ok t1 ∧
          Store.transaction (Store.buildOne env a m tx i input).1 tx = some t1 := by
  constructor
  · intro m0 he hle
    unfold Store.buildOne
    cases Store.record m input with
    | none => exact he
    | some r =>
      simp only
      split
      · exact he
      · obtain ⟨hf, _⟩ := store_buildInput_spec env m r a
        rcases hR : Store.buildInput env m r a with ⟨m1, e | b⟩
        · rw [hR] at hf
          exact store_extends_trans _ _ _ he hf
        · rw [hR] at hf
          simp only at hf ⊢
          have he1 := store_extends_trans _ _ _ he hf
          split
          · exact he1
          · obtain ⟨hs1, _⟩ := store_setInputScript_spec m1 tx i b.script
            have he2 := hs1 m0 he1 hle
            rcases hS : Store.setInputScript m1 tx i b.script with ⟨m2, e | u⟩
            · rw [hS] at he2
              exact he2
            · rw [hS] at he2
              simp only at he2 ⊢
              exact (store_setWitness_spec m2 tx i b.witness).1 m0 he2 hle
  · intro r iv t hr hiv ht
    obtain ⟨_, _, f3, _, f5, _, f7, _⟩ := store_readInput_fields m r iv hiv
    unfold Store.buildOne
    rw [hr]
    simp only
    by_cases hnc : ((r.witnessScriptType.orElse (fun _ => r.redeemScriptType)).orElse
        (fun _ => r.prevOutType)).isNone = true ∧ a = false
    · rw [if_pos hnc]
      simp only
      rw [f3, f5, f7] at hnc
      unfold buildOne buildChecked
      simp only
      rw [if_pos hnc]
    · rw [if_neg hnc]
      rw [f3, f5, f7] at hnc
      obtain ⟨hf, hv⟩ := store_buildInput_spec env m r a
      rcases hR : Store.buildInput env m r a with ⟨m1, e | b⟩
      · rw [hR] at hv
        simp only at hv ⊢
        have := hv iv hiv
        unfold buildOne buildChecked
        simp only
        rw [if_neg hnc, this]
      · rw [hR] at hf hv
        simp only at hf hv ⊢
        obtain ⟨hle, hval⟩ := hv
        obtain ⟨wv, hbi, hwv⟩ := hval iv hiv
        have ht1 : Store.transaction m1 tx = some t := store_transaction_extends m m1 tx t hf ht
        by_cases hns : a = false ∧ supportedType b.type = false ∧
            b.type ≠ some ScriptType.P2WPKH
        · rw [if_pos hns]
          simp only
          unfold buildOne buildChecked
          simp only
          rw [if_neg hnc, hbi]
          simp only
          rw [if_pos hns]
        · rw [if_neg hns]
          have hchk : buildChecked env a iv = Except.ok ⟨b.type, b.script, wv⟩ := by
            unfold buildChecked
            simp only
            rw [if_neg hnc, hbi]
            simp only
            rw [if_neg hns]
          obtain ⟨_, hs2⟩ := store_setInputScript_spec m1 tx i b.script
          obtain ⟨harrS, hvalS⟩ := hs2 t ht1
          rcases hS : Store.setInputScript m1 tx i b.script with ⟨m2, e | u⟩
          · rw [hS] at hvalS
            simp only at hvalS ⊢
            unfold buildOne
            rw [hchk]
            simp only
            rw [hvalS.1]
          · rw [hS] at hvalS harrS
            simp only at hvalS harrS ⊢
            obtain ⟨t1, hs1, htr1⟩ := hvalS
            have hw2 : Store.array m2 b.witness = some wv := by
              rw [harrS, hwv]
            have hsw := (store_setWitness_spec m2 tx i b.witness).2 t1 wv htr1 hw2
            rcases hW : (Store.setWitness m2 tx i b.witness).2 with e | u2
            · rw [hW] at hsw
              simp only at hsw ⊢
              unfold buildOne
              rw [hchk]
              simp only
              rw [hs1]
              exact hsw
            · rw [hW] at hsw
              simp only at hsw ⊢
              obtain ⟨t2, hsw1, hsw2⟩ := hsw
              refine ⟨t2, ?_, hsw2⟩
              unfold buildOne
              rw [hchk]
              simp only
              rw [hs1]
              exact hsw1

theorem store_record_get (m : Store) (a : Nat) (r : InputObject) :
    Store.record m a = some r ↔ m[a]? = some (Obj.record r) := by
  unfold Store.record
  constructor
  · intro h
    split at h
    · rename_i e heq
      cases h
      exact heq
    · cases h
  · intro h
    rw [h]

theorem store_record_extends (m m1 : Store) (a : Nat) (r : InputObject)
    (h : Store.Extends m m1) (ha : Store.record m a = some r) : Store.record m1 a = some r :=
  (store_record_get m1 a r).2 (store_extends_get m m1 a _ h ((store_record_get m a r).1 ha))

theorem store_records_get (m : Store) (a : Nat) (refs : List (Option Nat)) :
    Store.records m a = some refs ↔ m[a]? = some (Obj.records refs) := by
  unfold Store.records
  constructor
  · intro h
    split at h
    · rename_i e heq
      cases h
      exact heq
    · cases h
  · intro h
    rw [h]

theorem store_records_extends (m m1 : Store) (a : Nat) (refs : List (Option Nat))
    (h : Store.Extends m m1) (ha : Store.records m a = some refs) :
    Store.records m1 a = some refs :=
  (store_records_get m1 a refs).2
    (store_extends_get m m1 a _ h ((store_records_get m a refs).1 ha))

theorem store_map_get (m : Store) (a : Nat) (pm : List ((Buffer × Nat) × Nat)) :
    Store.map m a = some pm ↔ m[a]? = some (Obj.map pm) := by
  unfold Store.map
  constructor
  · intro h
    split at h
    · rename_i e heq
      cases h
      exact heq
    · cases h
  · intro h
    rw [h]

theorem store_map_extends (m m1 : Store) (a : Nat) (pm : List ((Buffer × Nat) × Nat))
    (h : Store.Extends m m1) (ha : Store.map m a = some pm) : Store.map m1 a = some pm :=
  (store_map_get m1 a pm).2 (store_extends_get m m1 a _ h ((store_map_get m a pm).1 ha))

theorem store_builder_get (m : Store) (a : Nat) (b : BuilderObject) :
    Store.builder m a = some b ↔ m[a]? = some (Obj.builder b) := by
  unfold Store.builder
  constructor
  · intro h
    split at h
    · rename_i e heq
      cases h
      exact heq
    · cases h
  · intro h
    rw [h]

theorem store_builder_extends (m m1 : Store) (a : Nat) (b : BuilderObject)
    (h : Store.Extends m m1) (ha : Store.builder m a = some b) :
    Store.builder m1 a = some b :=
  (store_builder_get m1 a b).2
    (store_extends_get m m1 a _ h ((store_builder_get m a b).1 ha))

/-- The cases of `readRecords` on a list that starts with the address of a record. -/
theorem store_readRecords_cons (m : Store) (a : Nat) (rest : List (Option Nat))
    (inputs : List (Option Input))
    (h : Store.readRecords m (some a :: rest) = some inputs) :
    ∃ r iv l, Store.record m a = some r ∧ Store.readInput m r = some iv ∧
      Store.readRecords m rest = some l ∧ inputs = some iv :: l := by
  unfold Store.readRecords at h
  cases hr : Store.record m a with
  | none => simp [hr] at h
  | some r =>
    cases hi : Store.readInput m r with
    | none => simp [hr, hi] at h
    | some iv =>
      cases hl : Store.readRecords m rest with
      | none => simp [hr, hi, hl] at h
      | some l =>
        simp only [hr, hi, hl, Option.some_bind, Option.some.injEq] at h
        exact ⟨r, iv, l, rfl, hi, rfl, h.symm⟩

theorem store_readRecords_hole (m : Store) (rest : List (Option Nat))
    (inputs : List (Option Input))
    (h : Store.readRecords m (none :: rest) = some inputs) :
    ∃ l, Store.readRecords m rest = some l ∧ inputs = none :: l := by
  unfold Store.readRecords at h
  cases hl : Store.readRecords m rest with
  | none => simp [hl] at h
  | some l =>
    simp only [hl, Option.map_some', Option.some.injEq] at h
    exact ⟨l, rfl, h.symm⟩

theorem store_readRecords_extends (m m1 : Store) (he : Store.Extends m m1)
    (refs : List (Option Nat)) :
    ∀ inputs, Store.readRecords m refs = some inputs →
      Store.readRecords m1 refs = some inputs := by
  induction refs with
  | nil => exact fun _ h => h
  | cons ref rest ih =>
    intro inputs h
    cases ref with
    | none =>
      obtain ⟨l, hl, heq⟩ := store_readRecords_hole m rest inputs h
      unfold Store.readRecords
      rw [ih l hl, heq]
      rfl
    | some a =>
      obtain ⟨r, iv, l, hr, hi, hl, heq⟩ := store_readRecords_cons m a rest inputs h
      unfold Store.readRecords
      rw [store_record_extends m m1 a r he hr, ih l hl]
      simp only [Option.some_bind, store_readInput_extends m m1 r iv he hi, heq]

/-- The loop of `__build` over the store: it writes to new objects and to the transaction at
`tx` only, and it does to that transaction what the loop does on the records that the
record objects stand for. -/
theorem store_buildLoop_spec (env : Collab) (a : Bool) (refs : List (Option Nat)) :
    ∀ (i : Nat) (m : Store) (tx : Nat),
      (∀ m0, Store.Extends m0 m → m0.length ≤ tx →
        Store.Extends m0 (Store.buildLoop env a refs i m tx).1) ∧
      ∀ m0 inputs t, Store.Extends m0 m → m0.length ≤ tx →
        Store.readRecords m0 refs = some inputs → Store.transaction m tx = some t →
        match (Store.buildLoop env a refs i m tx).2 with
        | Except.error e => buildLoop env a inputs i t = Except.error e
        | Except.ok _ =>
          ∃ t1, buildLoop env a inputs i t = Except.ok t1 ∧
            Store.transaction (Store.buildLoop env a refs i m tx).1 tx = some t1 := by
  induction refs with
  | nil =>
    intro i m tx
    unfold Store.buildLoop
    refine ⟨fun m0 he _ => he, fun m0 inputs t _ _ hr ht => ?_⟩
    unfold Store.readRecords at hr
    cases hr
    exact ⟨t, rfl, ht⟩
  | cons ref rest ih =>
    intro i m tx
    cases ref with
    | none =>
      unfold Store.buildLoop
      obtain ⟨ih1, ih2⟩ := ih (i + 1) m tx
      refine ⟨ih1, fun m0 inputs t he hle hr ht => ?_⟩
      obtain ⟨l, hl, heq⟩ := store_readRecords_hole m0 rest inputs hr
      subst heq
      have := ih2 m0 l t he hle hl ht
      unfold buildLoop
      exact this
    | some a0 =>
      unfold Store.buildLoop
      obtain ⟨hf1, hv1⟩ := store_buildOne_spec env a m tx i a0
      rcases hR : Store.buildOne env a m tx i a0 with ⟨m1, e | u⟩
      · rw [hR] at hf1 hv1
        simp only at hf1 hv1 ⊢
        refine ⟨hf1, fun m0 inputs t he hle hr ht => ?_⟩
        obtain ⟨r, iv, l, hrec, hi, hl, heq⟩ := store_readRecords_cons m0 a0 rest inputs hr
        subst heq
        have := hv1 r iv t (store_record_extends m0 m a0 r he hrec)
          (store_readInput_extends m0 m r iv he hi) ht
        unfold buildLoop
        rw [this]
      · rw [hR] at hf1 hv1
        simp only at hf1 hv1 ⊢
        obtain ⟨ih1, ih2⟩ := ih (i + 1) m1 tx
        refine ⟨fun m0 he hle => ih1 m0 (hf1 m0 he hle) hle,
          fun m0 inputs t he hle hr ht => ?_⟩
        obtain ⟨r, iv, l, hrec, hi, hl, heq⟩ := store_readRecords_cons m0 a0 rest inputs hr
        subst heq
        obtain ⟨t1, hb1, ht1⟩ := hv1 r iv t (store_record_extends m0 m a0 r he hrec)
          (store_readInput_extends m0 m r iv he hi) ht
        have := ih2 m0 l t1 (hf1 m0 he hle) hle hl ht1
        unfold buildLoop
        rw [hb1]
        exact this

/-- What `readBuilder` reads. -/
theorem store_readBuilder_iff (m : Store) (this : Nat) (s : TransactionBuilder) :
    Store.readBuilder m this = some s ↔
      ∃ b refs, Store.builder m this = some b ∧ Store.map m b.prevTxMap = some s.prevTxMap ∧
        Store.records m b.inputs = some refs ∧ Store.transaction m b.tx = some s.tx ∧
        Store.readRecords m refs = some s.inputs ∧ b.network = s.network ∧
        b.maximumFeeRate = s.maximumFeeRate := by
  unfold Store.readBuilder
  constructor
  · intro h
    cases hb : Store.builder m this with
    | none => simp [hb] at h
    | some b =>
      cases hpm : Store.map m b.prevTxMap with
      | none => simp [hb, hpm] at h
      | some pm =>
        cases hrf : Store.records m b.inputs with
        | none => simp [hb, hpm, hrf] at h
        | some refs =>
          cases htx : Store.transaction m b.tx with
          | none => simp [hb, hpm, hrf, htx] at h
          | some t =>
            cases hrr : Store.readRecords m refs with
            | none => simp [hb, hpm, hrf, htx, hrr] at h
            | some inputs =>
              simp only [hb, hpm, hrf, htx, hrr, Option.map_some', Option.some.injEq] at h
              subst h
              exact ⟨b, refs, rfl, hpm, hrf, htx, hrr, rfl, rfl⟩
  · rintro ⟨b, refs, hb, hpm, hrf, htx, hrr, hn, hf⟩
    simp only [hb, hpm, hrf, htx, hrr, Option.map_some', hn, hf]

theorem store_readBuilder_extends (m m1 : Store) (this : Nat) (s : TransactionBuilder)
    (he : Store.Extends m m1) (h : Store.readBuilder m this = some s) :
    Store.readBuilder m1 this = some s := by
  obtain ⟨b, refs, hb, hpm, hrf, htx, hrr, hn, hf⟩ := (store_readBuilder_iff m this s).1 h
  exact (store_readBuilder_iff m1 this s).2 ⟨b, refs, store_builder_extends m m1 this b he hb,
    store_map_extends m m1 _ _ he hpm, store_records_extends m m1 _ _ he hrf,
    store_transaction_extends m m1 _ _ he htx, store_readRecords_extends m m1 he refs _ hrr,
    hn, hf⟩

theorem store_record_values (m : Store) (refs : List (Option Nat)) :
    ∀ inputs, Store.readRecords m refs = some inputs →
      refs.map (fun ref =>
        match ref.bind (Store.record m) with
        | some x => (x.value.getD 0) % 2 ^ 32
        | none => 0) =
      inputs.map (fun oi =>
        match oi with
        | some x => (x.value.getD 0) % 2 ^ 32
        | none => 0) := by
  induction refs with
  | nil =>
    intro inputs h
    unfold Store.readRecords at h
    cases h
    rfl
  | cons ref rest ih =>
    intro inputs h
    cases ref with
    | none =>
      obtain ⟨l, hl, heq⟩ := store_readRecords_hole m rest inputs h
      subst heq
      simp only [List.map_cons, ih l hl, Option.none_bind]
    | some a =>
      obtain ⟨r, iv, l, hr, hi, hl, heq⟩ := store_readRecords_cons m a rest inputs h
      subst heq
      obtain ⟨_, _, _, _, _, _, _, f8⟩ := store_readInput_fields m r iv hi
      simp only [List.map_cons, ih l hl, Option.some_bind, hr, f8]

theorem store_overMaximumFees_eq (m : Store) (b : BuilderObject) (s : TransactionBuilder)
    (refs : List (Option Nat)) (bytes : Nat) (hrf : Store.records m b.inputs = some refs)
    (hrr : Store.readRecords m refs = some s.inputs)
    (htx : Store.transaction m b.tx = some s.tx) (hf : b.maximumFeeRate = s.maximumFeeRate) :
    Store.overMaximumFees m b bytes = overMaximumFees s bytes := by
  unfold Store.overMaximumFees overMaximumFees
  simp only [hrf, htx, Option.getD_some, store_record_values m refs _ hrr, hf]

/-- The method `__build` over the store: it leaves every object made before the call as it
was, and on a store that holds the builder state `s` it returns a new transaction that is
the one `__build` returns on `s`, or throws the error that `__build` throws on `s`. -/
theorem store_buildWith_spec (env : Collab) (m : Store) (this : Nat) (a : Bool) :
    Store.Extends m (Store.buildWith env m this a).1 ∧
    ∀ s, Store.readBuilder m this = some s →
      Store.outcome (Store.buildWith env m this a) = (buildWith env s a).map some := by
  constructor
  · unfold Store.buildWith
    cases Store.builder m this with
    | none => exact store_extends_refl m
    | some b =>
      simp only
      cases Store.transaction m b.tx with
      | none => exact store_extends_refl m
      | some t =>
        cases Store.records m b.inputs with
        | none => exact store_extends_refl m
        | some refs =>
          simp only
          split
          · exact store_extends_refl m
          · split
            · exact store_extends_refl m
            · have hl := (store_buildLoop_spec env a refs 0 (Store.alloc m (Obj.transaction t)).1
                (Store.alloc m (Obj.transaction t)).2).1 m (store_extends_alloc m _)
                (Nat.le_refl _)
              rcases hR : Store.buildLoop env a refs 0 (Store.alloc m (Obj.transaction t)).1
                  (Store.alloc m (Obj.transaction t)).2 with ⟨m1, e | u⟩
              · rw [hR] at hl
                exact hl
              · rw [hR] at hl
                simp only at hl ⊢
                split
                · exact hl
                · exact hl
  · intro s hs
    obtain ⟨b, refs, hb, hpm, hrf, htx, hrr, hn, hf⟩ := (store_readBuilder_iff m this s).1 hs
    unfold Store.buildWith
    rw [hb]
    simp only [htx, hrf]
    by_cases h1 : a = false ∧ s.tx.ins.length = 0
    · rw [if_pos h1]
      unfold buildWith Store.outcome
      rw [if_pos h1]
      rfl
    · rw [if_neg h1]
      by_cases h2 : a = false ∧ s.tx.outs.length = 0
      · rw [if_pos h2]
        unfold buildWith Store.outcome
        rw [if_neg h1, if_pos h2]
        rfl
      · rw [if_neg h2]
        obtain ⟨hfl, hvl⟩ := store_buildLoop_spec env a refs 0
          (Store.alloc m (Obj.transaction s.tx)).1 (Store.alloc m (Obj.transaction s.tx)).2
        have hext := hfl m (store_extends_alloc m _) (Nat.le_refl _)
        have hval := hvl m s.inputs s.tx (store_extends_alloc m _) (Nat.le_refl _) hrr
          ((store_transaction_get _ _ _).2 (store_alloc_get m _))
        rcases hR : Store.buildLoop env a refs 0 (Store.alloc m (Obj.transaction s.tx)).1
            (Store.alloc m (Obj.transaction s.tx)).2 with ⟨m1, e | u⟩
        · rw [hR] at hval
          simp only at hval ⊢
          unfold buildWith Store.outcome
          rw [if_neg h1, if_neg h2, hval]
          rfl
        · rw [hR] at hval hext
          simp only at hval hext ⊢
          obtain ⟨t1, hb1, ht1⟩ := hval
          have hfee : Store.overMaximumFees m1 b (env.virtualSize t1) =
              overMaximumFees s (env.virtualSize t1) :=
            store_overMaximumFees_eq m1 b s refs _ (store_records_extends m m1 _ _ hext hrf)
              (store_readRecords_extends m m1 hext refs _ hrr)
              (store_transaction_extends m m1 _ _ hext htx) hf
          simp only [ht1, Option.getD_some, hfee]
          by_cases h3 : a = false ∧ overMaximumFees s (env.virtualSize t1) = true
          · rw [if_pos h3]
            unfold buildWith Store.outcome
            rw [if_neg h1, if_neg h2, hb1]
            simp only
            rw [if_pos h3]
            rfl
          · rw [if_neg h3]
            unfold buildWith Store.outcome
            rw [if_neg h1, if_neg h2, hb1]
            simp only
            rw [if_neg h3, ht1]
            rfl

theorem store_allocSlots_spec (m : Store) (slots : Option (List Slot)) :
    Store.Extends m (Store.allocSlots m slots).1 ∧
    Store.readSlots (Store.allocSlots m slots).1 (Store.allocSlots m slots).2 = some slots := by
  unfold Store.allocSlots
  cases slots with
  | none => exact ⟨store_extends_refl m, rfl⟩
  | some elems =>
    refine ⟨store_extends_alloc m _, ?_⟩
    unfold Store.readSlots
    simp only
    rw [store_array_alloc]
    rfl

theorem store_allocInput_spec (m : Store) (input : Input) :
    Store.Extends m (Store.allocInput m input).1 ∧
    ∃ r, Store.record (Store.allocInput m input).1 (Store.allocInput m input).2 = some r ∧
      Store.readInput (Store.allocInput m input).1 r = some input := by
  obtain ⟨e1, r1⟩ := store_allocSlots_spec m input.pubKeys
  obtain ⟨e2, r2⟩ := store_allocSlots_spec (Store.allocSlots m input.pubKeys).1 input.signatures
  unfold Store.allocInput
  simp only
  refine ⟨store_extends_trans _ _ _ e1 (store_extends_trans _ _ _ e2 (store_extends_alloc _ _)),
    _, (store_record_get _ _ _).2 (store_alloc_get _ _), ?_⟩
  unfold Store.readInput
  simp only
  rw [store_readSlots_extends _ _ _ _
      (store_extends_trans _ _ _ e2 (store_extends_alloc _ _)) r1,
    store_readSlots_extends _ _ _ _ (store_extends_alloc _ _) r2]

theorem store_allocInputs_spec (inputs : List (Option Input)) :
    ∀ m, Store.Extends m (Store.allocInputs m inputs).1 ∧
      Store.readRecords (Store.allocInputs m inputs).1 (Store.allocInputs m inputs).2 =
        some inputs := by
  induction inputs with
  | nil =>
    intro m
    exact ⟨store_extends_refl m, rfl⟩
  | cons oi rest ih =>
    intro m
    cases oi with
    | none =>
      obtain ⟨e1, r1⟩ := ih m
      unfold Store.allocInputs
      refine ⟨e1, ?_⟩
      simp only
      unfold Store.readRecords
      rw [r1]
      rfl
    | some input =>
      obtain ⟨e0, r, hr, hi⟩ := store_allocInput_spec m input
      obtain ⟨e1, r1⟩ := ih (Store.allocInput m input).1
      unfold Store.allocInputs
      refine ⟨store_extends_trans _ _ _ e0 e1, ?_⟩
      simp only
      unfold Store.readRecords
      rw [store_record_extends _ _ _ _ e1 hr, r1]
      simp only [Option.some_bind, store_readInput_extends _ _ _ _ e1 hi]

/-- Every builder state is held by a store. -/
theorem store_ofBuilder_read (s : TransactionBuilder) :
    Store.readBuilder (Store.ofBuilder s).1 (Store.ofBuilder s).2 = some s := by
  obtain ⟨_, r1⟩ := store_allocInputs_spec s.inputs []
  rw [store_readBuilder_iff]
  unfold Store.ofBuilder
  simp only
  generalize Store.allocInputs [] s.inputs = i at r1
  have ea := store_extends_alloc i.1 (Obj.records i.2)
  have eb := store_extends_alloc (Store.alloc i.1 (Obj.records i.2)).1 (Obj.map s.prevTxMap)
  have ec := store_extends_alloc
    (Store.alloc (Store.alloc i.1 (Obj.records i.2)).1 (Obj.map s.prevTxMap)).1
    (Obj.transaction s.tx)
  have ed := store_extends_alloc
    (Store.alloc (Store.alloc (Store.alloc i.1 (Obj.records i.2)).1
      (Obj.map s.prevTxMap)).1 (Obj.transaction s.tx)).1
    (Obj.builder
      { prevTxMap := (Store.alloc (Store.alloc i.1 (Obj.records i.2)).1
          (Obj.map s.prevTxMap)).2,
        network := s.network, maximumFeeRate := s.maximumFeeRate,
        inputs := (Store.alloc i.1 (Obj.records i.2)).2,
        tx := (Store.alloc (Store.alloc (Store.alloc i.1 (Obj.records i.2)).1
          (Obj.map s.prevTxMap)).1 (Obj.transaction s.tx)).2 })
  refine ⟨_, i.2, (store_builder_get _ _ _).2 (store_alloc_get _ _), ?_, ?_, ?_, ?_, rfl, rfl⟩
  · exact store_map_extends _ _ _ _ (store_extends_trans _ _ _ ec ed)
      ((store_map_get _ _ _).2 (store_alloc_get _ _))
  · exact store_records_extends _ _ _ _
      (store_extends_trans _ _ _ eb (store_extends_trans _ _ _ ec ed))
      ((store_records_get _ _ _).2 (store_alloc_get _ _))
  · exact store_transaction_extends _ _ _ _ ed
      ((store_transaction_get _ _ _).2 (store_alloc_get _ _))
  · exact store_readRecords_extends _ _
      (store_extends_trans _ _ _ ea
        (store_extends_trans _ _ _ eb (store_extends_trans _ _ _ ec ed))) _ _ r1

/-- C28. `build()` and `buildIncomplete()` are read-only on the builder. Run over a store of
objects, `__build` leaves every object that existed before the call as it was, whether it
returns or throws: the builder object, the array `inputs`, every input record with its
`signatures` and `pubKeys` arrays, `prevTxMap` and the draft transaction. Its `push` calls
and its `setInputScript` and `setWitness` calls go to arrays and to a transaction made
during the call. So on a store that holds the builder state `s`, the store after the call
holds `s` again; the call returns the transaction, or throws the error, that `__build` gives
on `s`; a second build on the store left behind gives what it gives on the store before;
`sign` finds the builder state it would have found without the build; and a returned
transaction has the version, the locktime, the outputs and the outpoints of the draft.
Every builder state is held by some store. -/
theorem build_read_only (env : Collab) (m : Store) (this : Nat) (allowIncomplete : Bool) :
    Store.Extends m (Store.buildWith env m this allowIncomplete).1 ∧
    (∀ (p : Nat) (o : Obj), m[p]? = some o →
      (Store.buildWith env m this allowIncomplete).1[p]? = some o) ∧
    (∀ s, Store.readBuilder m this = some s →
      Store.readBuilder (Store.buildWith env m this allowIncomplete).1 this = some s ∧
      Store.outcome (Store.buildWith env m this false) = (build env s).map some ∧
      Store.outcome (Store.buildWith env m this true) = (buildIncomplete env s).map some ∧
      (∀ again : Bool,
        Store.outcome
            (Store.buildWith env (Store.buildWith env m this allowIncomplete).1 this again) =
          Store.outcome (Store.buildWith env m this again)) ∧
      (∀ vin K rs ht wv ws,
        (Store.readBuilder (Store.buildWith env m this allowIncomplete).1 this).map
            (fun s1 => sign env s1 vin K rs ht wv ws) =
          some (sign env s vin K rs ht wv ws)) ∧
      (∀ tx, Store.outcome (Store.buildWith env m this allowIncomplete) =
          Except.ok (some tx) →
        tx.version = s.tx.version ∧ tx.locktime = s.tx.locktime ∧ tx.outs = s.tx.outs ∧
        outpoints tx = outpoints s.tx ∧ tx.ins.length = s.tx.ins.length)) ∧
    (∀ s, Store.readBuilder (Store.ofBuilder s).1 (Store.ofBuilder s).2 = some s) := by
  obtain ⟨hext, hval⟩ := store_buildWith_spec env m this allowIncomplete
  refine ⟨hext, fun p o hp => store_extends_get _ _ p o hext hp, ?_, store_ofBuilder_read⟩
  intro s hs
  have hs1 := store_readBuilder_extends _ _ this s hext hs
  refine ⟨hs1, (store_buildWith_spec env m this false).2 s hs,
    (store_buildWith_spec env m this true).2 s hs, ?_, ?_, ?_⟩
  · intro again
    rw [(store_buildWith_spec env _ this again).2 s hs1,
      (store_buildWith_spec env m this again).2 s hs]
  · intro vin K rs ht wv ws
    rw [hs1]
    rfl
  · intro tx h
    rw [hval s hs] at h
    have hb : buildWith env s allowIncomplete = Except.ok tx := by
      cases hbw : buildWith env s allowIncomplete with
      | error e => rw [hbw] at h; cases h
      | ok t =>
        rw [hbw] at h
        simp only [Except.map, Except.ok.injEq, Option.some.injEq] at h
        rw [h]
    obtain ⟨h1, h2, h3, h4⟩ :=
      buildLoop_frame env allowIncomplete s.inputs 0 s.tx tx
        (buildWith_loop env s allowIncomplete tx hb)
    refine ⟨h1, h2, h3, h4, ?_⟩
    have := congrArg List.length h4
    simpa [outpoints] using this

set_option maxRecDepth 8192 in
theorem build_read_only_witness :
    Store.readBuilder (Store.ofBuilder demoTwoOfThree).1 (Store.ofBuilder demoTwoOfThree).2 =
      some demoTwoOfThree ∧
    returned (build demo demoTwoOfThree) = true ∧
    Store.outcome (Store.buildWith demo (Store.ofBuilder demoTwoOfThree).1
      (Store.ofBuilder demoTwoOfThree).2 false) = (build demo demoTwoOfThree).map some ∧
    Store.readBuilder
      (Store.buildWith demo (Store.ofBuilder demoTwoOfThree).1
        (Store.ofBuilder demoTwoOfThree).2 false).1
      (Store.ofBuilder demoTwoOfThree).2 = some demoTwoOfThree ∧
    (Store.ofBuilder demoTwoOfThree).1.length <
      (Store.buildWith demo (Store.ofBuilder demoTwoOfThree).1
        (Store.ofBuilder demoTwoOfThree).2 false).1.length :=
  ⟨by decide, by decide,
    ((build_read_only demo (Store.ofBuilder demoTwoOfThree).1
      (Store.ofBuilder demoTwoOfThree).2 false).2.2.1 demoTwoOfThree (by decide)).2.1,
    ((build_read_only demo (Store.ofBuilder demoTwoOfThree).1
      (Store.ofBuilder demoTwoOfThree).2 false).2.2.1 demoTwoOfThree (by decide)).1,
    by decide⟩

/-! ## Termination of `HDNode.derive` -/

theorem child_fields (env : HDCollab) (node : HDNode) (kp : ECPair) (IR : Buffer)
    (index : Nat) (c : HDNode) (h : node.child env kp IR index = Except.ok c) :
    c.index = index ∧ c.depth = node.depth + 1 := by
  unfold HDNode.child at h
  split at h
  · cases h
  · split at h
    · cases h
    · cases h
      exact ⟨rfl, rfl⟩

/-- With more fuel than `2 ^ 32 - index`, `derive` does not run out of fuel, and a child it
returns has an index from `index` on, below `2 ^ 32`, and the depth of the node plus one. -/
theorem deriveFuel_total (env : HDCollab) (node : HDNode) (fuel : Nat) :
    ∀ index, 2 ^ 32 - index < fuel →
      ∃ r, node.deriveFuel env fuel index = some r ∧
        ∀ c, r = Except.ok c →
          index ≤ c.index ∧ c.index < 2 ^ 32 ∧ c.depth = node.depth + 1 := by
  induction fuel with
  | zero => intro index h; omega
  | succ fuel ih =>
    intro index hf
    unfold HDNode.deriveFuel
    by_cases hu : isUInt32 index = false
    · rw [if_pos hu]
      exact ⟨_, rfl, fun c hc => by cases hc⟩
    · rw [if_neg hu]
      have hlt : index < 2 ^ 32 := by
        unfold isUInt32 at hu
        simpa using hu
      have hnext : 2 ^ 32 - (index + 1) < fuel := by omega
      have retry : ∃ r, node.deriveFuel env fuel (index + 1) = some r ∧
          ∀ c, r = Except.ok c →
            index ≤ c.index ∧ c.index < 2 ^ 32 ∧ c.depth = node.depth + 1 := by
        obtain ⟨r, h1, h2⟩ := ih (index + 1) hnext
        refine ⟨r, h1, fun c hc => ?_⟩
        obtain ⟨g1, g2, g3⟩ := h2 c hc
        exact ⟨by omega, g2, g3⟩
      have made : ∀ (kp : ECPair) (IR : Buffer),
          ∃ r, some (node.child env kp IR index) = some r ∧
            ∀ c, r = Except.ok c →
              index ≤ c.index ∧ c.index < 2 ^ 32 ∧ c.depth = node.depth + 1 := by
        intro kp IR
        refine ⟨_, rfl, fun c hc => ?_⟩
        obtain ⟨g1, g2⟩ := child_fields env node kp IR index c hc
        exact ⟨by omega, by omega, g2⟩
      simp only
      generalize env.hmacSHA512 node.chainCode (node.deriveData env index) = I
      by_cases hh : decide (index ≥ HDNode.HIGHEST_BIT) = true ∧ node.isNeutered = true
      · rw [if_pos hh]
        exact ⟨_, rfl, fun c hc => by cases hc⟩
      · rw [if_neg hh]
        by_cases hp : env.fromBuffer (List.take 32 I) ≥ env.n
        · rw [if_pos hp]
          exact retry
        · rw [if_neg hp]
          cases hd : node.keyPair.d with
          | some d =>
            simp only
            by_cases hk : (env.fromBuffer (List.take 32 I) + d) % env.n = 0
            · rw [if_pos hk]
              exact retry
            · rw [if_neg hk]
              cases hn : ECPair.new env (some ((env.fromBuffer (List.take 32 I) + d) % env.n))
                  none node.keyPair.network with
              | error e => exact ⟨_, rfl, fun c hc => by cases hc⟩
              | ok kp => exact made _ _
          | none =>
            simp only
            by_cases hk : (env.add (env.multiplyG (env.fromBuffer (List.take 32 I)))
                (node.keyPair.Q env)).isNone = true
            · rw [if_pos hk]
              exact retry
            · rw [if_neg hk]
              cases hn : ECPair.new env none
                  (some (env.add (env.multiplyG (env.fromBuffer (List.take 32 I)))
                    (node.keyPair.Q env))) node.keyPair.network with
              | error e => exact ⟨_, rfl, fun c hc => by cases hc⟩
              | ok kp => exact made _ _

/-- More fuel does not change a result. -/
theorem deriveFuel_mono (env : HDCollab) (node : HDNode) (fuel : Nat) :
    ∀ index r, node.deriveFuel env fuel index = some r →
      ∀ fuel2, fuel ≤ fuel2 → node.deriveFuel env fuel2 index = some r := by
  induction fuel with
  | zero =>
    intro index r h
    unfold HDNode.deriveFuel at h
    cases h
  | succ fuel ih =>
    intro index r h fuel2 hle
    obtain ⟨k, hk⟩ : ∃ k, fuel2 = k + 1 := ⟨fuel2 - 1, by omega⟩
    subst hk
    have hle2 : fuel ≤ k := by omega
    unfold HDNode.deriveFuel at h ⊢
    simp only at h ⊢
    generalize env.hmacSHA512 node.chainCode (node.deriveData env index) = I at h ⊢
    by_cases hu : isUInt32 index = false
    · rw [if_pos hu] at h ⊢
      exact h
    · rw [if_neg hu] at h ⊢
      by_cases hh : decide (index ≥ HDNode.HIGHEST_BIT) = true ∧ node.isNeutered = true
      · rw [if_pos hh] at h ⊢
        exact h
      · rw [if_neg hh] at h ⊢
        by_cases hp : env.fromBuffer (List.take 32 I) ≥ env.n
        · rw [if_pos hp] at h ⊢
          exact ih _ r h k hle2
        · rw [if_neg hp] at h ⊢
          cases hd : node.keyPair.d with
          | some d =>
            simp only [hd] at h ⊢
            by_cases hk : (env.fromBuffer (List.take 32 I) + d) % env.n = 0
            · rw [if_pos hk] at h ⊢
              exact ih _ r h k hle2
            · rw [if_neg hk] at h ⊢
              exact h
          | none =>
            simp only [hd] at h ⊢
            by_cases hk : (env.add (env.multiplyG (env.fromBuffer (List.take 32 I)))
                (node.keyPair.Q env)).isNone = true
            · rw [if_pos hk] at h ⊢
              exact ih _ r h k hle2
            · rw [if_neg hk] at h ⊢
              exact h

/-- C29. `HDNode.derive` terminates. For every node and every index, `derive` run with fuel
for `2 ^ 32 - index + 1` nested calls does not run out of fuel (so the depth of the
recursion `derive(index + 1)` is at most `2 ^ 32 - index`), and more fuel gives the same
result. The result is an error, or a child node whose index is at least the requested index
and below `2 ^ 32` and whose depth is the depth of the parent plus one. An index that is not
a uint32 is refused on entry. -/
theorem derive_terminates (env : HDCollab) (node : HDNode) (index : Nat) :
    ∃ r, node.derive env index = some r ∧
      (∀ fuel, 2 ^ 32 - index < fuel → node.deriveFuel env fuel index = some r) ∧
      ((∃ e, r = Except.error e) ∨
        ∃ c, r = Except.ok c ∧ index ≤ c.index ∧ c.index < 2 ^ 32 ∧
          c.depth = node.depth + 1) ∧
      (isUInt32 index = false → r = Except.error HDErr.typeError) := by
  obtain ⟨r, h1, h2⟩ := deriveFuel_total env node (2 ^ 32 - index + 1) index (by omega)
  refine ⟨r, h1, ?_, ?_, ?_⟩
  · intro fuel hf
    exact deriveFuel_mono env node _ index r h1 fuel (by omega)
  · cases r with
    | error e => exact Or.inl ⟨e, rfl⟩
    | ok c => exact Or.inr ⟨c, rfl, h2 c rfl⟩
  · intro hu
    unfold HDNode.derive HDNode.deriveFuel at h1
    rw [if_pos hu] at h1
    cases h1
    rfl

/-- On `demoNode`, whose collaborators make the candidate key of index 7 too large, `derive(7)`
proceeds with the next index and returns the child of index 8 and depth 1; `derive(6)`
returns the child of index 6; and `derive(2 ^ 32)` is refused. -/
theorem derive_retries_example :
    (demoNode.derive demoHD 7).map (fun r => r.toOption.map (fun c => (c.index, c.depth))) =
      some (some (8, 1)) ∧
    (demoNode.derive demoHD 6).map (fun r => r.toOption.map (fun c => (c.index, c.depth))) =
      some (some (6, 1)) ∧
    demoNode.derive demoHD (2 ^ 32) = some (Except.error HDErr.typeError) := by
  refine ⟨?_, ?_, ?_⟩
  · decide
  · decide
  · decide


/-! ## `sign` on a signable record ignores the witness value and the witness script -/

/-- The record that `sign` leaves at `vin` when the record there was signable: the record
itself, or the record with another `signatures` list. -/
theorem sign_signable_record (env : Collab) (s : TransactionBuilder) (vin : Nat)
    (K : KeyPair) (rs : Option Buffer) (ht wv : Option Nat) (ws : Option Buffer)
    (input : Input) (hin : s.inputs[vin]? = some (some input)) (hc : canSign input = true) :
    ∃ sigs, (sign env s vin K rs ht wv ws).1.inputs[vin]? =
      some (some { input with signatures := sigs }) := by
  have hvin : vin < s.inputs.length := getElem?_lt _ _ _ hin
  rcases sign_state env s vin K rs ht wv ws with hst | ⟨input0, hin0, hst⟩
  · rw [hst]
    exact ⟨input.signatures, hin⟩
  · rw [hin] at hin0
    cases hin0
    rw [signPrepare_of_canSign env input K.publicKey rs wv ws hc] at hst
    simp only at hst
    rcases hst with hst | ⟨_, hst⟩
    · rw [hst, setInput_same s vin input hin]
      exact ⟨input.signatures, hin⟩
    · rw [hst]
      rcases signReady_cases env s.tx vin input K K.publicKey (defaultHashType ht) with hr |
        ⟨sigs, pks, n, sig, _, _, _, _, hr⟩
      · rw [hr]
        exact ⟨input.signatures, setInput_get s vin input hvin⟩
      · rw [hr]
        exact ⟨_, setInput_get s vin _ hvin⟩

theorem signLoop_not_mismatch (env : Collab) (K : KeyPair) (k : Buffer)
    (st : Option ScriptType) (hash : Buffer) (ht : Nat) (sigs : List Slot) (pks : List Slot) :
    ∀ i, signLoop env K k st hash ht sigs pks i ≠ Except.error Err.witnessValueMismatch := by
  induction pks with
  | nil =>
    intro i h
    unfold signLoop at h
    cases h
  | cons pk rest ih =>
    intro i h
    cases pk with
    | none =>
      unfold signLoop at h
      cases h
    | some c =>
      cases c with
      | op n =>
        unfold signLoop at h
        cases h
      | buf pubKey =>
        unfold signLoop at h
        by_cases h1 : k ≠ pubKey
        · rw [if_pos h1] at h
          exact ih _ h
        · rw [if_neg h1] at h
          by_cases h2 : truthy (sigs[i]?).join = true
          · rw [if_pos h2] at h
            cases h
          · rw [if_neg h2] at h
            by_cases h3 : k.length ≠ 33 ∧ st = some ScriptType.P2WPKH
            · rw [if_pos h3] at h
              cases h
            · rw [if_neg h3] at h
              unfold KeyPair.sign at h
              cases hd : K.d with
              | none => simp only [hd] at h; cases h
              | some d => simp only [hd] at h; cases h

/-- C33. Once an input is signable, `sign` ignores its `witnessValue` and `witnessScript`
arguments. Let the record at `vin` be signable. Then two `sign` calls that differ only in
the witness value and the witness script leave the same builder and have the same outcome,
the same error or the same stored signature; the record after the call differs from the
record before it at most in `signatures`, so its recorded value, witness script and sign
script are unchanged; and the call never throws "Input didn't match witnessValue", whatever
witness value is supplied. -/
theorem sign_ignores_witness_arguments (env : Collab) (s : TransactionBuilder) (vin : Nat)
    (K : KeyPair) (rs : Option Buffer) (ht wv wv2 : Option Nat) (ws ws2 : Option Buffer)
    (input : Input) (hin : s.inputs[vin]? = some (some input)) (hc : canSign input = true) :
    sign env s vin K rs ht wv ws = sign env s vin K rs ht wv2 ws2 ∧
    (∃ input1, (sign env s vin K rs ht wv ws).1.inputs[vin]? = some (some input1) ∧
      input1.value = input.value ∧ input1.witnessScript = input.witnessScript ∧
      input1.signScript = input.signScript ∧
      input1 = { input with signatures := input1.signatures }) ∧
    (sign env s vin K rs ht wv ws).2 ≠ Except.error Err.witnessValueMismatch := by
  have hin2 : (s.inputs[vin]?).join = some input := by rw [hin]; rfl
  refine ⟨?_, ?_, ?_⟩
  · unfold sign
    simp only [hin2, signPrepare_of_canSign env input K.publicKey rs _ _ hc]
  · obtain ⟨sigs, h⟩ := sign_signable_record env s vin K rs ht wv ws input hin hc
    exact ⟨_, h, rfl, rfl, rfl, rfl⟩
  · unfold sign
    simp only [hin2, signPrepare_of_canSign env input K.publicKey rs _ _ hc]
    split
    · intro h; cases h
    · split
      · intro h; cases h
      · simp only
        unfold signReady
        obtain ⟨pks, sigs, ss, hpk, hsg, hss, _, _⟩ := canSign_lengths input hc
        simp only [hpk, hsg, hss]
        generalize hl : signLoop env K K.publicKey input.signType _ (defaultHashType ht)
          sigs pks 0 = res
        cases res with
        | error e =>
          intro h
          simp only at h
          cases h
          exact signLoop_not_mismatch _ _ _ _ _ _ _ _ _ hl
        | ok o =>
          cases o with
          | none => intro h; cases h
          | some sigs1 => intro h; cases h

set_option maxRecDepth 8192 in
theorem sign_ignores_witness_arguments_witness :
    canSign demoWitnessOneRecord = true ∧ demoWitnessOneRecord.value = some 1000 ∧
    sign demo demoWitnessOne 0 (demoKeyPair 2) none none (some 999) (some [1, 2, 3]) =
      sign demo demoWitnessOne 0 (demoKeyPair 2) none none none none ∧
    (sign demo demoWitnessOne 0 (demoKeyPair 2) none none (some 999) (some [1, 2, 3])).2 =
      Except.ok () ∧
    presentCount
      (sign demo demoWitnessOne 0 (demoKeyPair 2) none none (some 999) (some [1, 2, 3])).1
      0 = 2 :=
  ⟨by decide, by decide,
    (sign_ignores_witness_arguments demo demoWitnessOne 0 (demoKeyPair 2) none none
      (some 999) none (some [1, 2, 3]) none demoWitnessOneRecord (by decide) (by decide)).1,
    by decide, by decide⟩

/-! ## The "Not yet supported" branch of `buildStack` -/

theorem buildStack_unsupported (env : Collab) (type : Option ScriptType)
    (sigs pks : Option (List Slot)) (a : Bool) (h : supportedType type = false) :
    buildStack env type sigs pks a = Except.error Err.notYetSupported := by
  rcases type with _ | t
  · rfl
  · cases t
    case P2PKH => cases h
    case P2PK => cases h
    case MULTISIG => cases h
    case P2SH => rfl
    case P2WPKH => rfl
    case P2WSH => rfl
    case NONSTANDARD => rfl

/-- For a type in `SIGNABLE`, `buildStack` throws "Not enough signatures provided" or, when
`signatures` or `pubKeys` is `undefined`, a `TypeError`. -/
theorem buildStack_supported_error (env : Collab) (type : Option ScriptType)
    (sigs pks : Option (List Slot)) (a : Bool) (e : Err)
    (h : supportedType type = true) (hr : buildStack env type sigs pks a = Except.error e) :
    e = Err.notEnoughSignatures ∨ (e = Err.typeError ∧ (sigs = none ∨ pks = none)) := by
  have hinc : ∀ e1, (if a = true then (Except.ok [] : Except Err (List Chunk))
      else Except.error Err.notEnoughSignatures) = Except.error e1 →
      e1 = Err.notEnoughSignatures := by
    intro e1 h1
    cases a
    · cases h1
      rfl
    · cases h1
  rcases type with _ | t
  · cases h
  · cases t
    case P2SH => cases h
    case P2WPKH => cases h
    case P2WSH => cases h
    case NONSTANDARD => cases h
    case P2PKH =>
      unfold buildStack at hr
      simp only at hr
      split at hr
      · cases hr
        exact Or.inr ⟨rfl, Or.inl rfl⟩
      · split at hr
        · cases hr
          exact Or.inr ⟨rfl, Or.inr rfl⟩
        · cases hr
        · exact Or.inl (hinc e hr)
      · exact Or.inl (hinc e hr)
    case P2PK =>
      unfold buildStack at hr
      simp only at hr
      split at hr
      · cases hr
        exact Or.inr ⟨rfl, Or.inl rfl⟩
      · cases hr
      · exact Or.inl (hinc e hr)
    case MULTISIG =>
      unfold buildStack at hr
      simp only at hr
      split at hr
      · cases hr
        exact Or.inr ⟨rfl, Or.inl rfl⟩
      · exact Or.inl (hinc e hr)
      · cases hr

/-- The `switch` of `buildInput` throws "Impossible to sign this type" or what `buildStack`
throws for a type in `SIGNABLE`. -/
theorem buildInputWitness_error (env : Collab) (input : Input) (t : Option ScriptType)
    (a : Bool) (e : Err) (h : buildInputWitness env input t a = Except.error e) :
    e = Err.impossibleToSign ∨ e = Err.notEnoughSignatures ∨
    (e = Err.typeError ∧
      ((t = some ScriptType.P2WPKH ∧ (input.signatures = none ∨ input.pubKeys = none)) ∨
        (supportedType input.witnessScriptType = true ∧
          (input.signatures = none ∨ input.pubKeys = none)))) := by
  unfold buildInputWitness at h
  split at h
  · cases hb : buildStack env (some ScriptType.P2PKH) input.signatures input.pubKeys a with
    | ok w => rw [hb] at h; cases h
    | error e1 =>
      rw [hb] at h
      cases h
      rcases buildStack_supported_error env (some ScriptType.P2PKH) input.signatures
          input.pubKeys a _ rfl hb with h1 | ⟨h1, h2⟩
      · exact Or.inr (Or.inl h1)
      · exact Or.inr (Or.inr ⟨h1, Or.inl ⟨rfl, h2⟩⟩)
  · split at h
    · cases h
      exact Or.inl rfl
    · split at h
      · rename_i hsup
        cases hb : buildStack env input.witnessScriptType input.signatures input.pubKeys a with
        | error e1 =>
          rw [hb] at h
          cases h
          rcases buildStack_supported_error env _ _ _ a _ hsup hb with h1 | ⟨h1, h2⟩
          · exact Or.inr (Or.inl h1)
          · refine Or.inr (Or.inr ⟨h1, Or.inr ⟨hsup, ?_⟩⟩)
            exact h2
        | ok w =>
          rw [hb] at h
          cases h
      · cases h
  · cases h

/-- `buildInput` never throws "Not yet supported": each of its calls of `buildStack` is made
for a type in `SIGNABLE`. -/
theorem buildInput_supported (env : Collab) (input : Input) (a : Bool) :
    buildInput env input a ≠ Except.error Err.notYetSupported := by
  intro h
  have hst : ∀ (t : Option ScriptType) (d : List Chunk),
      (if supportedType t = true then buildStack env t input.signatures input.pubKeys a
        else Except.ok d) ≠ Except.error Err.notYetSupported := by
    intro t d hh
    by_cases hsup : supportedType t = true
    · rw [if_pos hsup] at hh
      rcases buildStack_supported_error env _ _ _ a _ hsup hh with h1 | ⟨h1, _⟩
      · cases h1
      · cases h1
    · rw [if_neg hsup] at hh
      cases hh
  have hw : ∀ t, buildInputWitness env input t a ≠ Except.error Err.notYetSupported := by
    intro t hh
    rcases buildInputWitness_error env input t a _ hh with h1 | h1 | ⟨h1, _⟩
    · cases h1
    · cases h1
    · cases h1
  unfold buildInput at h
  simp only at h
  cases h0 : (if supportedType input.prevOutType = true then
      buildStack env input.prevOutType input.signatures input.pubKeys a
      else Except.ok []) with
  | error e =>
    rw [h0] at h
    cases h
    exact hst _ _ h0
  | ok sig0 =>
    rw [h0] at h
    simp only at h
    by_cases hsh : input.prevOutType = some ScriptType.P2SH
    · rw [if_pos hsh] at h
      split at h
      · cases h
      · cases h1 : (if supportedType input.redeemScriptType = true then
            buildStack env input.redeemScriptType input.signatures input.pubKeys a
            else Except.ok sig0) with
        | error e =>
          rw [h1] at h
          cases h
          exact hst _ _ h1
        | ok sig1 =>
          rw [h1] at h
          simp only at h
          cases hrt : input.redeemScriptType with
          | none =>
            simp only [hrt] at h
            cases hbw : buildInputWitness env input input.prevOutType a with
            | error e => rw [hbw] at h; cases h; exact hw _ hbw
            | ok r => rw [hbw] at h; cases h
          | some t =>
            simp only [hrt] at h
            cases hbw : buildInputWitness env input (some t) a with
            | error e => rw [hbw] at h; cases h; exact hw _ hbw
            | ok r => rw [hbw] at h; cases h
    · rw [if_neg hsh] at h
      cases hbw : buildInputWitness env input input.prevOutType a with
      | error e => rw [hbw] at h; cases h; exact hw _ hbw
      | ok r => rw [hbw] at h; cases h

/-- On a well-formed record `buildInput` throws nothing but "Not enough signatures provided"
and "Impossible to sign this type". -/
theorem buildInput_error_ok (env : Collab) (input : Input) (a : Bool) (e : Err)
    (hok : InputOK input) (h : buildInput env input a = Except.error e) :
    e = Err.impossibleToSign ∨ e = Err.notEnoughSignatures := by
  obtain ⟨ha, hb, hc, hd⟩ := hok
  have hsig : input.signatures = none ∨ input.pubKeys = none → input.signatures = none := by
    intro hh
    rcases hh with hh | hh
    · exact hh
    · rw [hh] at ha
      cases hs : input.signatures with
      | none => rfl
      | some x => rw [hs] at ha; cases ha
  have hst : ∀ (t : Option ScriptType) (d : List Chunk) (e1 : Err),
      (t = input.prevOutType ∨ t = input.redeemScriptType) →
      (if supportedType t = true then buildStack env t input.signatures input.pubKeys a
        else Except.ok d) = Except.error e1 → e1 = Err.notEnoughSignatures := by
    intro t d e1 ht hh
    by_cases hsup : supportedType t = true
    · rw [if_pos hsup] at hh
      rcases buildStack_supported_error env _ _ _ a _ hsup hh with h1 | ⟨_, h2⟩
      · exact h1
      · obtain ⟨g1, _, g3, _⟩ := hb (hsig h2)
        rcases ht with ht | ht
        · rw [ht, g3] at hsup
          cases hsup
        · rw [ht, g1] at hsup
          cases hsup
    · rw [if_neg hsup] at hh
      cases hh
  have hw : ∀ (t : Option ScriptType) (e1 : Err),
      (t = input.prevOutType ∨ t = input.redeemScriptType) →
      buildInputWitness env input t a = Except.error e1 →
      e1 = Err.impossibleToSign ∨ e1 = Err.notEnoughSignatures := by
    intro t e1 ht hh
    rcases buildInputWitness_error env input t a _ hh with h1 | h1 | ⟨_, h2⟩
    · exact Or.inl h1
    · exact Or.inr h1
    · exfalso
      rcases h2 with ⟨h3, h4⟩ | ⟨h3, h4⟩
      · obtain ⟨g1, _, _, g4⟩ := hb (hsig h4)
        rcases ht with ht | ht
        · exact g4 (by rw [← ht, h3])
        · rw [h3, g1] at ht
          cases ht
      · rcases h4 with h4 | h4
        · obtain ⟨_, g2, _, _⟩ := hb h4
          rw [g2] at h3
          cases h3
        · obtain ⟨_, g2, _, _⟩ := hb (hsig (Or.inr h4))
          rw [g2] at h3
          cases h3
  unfold buildInput at h
  simp only at h
  cases h0 : (if supportedType input.prevOutType = true then
      buildStack env input.prevOutType input.signatures input.pubKeys a
      else Except.ok []) with
  | error e0 =>
    rw [h0] at h
    cases h
    exact Or.inr (hst _ _ _ (Or.inl rfl) h0)
  | ok sig0 =>
    rw [h0] at h
    simp only at h
    by_cases hsh : input.prevOutType = some ScriptType.P2SH
    · rw [if_pos hsh] at h
      split at h
      · cases h
        exact Or.inl rfl
      · cases h1 : (if supportedType input.redeemScriptType = true then
            buildStack env input.redeemScriptType input.signatures input.pubKeys a
            else Except.ok sig0) with
        | error e1 =>
          rw [h1] at h
          cases h
          exact Or.inr (hst _ _ _ (Or.inr rfl) h1)
        | ok sig1 =>
          rw [h1] at h
          simp only at h
          cases hrt : input.redeemScriptType with
          | none =>
            simp only [hrt] at h
            cases hbw : buildInputWitness env input input.prevOutType a with
            | error e2 => rw [hbw] at h; cases h; exact hw _ _ (Or.inl rfl) hbw
            | ok r => rw [hbw] at h; cases h
          | some t =>
            simp only [hrt] at h
            cases hbw : buildInputWitness env input (some t) a with
            | error e2 => rw [hbw] at h; cases h; exact hw _ _ (Or.inr hrt.symm) hbw
            | ok r => rw [hbw] at h; cases h
    · rw [if_neg hsh] at h
      cases hbw : buildInputWitness env input input.prevOutType a with
      | error e2 => rw [hbw] at h; cases h; exact hw _ _ (Or.inl rfl) hbw
      | ok r => rw [hbw] at h; cases h

theorem buildChecked_error (env : Collab) (a : Bool) (input : Input) (e : Err)
    (h : buildChecked env a input = Except.error e) :
    e = Err.notComplete ∨ (∃ t, e = Err.typeNotSupported t) ∨
      buildInput env input a = Except.error e := by
  unfold buildChecked at h
  simp only at h
  split at h
  · cases h
    exact Or.inl rfl
  · cases hb : buildInput env input a with
    | error e1 =>
      rw [hb] at h
      cases h
      exact Or.inr (Or.inr rfl)
    | ok r =>
      rw [hb] at h
      simp only at h
      split at h
      · cases h
        exact Or.inr (Or.inl ⟨_, rfl⟩)
      · cases h

theorem buildOne_error_cases (env : Collab) (a : Bool) (tx : Transaction) (i : Nat)
    (input : Input) (e : Err) (h : buildOne env a tx i input = Except.error e) :
    buildChecked env a input = Except.error e ∨ (e = Err.typeError ∧ tx.ins[i]? = none) ∨
    (e = Err.typeError ∧
      ∃ r, buildChecked env a input = Except.ok r ∧ r.witness.all Option.isSome = false) := by
  cases hr : buildChecked env a input with
  | error e1 =>
    rw [buildOne_error env a tx i input e1 hr] at h
    cases h
    exact Or.inl rfl
  | ok r =>
    cases hi : tx.ins[i]? with
    | some txIn =>
      cases hw : r.witness.all Option.isSome with
      | true =>
        rw [buildOne_ok env a tx i input r txIn hr hi hw] at h
        cases h
      | false =>
        unfold buildOne at h
        rw [hr] at h
        simp only at h
        rw [setInputScript_ok tx i r.script txIn hi] at h
        simp only at h
        rw [setWitness_error _ i r.witness hw] at h
        cases h
        exact Or.inr (Or.inr ⟨rfl, r, rfl, hw⟩)
    | none =>
      unfold buildOne Transaction.setInputScript at h
      rw [hr] at h
      simp only [hi] at h
      cases h
      exact Or.inr (Or.inl ⟨rfl, rfl⟩)

/-- An error of the loop of `__build` is the error of the checks of one of the records, or
the `TypeError` of a write to an input that the transaction does not have, or the
`TypeError` of a witness that holds `undefined`. -/
theorem buildLoop_error (env : Collab) (a : Bool) (inputs : List (Option Input)) :
    ∀ (start : Nat) (tx : Transaction) (e : Err),
      buildLoop env a inputs start tx = Except.error e →
      (∃ x, some x ∈ inputs ∧ buildChecked env a x = Except.error e) ∨
      (e = Err.typeError ∧ ¬ (start + inputs.length ≤ tx.ins.length)) ∨
      (e = Err.typeError ∧ ∃ x r, some x ∈ inputs ∧ buildChecked env a x = Except.ok r ∧
        r.witness.all Option.isSome = false) := by
  induction inputs with
  | nil =>
    intro start tx e h
    unfold buildLoop at h
    cases h
  | cons oi rest ih =>
    intro start tx e h
    cases oi with
    | none =>
      unfold buildLoop at h
      rcases ih _ _ _ h with ⟨x, hx, hc⟩ | ⟨h1, h2⟩ | ⟨h1, x, r, hx, hc, hw⟩
      · exact Or.inl ⟨x, List.mem_cons_of_mem _ hx, hc⟩
      · refine Or.inr (Or.inl ⟨h1, ?_⟩)
        simp only [List.length_cons]
        omega
      · exact Or.inr (Or.inr ⟨h1, x, r, List.mem_cons_of_mem _ hx, hc, hw⟩)
    | some y =>
      unfold buildLoop at h
      cases hb : buildOne env a tx start y with
      | error e1 =>
        rw [hb] at h
        cases h
        rcases buildOne_error_cases env a tx start y _ hb with hc | ⟨h1, h2⟩ | ⟨h1, r, hc, hw⟩
        · exact Or.inl ⟨y, List.mem_cons_self _ _, hc⟩
        · refine Or.inr (Or.inl ⟨h1, ?_⟩)
          have := List.getElem?_eq_none_iff.1 h2
          simp only [List.length_cons]
          omega
        · exact Or.inr (Or.inr ⟨h1, y, r, List.mem_cons_self _ _, hc, hw⟩)
      | ok tx1 =>
        rw [hb] at h
        simp only at h
        obtain ⟨r, txIn, _, _, _, htx⟩ := buildOne_inv env a tx start y tx1 hb
        have hlen : tx1.ins.length = tx.ins.length := by
          rw [htx]
          simp
        rcases ih _ _ _ h with ⟨x, hx, hc⟩ | ⟨h1, h2⟩ | ⟨h1, x, r1, hx, hc, hw⟩
        · exact Or.inl ⟨x, List.mem_cons_of_mem _ hx, hc⟩
        · refine Or.inr (Or.inl ⟨h1, ?_⟩)
          simp only [List.length_cons]
          rw [hlen] at h2
          omega
        · exact Or.inr (Or.inr ⟨h1, x, r1, List.mem_cons_of_mem _ hx, hc, hw⟩)

theorem buildWith_error (env : Collab) (s : TransactionBuilder) (a : Bool) (e : Err)
    (h : buildWith env s a = Except.error e) :
    e = Err.noInputs ∨ e = Err.noOutputs ∨ e = Err.absurdFees ∨
      buildLoop env a s.inputs 0 s.tx = Except.error e := by
  unfold buildWith at h
  split at h
  · cases h
    exact Or.inl rfl
  · split at h
    · cases h
      exact Or.inr (Or.inl rfl)
    · cases hl : buildLoop env a s.inputs 0 s.tx with
      | error e1 =>
        rw [hl] at h
        cases h
        exact Or.inr (Or.inr (Or.inr rfl))
      | ok tx =>
        rw [hl] at h
        simp only at h
        split at h
        · cases h
          exact Or.inr (Or.inr (Or.inl rfl))
        · cases h

/-- C31. The "Not yet supported" branch of `buildStack` is unreachable through `buildInput`.
`buildStack` throws "Not yet supported" exactly for a type outside PubKeyHash, PubKey and
MultiSig; `buildInput` never throws it, for any record and either value of
`allowIncomplete`, so each call it makes passes one of the three types; and `build()` and
`buildIncomplete()` never throw it. On a reachable builder `build()` and `buildIncomplete()`
fail with nothing but "Transaction has no inputs", "Transaction has no outputs",
"Transaction is not complete", "Not enough signatures provided", "Impossible to sign this
type", "<type> not supported" and "Transaction has absurd fees". -/
theorem notYetSupported_unreachable (env : Collab) :
    (∀ type sigs pks a,
      buildStack env type sigs pks a = Except.error Err.notYetSupported ↔
        supportedType type = false) ∧
    (∀ input a, buildInput env input a ≠ Except.error Err.notYetSupported) ∧
    (∀ s, build env s ≠ Except.error Err.notYetSupported ∧
      buildIncomplete env s ≠ Except.error Err.notYetSupported) ∧
    (∀ s e, Reachable env s →
      (build env s = Except.error e → BuildError e) ∧
      (buildIncomplete env s = Except.error e → BuildError e)) := by
  have hnever : ∀ s a, buildWith env s a ≠ Except.error Err.notYetSupported := by
    intro s a h
    rcases buildWith_error env s a _ h with h1 | h1 | h1 | h1
    · cases h1
    · cases h1
    · cases h1
    · rcases buildLoop_error env a s.inputs 0 s.tx _ h1 with ⟨x, _, hc⟩ | ⟨h2, _⟩ | ⟨h2, _⟩
      · rcases buildChecked_error env a x _ hc with h3 | ⟨t, h3⟩ | h3
        · cases h3
        · cases h3
        · exact buildInput_supported env x a h3
      · cases h2
      · cases h2
  have hreach : ∀ s a e, Reachable env s → buildWith env s a = Except.error e →
      BuildError e := by
    intro s a e hr h
    obtain ⟨hrec, hlen⟩ := buildInvariant_reachable env s hr
    rcases buildWith_error env s a _ h with h1 | h1 | h1 | h1
    · exact Or.inl h1
    · exact Or.inr (Or.inl h1)
    · exact Or.inr (Or.inr (Or.inr (Or.inr (Or.inr (Or.inr h1)))))
    · rcases buildLoop_error env a s.inputs 0 s.tx _ h1 with
        ⟨x, hx, hc⟩ | ⟨_, h2⟩ | ⟨_, x, r, hx, hc, hw⟩
      · rcases buildChecked_error env a x _ hc with h3 | h3 | h3
        · exact Or.inr (Or.inr (Or.inl h3))
        · exact Or.inr (Or.inr (Or.inr (Or.inr (Or.inr (Or.inl h3)))))
        · rcases buildInput_error_ok env x a e (hrec x hx) h3 with h4 | h4
          · exact Or.inr (Or.inr (Or.inr (Or.inr (Or.inl h4))))
          · exact Or.inr (Or.inr (Or.inr (Or.inl h4)))
      · exact absurd (by omega) h2
      · rw [buildChecked_defined env x a r (hrec x hx) hc] at hw
        cases hw
  refine ⟨?_, buildInput_supported env, fun s => ⟨hnever s false, hnever s true⟩, ?_⟩
  · intro type sigs pks a
    constructor
    · intro h
      cases hsup : supportedType type with
      | false => rfl
      | true =>
        rcases buildStack_supported_error env type sigs pks a _ hsup h with h1 | ⟨h1, _⟩
        · cases h1
        · cases h1
    · exact buildStack_unsupported env type sigs pks a
  · intro s e hr
    exact ⟨hreach s false e hr, hreach s true e hr⟩

/-! ## The postcondition of `fixMultisigOrder` -/

theorem getElem?_set_none (u : List Slot) (p j : Nat) (c : Chunk)
    (h : (u.set p none)[j]? = some (some c)) : j ≠ p ∧ u[j]? = some (some c) := by
  by_cases hjp : p = j
  · subst hjp
    by_cases hlt : p < u.length
    · rw [List.getElem?_set_self hlt] at h
      cases h
    · rw [List.getElem?_eq_none (by simpa using hlt)] at h
      cases h
  · rw [List.getElem?_set_ne hjp] at h
    exact ⟨fun hh => hjp hh.symm, h⟩

/-- A returning scan of `fixMultisigOrder` for one key: it returns the first present
signature of the pool, in pool order, that verifies against the key, and blanks its
position; or no present signature of the pool verifies against the key, and it returns
nothing and leaves the pool. -/
theorem findMatch_first (env : Collab) (transaction : Transaction) (vin : Nat)
    (redeemScript : Buffer) (pubKey : Slot) (u : List Slot) :
    ∀ (m : Slot) (u1 : List Slot),
      findMatch env transaction vin redeemScript pubKey u = Except.ok (m, u1) →
      (∃ p c, u[p]? = some (some c) ∧ truthy (some c) = true ∧
        verifiesAgainst env transaction vin redeemScript pubKey c = true ∧
        (∀ (q : Nat) (c1 : Chunk), q < p → u[q]? = some (some c1) → truthy (some c1) = true →
          verifiesAgainst env transaction vin redeemScript pubKey c1 = false) ∧
        m = some c ∧ u1 = u.set p none) ∨
      (m = none ∧ u1 = u ∧
        ∀ (q : Nat) (c1 : Chunk), u[q]? = some (some c1) → truthy (some c1) = true →
          verifiesAgainst env transaction vin redeemScript pubKey c1 = false) := by
  induction u with
  | nil =>
    intro m u1 h
    rw [findMatch] at h
    cases h
    exact Or.inr ⟨rfl, rfl, fun q c1 hq => by cases hq⟩
  | cons sl rest ih =>
    intro m u1 h
    have hskip : (∀ c, sl = some c → truthy (some c) = true →
        verifiesAgainst env transaction vin redeemScript pubKey c = false) →
        (match findMatch env transaction vin redeemScript pubKey rest with
          | Except.error e => (Except.error e : Except Err (Slot × List Slot))
          | Except.ok (m, rest1) => Except.ok (m, sl :: rest1)) = Except.ok (m, u1) →
        (∃ p c, (sl :: rest)[p]? = some (some c) ∧ truthy (some c) = true ∧
          verifiesAgainst env transaction vin redeemScript pubKey c = true ∧
          (∀ (q : Nat) (c1 : Chunk), q < p → (sl :: rest)[q]? = some (some c1) → truthy (some c1) = true →
            verifiesAgainst env transaction vin redeemScript pubKey c1 = false) ∧
          m = some c ∧ u1 = (sl :: rest).set p none) ∨
        (m = none ∧ u1 = sl :: rest ∧
          ∀ (q : Nat) (c1 : Chunk), (sl :: rest)[q]? = some (some c1) → truthy (some c1) = true →
            verifiesAgainst env transaction vin redeemScript pubKey c1 = false) := by
      intro hhead hh
      cases hr : findMatch env transaction vin redeemScript pubKey rest with
      | error e => rw [hr] at hh; cases hh
      | ok r =>
        obtain ⟨m1, rest1⟩ := r
        rw [hr] at hh
        simp only [Except.ok.injEq, Prod.mk.injEq] at hh
        obtain ⟨hm, hu⟩ := hh
        subst hm
        subst hu
        rcases ih m1 rest1 hr with ⟨p, c, h1, h2, h3, h4, h5, h6⟩ | ⟨h1, h2, h3⟩
        · left
          refine ⟨p + 1, c, by simpa using h1, h2, h3, ?_, h5, by rw [h6]; rfl⟩
          intro q c1 hq hget ht
          cases q with
          | zero =>
            simp only [List.getElem?_cons_zero, Option.some.injEq] at hget
            exact hhead c1 hget ht
          | succ k =>
            simp only [List.getElem?_cons_succ] at hget
            exact h4 k c1 (by omega) hget ht
        · right
          refine ⟨h1, by rw [h2], ?_⟩
          intro q c1 hget ht
          cases q with
          | zero =>
            simp only [List.getElem?_cons_zero, Option.some.injEq] at hget
            exact hhead c1 hget ht
          | succ k =>
            simp only [List.getElem?_cons_succ] at hget
            exact h3 k c1 hget ht
    rcases sl with _ | c
    · apply hskip
      · intro c hc
        cases hc
      · rw [findMatch] at h
        exact h
    · by_cases ht : truthy (some c) = true
      · cases hps : env.parseScriptSignature c with
        | none =>
          rw [findMatch] at h
          simp only [ht, hps] at h
          cases h
        | some r =>
          obtain ⟨sig, hashType⟩ := r
          by_cases hv : env.verify pubKey
              (env.hashForSignature transaction vin redeemScript hashType) sig = true
          · rw [findMatch] at h
            simp only [ht, hps, hv] at h
            simp only [Bool.true_eq_false, if_false, Except.ok.injEq, Prod.mk.injEq] at h
            obtain ⟨hm, hu⟩ := h
            left
            refine ⟨0, c, by simp, ht, ?_, fun q c1 hq => by omega, hm.symm, by rw [← hu]; rfl⟩
            unfold verifiesAgainst
            rw [hps]
            exact hv
          · apply hskip
            · intro c1 hc1 _
              cases hc1
              unfold verifiesAgainst
              rw [hps]
              simpa using hv
            · rw [findMatch] at h
              simp only [ht, hps, hv] at h
              simpa using h
      · apply hskip
        · intro c1 hc1 ht1
          cases hc1
          exact absurd ht1 ht
        · rw [findMatch] at h
          simp only [ht] at h
          simpa using h

/-- A returning map of `fixMultisigOrder` over the keys matches greedily: key by key, each
key takes the first signature of the pool that is still unmatched and verifies against
it. -/
theorem matchAll_greedy (env : Collab) (transaction : Transaction) (vin : Nat)
    (redeemScript : Buffer) (pks : List Slot) :
    ∀ (u out : List Slot),
      matchAll env transaction vin redeemScript pks u = Except.ok out →
      ∃ pos : Nat → Option Nat,
        GreedyMatch env transaction vin redeemScript pks u out pos := by
  induction pks with
  | nil =>
    intro u out h
    rw [matchAll] at h
    cases h
    refine ⟨fun _ => none, rfl, ?_, ?_, ?_, ?_⟩
    · intro i j hi
      simp only [List.length_nil] at hi
      omega
    · intro i hi
      simp only [List.length_nil] at hi
      omega
    · intro i i2 j hi
      simp only [List.length_nil] at hi
      omega
    · intro i pk q c hi
      simp only [List.length_nil] at hi
      omega
  | cons pk rest ih =>
    intro u out h
    rw [matchAll] at h
    by_cases hvalid : env.validPublicKey pk = false
    · rw [if_pos hvalid] at h
      cases h
    · rw [if_neg hvalid] at h
      cases hf : findMatch env transaction vin redeemScript pk u with
      | error e => rw [hf] at h; cases h
      | ok r =>
        obtain ⟨m, u1⟩ := r
        rw [hf] at h
        simp only at h
        cases hm : matchAll env transaction vin redeemScript rest u1 with
        | error e => rw [hm] at h; cases h
        | ok ms =>
          rw [hm] at h
          simp only [Except.ok.injEq] at h
          subst h
          obtain ⟨pos1, g0, g1, g2, g3, g4⟩ := ih u1 ms hm
          rcases findMatch_first env transaction vin redeemScript pk u m u1 hf with
            ⟨p, c, f1, f2, f3, f4, f5, f6⟩ | ⟨f1, f2, f3⟩
          · subst f5
            subst f6
            refine ⟨fun i => if i = 0 then some p else pos1 (i - 1), ?_, ?_, ?_, ?_, ?_⟩
            · simp [g0]
            · intro i j hi hp
              cases i with
              | zero =>
                simp only [if_true, Option.some.injEq] at hp
                subst hp
                exact ⟨c, pk, f1, f2, by simp, f3, by simp⟩
              | succ k =>
                simp only [Nat.add_one_ne_zero, if_false, Nat.add_sub_cancel] at hp
                simp only [List.length_cons] at hi
                obtain ⟨c1, pk1, h1, h2, h3, h4, h5⟩ := g1 k j (by omega) hp
                obtain ⟨_, h1b⟩ := getElem?_set_none u p j c1 h1
                exact ⟨c1, pk1, h1b, h2, by simpa using h3, h4, by simpa using h5⟩
            · intro i hi hp
              cases i with
              | zero => simp only [if_true] at hp; cases hp
              | succ k =>
                simp only [Nat.add_one_ne_zero, if_false, Nat.add_sub_cancel] at hp
                simp only [List.length_cons] at hi
                have := g2 k (by omega) hp
                simpa using this
            · intro i i2 j hi hi2 hp hp2
              simp only [List.length_cons] at hi hi2
              have hnot : ∀ k, k < rest.length → pos1 k = some p → False := by
                intro k hk hpk
                obtain ⟨c1, _, h1, _⟩ := g1 k p hk hpk
                exact (getElem?_set_none u p p c1 h1).1 rfl
              cases i with
              | zero =>
                cases i2 with
                | zero => rfl
                | succ k2 =>
                  simp only [if_true, Option.some.injEq] at hp
                  subst hp
                  simp only [Nat.add_one_ne_zero, if_false, Nat.add_sub_cancel] at hp2
                  exact absurd hp2 (fun hh => hnot k2 (by omega) hh)
              | succ k =>
                cases i2 with
                | zero =>
                  simp only [if_true, Option.some.injEq] at hp2
                  subst hp2
                  simp only [Nat.add_one_ne_zero, if_false, Nat.add_sub_cancel] at hp
                  exact absurd hp (fun hh => hnot k (by omega) hh)
                | succ k2 =>
                  simp only [Nat.add_one_ne_zero, if_false, Nat.add_sub_cancel] at hp hp2
                  have := g3 k k2 j (by omega) (by omega) hp hp2
                  omega
            · intro i pk1 q c1 hi hpk hq ht hv
              simp only [List.length_cons] at hi
              cases i with
              | zero =>
                simp only [List.getElem?_cons_zero, Option.some.injEq] at hpk
                subst hpk
                right
                refine ⟨p, by simp, ?_⟩
                by_contra hlt
                have := f4 q c1 (by omega) hq ht
                rw [hv] at this
                cases this
              | succ k =>
                simp only [List.getElem?_cons_succ] at hpk
                by_cases hqp : q = p
                · left
                  exact ⟨0, by omega, by simp [hqp]⟩
                · have hq1 : (u.set p none)[q]? = some (some c1) := by
                    rw [List.getElem?_set_ne (fun hh => hqp hh.symm)]
                    exact hq
                  rcases g4 k pk1 q c1 (by omega) hpk hq1 ht hv with ⟨i2, h1, h2⟩ |
                    ⟨j, h1, h2⟩
                  · left
                    exact ⟨i2 + 1, by omega, by simpa using h2⟩
                  · right
                    exact ⟨j, by simpa using h1, h2⟩
          · subst f1
            subst f2
            refine ⟨fun i => if i = 0 then none else pos1 (i - 1), ?_, ?_, ?_, ?_, ?_⟩
            · simp [g0]
            · intro i j hi hp
              cases i with
              | zero => simp only [if_true] at hp; cases hp
              | succ k =>
                simp only [Nat.add_one_ne_zero, if_false, Nat.add_sub_cancel] at hp
                simp only [List.length_cons] at hi
                obtain ⟨c1, pk1, h1, h2, h3, h4, h5⟩ := g1 k j (by omega) hp
                exact ⟨c1, pk1, h1, h2, by simpa using h3, h4, by simpa using h5⟩
            · intro i hi hp
              cases i with
              | zero => simp
              | succ k =>
                simp only [Nat.add_one_ne_zero, if_false, Nat.add_sub_cancel] at hp
                simp only [List.length_cons] at hi
                have := g2 k (by omega) hp
                simpa using this
            · intro i i2 j hi hi2 hp hp2
              simp only [List.length_cons] at hi hi2
              cases i with
              | zero => simp only [if_true] at hp; cases hp
              | succ k =>
                cases i2 with
                | zero => simp only [if_true] at hp2; cases hp2
                | succ k2 =>
                  simp only [Nat.add_one_ne_zero, if_false, Nat.add_sub_cancel] at hp hp2
                  have := g3 k k2 j (by omega) (by omega) hp hp2
                  omega
            · intro i pk1 q c1 hi hpk hq ht hv
              simp only [List.length_cons] at hi
              cases i with
              | zero =>
                simp only [List.getElem?_cons_zero, Option.some.injEq] at hpk
                subst hpk
                have := f3 q c1 hq ht
                rw [hv] at this
                cases this
              | succ k =>
                simp only [List.getElem?_cons_succ] at hpk
                rcases g4 k pk1 q c1 (by omega) hpk hq ht hv with ⟨i2, h1, h2⟩ | ⟨j, h1, h2⟩
                · left
                  exact ⟨i2 + 1, by omega, by simpa using h2⟩
                · right
                  exact ⟨j, by simpa using h1, h2⟩

/-- The map of `fixMultisigOrder` over the keys returns when every key is valid and every
present signature of the pool parses. -/
theorem matchAll_returns (env : Collab) (transaction : Transaction) (vin : Nat)
    (redeemScript : Buffer) (pks : List Slot) :
    ∀ (u : List Slot), (∀ pk ∈ pks, env.validPublicKey pk = true) →
      (∀ c, some c ∈ u → truthy (some c) = true →
        (env.parseScriptSignature c).isSome = true) →
      ∃ out, matchAll env transaction vin redeemScript pks u = Except.ok out := by
  induction pks with
  | nil =>
    intro u _ _
    exact ⟨[], by rw [matchAll]⟩
  | cons pk rest ih =>
    intro u hvalid hparse
    have hv : ¬ env.validPublicKey pk = false := by
      rw [hvalid pk (List.mem_cons_self _ _)]
      exact Bool.noConfusion
    have hrest : ∀ pk1 ∈ rest, env.validPublicKey pk1 = true :=
      fun pk1 h1 => hvalid pk1 (List.mem_cons_of_mem _ h1)
    rw [matchAll, if_neg hv]
    rcases findMatch_spec env transaction vin redeemScript pk u hparse with
      ⟨p, c, _, _, _, hf⟩ | ⟨_, hf⟩
    · rw [hf]
      obtain ⟨out, ho⟩ := ih (u.set p none) hrest
        (fun c1 hc1 ht1 => hparse c1 (mem_set_none u p c1 hc1) ht1)
      simp only [ho]
      exact ⟨_, rfl⟩
    · rw [hf]
      obtain ⟨out, ho⟩ := ih u hrest hparse
      simp only [ho]
      exact ⟨_, rfl⟩

/-- C32. The postcondition of `fixMultisigOrder`. For a record with `redeemScriptType`
MultiSig, a redeem script and a number of signatures other than the number of keys, a
returning call leaves the record with a new `signatures` list and nothing else changed. The
list has one slot per key; every present slot holds a signature of the original list that
verifies against the key of the slot under the legacy digest for its own hash type; each
position of the original list is used by at most one slot; and each slot holds the first
signature, in original order, that was still unmatched and verifies against its key, if
there is one, and is `undefined` otherwise (`GreedyMatch`). A record whose two lists are
equally long, a record with another redeem script type and a record without a redeem
script are returned unchanged. The call does return when every key is valid and every
present signature parses. -/
theorem fixMultisigOrder_postcondition (env : Collab) (input : Input)
    (transaction : Transaction) (vin : Nat) :
    (∀ (redeemScript : Buffer) (pubKeys signatures : List Slot) (input1 : Input),
      input.redeemScriptType = some ScriptType.MULTISIG →
      input.redeemScript = some redeemScript →
      input.pubKeys = some pubKeys → input.signatures = some signatures →
      signatures.length ≠ pubKeys.length →
      fixMultisigOrder env input transaction vin = Except.ok input1 →
      ∃ (out : List Slot) (pos : Nat → Option Nat),
        input1 = { input with signatures := some out } ∧
        out.length = pubKeys.length ∧
        GreedyMatch env transaction vin redeemScript pubKeys signatures out pos) ∧
    (∀ (pubKeys signatures : List Slot),
      input.pubKeys = some pubKeys → input.signatures = some signatures →
      signatures.length = pubKeys.length →
      fixMultisigOrder env input transaction vin = Except.ok input) ∧
    (input.redeemScriptType ≠ some ScriptType.MULTISIG →
      fixMultisigOrder env input transaction vin = Except.ok input) ∧
    (input.redeemScript = none →
      fixMultisigOrder env input transaction vin = Except.ok input) ∧
    (∀ (pubKeys signatures : List Slot),
      input.pubKeys = some pubKeys → input.signatures = some signatures →
      (∀ pk ∈ pubKeys, env.validPublicKey pk = true) →
      (∀ c, some c ∈ signatures → truthy (some c) = true →
        (env.parseScriptSignature c).isSome = true) →
      ∃ input1, fixMultisigOrder env input transaction vin = Except.ok input1) := by
  refine ⟨?_, ?_, ?_, ?_, ?_⟩
  · intro redeemScript pubKeys signatures input1 hrt hrs hpk hsg hne h
    cases hm : matchAll env transaction vin redeemScript pubKeys signatures with
    | error e =>
      unfold fixMultisigOrder at h
      simp only [hrs, hrt, hpk, hsg, ne_eq, not_true_eq_false, if_false] at h
      rw [if_neg (fun hh => hne hh.symm), hm] at h
      cases h
    | ok out =>
      rw [fixMultisigOrder_run env input transaction vin redeemScript pubKeys signatures out
        hrt hrs hpk hsg (fun hh => hne hh.symm) hm] at h
      simp only [Except.ok.injEq] at h
      obtain ⟨pos, hg⟩ := matchAll_greedy env transaction vin redeemScript pubKeys
        signatures out hm
      exact ⟨out, pos, h.symm, hg.1, hg⟩
  · intro pubKeys signatures hpk hsg hlen
    exact fixMultisigOrder_same env input transaction vin pubKeys signatures hpk hsg
      hlen.symm
  · intro hrt
    unfold fixMultisigOrder
    cases hrs : input.redeemScript with
    | none => rfl
    | some r =>
      simp only
      rw [if_pos hrt]
  · intro hrs
    unfold fixMultisigOrder
    rw [hrs]
  · intro pubKeys signatures hpk hsg hvalid hparse
    cases hrs : input.redeemScript with
    | none =>
      refine ⟨input, ?_⟩
      unfold fixMultisigOrder
      rw [hrs]
    | some r =>
      by_cases hrt : input.redeemScriptType = some ScriptType.MULTISIG
      · by_cases hlen : pubKeys.length = signatures.length
        · exact ⟨input, fixMultisigOrder_same env input transaction vin pubKeys signatures
            hpk hsg hlen⟩
        · obtain ⟨out, ho⟩ := matchAll_returns env transaction vin r pubKeys signatures
            hvalid hparse
          exact ⟨_, fixMultisigOrder_run env input transaction vin r pubKeys signatures out
            hrt hrs hpk hsg hlen ho⟩
      · refine ⟨input, ?_⟩
        unfold fixMultisigOrder
        rw [hrs]
        simp only
        rw [if_pos hrt]

set_option maxRecDepth 8192 in
theorem fixMultisigOrder_postcondition_witness :
    ∃ (out : List Slot) (pos : Nat → Option Nat),
      fixMultisigOrder demo demoScrambledRecord demoScrambledTx 0 =
        Except.ok { demoScrambledRecord with signatures := some out } ∧
      out = [some (Chunk.buf (demoSignature demoRedeem 1)),
        some (Chunk.buf (demoSignature demoRedeem 2)), none] ∧
      GreedyMatch demo demoScrambledTx 0 demoRedeem
        [some (Chunk.buf (demoPubKey 1)), some (Chunk.buf (demoPubKey 2)),
          some (Chunk.buf (demoPubKey 3))]
        [some (Chunk.buf (demoSignature demoRedeem 2)),
          some (Chunk.buf (demoSignature demoRedeem 1))] out pos := by
  have hrun : fixMultisigOrder demo demoScrambledRecord demoScrambledTx 0 =
      Except.ok { demoScrambledRecord with
        signatures := some [some (Chunk.buf (demoSignature demoRedeem 1)),
          some (Chunk.buf (demoSignature demoRedeem 2)), none] } := by decide
  obtain ⟨out, pos, h1, _, h3⟩ :=
    (fixMultisigOrder_postcondition demo demoScrambledRecord demoScrambledTx 0).1 demoRedeem
      [some (Chunk.buf (demoPubKey 1)), some (Chunk.buf (demoPubKey 2)),
        some (Chunk.buf (demoPubKey 3))]
      [some (Chunk.buf (demoSignature demoRedeem 2)),
        some (Chunk.buf (demoSignature demoRedeem 1))] _
      (by decide) (by decide) (by decide) (by decide) (by decide) hrun
  have hout : out = [some (Chunk.buf (demoSignature demoRedeem 1)),
      some (Chunk.buf (demoSignature demoRedeem 2)), none] := by
    have := congrArg (fun r : Input => r.signatures) h1
    simp only [Option.some.injEq] at this
    exact this.symm
  refine ⟨out, pos, ?_, hout, h3⟩
  rw [hout]
  exact hrun

end Coinjs
